import Mathlib

/-!
Separate-chaining hash containers (`hash_map.hpp`, `hash_set.hpp`).

A shallow embedding of the `ics::HashMap` and `ics::HashSet` classes and of their
iterators, followed by the properties proved about them.

Modelling conventions
* A bucket chain is the list of the payloads of its non-trailer nodes, in link order.
  The trailer is the end of the list: a node at position `pos` of a chain `c` is a real
  node when `pos < c.length` and the trailer when `pos = c.length`.
* The bucket array is a list of chains; the field `bins` is kept next to it as the
  C++ `int` it is.  Reading a slot outside the array yields the empty chain and writing
  one is ignored (the C++ behaviour there is undefined).
* A node pointer `LN*` is `Option LN_ptr`: `none` is `nullptr`, `some ⟨bin, pos⟩` is the
  node at position `pos` of the chain of slot `bin`.  Copy-and-skip removal at `pos` keeps
  that node, with the payload of its successor, and deletes the successor: the nodes before
  and at `pos` keep their positions and the later ones move down by one.  A cursor is read
  in the state of the container at the time of the call; iterator operations take the
  iterator state and the container state as arguments.
* `int` fields are unbounded integers, except for `abs`, where the two's-complement
  wraparound at `INT_MIN` is kept.  `/` and `%` are the truncating C++ operators.
* `load_threshold` is a rational: every finite `double` is one, and the converted
  `int` quotient it is compared with is exact.
* Operations that can throw return `Except Error _`.
-/

namespace ics

/-- The exceptions of `ics_exceptions.hpp` raised by the two containers, and `undefined`
for an execution that dereferences a null or dangling node pointer or leaves a
value-returning function without returning. -/
inductive Error where
  | TemplateFunctionError
  | KeyError
  | ConcurrentModificationError
  | CannotEraseError
  | IteratorPositionIllegal
  | ComparingDifferentIteratorsError
  | IteratorTypeError
  | undefined
  deriving DecidableEq, Repr

/-- A value of type `int (*)(const T&)`: either the library's `undefinedhash<T>`, which
returns 0, or a user function, identified by its address. -/
inductive hashfunc (T : Type) where
  | undefinedhash : hashfunc T
  | fn (addr : Nat) (f : T → Int) : hashfunc T

/-- Calling a hash function. -/
def hashfunc.call {T : Type} : hashfunc T → T → Int
  | .undefinedhash, _ => 0
  | .fn _ f, a => f a

/-- Pointer comparison `h1 == h2` of two hash functions. -/
def hashfunc.same {T : Type} : hashfunc T → hashfunc T → Bool
  | .undefinedhash, .undefinedhash => true
  | .fn a _, .fn b _ => a == b
  | _, _ => false

/-- The smallest 32-bit `int`. -/
def INT_MIN : Int := -2147483648

/-- The C function `abs` on a 32-bit `int`: `abs(INT_MIN)` wraps around to `INT_MIN`. -/
def abs_int (i : Int) : Int := if i = INT_MIN then INT_MIN else (Int.natAbs i : Int)

/-- The body of `hash_compress`: `abs(hash(key)) % bins`. -/
def hash_index {K : Type} (hash : hashfunc K) (bins : Int) (key : K) : Int :=
  let index := hash.call key
  Int.tmod (abs_int index) bins

/-- A non-null node pointer: the slot of the chain and the position of the node in it. -/
structure LN_ptr where
  bin : Int
  pos : Nat
  deriving DecidableEq, Repr

/-- The iterator cursor: `typedef pair<int,LN*> Cursor`. -/
abbrev Cursor := Int × Option LN_ptr

section table

variable {α K : Type}

/-- The chain whose head is stored in slot `i` of the bucket array, `map[i]`. -/
def bin_chain (t : List (List α)) (i : Int) : List α :=
  if 0 ≤ i then t.getD i.toNat [] else []

/-- The bucket array after the chain of slot `i` has been replaced by `c`. -/
def set_bin_chain (t : List (List α)) (i : Int) (c : List α) : List (List α) :=
  if 0 ≤ i then t.set i.toNat c else t

/-- The walk `while (head->next != nullptr) head = head->next;` followed by storing a
payload in the trailer reached and linking a fresh trailer behind it. -/
def append_node (t : List (List α)) (index : Int) (e : α) : List (List α) :=
  set_bin_chain t index (bin_chain t index ++ [e])

/-- The chains of slots `0 .. bins-1`, as the loops `for (i = 0; i < bins; i++)` meet them. -/
def bin_chains (t : List (List α)) (bins : Int) : List (List α) :=
  (List.range bins.toNat).map (fun (i : Nat) => bin_chain t (i : Int))

/-- The payload of the node a pointer designates, when it is a real node. -/
def node_value (t : List (List α)) (p : LN_ptr) : Option α :=
  (bin_chain t p.bin).get? p.pos

/-- The test `p->next != nullptr`: the node is not a trailer. -/
def has_next (t : List (List α)) (p : LN_ptr) : Bool :=
  decide (p.pos < (bin_chain t p.bin).length)

/-- The scan `while (head->next != nullptr) { if (key(head->value) == key) return head; ... }`
of one chain: the position of the first node whose key is `key`. -/
def chain_find [DecidableEq K] (κ : α → K) (key : K) : List α → Option Nat
  | [] => none
  | e :: rest => if κ e = key then some 0 else (chain_find κ key rest).map (· + 1)

/-- The erase loop over one chain: the first node whose key is `key` takes over the payload
and the link of its successor, which is deleted.  Returns the payload removed and the
chain left, or `none` when the trailer is reached. -/
def chain_remove [DecidableEq K] (κ : α → K) (key : K) : List α → Option (α × List α)
  | [] => none
  | e :: rest =>
    if κ e = key then some (e, rest)
    else (chain_remove κ key rest).map (fun r => (r.1, e :: r.2))

/-- Copy-and-skip at a given node: the node at `pos` takes over payload and link of its
successor. -/
def chain_skip (c : List α) (pos : Nat) : List α := c.eraseIdx pos

/-- The rehash loop of `ensure_load_threshold`: every payload of the old array, slot by
slot and in chain order, is appended to the chain `index e` of the new array. -/
def rehash_all (index : α → Int) (old : List (List α)) (b : Int) (fresh : List (List α)) :
    List (List α) :=
  (bin_chains old b).foldl (fun t c => c.foldl (fun t e => append_node t (index e) e) t) fresh

/-- The loop of `clear`: every chain is cut down to its trailer. -/
def clear_all (t : List (List α)) (bins : Int) : List (List α) :=
  (List.range bins.toNat).foldl (fun t (i : Nat) => set_bin_chain t (i : Int) []) t

/-- The bucket scan of `advance_cursors`, `n` slots from slot `i` on: the head of the first
non-empty chain, or the end cursor. -/
def scan_bins (t : List (List α)) (i : Int) : Nat → Cursor
  | 0 => (-1, none)
  | n + 1 => if (bin_chain t i).isEmpty then scan_bins t (i + 1) n else (i, some ⟨i, 0⟩)

/-- The body of `Iterator::advance_cursors` on a bucket array with `bins` slots. -/
def advance_cursors (t : List (List α)) (bins : Int) (current : Cursor) : Cursor :=
  let scan := scan_bins t (current.1 + 1) (bins - (current.1 + 1)).toNat
  match current.2 with
  | some p =>
    if p.pos + 1 < (bin_chain t p.bin).length then (current.1, some ⟨p.bin, p.pos + 1⟩)
    else scan
  | none => scan

/-- The bucket scan of `HashSet::find_element`, `n` slots from slot `i` on: the first node
whose key is `key`, or `nullptr`. -/
def scan_all [DecidableEq K] (κ : α → K) (key : K) (t : List (List α)) (i : Int) :
    Nat → Option LN_ptr
  | 0 => none
  | n + 1 =>
    match chain_find κ key (bin_chain t i) with
    | some pos => some ⟨i, pos⟩
    | none => scan_all κ key t (i + 1) n

/-- The inner loop of `retain_all` over one chain: a node whose payload is not kept takes
over payload and link of its successor and is examined again, a kept node is stepped over.
Returns the number of nodes removed and the chain left. -/
def chain_retain (keep : α → Bool) : List α → Int × List α
  | [] => (0, [])
  | e :: rest =>
    let r := chain_retain keep rest
    if !(keep e) then (r.1 + 1, r.2) else (r.1, e :: r.2)

/-- The outer loop of `retain_all` over slots `0 .. bins-1`: the number of nodes removed and
the bucket array left. -/
def retain_bins (keep : α → Bool) (t : List (List α)) (bins : Int) : Int × List (List α) :=
  (List.range bins.toNat).foldl
    (fun acc (i : Nat) =>
      let r := chain_retain keep (bin_chain acc.2 (i : Int))
      (acc.1 + r.1, set_bin_chain acc.2 (i : Int) r.2))
    (0, t)

/-- The state of an `Iterator` of either container.  The field `ref_map` / `ref_set` is
left out: every operation below is given the state of the container iterated over. -/
structure Iterator where
  current : Cursor
  expected_mod_count : Int
  can_erase : Bool
  deriving DecidableEq, Repr

/-- The constructor `Iterator(iterate_over, from_begin)`. -/
def Iterator.create (t : List (List α)) (bins mod_count : Int) (from_begin : Bool) : Iterator :=
  let current : Cursor := (-1, none)
  { current := if from_begin then advance_cursors t bins current else current
    expected_mod_count := mod_count
    can_erase := true }

/-- The prefix `operator ++`. -/
def Iterator.increment (t : List (List α)) (bins mod_count : Int) (it : Iterator) :
    Except Error Iterator :=
  if it.expected_mod_count ≠ mod_count then .error .ConcurrentModificationError
  else
    match it.current.2 with
    | none => .ok it
    | some p =>
      let it1 :=
        if it.can_erase || !(has_next t p) then
          { it with current := advance_cursors t bins it.current }
        else it
      .ok { it1 with can_erase := true }

/-- The `operator *`; a cursor that designates no real node is a dangling pointer. -/
def Iterator.dereference (t : List (List α)) (mod_count : Int) (it : Iterator) :
    Except Error α :=
  if it.expected_mod_count ≠ mod_count then .error .ConcurrentModificationError
  else if !it.can_erase then .error .IteratorPositionIllegal
  else
    match it.current.2 with
    | none => .error .IteratorPositionIllegal
    | some p =>
      match node_value t p with
      | some e => .ok e
      | none => .error .undefined

/-- The `operator ==` of two iterators over the same container. -/
def Iterator.equals (mod_count : Int) (it rhs : Iterator) : Except Error Bool :=
  if it.expected_mod_count ≠ mod_count then .error .ConcurrentModificationError
  else .ok (decide (it.current.2 = rhs.current.2))

/-- The `operator !=` of two iterators over the same container. -/
def Iterator.differs (mod_count : Int) (it rhs : Iterator) : Except Error Bool :=
  if it.expected_mod_count ≠ mod_count then .error .ConcurrentModificationError
  else .ok (decide (it.current.2 ≠ rhs.current.2))

/-- The chain surgery of `Iterator::erase`: the payload returned, the bucket array left and
the iterator left.  At a trailer `current.second->next` is null and the copy dereferences it. -/
def Iterator.erase_node (t : List (List α)) (mod_count : Int) (it : Iterator) :
    Except Error (α × List (List α) × Iterator) :=
  if it.expected_mod_count ≠ mod_count then .error .ConcurrentModificationError
  else if !it.can_erase then .error .CannotEraseError
  else
    match it.current.2 with
    | none => .error .CannotEraseError
    | some p =>
      match node_value t p with
      | none => .error .undefined
      | some to_return =>
        .ok (to_return,
          set_bin_chain t p.bin (chain_skip (bin_chain t p.bin) p.pos),
          { it with can_erase := false, expected_mod_count := mod_count + 1 })

/-- The client loop `for (it = c.begin(); it != c.end(); ++it) visit(*it)`, run for at most
`fuel` tests of the loop condition: the payloads visited, an exception, or `none` when the
fuel does not suffice. -/
def iterate (t : List (List α)) (bins mod_count : Int) :
    Nat → Iterator → Option (Except Error (List α))
  | 0, _ => none
  | fuel + 1, it =>
    match Iterator.differs mod_count it (Iterator.create t bins mod_count false) with
    | .error e => some (.error e)
    | .ok false => some (.ok [])
    | .ok true =>
      match Iterator.dereference t mod_count it with
      | .error e => some (.error e)
      | .ok x =>
        match Iterator.increment t bins mod_count it with
        | .error e => some (.error e)
        | .ok it1 => (iterate t bins mod_count fuel it1).map (fun r => r.map (fun xs => x :: xs))

end table

/-! ## HashMap -/

/-- The state of a `HashMap<KEY,T,thash>`: the template argument `thash` and the instance
variables of the class. -/
structure HashMap (K V : Type) where
  thash : hashfunc K
  hash : hashfunc K
  map : List (List (K × V))
  load_threshold : ℚ
  bins : Int
  used : Int
  mod_count : Int

namespace HashMap

variable {K V : Type}

/-- The method `hash_compress`. -/
def hash_compress (m : HashMap K V) (key : K) : Int :=
  hash_index m.hash m.bins key

/-- The method `find_key`: a pointer to the node of `key` in the addressed chain, or `nullptr`. -/
def find_key [DecidableEq K] (m : HashMap K V) (key : K) : Option LN_ptr :=
  let index := m.hash_compress key
  (chain_find Prod.fst key (bin_chain m.map index)).map (fun pos => ⟨index, pos⟩)

/-- The method `size`. -/
def size (m : HashMap K V) : Int := m.used

/-- The method `empty`. -/
def empty (m : HashMap K V) : Bool := decide (m.used = 0)

/-- The method `has_key`. -/
def has_key [DecidableEq K] (m : HashMap K V) (key : K) : Bool :=
  (m.find_key key).isSome

/-- The method `ensure_load_threshold`. -/
def ensure_load_threshold (m : HashMap K V) (new_used : Int) : HashMap K V :=
  if ((Int.tdiv new_used m.bins : Int) : ℚ) > m.load_threshold then
    let b := m.bins
    let bins := m.bins * 2
    let new_map := m.map
    let map : List (List (K × V)) := List.replicate bins.toNat []
    { m with
      bins := bins
      map := rehash_all (fun e => hash_index m.hash bins e.1) new_map b map }
  else m

/-- The method `put`: the value returned and the state left.  The branch in which the node
`find_key` returned has no payload is there for totality only: `find_key` returns real nodes
of the table. -/
def put [DecidableEq K] (m : HashMap K V) (key : K) (value : V) : V × HashMap K V :=
  let m := { m with mod_count := m.mod_count + 1 }
  match m.find_key key with
  | some p =>
    match node_value m.map p with
    | some e =>
      (e.2, { m with
        map := set_bin_chain m.map p.bin ((bin_chain m.map p.bin).set p.pos (e.1, value)) })
    | none => (value, m)
  | none =>
    let m := { m with used := m.used + 1 }
    let m := m.ensure_load_threshold (m.used + 1)
    let index := m.hash_compress key
    (value, { m with map := append_node m.map index (key, value) })

/-- The method `erase`: throws `KeyError` when `find_key` returns `nullptr`, else walks
the addressed chain and removes the node of `key`.  The result is the value returned or
the exception thrown, and the state left. -/
def erase [DecidableEq K] (m : HashMap K V) (key : K) : Except Error V × HashMap K V :=
  match m.find_key key with
  | none => (.error .KeyError, m)
  | some _ =>
    let index := m.hash_compress key
    match chain_remove Prod.fst key (bin_chain m.map index) with
    | some (e, c) =>
      (.ok e.2, { m with
        used := m.used - 1
        mod_count := m.mod_count + 1
        map := set_bin_chain m.map index c })
    | none => (.error .undefined, m)

/-- The method `clear`. -/
def clear (m : HashMap K V) : HashMap K V :=
  { m with used := 0, mod_count := m.mod_count + 1, map := clear_all m.map m.bins }

/-- The non-const `operator []`: the node whose `value.second` the returned reference
designates, and the state left. -/
def operator_index [DecidableEq K] [Inhabited V] (m : HashMap K V) (key : K) :
    LN_ptr × HashMap K V :=
  match m.find_key key with
  | some p => (p, m)
  | none =>
    let m := m.ensure_load_threshold (m.used + 1)
    let m := { m with used := m.used + 1, mod_count := m.mod_count + 1 }
    let index := m.hash_compress key
    (⟨index, (bin_chain m.map index).length⟩,
      { m with map := append_node m.map index (key, default) })

/-- The const `operator []`; the `undefined` branch is there for totality only, `find_key`
returns real nodes of the table. -/
def operator_index_const [DecidableEq K] (m : HashMap K V) (key : K) : Except Error V :=
  match m.find_key key with
  | some p =>
    match node_value m.map p with
    | some e => .ok e.2
    | none => .error .undefined
  | none => .error .KeyError

/-- The default constructor `HashMap(the_load_threshold, chash)`. -/
def mk_default (thash : hashfunc K) (the_load_threshold : ℚ) (chash : hashfunc K) :
    Except Error (HashMap K V) :=
  let hash := if !(thash.same .undefinedhash) then thash else chash
  if hash.same .undefinedhash then .error .TemplateFunctionError
  else if !(thash.same .undefinedhash) && !(chash.same .undefinedhash) && !(thash.same chash) then
    .error .TemplateFunctionError
  else
    .ok { thash := thash, hash := hash, map := List.replicate 1 [],
          load_threshold := the_load_threshold, bins := 1, used := 0, mod_count := 0 }

/-- The method `begin`. -/
def begin (m : HashMap K V) : Iterator := Iterator.create m.map m.bins m.mod_count true

/-- The method `end`. -/
def end_ (m : HashMap K V) : Iterator := Iterator.create m.map m.bins m.mod_count false

/-- The method `Iterator::erase`: the entry returned or the exception thrown, the map left
and the iterator left. -/
def Iterator_erase (m : HashMap K V) (it : Iterator) :
    Except Error (K × V) × HashMap K V × Iterator :=
  match Iterator.erase_node m.map m.mod_count it with
  | .error e => (.error e, m, it)
  | .ok (to_return, map, it1) =>
    (.ok to_return, { m with map := map, mod_count := m.mod_count + 1, used := m.used - 1 }, it1)

/-- The loop `for (it = m.begin(); it != m.end(); ++it)` collecting `*it`. -/
def traverse (m : HashMap K V) (fuel : Nat) : Option (Except Error (List (K × V))) :=
  iterate m.map m.bins m.mod_count fuel m.begin

end HashMap

/-! ## HashSet -/

/-- The state of a `HashSet<T,thash>`: the template argument `thash` and the instance
variables of the class. -/
structure HashSet (T : Type) where
  thash : hashfunc T
  hash : hashfunc T
  set : List (List T)
  load_threshold : ℚ
  bins : Int
  used : Int
  mod_count : Int

namespace HashSet

variable {T : Type}

/-- The method `hash_compress`. -/
def hash_compress (s : HashSet T) (element : T) : Int :=
  hash_index s.hash s.bins element

/-- The method `find_element`, which walks every chain from slot 0 on. -/
def find_element [DecidableEq T] (s : HashSet T) (element : T) : Option LN_ptr :=
  scan_all id element s.set 0 s.bins.toNat

/-- The method `size`. -/
def size (s : HashSet T) : Int := s.used

/-- The method `empty`. -/
def empty (s : HashSet T) : Bool := decide (s.used = 0)

/-- The method `contains`. -/
def contains [DecidableEq T] (s : HashSet T) (element : T) : Bool :=
  (s.find_element element).isSome

/-- The method `ensure_load_threshold`. -/
def ensure_load_threshold (s : HashSet T) (new_used : Int) : HashSet T :=
  if ((Int.tdiv new_used s.bins : Int) : ℚ) > s.load_threshold then
    let b := s.bins
    let bins := s.bins * 2
    let new_set := s.set
    let set : List (List T) := List.replicate bins.toNat []
    { s with
      bins := bins
      set := rehash_all (fun e => hash_index s.hash bins e) new_set b set }
  else s

/-- The method `insert`: the count returned and the state left. -/
def insert [DecidableEq T] (s : HashSet T) (element : T) : Int × HashSet T :=
  if s.contains element then (0, s)
  else
    let s := s.ensure_load_threshold (s.used + 1)
    let s := { s with mod_count := s.mod_count + 1, used := s.used + 1 }
    let index := s.hash_compress element
    (1, { s with set := append_node s.set index element })

/-- The method `erase`: returns 0 when `find_element` returns `nullptr`, else walks the
addressed chain and removes the node of `element`; when that walk reaches the trailer the
function ends without a `return`.  The result is the count returned and the state left. -/
def erase [DecidableEq T] (s : HashSet T) (element : T) : Except Error Int × HashSet T :=
  match s.find_element element with
  | none => (.ok 0, s)
  | some _ =>
    let index := s.hash_compress element
    match chain_remove id element (bin_chain s.set index) with
    | some (_, c) =>
      (.ok 1, { s with
        used := s.used - 1
        mod_count := s.mod_count + 1
        set := set_bin_chain s.set index c })
    | none => (.error .undefined, s)

/-- The method `clear`. -/
def clear (s : HashSet T) : HashSet T :=
  { s with used := 0, mod_count := s.mod_count + 1, set := clear_all s.set s.bins }

/-- The constructor `HashSet(const Iterable& i, the_load_threshold, chash)`; the iterable is
given by the sequence of values its iteration yields. -/
def from_iterable [DecidableEq T] (thash : hashfunc T) (i : List T) (the_load_threshold : ℚ)
    (chash : hashfunc T) : Except Error (HashSet T) :=
  let hash := if !(thash.same .undefinedhash) then thash else chash
  if hash.same .undefinedhash then .error .TemplateFunctionError
  else if !(thash.same .undefinedhash) && !(chash.same .undefinedhash) && !(thash.same chash) then
    .error .TemplateFunctionError
  else
    let s : HashSet T :=
      { thash := thash, hash := hash, set := List.replicate 1 [],
        load_threshold := the_load_threshold, bins := 1, used := 0, mod_count := 0 }
    .ok (i.foldl (fun s j => (s.insert j).2) s)

/-- The default constructor `HashSet(the_load_threshold, chash)`. -/
def mk_default (thash : hashfunc T) (the_load_threshold : ℚ) (chash : hashfunc T) :
    Except Error (HashSet T) :=
  let hash := if !(thash.same .undefinedhash) then thash else chash
  if hash.same .undefinedhash then .error .TemplateFunctionError
  else if !(thash.same .undefinedhash) && !(chash.same .undefinedhash) && !(thash.same chash) then
    .error .TemplateFunctionError
  else
    .ok { thash := thash, hash := hash, set := List.replicate 1 [],
          load_threshold := the_load_threshold, bins := 1, used := 0, mod_count := 0 }

/-- The method `retain_all` for an iterable that is not itself a `HashSet<T,thash>`: the
local `HashSet<T,thash> newSet(i)` is built by the iterable constructor with its default
arguments, then every chain is filtered against it.  The result is the count returned or
the exception of that constructor, and the state left. -/
def retain_all [DecidableEq T] (s : HashSet T) (i : List T) : Except Error Int × HashSet T :=
  match from_iterable s.thash i 1 .undefinedhash with
  | .error e => (.error e, s)
  | .ok newSet =>
    let r := retain_bins (fun e => newSet.contains e) s.set s.bins
    (.ok r.1, { s with set := r.2, used := s.used - r.1 })

/-- The method `begin`. -/
def begin (s : HashSet T) : Iterator := Iterator.create s.set s.bins s.mod_count true

/-- The method `end`. -/
def end_ (s : HashSet T) : Iterator := Iterator.create s.set s.bins s.mod_count false

/-- The method `Iterator::erase`: the element returned or the exception thrown, the set
left and the iterator left. -/
def Iterator_erase (s : HashSet T) (it : Iterator) :
    Except Error T × HashSet T × Iterator :=
  match Iterator.erase_node s.set s.mod_count it with
  | .error e => (.error e, s, it)
  | .ok (to_return, set, it1) =>
    (.ok to_return, { s with set := set, mod_count := s.mod_count + 1, used := s.used - 1 }, it1)

/-- The loop `for (it = s.begin(); it != s.end(); ++it)` collecting `*it`. -/
def traverse (s : HashSet T) (fuel : Nat) : Option (Except Error (List T)) :=
  iterate s.set s.bins s.mod_count fuel s.begin

end HashSet

/-! ## Invariants and abstractions used in the proofs -/

/-- No key is hashed to `INT_MIN`, the one argument on which `abs` is not defined. -/
def hashfunc.no_int_min {K : Type} (h : hashfunc K) : Prop :=
  ∀ k : K, h.call k ≠ INT_MIN

/-- The representation invariant of a bucket array `t` with `bins` slots whose payloads have
the key `κ e`: there is at least one slot, the array has `bins` slots, every payload sits in
the chain its key is compressed to, and no key occurs twice. -/
structure table_ok {α K : Type} (κ : α → K) (hash : hashfunc K) (bins : Int)
    (t : List (List α)) : Prop where
  bins_pos : 1 ≤ bins
  length_eq : (t.length : Int) = bins
  placed : ∀ i : Int, ∀ e ∈ bin_chain t i, hash_index hash bins (κ e) = i
  nodup : (t.flatten.map κ).Nodup

/-- The payload with key `key` met first in the chain `key` is compressed to. -/
def table_find {α K : Type} [DecidableEq K] (κ : α → K) (hash : hashfunc K) (bins : Int)
    (t : List (List α)) (key : K) : Option α :=
  (bin_chain t (hash_index hash bins key)).find? (fun e => decide (κ e = key))

namespace HashMap

variable {K V : Type}

/-- The representation invariant of a map: the bucket array is well formed for the bound
hash function, which never yields `INT_MIN`, and `used` counts the nodes stored. -/
structure valid (m : HashMap K V) : Prop where
  ok : table_ok Prod.fst m.hash m.bins m.map
  hash_ok : m.hash.no_int_min
  counted : m.used = (m.map.flatten.length : Int)

/-- The value associated with `key`: the second component of the node `find_key` returns. -/
def lookup [DecidableEq K] (m : HashMap K V) (key : K) : Option V :=
  ((m.find_key key).bind (node_value m.map)).map Prod.snd

end HashMap

/-- The payloads an iterator with cursor `cur` has still to visit are `L`: either the
cursor is the end cursor and nothing is left, or it designates the real node at position
`pos` of slot `j` and `L` is the rest of that chain followed by the chains of the later
slots. -/
def cursor_at {α : Type} (t : List (List α)) (cur : Cursor) (L : List α) : Prop :=
  (cur = (-1, none) ∧ L = []) ∨
  ∃ j pos : Nat, j < t.length ∧ pos < (t.getD j []).length ∧
    cur = ((j : Int), some ⟨(j : Int), pos⟩) ∧
    L = (t.getD j []).drop pos ++ (t.drop (j + 1)).flatten

namespace HashSet

variable {T : Type}

/-- The representation invariant of a set: the bucket array is well formed for the bound
hash function, which never yields `INT_MIN` and is the template argument when one is given,
and `used` counts the nodes stored. -/
structure valid (s : HashSet T) : Prop where
  ok : table_ok id s.hash s.bins s.set
  hash_ok : s.hash.no_int_min
  bound : s.thash.same .undefinedhash = false → s.hash = s.thash
  counted : s.used = (s.set.flatten.length : Int)

end HashSet

/-! ## Client scenarios the properties are stated on -/

namespace HashMap

variable {K V : Type}

/-- A call of `put` or of `erase` issued by a client. -/
inductive Call (K V : Type) where
  | put (key : K) (value : V)
  | erase (key : K)

/-- The key a call operates on. -/
def Call.key : Call K V → K
  | .put key _ => key
  | .erase key => key

/-- One call: whether it succeeded (an `erase` that throws has failed) and the state left. -/
def call [DecidableEq K] (m : HashMap K V) : Call K V → Bool × HashMap K V
  | .put key value => (true, (m.put key value).2)
  | .erase key => ((m.erase key).1.isOk, (m.erase key).2)

/-- A sequence of calls issued first to last: the calls that succeeded, in the order issued,
and the final state. -/
def calls [DecidableEq K] (m : HashMap K V) : List (Call K V) → List (Call K V) × HashMap K V
  | [] => ([], m)
  | c :: cs =>
    let r := m.call c
    let rest := calls r.2 cs
    (if r.1 then c :: rest.1 else rest.1, rest.2)

/-- The last call on key `k` in a list of calls. -/
def last_on [DecidableEq K] (k : K) (cs : List (Call K V)) : Option (Call K V) :=
  (cs.filter (fun c => decide (c.key = k))).getLast?

end HashMap

/-- The hash function `n ↦ n` on natural numbers, at address 1. -/
def demo_hash : hashfunc Nat := .fn 1 (fun n => (n : Int))

/-- The hash function `s ↦ length of s` on strings, at address 2. -/
def demo_hash_str : hashfunc String := .fn 2 (fun s => (s.length : Int))

/-- The empty map `HashMap<int,int,demo_hash>()` the default constructor builds for the load
threshold 1. -/
def demo_map : HashMap Nat Nat :=
  { thash := demo_hash, hash := demo_hash, map := [[]], load_threshold := 1, bins := 1,
    used := 0, mod_count := 0 }

/-- The empty set `HashSet<int,demo_hash>()` the default constructor builds for the load
threshold 1. -/
def demo_set : HashSet Nat :=
  { thash := demo_hash, hash := demo_hash, set := [[]], load_threshold := 1, bins := 1,
    used := 0, mod_count := 0 }

/-- The number of non-trailer nodes over the chains of slots `0 .. bins-1`. -/
def node_count {α : Type} (t : List (List α)) (bins : Int) : Int :=
  (((bin_chains t bins).map List.length).sum : Nat)

namespace HashMap

variable {K V : Type}

/-- A state-changing operation of the map issued by a client; `Iterator_erase it` is
`it.erase()` for an iterator in state `it`. -/
inductive Command (K V : Type) where
  | put (key : K) (value : V)
  | operator_index (key : K)
  | erase (key : K)
  | clear
  | Iterator_erase (it : Iterator)

/-- The state one operation leaves; an operation that throws leaves the state it found. -/
def command [DecidableEq K] [Inhabited V] (m : HashMap K V) : Command K V → HashMap K V
  | .put key value => (m.put key value).2
  | .operator_index key => (m.operator_index key).2
  | .erase key => (m.erase key).2
  | .clear => m.clear
  | .Iterator_erase it => (m.Iterator_erase it).2.1

/-- The state a sequence of operations, issued first to last, leaves. -/
def commands [DecidableEq K] [Inhabited V] (m : HashMap K V) (cs : List (Command K V)) :
    HashMap K V :=
  cs.foldl command m

end HashMap

namespace HashSet

variable {T : Type}

/-- A state-changing operation of the set issued by a client; `Iterator_erase it` is
`it.erase()` for an iterator in state `it`. -/
inductive Command (T : Type) where
  | insert (element : T)
  | erase (element : T)
  | clear
  | retain_all (i : List T)
  | Iterator_erase (it : Iterator)

/-- The state one operation leaves; an operation that throws leaves the state it found. -/
def command [DecidableEq T] (s : HashSet T) : Command T → HashSet T
  | .insert element => (s.insert element).2
  | .erase element => (s.erase element).2
  | .clear => s.clear
  | .retain_all i => (s.retain_all i).2
  | .Iterator_erase it => (s.Iterator_erase it).2.1

/-- The state a sequence of operations, issued first to last, leaves. -/
def commands [DecidableEq T] (s : HashSet T) (cs : List (Command T)) : HashSet T :=
  cs.foldl command s

end HashSet

/-- The map of the scenario `"a" -> 1, "b" -> 2, "c" -> 3`: the state after the three `put`s
on `m0`. -/
def abc_map (m0 : HashMap String Int) : HashMap String Int :=
  (((m0.put "a" 1).2.put "b" 2).2.put "c" 3).2

/-- The empty set `HashSet<int>(1.0, demo_hash)`, whose hash function is supplied to the
constructor and whose template argument is left at `undefinedhash`. -/
def demo_set_chash : HashSet Nat :=
  { thash := .undefinedhash, hash := demo_hash, set := [[]], load_threshold := 1, bins := 1,
    used := 0, mod_count := 0 }

/-- The empty map `HashMap<std::string,int>(1.0, demo_hash_str)`. -/
def demo_map_str : HashMap String Int :=
  { thash := .undefinedhash, hash := demo_hash_str, map := [[]], load_threshold := 1,
    bins := 1, used := 0, mod_count := 0 }

/-! ## Further iterator operators, container operators and constructors -/

section iterator_operators

variable {α : Type}

/-- The postfix `operator ++ (int)`: the iterator returned and the iterator left. -/
def Iterator.post_increment (t : List (List α)) (bins mod_count : Int) (it : Iterator) :
    Except Error (Iterator × Iterator) :=
  if it.expected_mod_count ≠ mod_count then .error .ConcurrentModificationError
  else
    match it.current.2 with
    | none => .ok (it, it)
    | some p =>
      let to_return := it
      let it1 :=
        if it.can_erase || !(has_next t p) then
          { it with current := advance_cursors t bins it.current }
        else it
      .ok (to_return, { it1 with can_erase := true })

/-- The `operator ->`, given by the payload its result points to; a cursor that designates
no real node is a dangling pointer. -/
def Iterator.arrow (t : List (List α)) (mod_count : Int) (it : Iterator) : Except Error α :=
  if it.expected_mod_count ≠ mod_count then .error .ConcurrentModificationError
  else if !it.can_erase then .error .IteratorPositionIllegal
  else
    match it.current.2 with
    | none => .error .IteratorPositionIllegal
    | some p =>
      match node_value t p with
      | some e => .ok e
      | none => .error .undefined

end iterator_operators

namespace HashMap

variable {K V : Type}

/-- The method `has_value`: a walk over every chain from slot 0 on. -/
def has_value [DecidableEq V] (m : HashMap K V) (value : V) : Bool :=
  (bin_chains m.map m.bins).any (fun c => c.any (fun e => decide (e.2 = value)))

/-- The `operator ==`; `same_object` is the outcome of the test `this == &rhs`. -/
def operator_eq [DecidableEq K] [DecidableEq V] (m rhs : HashMap K V) (same_object : Bool) :
    Bool :=
  if same_object then true
  else if m.used ≠ rhs.used then false
  else
    (bin_chains m.map m.bins).all
      (fun c => c.all (fun e => !(!(rhs.has_key e.1) || !(rhs.has_value e.2))))

/-- The `operator !=`. -/
def operator_ne [DecidableEq K] [DecidableEq V] (m rhs : HashMap K V) (same_object : Bool) :
    Bool :=
  !(m.operator_eq rhs same_object)

/-- The constructor `HashMap(const std::initializer_list<Entry>& il, the_load_threshold, chash)`. -/
def from_initializer_list [DecidableEq K] (thash : hashfunc K) (il : List (K × V))
    (the_load_threshold : ℚ) (chash : hashfunc K) : Except Error (HashMap K V) :=
  let hash := if !(thash.same .undefinedhash) then thash else chash
  if hash.same .undefinedhash then .error .TemplateFunctionError
  else if !(thash.same .undefinedhash) && !(chash.same .undefinedhash) && !(thash.same chash) then
    .error .TemplateFunctionError
  else
    let m : HashMap K V :=
      { thash := thash, hash := hash, map := List.replicate 1 [],
        load_threshold := the_load_threshold, bins := 1, used := 0, mod_count := 0 }
    .ok (il.foldl (fun m i => (m.put i.1 i.2).2) m)

/-- The constructor `HashMap(const Iterable& i, the_load_threshold, chash)`; the iterable is
given by the sequence of entries its iteration yields. -/
def from_iterable [DecidableEq K] (thash : hashfunc K) (i : List (K × V))
    (the_load_threshold : ℚ) (chash : hashfunc K) : Except Error (HashMap K V) :=
  let hash := if !(thash.same .undefinedhash) then thash else chash
  if hash.same .undefinedhash then .error .TemplateFunctionError
  else if !(thash.same .undefinedhash) && !(chash.same .undefinedhash) && !(thash.same chash) then
    .error .TemplateFunctionError
  else
    let m : HashMap K V :=
      { thash := thash, hash := hash, map := List.replicate 1 [],
        load_threshold := the_load_threshold, bins := 1, used := 0, mod_count := 0 }
    .ok (i.foldl (fun m j => (m.put j.1 j.2).2) m)

end HashMap

namespace HashSet

variable {T : Type}

/-- The `operator ==`; `same_object` is the outcome of the test `this == &rhs`. -/
def operator_eq [DecidableEq T] (s rhs : HashSet T) (same_object : Bool) : Bool :=
  if same_object then true
  else if s.used ≠ rhs.used then false
  else (bin_chains s.set s.bins).all (fun c => c.all (fun e => (rhs.find_element e).isSome))

/-- The `operator !=`. -/
def operator_ne [DecidableEq T] (s rhs : HashSet T) (same_object : Bool) : Bool :=
  !(s.operator_eq rhs same_object)

/-- The `operator <=`; `same_object` is the outcome of the test `this == &rhs`. -/
def operator_le [DecidableEq T] (s rhs : HashSet T) (same_object : Bool) : Bool :=
  if same_object then false
  else if s.used > rhs.size then false
  else (bin_chains s.set s.bins).all (fun c => c.all (fun e => rhs.contains e))

/-- The `operator <`; `same_object` is the outcome of the test `this == &rhs`. -/
def operator_lt [DecidableEq T] (s rhs : HashSet T) (same_object : Bool) : Bool :=
  if same_object then false
  else if s.used ≥ rhs.size then false
  else (bin_chains s.set s.bins).all (fun c => c.all (fun e => rhs.contains e))

/-- The `operator >=`: `rhs <= *this`. -/
def operator_ge [DecidableEq T] (s rhs : HashSet T) (same_object : Bool) : Bool :=
  rhs.operator_le s same_object

/-- The `operator >`: `rhs < *this`. -/
def operator_gt [DecidableEq T] (s rhs : HashSet T) (same_object : Bool) : Bool :=
  rhs.operator_lt s same_object

/-- The constructor `HashSet(const std::initializer_list<T>& il, the_load_threshold, chash)`. -/
def from_initializer_list [DecidableEq T] (thash : hashfunc T) (il : List T)
    (the_load_threshold : ℚ) (chash : hashfunc T) : Except Error (HashSet T) :=
  let hash := if !(thash.same .undefinedhash) then thash else chash
  if hash.same .undefinedhash then .error .TemplateFunctionError
  else if !(thash.same .undefinedhash) && !(chash.same .undefinedhash) && !(thash.same chash) then
    .error .TemplateFunctionError
  else
    let s : HashSet T :=
      { thash := thash, hash := hash, set := List.replicate 1 [],
        load_threshold := the_load_threshold, bins := 1, used := 0, mod_count := 0 }
    .ok (il.foldl (fun s i => (s.insert i).2) s)

end HashSet

/-- The test `h != undefinedhash`: a hash function has been supplied. -/
def hashfunc.supplied {T : Type} (h : hashfunc T) : Bool := !(h.same .undefinedhash)

/-! ## Constructors from a bin count and by copy, assignment and bulk operations -/

section copy_helpers

variable {α : Type}

/-- The method `copy_list`: the chain is copied node by node, in link order, down to its
trailer. -/
def copy_list : List α → List α
  | [] => []
  | v :: l => v :: copy_list l

/-- The method `copy_hash_table`: the chains of slots `0 .. bins-1` are copied. -/
def copy_hash_table (ht : List (List α)) (bins : Int) : List (List α) :=
  (List.range bins.toNat).map (fun (i : Nat) => copy_list (bin_chain ht (i : Int)))

end copy_helpers

namespace HashMap

variable {K V : Type}

set_option linter.unusedVariables false in
/-- The constructor `HashMap(int initial_bins, the_load_threshold, chash)`.  It does not
initialise the member `load_threshold`: `indeterminate` is the value the member happens to
hold.  A negative length makes `new LN*[bins]` fail, which is reported as `undefined`. -/
def mk_initial_bins (thash : hashfunc K) (initial_bins : Int) (the_load_threshold : ℚ)
    (chash : hashfunc K) (indeterminate : ℚ) : Except Error (HashMap K V) :=
  let hash := if !(thash.same .undefinedhash) then thash else chash
  if hash.same .undefinedhash then .error .TemplateFunctionError
  else if !(thash.same .undefinedhash) && !(chash.same .undefinedhash) && !(thash.same chash) then
    .error .TemplateFunctionError
  else if initial_bins < 0 then .error .undefined
  else
    .ok { thash := thash, hash := hash, map := List.replicate initial_bins.toNat [],
          load_threshold := indeterminate, bins := initial_bins, used := 0, mod_count := 0 }

/-- The loops `for (i = 0; i < to_copy.bins; i++) while (head->next) put(...)` of the copy
constructor and of `operator =`: every entry of `rhs`, slot by slot and in chain order, is
`put` into `m`. -/
def put_entries [DecidableEq K] (m rhs : HashMap K V) : HashMap K V :=
  (bin_chains rhs.map rhs.bins).foldl (fun m c => c.foldl (fun m e => (m.put e.1 e.2).2) m) m

set_option linter.unusedVariables false in
/-- The copy constructor `HashMap(const HashMap& to_copy, the_load_threshold, chash)`.  It
does not initialise the member `load_threshold`: `indeterminate` is the value the member
happens to hold. -/
def from_copy [DecidableEq K] (thash : hashfunc K) (to_copy : HashMap K V)
    (the_load_threshold : ℚ) (chash : hashfunc K) (indeterminate : ℚ) :
    Except Error (HashMap K V) :=
  let hash := if !(thash.same .undefinedhash) then thash else chash
  let hash := if hash.same .undefinedhash then to_copy.hash else hash
  if !(thash.same .undefinedhash) && !(chash.same .undefinedhash) && !(thash.same chash) then
    .error .TemplateFunctionError
  else if hash.same to_copy.hash then
    .ok { thash := thash, hash := hash, map := copy_hash_table to_copy.map to_copy.bins,
          load_threshold := indeterminate, bins := to_copy.bins, used := to_copy.used,
          mod_count := 0 }
  else
    let m : HashMap K V :=
      { thash := thash, hash := hash, map := List.replicate to_copy.bins.toNat [],
        load_threshold := indeterminate, bins := to_copy.bins, used := 0, mod_count := 0 }
    .ok (m.put_entries to_copy)

/-- The `operator =`; `same_object` is the outcome of the test `this == &rhs`. -/
def operator_assign [DecidableEq K] (m rhs : HashMap K V) (same_object : Bool) : HashMap K V :=
  if same_object then m
  else
    let m := m.clear
    let m := m.put_entries rhs
    { m with mod_count := m.mod_count + 1 }

/-- The method `put_all`: the count returned and the state left; the iterable is given by
the sequence of entries its iteration yields. -/
def put_all [DecidableEq K] (m : HashMap K V) (i : List (K × V)) : Int × HashMap K V :=
  i.foldl (fun acc j => (acc.1 + 1, (acc.2.put j.1 j.2).2)) (0, m)

/-- No two nodes of the map hold the same key. -/
def no_duplicates (m : HashMap K V) : Prop :=
  ((bin_chains m.map m.bins).flatten.map Prod.fst).Nodup

end HashMap

namespace HashSet

variable {T : Type}

set_option linter.unusedVariables false in
/-- The constructor `HashSet(int initial_bins, the_load_threshold, chash)`.  It does not
initialise the member `load_threshold`: `indeterminate` is the value the member happens to
hold.  A negative length makes `new LN*[bins]` fail, which is reported as `undefined`. -/
def mk_initial_bins (thash : hashfunc T) (initial_bins : Int) (the_load_threshold : ℚ)
    (chash : hashfunc T) (indeterminate : ℚ) : Except Error (HashSet T) :=
  let hash := if !(thash.same .undefinedhash) then thash else chash
  if hash.same .undefinedhash then .error .TemplateFunctionError
  else if !(thash.same .undefinedhash) && !(chash.same .undefinedhash) && !(thash.same chash) then
    .error .TemplateFunctionError
  else if initial_bins < 0 then .error .undefined
  else
    .ok { thash := thash, hash := hash, set := List.replicate initial_bins.toNat [],
          load_threshold := indeterminate, bins := initial_bins, used := 0, mod_count := 0 }

/-- The loops `for (i = 0; i < to_copy.bins; i++) while (head->next) insert(...)` of the copy
constructor and of `operator =`: every element of `rhs`, slot by slot and in chain order, is
inserted into `s`. -/
def insert_elements [DecidableEq T] (s rhs : HashSet T) : HashSet T :=
  (bin_chains rhs.set rhs.bins).foldl (fun s c => c.foldl (fun s e => (s.insert e).2) s) s

set_option linter.unusedVariables false in
/-- The copy constructor `HashSet(const HashSet& to_copy, the_load_threshold, chash)`.  It
does not initialise the member `load_threshold`: `indeterminate` is the value the member
happens to hold. -/
def from_copy [DecidableEq T] (thash : hashfunc T) (to_copy : HashSet T)
    (the_load_threshold : ℚ) (chash : hashfunc T) (indeterminate : ℚ) :
    Except Error (HashSet T) :=
  let hash := if !(thash.same .undefinedhash) then thash else chash
  let hash := if hash.same .undefinedhash then to_copy.hash else hash
  if !(thash.same .undefinedhash) && !(chash.same .undefinedhash) && !(thash.same chash) then
    .error .TemplateFunctionError
  else if hash.same to_copy.hash then
    .ok { thash := thash, hash := hash, set := copy_hash_table to_copy.set to_copy.bins,
          load_threshold := indeterminate, bins := to_copy.bins, used := to_copy.used,
          mod_count := 0 }
  else
    let s : HashSet T :=
      { thash := thash, hash := hash, set := List.replicate to_copy.bins.toNat [],
        load_threshold := indeterminate, bins := to_copy.bins, used := 0, mod_count := 0 }
    .ok (s.insert_elements to_copy)

/-- The `operator =`; `same_object` is the outcome of the test `this == &rhs`. -/
def operator_assign [DecidableEq T] (s rhs : HashSet T) (same_object : Bool) : HashSet T :=
  if same_object then s
  else
    let s := s.clear
    s.insert_elements rhs

/-- The method `insert_all`: the count returned and the state left; the iterable is given by
the sequence of values its iteration yields. -/
def insert_all [DecidableEq T] (s : HashSet T) (i : List T) : Int × HashSet T :=
  i.foldl (fun acc j => (acc.1 + (acc.2.insert j).1, (acc.2.insert j).2)) (0, s)

/-- The method `erase_all`: the count returned and the state left; an `erase` that does not
return ends the loop. -/
def erase_all [DecidableEq T] (s : HashSet T) (i : List T) : Except Error Int × HashSet T :=
  i.foldl
    (fun acc j =>
      match acc.1 with
      | .error e => (.error e, acc.2)
      | .ok count =>
        match (acc.2.erase j).1 with
        | .error e => (.error e, (acc.2.erase j).2)
        | .ok n => (.ok (count + n), (acc.2.erase j).2))
    (.ok 0, s)

/-- No two nodes of the set hold the same value. -/
def no_duplicates (s : HashSet T) : Prop :=
  (bin_chains s.set s.bins).flatten.Nodup

end HashSet

/-- A hash function that sends the key 0 to `INT_MIN`, at address 3. -/
def int_min_hash : hashfunc Nat := .fn 3 (fun n => INT_MIN + (n : Int))

/-- The map `HashMap<int,int,int_min_hash> m(3)`, with the three empty chains the
constructor from a bin count builds. -/
def three_bin_map : HashMap Nat Nat :=
  { thash := int_min_hash, hash := int_min_hash, map := [[], [], []], load_threshold := 1,
    bins := 3, used := 0, mod_count := 0 }

/-- The map `HashMap<int,int,demo_hash> m(0)`: an array of no bins. -/
def zero_bin_map : HashMap Nat Nat :=
  { thash := demo_hash, hash := demo_hash, map := [], load_threshold := 1, bins := 0,
    used := 0, mod_count := 0 }

/-- The set `HashSet<int,demo_hash> s(0)`: an array of no bins. -/
def zero_bin_set : HashSet Nat :=
  { thash := demo_hash, hash := demo_hash, set := [], load_threshold := 1, bins := 0,
    used := 0, mod_count := 0 }

/-- The hash function `n ↦ n + 1` on natural numbers, at address 4. -/
def demo_hash_succ : hashfunc Nat := .fn 4 (fun n => (n : Int) + 1)

/-! ## Lookup by bucket, iterator scenarios and indexed assignment -/

section bucket_lookup

variable {α K : Type}

/-- The lookup as the specification words it, for comparison with `find_key` and
`find_element`: a linear scan of the chain of the addressed bucket only, which yields the
first node of that chain whose key is `key`. -/
def spec_find [DecidableEq K] (κ : α → K) (hash : hashfunc K) (bins : Int)
    (t : List (List α)) (key : K) : Option LN_ptr :=
  (chain_find κ key (bin_chain t (hash_index hash bins key))).map
    (fun pos => ⟨hash_index hash bins key, pos⟩)

/-- The cursor of an iterator is the end cursor or designates a node of its chain: a real
node when `can_erase` is true, a real node or the trailer after an `erase`. -/
def cursor_ok (t : List (List α)) (it : Iterator) : Prop :=
  ∀ p, it.current.2 = some p →
    it.current.1 = p.bin ∧
    (if it.can_erase then p.pos < (bin_chain t p.bin).length
     else p.pos ≤ (bin_chain t p.bin).length)

end bucket_lookup

/-- An operation a client applies to an iterator. -/
inductive Iterator.Op where
  | increment
  | post_increment
  | erase
  deriving DecidableEq, Repr

namespace HashMap

variable {K V : Type}

/-- Every entry of the map sits in the chain `hash_compress` assigns to its key. -/
def well_placed (m : HashMap K V) : Prop :=
  ∀ i : Int, ∀ e ∈ bin_chain m.map i, m.hash_compress e.1 = i

/-- One operation on an iterator over the map: the map and the iterator left; an operation
that throws leaves both as it found them. -/
def iterator_command (st : HashMap K V × Iterator) : Iterator.Op → HashMap K V × Iterator
  | .increment =>
    match Iterator.increment st.1.map st.1.bins st.1.mod_count st.2 with
    | .ok it1 => (st.1, it1)
    | .error _ => st
  | .post_increment =>
    match Iterator.post_increment st.1.map st.1.bins st.1.mod_count st.2 with
    | .ok r => (st.1, r.2)
    | .error _ => st
  | .erase => (st.1.Iterator_erase st.2).2

/-- A sequence of operations on an iterator over the map, issued first to last. -/
def iterator_commands (st : HashMap K V × Iterator) (ops : List Iterator.Op) :
    HashMap K V × Iterator :=
  ops.foldl iterator_command st

/-- The client loop `for (it = m.begin(); it != m.end(); ++it) out.push_back(it.erase())`,
run for at most `fuel` tests of the loop condition: the entries returned or an exception,
and the map left; `none` when the fuel does not suffice. -/
def erase_loop (m : HashMap K V) :
    Nat → Iterator → Option (Except Error (List (K × V)) × HashMap K V)
  | 0, _ => none
  | fuel + 1, it =>
    match Iterator.differs m.mod_count it m.end_ with
    | .error e => some (.error e, m)
    | .ok false => some (.ok [], m)
    | .ok true =>
      match m.Iterator_erase it with
      | (.error e, m1, _) => some (.error e, m1)
      | (.ok x, m1, it1) =>
        match Iterator.increment m1.map m1.bins m1.mod_count it1 with
        | .error e => some (.error e, m1)
        | .ok it2 => (erase_loop m1 fuel it2).map (fun r => (r.1.map (fun xs => x :: xs), r.2))

/-- The statement `m[key] = value`: the non-const `operator []`, then the assignment to the
`value.second` its result refers to. -/
def operator_index_assign [DecidableEq K] [Inhabited V] (m : HashMap K V) (key : K)
    (value : V) : HashMap K V :=
  let r := m.operator_index key
  match node_value r.2.map r.1 with
  | some e =>
    { r.2 with
      map := set_bin_chain r.2.map r.1.bin ((bin_chain r.2.map r.1.bin).set r.1.pos (e.1, value)) }
  | none => r.2

end HashMap

namespace HashSet

variable {T : Type}

/-- Every element of the set sits in the chain `hash_compress` assigns to it. -/
def well_placed (s : HashSet T) : Prop :=
  ∀ i : Int, ∀ e ∈ bin_chain s.set i, s.hash_compress e = i

/-- One operation on an iterator over the set: the set and the iterator left; an operation
that throws leaves both as it found them. -/
def iterator_command (st : HashSet T × Iterator) : Iterator.Op → HashSet T × Iterator
  | .increment =>
    match Iterator.increment st.1.set st.1.bins st.1.mod_count st.2 with
    | .ok it1 => (st.1, it1)
    | .error _ => st
  | .post_increment =>
    match Iterator.post_increment st.1.set st.1.bins st.1.mod_count st.2 with
    | .ok r => (st.1, r.2)
    | .error _ => st
  | .erase => (st.1.Iterator_erase st.2).2

/-- A sequence of operations on an iterator over the set, issued first to last. -/
def iterator_commands (st : HashSet T × Iterator) (ops : List Iterator.Op) :
    HashSet T × Iterator :=
  ops.foldl iterator_command st

/-- The client loop `for (it = s.begin(); it != s.end(); ++it) out.push_back(it.erase())`,
run for at most `fuel` tests of the loop condition: the elements returned or an exception,
and the set left; `none` when the fuel does not suffice. -/
def erase_loop (s : HashSet T) : Nat → Iterator → Option (Except Error (List T) × HashSet T)
  | 0, _ => none
  | fuel + 1, it =>
    match Iterator.differs s.mod_count it s.end_ with
    | .error e => some (.error e, s)
    | .ok false => some (.ok [], s)
    | .ok true =>
      match s.Iterator_erase it with
      | (.error e, s1, _) => some (.error e, s1)
      | (.ok x, s1, it1) =>
        match Iterator.increment s1.set s1.bins s1.mod_count it1 with
        | .error e => some (.error e, s1)
        | .ok it2 => (erase_loop s1 fuel it2).map (fun r => (r.1.map (fun xs => x :: xs), r.2))

end HashSet

/-! ## Bucket arrays -/

section table_lemmas
variable {α K : Type}

theorem getD_set_same (t : List (List α)) (n : Nat) (c : List α) (h : n < t.length) :
    (t.set n c).getD n [] = c := by
  simp [List.getD_eq_getElem?_getD, List.getElem?_set, h]

theorem getD_set_other (t : List (List α)) (n j : Nat) (c : List α) (h : j ≠ n) :
    (t.set n c).getD j [] = t.getD j [] := by
  simp [List.getD_eq_getElem?_getD, List.getElem?_set, Ne.symm h]

theorem flatten_set_perm (t : List (List α)) (n : Nat) (c : List α) (h : n < t.length) :
    ((t.set n c).flatten ++ t.getD n []).Perm (t.flatten ++ c) := by
  induction t generalizing n with
  | nil => simp at h
  | cons d t ih =>
    cases n with
    | zero =>
      simp only [List.set_cons_zero, List.flatten_cons, List.getD_cons_zero]
      calc (c ++ t.flatten ++ d).Perm (d ++ (c ++ t.flatten)) := List.perm_append_comm
        _ = (d ++ c) ++ t.flatten := by simp
        _ |>.Perm ((c ++ d) ++ t.flatten) := (List.perm_append_comm).append_right _
        _ = c ++ (d ++ t.flatten) := by simp
        _ |>.Perm (d ++ t.flatten ++ c) := List.perm_append_comm
    | succ n =>
      have h1 : n < t.length := by simpa using h
      have := ih n h1
      simp only [List.set_cons_succ, List.flatten_cons, List.getD_cons_succ, List.append_assoc]
      exact this.append_left d |>.trans (by simp)

theorem flatten_set_sublist (t : List (List α)) (n : Nat) (c : List α)
    (h : c.Sublist (t.getD n [])) : (t.set n c).flatten.Sublist t.flatten := by
  induction t generalizing n with
  | nil => simp
  | cons d t ih =>
    cases n with
    | zero =>
      simp only [List.set_cons_zero, List.flatten_cons]
      simp only [List.getD_cons_zero] at h
      exact h.append (List.Sublist.refl _)
    | succ n =>
      simp only [List.set_cons_succ, List.flatten_cons]
      simp only [List.getD_cons_succ] at h
      exact (List.Sublist.refl _).append (ih n h)

theorem mem_flatten_iff_getD (t : List (List α)) (e : α) :
    e ∈ t.flatten ↔ ∃ n : Nat, e ∈ t.getD n [] := by
  constructor
  · intro h
    obtain ⟨c, hc, he⟩ := List.mem_flatten.1 h
    obtain ⟨n, hn, rfl⟩ := List.mem_iff_getElem.1 hc
    exact ⟨n, by rw [List.getD_eq_getElem _ _ hn]; exact he⟩
  · rintro ⟨n, hn⟩
    by_cases h : n < t.length
    · rw [List.getD_eq_getElem _ _ h] at hn
      exact List.mem_flatten.2 ⟨_, List.getElem_mem h, hn⟩
    · simp [List.getD_eq_getElem?_getD, List.getElem?_eq_none (Nat.le_of_not_lt h)] at hn

/-! ### Slots addressed by an `int` -/

theorem bin_chain_of_nonneg (t : List (List α)) (i : Int) (h : 0 ≤ i) :
    bin_chain t i = t.getD i.toNat [] := by
  simp [bin_chain, h]

theorem bin_chain_natCast (t : List (List α)) (n : Nat) :
    bin_chain t (n : Int) = t.getD n [] := by
  simp [bin_chain]

theorem bin_chain_of_neg (t : List (List α)) (i : Int) (h : i < 0) :
    bin_chain t i = [] := by
  simp [bin_chain, Int.not_le.2 h]

theorem bin_chain_of_length_le (t : List (List α)) (i : Int) (h : (t.length : Int) ≤ i) :
    bin_chain t i = [] := by
  have h0 : 0 ≤ i := le_trans (Int.ofNat_nonneg _) h
  rw [bin_chain_of_nonneg t i h0, List.getD_eq_getElem?_getD, List.getElem?_eq_none (by omega)]
  rfl

theorem length_set_bin_chain (t : List (List α)) (i : Int) (c : List α) :
    (set_bin_chain t i c).length = t.length := by
  unfold set_bin_chain; split <;> simp

theorem bin_chain_set_same (t : List (List α)) (i : Int) (c : List α)
    (h0 : 0 ≤ i) (h1 : i < t.length) : bin_chain (set_bin_chain t i c) i = c := by
  simp only [bin_chain, set_bin_chain, h0, if_true]
  exact getD_set_same t _ c (by omega)

theorem bin_chain_set_other (t : List (List α)) (i j : Int) (c : List α) (h : j ≠ i) :
    bin_chain (set_bin_chain t i c) j = bin_chain t j := by
  unfold bin_chain set_bin_chain
  by_cases hj : 0 ≤ j <;> by_cases hi : 0 ≤ i <;> simp only [hi, hj, if_true, if_false]
  exact getD_set_other t _ _ c (by omega)

theorem mem_flatten_iff (t : List (List α)) (e : α) :
    e ∈ t.flatten ↔ ∃ i : Int, e ∈ bin_chain t i := by
  rw [mem_flatten_iff_getD]
  constructor
  · rintro ⟨n, hn⟩
    exact ⟨(n : Int), by simpa [bin_chain_natCast] using hn⟩
  · rintro ⟨i, hi⟩
    by_cases h : 0 ≤ i
    · exact ⟨i.toNat, by simpa [bin_chain_of_nonneg t i h] using hi⟩
    · simp [bin_chain, h] at hi

theorem set_bin_chain_perm (t : List (List α)) (i : Int) (c : List α)
    (h0 : 0 ≤ i) (h1 : i < t.length) :
    ((set_bin_chain t i c).flatten ++ bin_chain t i).Perm (t.flatten ++ c) := by
  simp only [bin_chain, set_bin_chain, h0, if_true]
  exact flatten_set_perm t _ c (by omega)

theorem set_bin_chain_sublist (t : List (List α)) (i : Int) (c : List α)
    (h : c.Sublist (bin_chain t i)) : (set_bin_chain t i c).flatten.Sublist t.flatten := by
  unfold set_bin_chain
  by_cases h0 : 0 ≤ i
  · simp only [h0, if_true]
    exact flatten_set_sublist t _ c (by simpa [bin_chain, h0] using h)
  · simp [h0]

theorem bin_chains_eq (t : List (List α)) (bins : Int) (h : (t.length : Int) = bins) :
    bin_chains t bins = t := by
  unfold bin_chains
  have hl : bins.toNat = t.length := by omega
  rw [hl]
  apply List.ext_getElem
  · simp
  · intro n h1 h2
    rw [List.getElem_map, List.getElem_range, bin_chain_natCast, List.getD_eq_getElem _ _ h2]

theorem append_node_perm (t : List (List α)) (i : Int) (e : α)
    (h0 : 0 ≤ i) (h1 : i < t.length) : (append_node t i e).flatten.Perm (e :: t.flatten) := by
  have h := set_bin_chain_perm t i (bin_chain t i ++ [e]) h0 h1
  have h2 : (t.flatten ++ (bin_chain t i ++ [e])).Perm ((e :: t.flatten) ++ bin_chain t i) := by
    rw [← List.append_assoc]
    refine List.perm_append_comm.trans ?_
    simp only [List.singleton_append, List.cons_append]
    exact List.Perm.cons _ List.perm_append_comm |>.trans (by simp)
  exact (List.perm_append_right_iff _).1 (h.trans h2)

theorem bin_chain_append_node (t : List (List α)) (i j : Int) (e : α)
    (h0 : 0 ≤ i) (h1 : i < t.length) :
    bin_chain (append_node t i e) j = if j = i then bin_chain t i ++ [e] else bin_chain t j := by
  unfold append_node
  by_cases h : j = i
  · subst h; simp [bin_chain_set_same t j _ h0 h1]
  · simp [h, bin_chain_set_other t i j _ h]

theorem length_append_node (t : List (List α)) (i : Int) (e : α) :
    (append_node t i e).length = t.length := length_set_bin_chain _ _ _

end table_lemmas
section table_lemmas2
variable {α K : Type}

theorem set_bin_chain_perm_gen (t : List (List α)) (i : Int) (c as bs : List α)
    (h0 : 0 ≤ i) (h1 : i < t.length) (h : (as ++ c).Perm (bs ++ bin_chain t i)) :
    (as ++ (set_bin_chain t i c).flatten).Perm (bs ++ t.flatten) := by
  have h2 := set_bin_chain_perm t i c h0 h1
  have h3 : ((as ++ (set_bin_chain t i c).flatten) ++ bin_chain t i).Perm
      ((bs ++ t.flatten) ++ bin_chain t i) := by
    calc ((as ++ (set_bin_chain t i c).flatten) ++ bin_chain t i)
        = as ++ ((set_bin_chain t i c).flatten ++ bin_chain t i) := by simp
      _ |>.Perm (as ++ (t.flatten ++ c)) := h2.append_left as
      _ |>.Perm (t.flatten ++ (as ++ c)) := by
          rw [← List.append_assoc, ← List.append_assoc]
          exact List.perm_append_comm.append_right c
      _ |>.Perm (t.flatten ++ (bs ++ bin_chain t i)) := h.append_left _
      _ |>.Perm ((bs ++ t.flatten) ++ bin_chain t i) := by
          rw [← List.append_assoc]
          exact List.perm_append_comm.append_right _
  exact (List.perm_append_right_iff _).1 h3

/-! ### The compressed hash code -/

theorem abs_int_nonneg (i : Int) (h : i ≠ INT_MIN) : 0 ≤ abs_int i := by
  simp [abs_int, h]

theorem hash_index_nonneg (hash : hashfunc K) (bins : Int) (key : K)
    (h : hash.no_int_min) : 0 ≤ hash_index hash bins key :=
  Int.tmod_nonneg _ (abs_int_nonneg _ (h key))

theorem hash_index_lt (hash : hashfunc K) (bins : Int) (key : K) (hb : 1 ≤ bins) :
    hash_index hash bins key < bins :=
  Int.tmod_lt_of_pos _ (by omega)

/-! ### Chains -/

theorem chain_find_eq_none [DecidableEq K] (κ : α → K) (key : K) (c : List α) :
    chain_find κ key c = none ↔ ∀ e ∈ c, κ e ≠ key := by
  induction c with
  | nil => simp [chain_find]
  | cons e rest ih =>
    by_cases h : κ e = key
    · simp [chain_find, h]
    · simp [chain_find, h, ih]

theorem chain_find_some [DecidableEq K] (κ : α → K) (key : K) (c : List α) (pos : Nat)
    (h : chain_find κ key c = some pos) : ∃ e, c.get? pos = some e ∧ κ e = key := by
  induction c generalizing pos with
  | nil => simp [chain_find] at h
  | cons e rest ih =>
    by_cases hk : κ e = key
    · simp only [chain_find, hk, if_true, Option.some.injEq] at h
      subst h
      exact ⟨e, rfl, hk⟩
    · simp only [chain_find, hk, if_false, Option.map_eq_some'] at h
      obtain ⟨q, hq, rfl⟩ := h
      obtain ⟨e1, h1, h2⟩ := ih q hq
      exact ⟨e1, by simpa using h1, h2⟩

theorem chain_find_find? [DecidableEq K] (κ : α → K) (key : K) (c : List α) :
    (chain_find κ key c).bind (fun pos => c.get? pos) = c.find? (fun e => decide (κ e = key)) := by
  induction c with
  | nil => simp [chain_find]
  | cons e rest ih =>
    by_cases hk : κ e = key
    · simp [chain_find, hk]
    · simp only [chain_find, hk, if_false, List.find?_cons, decide_False]
      rw [← ih]
      cases chain_find κ key rest <;> simp

theorem chain_remove_eq_none [DecidableEq K] (κ : α → K) (key : K) (c : List α) :
    chain_remove κ key c = none ↔ ∀ e ∈ c, κ e ≠ key := by
  induction c with
  | nil => simp [chain_remove]
  | cons e rest ih =>
    by_cases h : κ e = key
    · simp [chain_remove, h]
    · simp [chain_remove, h, ih]

theorem chain_remove_some [DecidableEq K] (κ : α → K) (key : K) (c : List α) (e : α)
    (c1 : List α) (h : chain_remove κ key c = some (e, c1)) :
    κ e = key ∧ c.find? (fun x => decide (κ x = key)) = some e ∧ c.Perm (e :: c1) := by
  induction c generalizing c1 with
  | nil => simp [chain_remove] at h
  | cons d rest ih =>
    by_cases hk : κ d = key
    · simp only [chain_remove, hk, if_true, Option.some.injEq, Prod.mk.injEq] at h
      obtain ⟨rfl, rfl⟩ := h
      exact ⟨hk, by simp [hk], List.Perm.refl _⟩
    · simp only [chain_remove, hk, if_false, Option.map_eq_some', Prod.mk.injEq] at h
      obtain ⟨⟨e1, c2⟩, hr, rfl, rfl⟩ := h
      obtain ⟨h1, h2, h3⟩ := ih c2 hr
      refine ⟨h1, by simp [hk, h2], ?_⟩
      exact (List.Perm.cons d h3).trans (List.Perm.swap _ _ _)

theorem set_perm_of_get? (c : List α) (pos : Nat) (e x : α) (h : c.get? pos = some e) :
    (e :: c.set pos x).Perm (x :: c) := by
  induction c generalizing pos with
  | nil => simp at h
  | cons d rest ih =>
    cases pos with
    | zero =>
      simp only [List.get?_cons_zero, Option.some.injEq] at h
      subst h
      simp only [List.set_cons_zero]
      exact List.Perm.swap _ _ _
    | succ n =>
      simp only [List.get?_cons_succ] at h
      simp only [List.set_cons_succ]
      calc (e :: d :: rest.set n x).Perm (d :: e :: rest.set n x) := List.Perm.swap _ _ _
        _ |>.Perm (d :: x :: rest) := List.Perm.cons d (ih n h)
        _ |>.Perm (x :: d :: rest) := List.Perm.swap _ _ _

theorem eraseIdx_perm_of_get? (c : List α) (pos : Nat) (e : α) (h : c.get? pos = some e) :
    (e :: c.eraseIdx pos).Perm c := by
  induction c generalizing pos with
  | nil => simp at h
  | cons d rest ih =>
    cases pos with
    | zero =>
      simp only [List.get?_cons_zero, Option.some.injEq] at h
      subst h
      simp
    | succ n =>
      simp only [List.get?_cons_succ] at h
      simp only [List.eraseIdx_cons_succ]
      exact (List.Perm.swap _ _ _).trans (List.Perm.cons d (ih n h))

theorem eq_of_key_eq (κ : α → K) (l : List α) (h : (l.map κ).Nodup) (a b : α)
    (ha : a ∈ l) (hb : b ∈ l) (hab : κ a = κ b) : a = b :=
  List.inj_on_of_nodup_map h ha hb hab

end table_lemmas2

section table_lemmas3
variable {α K : Type}

theorem table_ok.length_pos {κ : α → K} {hash : hashfunc K} {bins : Int} {t : List (List α)}
    (ok : table_ok κ hash bins t) : 0 < t.length := by
  have h1 := ok.bins_pos
  have h2 := ok.length_eq
  omega

theorem table_ok.index_lt {κ : α → K} {hash : hashfunc K} {bins : Int} {t : List (List α)}
    (ok : table_ok κ hash bins t) (key : K) : hash_index hash bins key < t.length := by
  rw [ok.length_eq]
  exact hash_index_lt hash bins key ok.bins_pos

theorem table_ok.set_chain {κ : α → K} {hash : hashfunc K} {bins : Int} {t : List (List α)}
    (ok : table_ok κ hash bins t) (i : Int) (c : List α)
    (hp : ∀ e ∈ c, hash_index hash bins (κ e) = i)
    (hn : ((set_bin_chain t i c).flatten.map κ).Nodup) :
    table_ok κ hash bins (set_bin_chain t i c) := by
  refine ⟨ok.bins_pos, by rw [length_set_bin_chain]; exact ok.length_eq, ?_, hn⟩
  intro j e he
  by_cases hj : j = i
  · subst hj
    by_cases h0 : 0 ≤ j
    · by_cases h1 : j < t.length
      · rw [bin_chain_set_same t j c h0 h1] at he
        exact hp e he
      · rw [bin_chain_of_length_le _ j (by rw [length_set_bin_chain]; omega)] at he
        simp at he
    · rw [bin_chain_of_neg _ j (by omega)] at he
      simp at he
  · rw [bin_chain_set_other t i j c hj] at he
    exact ok.placed j e he

theorem table_ok.set_sublist {κ : α → K} {hash : hashfunc K} {bins : Int} {t : List (List α)}
    (ok : table_ok κ hash bins t) (i : Int) (c : List α) (h : c.Sublist (bin_chain t i)) :
    table_ok κ hash bins (set_bin_chain t i c) :=
  ok.set_chain i c (fun e he => ok.placed i e (h.subset he))
    (((set_bin_chain_sublist t i c h).map κ).nodup ok.nodup)

theorem table_ok.mem_chain {κ : α → K} {hash : hashfunc K} {bins : Int} {t : List (List α)}
    (ok : table_ok κ hash bins t) (e : α) (h : e ∈ t.flatten) :
    e ∈ bin_chain t (hash_index hash bins (κ e)) := by
  obtain ⟨i, hi⟩ := (mem_flatten_iff t e).1 h
  rw [ok.placed i e hi]
  exact hi

theorem table_find_eq_some_iff [DecidableEq K] {κ : α → K} {hash : hashfunc K} {bins : Int}
    {t : List (List α)} (ok : table_ok κ hash bins t) (key : K) (e : α) :
    table_find κ hash bins t key = some e ↔ e ∈ t.flatten ∧ κ e = key := by
  unfold table_find
  constructor
  · intro h
    have h1 := List.mem_of_find?_eq_some h
    have h2 := List.find?_some h
    exact ⟨(mem_flatten_iff t e).2 ⟨_, h1⟩, by simpa using h2⟩
  · rintro ⟨h1, h2⟩
    have h3 := ok.mem_chain e h1
    rw [h2] at h3
    cases hf : (bin_chain t (hash_index hash bins key)).find? (fun e => decide (κ e = key)) with
    | none =>
      rw [List.find?_eq_none] at hf
      exact absurd (by simpa using h2) (hf e h3)
    | some d =>
      have hd1 := List.mem_of_find?_eq_some hf
      have hd2 : κ d = key := by simpa using List.find?_some hf
      have hd3 : d ∈ t.flatten := (mem_flatten_iff t d).2 ⟨_, hd1⟩
      rw [eq_of_key_eq κ t.flatten ok.nodup d e hd3 h1 (hd2.trans h2.symm)]

theorem table_find_eq_none_iff [DecidableEq K] {κ : α → K} {hash : hashfunc K} {bins : Int}
    {t : List (List α)} (ok : table_ok κ hash bins t) (key : K) :
    table_find κ hash bins t key = none ↔ ∀ e ∈ t.flatten, κ e ≠ key := by
  constructor
  · intro h e he hk
    have := (table_find_eq_some_iff ok key e).2 ⟨he, hk⟩
    rw [h] at this
    exact absurd this (by simp)
  · intro h
    cases hf : table_find κ hash bins t key with
    | none => rfl
    | some d =>
      have := (table_find_eq_some_iff ok key d).1 hf
      exact absurd this.2 (h d this.1)

/-- Two valid tables with the same stored payloads answer every lookup alike. -/
theorem table_find_congr [DecidableEq K] {κ : α → K} {hash hash1 : hashfunc K} {bins bins1 : Int}
    {t t1 : List (List α)} (ok : table_ok κ hash bins t) (ok1 : table_ok κ hash1 bins1 t1)
    (key : K) (h : ∀ e, κ e = key → (e ∈ t1.flatten ↔ e ∈ t.flatten)) :
    table_find κ hash1 bins1 t1 key = table_find κ hash bins t key := by
  apply Option.ext
  intro e
  simp only [Option.mem_def]
  rw [table_find_eq_some_iff ok, table_find_eq_some_iff ok1]
  constructor
  · rintro ⟨h1, h2⟩; exact ⟨(h e h2).1 h1, h2⟩
  · rintro ⟨h1, h2⟩; exact ⟨(h e h2).2 h1, h2⟩

theorem foldl_append_node (idx : α → Int) (es : List α) (t : List (List α))
    (hr : ∀ e ∈ es, 0 ≤ idx e ∧ idx e < t.length) :
    (es.foldl (fun t e => append_node t (idx e) e) t).length = t.length ∧
    (es.foldl (fun t e => append_node t (idx e) e) t).flatten.Perm (es ++ t.flatten) ∧
    ∀ j, bin_chain (es.foldl (fun t e => append_node t (idx e) e) t) j =
      bin_chain t j ++ es.filter (fun e => decide (idx e = j)) := by
  induction es generalizing t with
  | nil => simp
  | cons e es ih =>
    have he := hr e (List.mem_cons_self _ _)
    have hr1 : ∀ x ∈ es, 0 ≤ idx x ∧ idx x < (append_node t (idx e) e).length := by
      intro x hx
      rw [length_append_node]
      exact hr x (List.mem_cons_of_mem _ hx)
    obtain ⟨h1, h2, h3⟩ := ih (append_node t (idx e) e) hr1
    simp only [List.foldl_cons]
    refine ⟨by rw [h1, length_append_node], ?_, ?_⟩
    · refine h2.trans ?_
      refine ((append_node_perm t (idx e) e he.1 he.2).append_left es).trans ?_
      simp only [List.cons_append]
      exact List.perm_middle
    · intro j
      rw [h3 j, bin_chain_append_node t (idx e) j e he.1 he.2]
      by_cases hj : j = idx e
      · subst hj; simp
      · have : ¬ idx e = j := fun h => hj h.symm
        simp [hj, this]

theorem bin_chain_replicate_nil (n : Nat) (j : Int) :
    bin_chain (List.replicate n ([] : List α)) j = [] := by
  unfold bin_chain
  split
  · rw [List.getD_eq_getElem?_getD, List.getElem?_replicate]
    split <;> rfl
  · rfl

theorem rehash_all_ok (κ : α → K) (hash : hashfunc K) (bins : Int) (t : List (List α))
    (ok : table_ok κ hash bins t) (hh : hash.no_int_min) :
    table_ok κ hash (bins * 2)
      (rehash_all (fun e => hash_index hash (bins * 2) (κ e)) t bins
        (List.replicate (bins * 2).toNat [])) ∧
    (rehash_all (fun e => hash_index hash (bins * 2) (κ e)) t bins
        (List.replicate (bins * 2).toNat [])).flatten.Perm t.flatten := by
  have hb := ok.bins_pos
  unfold rehash_all
  rw [bin_chains_eq t bins ok.length_eq, ← List.foldl_flatten]
  have hr : ∀ e ∈ t.flatten, 0 ≤ hash_index hash (bins * 2) (κ e) ∧
      hash_index hash (bins * 2) (κ e) < (List.replicate (bins * 2).toNat ([] : List α)).length := by
    intro e _
    refine ⟨hash_index_nonneg hash _ _ hh, ?_⟩
    have := hash_index_lt hash (bins * 2) (κ e) (by omega)
    simp only [List.length_replicate]
    omega
  obtain ⟨h1, h2, h3⟩ := foldl_append_node (fun e => hash_index hash (bins * 2) (κ e)) t.flatten
    (List.replicate (bins * 2).toNat []) hr
  have hp : (t.flatten.foldl (fun t e => append_node t (hash_index hash (bins * 2) (κ e)) e)
      (List.replicate (bins * 2).toNat [])).flatten.Perm t.flatten := by
    refine h2.trans ?_
    simp
  refine ⟨⟨by omega, ?_, ?_, ?_⟩, hp⟩
  · rw [h1, List.length_replicate]; omega
  · intro j e he
    rw [h3 j, bin_chain_replicate_nil, List.nil_append] at he
    simpa using (List.mem_filter.1 he).2
  · exact ((hp.map κ).nodup_iff).2 ok.nodup

end table_lemmas3

namespace HashMap

variable {K V : Type}

theorem find_key_bind [DecidableEq K] (m : HashMap K V) (key : K) :
    (m.find_key key).bind (node_value m.map) = table_find Prod.fst m.hash m.bins m.map key := by
  unfold find_key table_find hash_compress node_value
  rw [← chain_find_find?]
  dsimp only
  cases chain_find Prod.fst key (bin_chain m.map (hash_index m.hash m.bins key)) <;> rfl

theorem lookup_eq [DecidableEq K] (m : HashMap K V) (key : K) :
    m.lookup key = (table_find Prod.fst m.hash m.bins m.map key).map Prod.snd := by
  unfold lookup
  rw [find_key_bind]

theorem find_key_eq_none [DecidableEq K] (m : HashMap K V) (key : K) :
    m.find_key key = none ↔ table_find Prod.fst m.hash m.bins m.map key = none := by
  unfold find_key table_find hash_compress
  rw [Option.map_eq_none', chain_find_eq_none, List.find?_eq_none]
  simp

theorem find_key_some [DecidableEq K] (m : HashMap K V) (key : K) (p : LN_ptr)
    (h : m.find_key key = some p) :
    ∃ e, node_value m.map p = some e ∧ e.1 = key ∧ p.bin = m.hash_compress key ∧
      table_find Prod.fst m.hash m.bins m.map key = some e := by
  have hb := find_key_bind m key
  rw [h] at hb
  simp only [Option.some_bind] at hb
  unfold find_key at h
  simp only [Option.map_eq_some'] at h
  obtain ⟨pos, h1, rfl⟩ := h
  obtain ⟨e, h2, h3⟩ := chain_find_some _ _ _ _ h1
  refine ⟨e, h2, h3, rfl, ?_⟩
  rw [← hb]
  exact h2

theorem has_key_eq [DecidableEq K] (m : HashMap K V) (key : K) :
    m.has_key key = (m.lookup key).isSome := by
  unfold has_key lookup
  cases h : m.find_key key with
  | none => rfl
  | some p =>
    obtain ⟨e, h1, _⟩ := find_key_some m key p h
    simp [h1]

theorem operator_index_const_eq [DecidableEq K] (m : HashMap K V) (key : K) :
    m.operator_index_const key =
      match m.lookup key with
      | some v => .ok v
      | none => .error .KeyError := by
  unfold operator_index_const lookup
  cases h : m.find_key key with
  | none => rfl
  | some p =>
    obtain ⟨e, h1, _⟩ := find_key_some m key p h
    simp [h1]

theorem lookup_eq_some_iff [DecidableEq K] (m : HashMap K V) (hv : m.valid) (key : K) (v : V) :
    m.lookup key = some v ↔ (key, v) ∈ m.map.flatten := by
  rw [lookup_eq, Option.map_eq_some']
  constructor
  · rintro ⟨e, h1, rfl⟩
    obtain ⟨h2, h3⟩ := (table_find_eq_some_iff hv.ok key e).1 h1
    have : e = (key, e.2) := by rw [← h3]
    rw [← this]; exact h2
  · intro h
    exact ⟨(key, v), (table_find_eq_some_iff hv.ok key _).2 ⟨h, rfl⟩, rfl⟩

theorem lookup_eq_none_iff [DecidableEq K] (m : HashMap K V) (hv : m.valid) (key : K) :
    m.lookup key = none ↔ ∀ e ∈ m.map.flatten, e.1 ≠ key := by
  rw [lookup_eq, Option.map_eq_none', table_find_eq_none_iff hv.ok]

/-- Two valid maps storing the same entries for `key` associate the same value with it. -/
theorem lookup_congr [DecidableEq K] (m m1 : HashMap K V) (hv : m.valid) (hv1 : m1.valid)
    (key : K) (h : ∀ v, (key, v) ∈ m1.map.flatten ↔ (key, v) ∈ m.map.flatten) :
    m1.lookup key = m.lookup key := by
  apply Option.ext
  intro v
  simp only [Option.mem_def]
  rw [lookup_eq_some_iff m hv, lookup_eq_some_iff m1 hv1]
  exact h v

theorem map_ensure_load_threshold_spec (m : HashMap K V) (new_used : Int)
    (ok : table_ok Prod.fst m.hash m.bins m.map) (hh : m.hash.no_int_min) :
    table_ok Prod.fst (m.ensure_load_threshold new_used).hash
      (m.ensure_load_threshold new_used).bins (m.ensure_load_threshold new_used).map ∧
    (m.ensure_load_threshold new_used).map.flatten.Perm m.map.flatten ∧
    (m.ensure_load_threshold new_used).hash = m.hash ∧
    (m.ensure_load_threshold new_used).thash = m.thash ∧
    (m.ensure_load_threshold new_used).used = m.used ∧
    (m.ensure_load_threshold new_used).mod_count = m.mod_count ∧
    (m.ensure_load_threshold new_used).load_threshold = m.load_threshold ∧
    (m.ensure_load_threshold new_used).bins =
      (if ((Int.tdiv new_used m.bins : Int) : ℚ) > m.load_threshold then m.bins * 2
       else m.bins) := by
  by_cases h : ((Int.tdiv new_used m.bins : Int) : ℚ) > m.load_threshold
  · have e : m.ensure_load_threshold new_used =
        { m with
          bins := m.bins * 2
          map := rehash_all (fun e => hash_index m.hash (m.bins * 2) e.1) m.map m.bins
            (List.replicate (m.bins * 2).toNat []) } := by
      unfold ensure_load_threshold
      rw [if_pos h]
    obtain ⟨h1, h2⟩ := rehash_all_ok Prod.fst m.hash m.bins m.map ok hh
    rw [e, if_pos h]
    exact ⟨h1, h2, rfl, rfl, rfl, rfl, rfl, rfl⟩
  · have e : m.ensure_load_threshold new_used = m := by
      unfold ensure_load_threshold
      rw [if_neg h]
    rw [e, if_neg h]
    exact ⟨ok, List.Perm.refl _, rfl, rfl, rfl, rfl, rfl, rfl⟩

end HashMap

section replace
variable {α K : Type}

theorem mem_replace_iff (κ : α → K) (old new : List α) (e x : α)
    (hp : (e :: new).Perm (x :: old)) (hk : κ e = κ x) (he : e ∈ old)
    (hn : (old.map κ).Nodup) (y : α) :
    y ∈ new ↔ y = x ∨ (y ∈ old ∧ κ y ≠ κ x) := by
  have hkeys : (new.map κ).Perm (old.map κ) := by
    have := hp.map κ
    simp only [List.map_cons, hk] at this
    exact this.cons_inv
  have hn1 : (new.map κ).Nodup := hkeys.nodup_iff.2 hn
  constructor
  · intro hy
    have h1 : y ∈ x :: old := hp.subset (List.mem_cons_of_mem _ hy)
    rcases List.mem_cons.1 h1 with h2 | h2
    · exact Or.inl h2
    · by_cases hyk : κ y = κ x
      · have hye : y = e := eq_of_key_eq κ old hn y e h2 he (hyk.trans hk.symm)
        by_cases hex : e = x
        · exact Or.inl (hye.trans hex)
        · have hx : x ∈ new := by
            have : x ∈ e :: new := hp.symm.subset (List.mem_cons_self _ _)
            rcases List.mem_cons.1 this with h3 | h3
            · exact absurd h3.symm hex
            · exact h3
          exact Or.inl (eq_of_key_eq κ new hn1 y x hy hx hyk)
      · exact Or.inr ⟨h2, hyk⟩
  · rintro (rfl | ⟨h1, h2⟩)
    · have : y ∈ e :: new := hp.symm.subset (List.mem_cons_self _ _)
      rcases List.mem_cons.1 this with h3 | h3
      · subst h3
        exact (hp.cons_inv).symm.subset he
      · exact h3
    · have : y ∈ e :: new := hp.symm.subset (List.mem_cons_of_mem _ h1)
      rcases List.mem_cons.1 this with h3 | h3
      · subst h3; exact absurd hk h2
      · exact h3

theorem mem_remove_iff (κ : α → K) (old new : List α) (e : α)
    (hp : (e :: new).Perm old) (hn : (old.map κ).Nodup) (y : α) :
    y ∈ new ↔ y ∈ old ∧ κ y ≠ κ e := by
  have hn1 : ((e :: new).map κ).Nodup := (hp.map κ).nodup_iff.2 hn
  simp only [List.map_cons, List.nodup_cons, List.mem_map, not_exists, not_and] at hn1
  constructor
  · intro hy
    exact ⟨hp.subset (List.mem_cons_of_mem _ hy), hn1.1 y hy⟩
  · rintro ⟨h1, h2⟩
    rcases List.mem_cons.1 (hp.symm.subset h1) with h3 | h3
    · subst h3; exact absurd rfl h2
    · exact h3

end replace

namespace HashMap

variable {K V : Type}

theorem put_present [DecidableEq K] (m : HashMap K V) (key : K) (value : V) (p : LN_ptr)
    (e : K × V) (h : m.find_key key = some p) (he : node_value m.map p = some e) :
    m.put key value = (e.2, { m with
      mod_count := m.mod_count + 1
      map := set_bin_chain m.map p.bin ((bin_chain m.map p.bin).set p.pos (e.1, value)) }) := by
  have h1 : ({ m with mod_count := m.mod_count + 1 } : HashMap K V).find_key key = some p := h
  unfold put
  simp only [h1, he]

theorem put_absent [DecidableEq K] (m : HashMap K V) (key : K) (value : V)
    (h : m.find_key key = none) :
    m.put key value = (value,
      { ({ m with mod_count := m.mod_count + 1, used := m.used + 1 } :
            HashMap K V).ensure_load_threshold (m.used + 1 + 1) with
        map := append_node
          (({ m with mod_count := m.mod_count + 1, used := m.used + 1 } :
            HashMap K V).ensure_load_threshold (m.used + 1 + 1)).map
          ((({ m with mod_count := m.mod_count + 1, used := m.used + 1 } :
            HashMap K V).ensure_load_threshold (m.used + 1 + 1)).hash_compress key)
          (key, value) }) := by
  have h1 : ({ m with mod_count := m.mod_count + 1 } : HashMap K V).find_key key = none := h
  unfold put
  simp only [h1]

end HashMap

namespace HashMap

variable {K V : Type}

theorem valid.map_index_nonneg {m : HashMap K V} (hv : m.valid) (key : K) :
    0 ≤ m.hash_compress key := hash_index_nonneg _ _ _ hv.hash_ok

theorem valid.map_index_lt {m : HashMap K V} (hv : m.valid) (key : K) :
    m.hash_compress key < m.map.length := hv.ok.index_lt key

theorem put_spec [DecidableEq K] (m : HashMap K V) (hv : m.valid) (key : K) (value : V) :
    (m.put key value).2.valid ∧
    (m.put key value).2.hash = m.hash ∧
    (m.put key value).2.thash = m.thash ∧
    (m.put key value).2.load_threshold = m.load_threshold ∧
    (m.put key value).2.mod_count = m.mod_count + 1 ∧
    (m.put key value).2.bins =
      (if (m.lookup key).isSome then m.bins
       else if ((Int.tdiv (m.used + 1 + 1) m.bins : Int) : ℚ) > m.load_threshold then m.bins * 2
       else m.bins) ∧
    (m.put key value).1 = (m.lookup key).getD value ∧
    (m.put key value).2.used = (if (m.lookup key).isSome then m.used else m.used + 1) ∧
    (∀ e, e ∈ (m.put key value).2.map.flatten ↔
      e = (key, value) ∨ (e ∈ m.map.flatten ∧ e.1 ≠ key)) := by
  cases h : m.find_key key with
  | some p =>
    obtain ⟨e, he, hek, hpb, hf⟩ := find_key_some m key p h
    subst hek
    have hl : m.lookup e.1 = some e.2 := by rw [lookup_eq, hf]; rfl
    rw [put_present m e.1 value p e h he, hl]
    have h0 : 0 ≤ p.bin := by rw [hpb]; exact hv.map_index_nonneg e.1
    have h1 : p.bin < m.map.length := by rw [hpb]; exact hv.map_index_lt e.1
    have hget : (bin_chain m.map p.bin).get? p.pos = some e := he
    have hperm : (e :: (set_bin_chain m.map p.bin
        ((bin_chain m.map p.bin).set p.pos (e.1, value))).flatten).Perm
        ((e.1, value) :: m.map.flatten) :=
      set_bin_chain_perm_gen m.map p.bin _ [e] [(e.1, value)] h0 h1
        (set_perm_of_get? _ _ _ _ hget)
    have hem : e ∈ m.map.flatten := ((table_find_eq_some_iff hv.ok e.1 e).1 hf).1
    have hkeys : ((set_bin_chain m.map p.bin
        ((bin_chain m.map p.bin).set p.pos (e.1, value))).flatten.map Prod.fst).Perm
        (m.map.flatten.map Prod.fst) := by
      have := hperm.map Prod.fst
      simp only [List.map_cons] at this
      exact this.cons_inv
    refine ⟨⟨?_, hv.hash_ok, ?_⟩, rfl, rfl, rfl, rfl, rfl, rfl, rfl, ?_⟩
    · refine hv.ok.set_chain p.bin _ ?_ (hkeys.nodup_iff.2 hv.ok.nodup)
      intro x hx
      rcases List.mem_or_eq_of_mem_set hx with h2 | h2
      · exact hv.ok.placed p.bin x h2
      · subst h2
        show hash_index m.hash m.bins e.1 = p.bin
        rw [hpb]; rfl
    · have := hperm.length_eq
      simp only [List.length_cons] at this
      show m.used = ((set_bin_chain m.map p.bin
        ((bin_chain m.map p.bin).set p.pos (e.1, value))).flatten.length : Int)
      rw [hv.counted]
      omega
    · intro y
      exact mem_replace_iff Prod.fst m.map.flatten _ e (e.1, value) hperm rfl hem
        hv.ok.nodup y
  | none =>
    have hf := (find_key_eq_none m key).1 h
    have hl : m.lookup key = none := by rw [lookup_eq, hf]; rfl
    rw [put_absent m key value h, hl]
    obtain ⟨r1, r2, r3, r4, r5, r6, r7, r8⟩ := map_ensure_load_threshold_spec
      ({ m with mod_count := m.mod_count + 1, used := m.used + 1 } : HashMap K V)
      (m.used + 1 + 1) hv.ok hv.hash_ok
    generalize ({ m with mod_count := m.mod_count + 1, used := m.used + 1 } :
      HashMap K V).ensure_load_threshold (m.used + 1 + 1) = m2 at r1 r2 r3 r4 r5 r6 r7 r8
    simp only at r2 r3 r4 r5 r6 r7 r8
    have hh2 : m2.hash.no_int_min := by rw [r3]; exact hv.hash_ok
    have h0 : 0 ≤ m2.hash_compress key := hash_index_nonneg _ _ _ hh2
    have h1 : m2.hash_compress key < m2.map.length := r1.index_lt key
    have hperm := append_node_perm m2.map (m2.hash_compress key) (key, value) h0 h1
    have habs : ∀ x ∈ m.map.flatten, x.1 ≠ key := (table_find_eq_none_iff hv.ok key).1 hf
    have habs2 : ∀ x ∈ m2.map.flatten, x.1 ≠ key := fun x hx => habs x (r2.subset hx)
    refine ⟨⟨?_, hh2, ?_⟩, r3, r4, r7, r6, ?_, rfl, ?_, ?_⟩
    · refine r1.set_chain (m2.hash_compress key) _ ?_ ?_
      · intro x hx
        rcases List.mem_append.1 hx with h2 | h2
        · exact r1.placed _ x h2
        · simp only [List.mem_singleton] at h2
          subst h2; rfl
      · have : ((append_node m2.map (m2.hash_compress key) (key, value)).flatten.map
            Prod.fst).Perm (key :: m2.map.flatten.map Prod.fst) := hperm.map Prod.fst
        refine this.nodup_iff.2 (List.nodup_cons.2 ⟨?_, r1.nodup⟩)
        intro hk
        obtain ⟨x, hx, hxk⟩ := List.mem_map.1 hk
        exact habs2 x hx hxk
    · have e1 := hperm.length_eq
      have e2 := r2.length_eq
      simp only [List.length_cons] at e1
      show m2.used = _
      rw [r5]
      show m.used + 1 = _
      rw [hv.counted, e1, e2]
      push_cast; rfl
    · exact r8
    · show m2.used = _
      rw [r5]; rfl
    · intro y
      constructor
      · intro hy
        rcases List.mem_cons.1 (hperm.subset hy) with h2 | h2
        · exact Or.inl h2
        · exact Or.inr ⟨r2.subset h2, habs2 y h2⟩
      · rintro (rfl | ⟨h2, _⟩)
        · exact hperm.symm.subset (List.mem_cons_self _ _)
        · exact hperm.symm.subset (List.mem_cons_of_mem _ (r2.symm.subset h2))

end HashMap

namespace HashMap

variable {K V : Type}

theorem erase_absent [DecidableEq K] (m : HashMap K V) (key : K) (h : m.lookup key = none) :
    m.erase key = (.error .KeyError, m) := by
  have h1 : m.find_key key = none := by
    rw [find_key_eq_none]
    rw [lookup_eq, Option.map_eq_none'] at h
    exact h
  unfold erase
  rw [h1]

theorem erase_present [DecidableEq K] (m : HashMap K V) (hv : m.valid) (key : K) (v : V)
    (h : m.lookup key = some v) :
    ∃ m1 : HashMap K V, m.erase key = (.ok v, m1) ∧ m1.valid ∧
      m1.hash = m.hash ∧ m1.thash = m.thash ∧ m1.load_threshold = m.load_threshold ∧
      m1.bins = m.bins ∧ m1.used = m.used - 1 ∧ m1.mod_count = m.mod_count + 1 ∧
      ((key, v) :: m1.map.flatten).Perm m.map.flatten ∧
      (∀ e, e ∈ m1.map.flatten ↔ e ∈ m.map.flatten ∧ e.1 ≠ key) := by
  rw [lookup_eq, Option.map_eq_some'] at h
  obtain ⟨e, hf, rfl⟩ := h
  have hek : e.1 = key := ((table_find_eq_some_iff hv.ok key e).1 hf).2
  subst hek
  cases h1 : m.find_key e.1 with
  | none => rw [(find_key_eq_none m e.1).1 h1] at hf; exact absurd hf (by simp)
  | some p =>
    cases hr : chain_remove Prod.fst e.1 (bin_chain m.map (m.hash_compress e.1)) with
    | none =>
      rw [chain_remove_eq_none] at hr
      have := List.mem_of_find?_eq_some hf
      exact absurd rfl (hr e this)
    | some r =>
      obtain ⟨d, c⟩ := r
      obtain ⟨_, h3, h4⟩ := chain_remove_some _ _ _ _ _ hr
      have hde : d = e := by
        have : some d = some e := h3.symm.trans hf
        exact Option.some.inj this
      subst hde
      have h0 := hv.map_index_nonneg d.1
      have hlt := hv.map_index_lt d.1
      have hperm : (d :: (set_bin_chain m.map (m.hash_compress d.1) c).flatten).Perm
          m.map.flatten :=
        set_bin_chain_perm_gen m.map (m.hash_compress d.1) c [d] [] h0 hlt
          (by simpa using h4.symm)
      refine ⟨{ m with
        used := m.used - 1
        mod_count := m.mod_count + 1
        map := set_bin_chain m.map (m.hash_compress d.1) c }, ?_, ⟨?_, hv.hash_ok, ?_⟩,
        rfl, rfl, rfl, rfl, rfl, rfl, hperm, ?_⟩
      · unfold erase
        simp only [h1, hr]
      · refine hv.ok.set_chain _ c ?_ ?_
        · intro x hx
          exact hv.ok.placed _ x (h4.symm.subset (List.mem_cons_of_mem _ hx))
        · have := (hperm.map Prod.fst).nodup_iff.2 hv.ok.nodup
          exact (List.nodup_cons.1 this).2
      · have := hperm.length_eq
        simp only [List.length_cons] at this
        show m.used - 1 = ((set_bin_chain m.map (m.hash_compress d.1) c).flatten.length : Int)
        rw [hv.counted]
        omega
      · intro y
        exact mem_remove_iff Prod.fst m.map.flatten _ d hperm hv.ok.nodup y

theorem operator_index_spec [DecidableEq K] [Inhabited V] (m : HashMap K V) (hv : m.valid)
    (key : K) :
    (m.operator_index key).2.valid ∧
    (m.operator_index key).2.hash = m.hash ∧
    (m.operator_index key).2.thash = m.thash ∧
    (m.operator_index key).2.load_threshold = m.load_threshold ∧
    (m.operator_index key).2.mod_count =
      (if (m.lookup key).isSome then m.mod_count else m.mod_count + 1) ∧
    (m.operator_index key).2.bins =
      (if (m.lookup key).isSome then m.bins
       else if ((Int.tdiv (m.used + 1) m.bins : Int) : ℚ) > m.load_threshold then m.bins * 2
       else m.bins) ∧
    (m.operator_index key).2.used = (if (m.lookup key).isSome then m.used else m.used + 1) ∧
    ((m.lookup key).isSome → (m.operator_index key).2 = m) ∧
    (∀ e, e ∈ (m.operator_index key).2.map.flatten ↔
      e ∈ m.map.flatten ∨ (m.lookup key = none ∧ e = (key, default))) := by
  cases h : m.find_key key with
  | some p =>
    obtain ⟨e, he, hek, hpb, hf⟩ := find_key_some m key p h
    have hl : m.lookup key = some e.2 := by rw [lookup_eq, hf]; rfl
    have e1 : m.operator_index key = (p, m) := by
      unfold operator_index
      rw [h]
    rw [e1, hl]
    refine ⟨hv, rfl, rfl, rfl, rfl, rfl, rfl, fun _ => rfl, ?_⟩
    intro y
    simp
  | none =>
    have hf := (find_key_eq_none m key).1 h
    have hl : m.lookup key = none := by rw [lookup_eq, hf]; rfl
    obtain ⟨r1, r2, r3, r4, r5, r6, r7, r8⟩ :=
      map_ensure_load_threshold_spec m (m.used + 1) hv.ok hv.hash_ok
    have e1 : m.operator_index key =
        (⟨hash_index (m.ensure_load_threshold (m.used + 1)).hash
            (m.ensure_load_threshold (m.used + 1)).bins key,
          (bin_chain (m.ensure_load_threshold (m.used + 1)).map
            (hash_index (m.ensure_load_threshold (m.used + 1)).hash
              (m.ensure_load_threshold (m.used + 1)).bins key)).length⟩,
         { m.ensure_load_threshold (m.used + 1) with
           used := (m.ensure_load_threshold (m.used + 1)).used + 1
           mod_count := (m.ensure_load_threshold (m.used + 1)).mod_count + 1
           map := append_node (m.ensure_load_threshold (m.used + 1)).map
             (hash_index (m.ensure_load_threshold (m.used + 1)).hash
               (m.ensure_load_threshold (m.used + 1)).bins key) (key, default) }) := by
      unfold operator_index
      rw [h]
      rfl
    rw [e1, hl]
    generalize m.ensure_load_threshold (m.used + 1) = m2 at r1 r2 r3 r4 r5 r6 r7 r8
    have hh2 : m2.hash.no_int_min := by rw [r3]; exact hv.hash_ok
    have h0 : 0 ≤ hash_index m2.hash m2.bins key := hash_index_nonneg _ _ _ hh2
    have h1 : hash_index m2.hash m2.bins key < m2.map.length := r1.index_lt key
    have hperm := append_node_perm m2.map (hash_index m2.hash m2.bins key) (key, default) h0 h1
    have habs : ∀ x ∈ m.map.flatten, x.1 ≠ key := (table_find_eq_none_iff hv.ok key).1 hf
    have habs2 : ∀ x ∈ m2.map.flatten, x.1 ≠ key := fun x hx => habs x (r2.subset hx)
    refine ⟨⟨?_, hh2, ?_⟩, r3, r4, r7, ?_, r8, ?_, ?_, ?_⟩
    · refine r1.set_chain (hash_index m2.hash m2.bins key) _ ?_ ?_
      · intro x hx
        rcases List.mem_append.1 hx with h2 | h2
        · exact r1.placed _ x h2
        · simp only [List.mem_singleton] at h2
          subst h2; rfl
      · have : ((append_node m2.map (hash_index m2.hash m2.bins key) (key, default)).flatten.map
            Prod.fst).Perm (key :: m2.map.flatten.map Prod.fst) := hperm.map Prod.fst
        refine this.nodup_iff.2 (List.nodup_cons.2 ⟨?_, r1.nodup⟩)
        intro hk
        obtain ⟨x, hx, hxk⟩ := List.mem_map.1 hk
        exact habs2 x hx hxk
    · have e1 := hperm.length_eq
      have e2 := r2.length_eq
      simp only [List.length_cons] at e1
      show m2.used + 1 = _
      rw [r5, hv.counted, e1, e2]
      push_cast; rfl
    · show m2.mod_count + 1 = _
      rw [r6]; rfl
    · show m2.used + 1 = _
      rw [r5]; rfl
    · intro hc; simp at hc
    · intro y
      constructor
      · intro hy
        rcases List.mem_cons.1 (hperm.subset hy) with h2 | h2
        · exact Or.inr ⟨rfl, h2⟩
        · exact Or.inl (r2.subset h2)
      · rintro (h2 | ⟨_, rfl⟩)
        · exact hperm.symm.subset (List.mem_cons_of_mem _ (r2.symm.subset h2))
        · exact hperm.symm.subset (List.mem_cons_self _ _)

end HashMap

section table_lemmas4
variable {α K : Type}

theorem bin_chain_in_range (t : List (List α)) (i : Int) (h : bin_chain t i ≠ []) :
    0 ≤ i ∧ i < t.length := by
  by_cases h0 : 0 ≤ i
  · refine ⟨h0, ?_⟩
    by_contra h1
    exact h (bin_chain_of_length_le t i (by omega))
  · exact absurd (bin_chain_of_neg t i (by omega)) h

theorem flatten_eq_nil_of_chains (t : List (List α)) (h : ∀ j : Int, bin_chain t j = []) :
    t.flatten = [] := by
  apply List.eq_nil_iff_forall_not_mem.2
  intro e he
  obtain ⟨i, hi⟩ := (mem_flatten_iff t e).1 he
  rw [h i] at hi
  simp at hi

theorem clear_fold (t : List (List α)) (n : Nat) (hn : n ≤ t.length) :
    ((List.range n).foldl (fun t (i : Nat) => set_bin_chain t (i : Int) []) t).length
      = t.length ∧
    ∀ j : Int, bin_chain
      ((List.range n).foldl (fun t (i : Nat) => set_bin_chain t (i : Int) []) t) j =
        if 0 ≤ j ∧ j < n then [] else bin_chain t j := by
  induction n with
  | zero =>
    refine ⟨rfl, fun j => ?_⟩
    have : ¬ (0 ≤ j ∧ j < ((0 : Nat) : Int)) := by omega
    simp only [List.range_zero, List.foldl_nil, this, if_false]
  | succ n ih =>
    obtain ⟨h1, h2⟩ := ih (by omega)
    rw [List.range_succ, List.foldl_append]
    simp only [List.foldl_cons, List.foldl_nil]
    refine ⟨by rw [length_set_bin_chain, h1], fun j => ?_⟩
    by_cases hj : j = (n : Int)
    · subst hj
      rw [bin_chain_set_same _ _ _ (by omega) (by rw [h1]; omega)]
      have : (0 : Int) ≤ (n : Int) ∧ (n : Int) < ((n + 1 : Nat) : Int) := by omega
      simp only [this, and_self, if_true]
    · rw [bin_chain_set_other _ _ _ _ hj, h2 j]
      by_cases hc : 0 ≤ j ∧ j < (n : Int)
      · have : 0 ≤ j ∧ j < ((n + 1 : Nat) : Int) := by omega
        simp only [hc, this, and_self, if_true]
      · have : ¬ (0 ≤ j ∧ j < ((n + 1 : Nat) : Int)) := by omega
        simp only [hc, this, if_false]

theorem clear_all_spec (t : List (List α)) (bins : Int) (h : (t.length : Int) = bins) :
    (clear_all t bins).length = t.length ∧ (clear_all t bins).flatten = [] := by
  have hl : bins.toNat = t.length := by omega
  obtain ⟨h1, h2⟩ := clear_fold t bins.toNat (by omega)
  refine ⟨h1, flatten_eq_nil_of_chains _ (fun j => ?_)⟩
  unfold clear_all
  rw [h2 j]
  split
  · rfl
  · rename_i hc
    by_cases h0 : 0 ≤ j
    · exact bin_chain_of_length_le t j (by omega)
    · exact bin_chain_of_neg t j (by omega)

theorem chain_retain_spec (keep : α → Bool) (c : List α) :
    (chain_retain keep c).2 = c.filter keep ∧
    (chain_retain keep c).1 + ((c.filter keep).length : Int) = (c.length : Int) := by
  induction c with
  | nil => simp [chain_retain]
  | cons e rest ih =>
    obtain ⟨h1, h2⟩ := ih
    by_cases hk : keep e = true
    · simp only [chain_retain, hk, Bool.not_true, Bool.false_eq_true, if_false, List.filter_cons_of_pos,
        List.length_cons, h1]
      refine ⟨trivial, ?_⟩
      push_cast
      omega
    · have hk1 : keep e = false := by simpa using hk
      simp only [chain_retain, hk1, Bool.not_false, if_true, List.length_cons]
      rw [List.filter_cons_of_neg (by simp [hk1])]
      refine ⟨h1, ?_⟩
      push_cast
      omega

theorem retain_fold (keep : α → Bool) (t : List (List α)) (n : Nat) (hn : n ≤ t.length) :
    ((List.range n).foldl
      (fun (acc : Int × List (List α)) (i : Nat) =>
        let r := chain_retain keep (bin_chain acc.2 (i : Int))
        (acc.1 + r.1, set_bin_chain acc.2 (i : Int) r.2)) (0, t)).2.length = t.length ∧
    (∀ j : Int, bin_chain ((List.range n).foldl
      (fun (acc : Int × List (List α)) (i : Nat) =>
        let r := chain_retain keep (bin_chain acc.2 (i : Int))
        (acc.1 + r.1, set_bin_chain acc.2 (i : Int) r.2)) (0, t)).2 j =
        if 0 ≤ j ∧ j < n then (bin_chain t j).filter keep else bin_chain t j) ∧
    ((List.range n).foldl
      (fun (acc : Int × List (List α)) (i : Nat) =>
        let r := chain_retain keep (bin_chain acc.2 (i : Int))
        (acc.1 + r.1, set_bin_chain acc.2 (i : Int) r.2)) (0, t)).1 +
      (((List.range n).foldl
      (fun (acc : Int × List (List α)) (i : Nat) =>
        let r := chain_retain keep (bin_chain acc.2 (i : Int))
        (acc.1 + r.1, set_bin_chain acc.2 (i : Int) r.2)) (0, t)).2.flatten.length : Int)
      = (t.flatten.length : Int) := by
  induction n with
  | zero =>
    refine ⟨rfl, fun j => ?_, by simp⟩
    have : ¬ (0 ≤ j ∧ j < ((0 : Nat) : Int)) := by omega
    simp only [List.range_zero, List.foldl_nil, this, if_false]
  | succ n ih =>
    obtain ⟨h1, h2, h3⟩ := ih (by omega)
    rw [List.range_succ, List.foldl_append]
    simp only [List.foldl_cons, List.foldl_nil]
    generalize (List.range n).foldl
      (fun (acc : Int × List (List α)) (i : Nat) =>
        let r := chain_retain keep (bin_chain acc.2 (i : Int))
        (acc.1 + r.1, set_bin_chain acc.2 (i : Int) r.2)) (0, t) = acc at h1 h2 h3
    have hn0 : (0 : Int) ≤ (n : Int) := by omega
    have hn1 : (n : Int) < acc.2.length := by rw [h1]; omega
    obtain ⟨c1, c2⟩ := chain_retain_spec keep (bin_chain acc.2 (n : Int))
    refine ⟨by rw [length_set_bin_chain, h1], fun j => ?_, ?_⟩
    · by_cases hj : j = (n : Int)
      · subst hj
        rw [bin_chain_set_same _ _ _ hn0 hn1, c1, h2]
        have e1 : ¬ ((0 : Int) ≤ (n : Int) ∧ (n : Int) < (n : Int)) := by omega
        have e2 : (0 : Int) ≤ (n : Int) ∧ (n : Int) < ((n + 1 : Nat) : Int) := by omega
        rw [if_neg e1, if_pos e2]
      · rw [bin_chain_set_other _ _ _ _ hj, h2 j]
        by_cases hc : 0 ≤ j ∧ j < (n : Int)
        · have : 0 ≤ j ∧ j < ((n + 1 : Nat) : Int) := by omega
          simp only [hc, this, and_self, if_true]
        · have : ¬ (0 ≤ j ∧ j < ((n + 1 : Nat) : Int)) := by omega
          simp only [hc, this, if_false]
    · have hp := (set_bin_chain_perm acc.2 (n : Int)
        (chain_retain keep (bin_chain acc.2 (n : Int))).2 hn0 hn1).length_eq
      simp only [List.length_append] at hp
      rw [c1] at hp
      rw [c1]
      have hp1 : (((set_bin_chain acc.2 (n : Int) ((bin_chain acc.2 (n : Int)).filter keep)).flatten.length : Int))
          + ((bin_chain acc.2 (n : Int)).length : Int)
          = (acc.2.flatten.length : Int) + (((bin_chain acc.2 (n : Int)).filter keep).length : Int) := by
        exact_mod_cast hp
      omega

theorem retain_bins_spec (keep : α → Bool) (t : List (List α)) (bins : Int)
    (h : (t.length : Int) = bins) :
    (retain_bins keep t bins).2.length = t.length ∧
    (∀ j : Int, bin_chain (retain_bins keep t bins).2 j = (bin_chain t j).filter keep) ∧
    (retain_bins keep t bins).1 + ((retain_bins keep t bins).2.flatten.length : Int)
      = (t.flatten.length : Int) := by
  have hl : bins.toNat = t.length := by omega
  obtain ⟨h1, h2, h3⟩ := retain_fold keep t bins.toNat (by omega)
  refine ⟨h1, fun j => ?_, h3⟩
  unfold retain_bins
  rw [h2 j]
  split
  · rfl
  · by_cases h0 : 0 ≤ j
    · rw [bin_chain_of_length_le t j (by omega)]; rfl
    · rw [bin_chain_of_neg t j (by omega)]; rfl

theorem retain_bins_mem (keep : α → Bool) (t : List (List α)) (bins : Int)
    (h : (t.length : Int) = bins) (e : α) :
    e ∈ (retain_bins keep t bins).2.flatten ↔ e ∈ t.flatten ∧ keep e = true := by
  obtain ⟨_, h2, _⟩ := retain_bins_spec keep t bins h
  rw [mem_flatten_iff, mem_flatten_iff]
  constructor
  · rintro ⟨i, hi⟩
    rw [h2 i] at hi
    exact ⟨⟨i, (List.mem_filter.1 hi).1⟩, (List.mem_filter.1 hi).2⟩
  · rintro ⟨⟨i, hi⟩, hk⟩
    exact ⟨i, by rw [h2 i]; exact List.mem_filter.2 ⟨hi, hk⟩⟩

theorem retain_bins_sublist (keep : α → Bool) (t : List (List α)) (bins : Int)
    (h : (t.length : Int) = bins) :
    (retain_bins keep t bins).2 = t.map (List.filter keep) := by
  obtain ⟨h1, h2, _⟩ := retain_bins_spec keep t bins h
  apply List.ext_getElem
  · rw [h1, List.length_map]
  · intro n hn1 hn2
    have := h2 (n : Int)
    rw [bin_chain_natCast, bin_chain_natCast, List.getD_eq_getElem _ _ hn1,
      List.getD_eq_getElem _ _ (by simpa using hn2)] at this
    rw [this, List.getElem_map]

end table_lemmas4

section iteration
variable {α K : Type}

theorem scan_bins_spec (t : List (List α)) (n i : Nat) (h : i + n = t.length) :
    cursor_at t (scan_bins t (i : Int) n) (t.drop i).flatten := by
  induction n generalizing i with
  | zero =>
    left
    have : t.drop i = [] := List.drop_eq_nil_of_le (by omega)
    simp [scan_bins, this]
  | succ n ih =>
    have hi : i < t.length := by omega
    have hd : t.drop i = t[i] :: t.drop (i + 1) := List.drop_eq_getElem_cons hi
    have hc : bin_chain t (i : Int) = t[i] := by
      rw [bin_chain_natCast, List.getD_eq_getElem _ _ hi]
    unfold scan_bins
    rw [hc]
    cases hci : t[i] with
    | nil =>
      simp only [List.isEmpty_nil, if_true]
      have := ih (i + 1) (by omega)
      rw [hd, hci]
      simpa using this
    | cons x xs =>
      simp only [List.isEmpty_cons, Bool.false_eq_true, if_false]
      right
      refine ⟨i, 0, hi, ?_, rfl, ?_⟩
      · rw [List.getD_eq_getElem _ _ hi, hci]; simp
      · rw [hd, List.getD_eq_getElem _ _ hi, hci]; simp

theorem advance_spec (t : List (List α)) (bins : Int) (hb : (t.length : Int) = bins)
    (j pos : Nat) (hj : j < t.length) (hpos : pos < (t.getD j []).length) :
    ∃ x L, (bin_chain t (j : Int)).get? pos = some x ∧
      (t.getD j []).drop pos ++ (t.drop (j + 1)).flatten = x :: L ∧
      cursor_at t (advance_cursors t bins ((j : Int), some ⟨(j : Int), pos⟩)) L := by
  have hc : bin_chain t (j : Int) = t.getD j [] := bin_chain_natCast t j
  refine ⟨(t.getD j [])[pos], (t.getD j []).drop (pos + 1) ++ (t.drop (j + 1)).flatten, ?_, ?_, ?_⟩
  · rw [hc, List.get?_eq_getElem?, List.getElem?_eq_getElem hpos]
  · rw [List.drop_eq_getElem_cons hpos]; rfl
  · unfold advance_cursors
    simp only [hc]
    by_cases h1 : pos + 1 < (t.getD j []).length
    · simp only [h1, if_true]
      right
      exact ⟨j, pos + 1, hj, h1, rfl, rfl⟩
    · simp only [h1, if_false]
      have h2 : (t.getD j []).drop (pos + 1) = [] := List.drop_eq_nil_of_le (by omega)
      rw [h2, List.nil_append]
      have h3 : (bins - ((j : Int) + 1)).toNat = t.length - (j + 1) := by omega
      rw [h3]
      have := scan_bins_spec t (t.length - (j + 1)) (j + 1) (by omega)
      simpa using this

theorem create_begin_spec (t : List (List α)) (bins mod_count : Int)
    (hb : (t.length : Int) = bins) :
    (Iterator.create t bins mod_count true).expected_mod_count = mod_count ∧
    (Iterator.create t bins mod_count true).can_erase = true ∧
    cursor_at t (Iterator.create t bins mod_count true).current t.flatten := by
  refine ⟨rfl, rfl, ?_⟩
  have h3 : (bins - ((-1 : Int) + 1)).toNat = t.length := by omega
  have := scan_bins_spec t t.length 0 (by omega)
  simp only [Iterator.create, advance_cursors, if_true, h3]
  simpa using this

theorem cursor_at_nil (t : List (List α)) (cur : Cursor) (h : cursor_at t cur []) :
    cur = (-1, none) := by
  rcases h with ⟨h, _⟩ | ⟨j, pos, _, hpos, _, hL⟩
  · exact h
  · have : ((t.getD j []).drop pos).length = 0 := by
      have := congrArg List.length hL
      simp only [List.length_nil, List.length_append] at this
      omega
    simp only [List.length_drop] at this
    omega

theorem cursor_at_cons (t : List (List α)) (cur : Cursor) (x : α) (L : List α)
    (h : cursor_at t cur (x :: L)) :
    ∃ j pos : Nat, j < t.length ∧ pos < (t.getD j []).length ∧
      cur = ((j : Int), some ⟨(j : Int), pos⟩) ∧
      x :: L = (t.getD j []).drop pos ++ (t.drop (j + 1)).flatten := by
  rcases h with ⟨_, h⟩ | h
  · exact absurd h (by simp)
  · exact h

theorem iterate_spec (t : List (List α)) (bins mod_count : Int)
    (hb : (t.length : Int) = bins) (L : List α) :
    ∀ (cur : Cursor) (fuel : Nat), cursor_at t cur L →
      iterate t bins mod_count fuel
        { current := cur, expected_mod_count := mod_count, can_erase := true } =
        if L.length < fuel then some (.ok L) else none := by
  induction L with
  | nil =>
    intro cur fuel h
    have hc := cursor_at_nil t cur h
    subst hc
    cases fuel with
    | zero => rfl
    | succ fuel =>
      simp [iterate, Iterator.differs, Iterator.create]
  | cons x L ih =>
    intro cur fuel h
    obtain ⟨j, pos, hj, hpos, hcur, hL⟩ := cursor_at_cons t cur x L h
    subst hcur
    cases fuel with
    | zero => rfl
    | succ fuel =>
      obtain ⟨x1, L1, h1, h2, h3⟩ := advance_spec t bins hb j pos hj hpos
      rw [← hL] at h2
      obtain ⟨rfl, rfl⟩ := List.cons.inj h2
      have hn : node_value t ⟨(j : Int), pos⟩ = some x := h1
      have := ih _ fuel h3
      simp only [iterate, Iterator.differs, Iterator.create, Iterator.dereference,
        Iterator.increment, hn, ne_eq, not_true_eq_false, if_false, Bool.not_true,
        Bool.true_or, if_true, this, List.length_cons, Nat.add_lt_add_iff_right,
        Bool.false_eq_true, reduceCtorEq, not_false_eq_true, decide_True]
      split <;> rfl

end iteration

section scan
variable {α K : Type}

theorem scan_all_eq_none [DecidableEq K] (κ : α → K) (key : K) (t : List (List α))
    (n : Nat) (i : Int) :
    scan_all κ key t i n = none ↔
      ∀ j : Int, i ≤ j → j < i + n → ∀ e ∈ bin_chain t j, κ e ≠ key := by
  induction n generalizing i with
  | zero =>
    simp only [scan_all, true_iff]
    intro j h1 h2
    omega
  | succ n ih =>
    unfold scan_all
    cases hc : chain_find κ key (bin_chain t i) with
    | some pos =>
      simp only [false_iff, reduceCtorEq]
      intro h
      have := (chain_find_eq_none κ key _).2 (h i (le_refl _) (by push_cast; omega))
      rw [hc] at this
      exact absurd this (by simp)
    | none =>
      simp only
      rw [ih (i + 1)]
      rw [chain_find_eq_none] at hc
      constructor
      · intro h j h1 h2
        by_cases hj : j = i
        · subst hj; exact hc
        · exact h j (by omega) (by push_cast at h2; omega)
      · intro h j h1 h2
        exact h j (by omega) (by push_cast; omega)

theorem scan_all_some [DecidableEq K] (κ : α → K) (key : K) (t : List (List α))
    (n : Nat) (i : Int) (p : LN_ptr) (h : scan_all κ key t i n = some p) :
    ∃ e, node_value t p = some e ∧ κ e = key := by
  induction n generalizing i with
  | zero => simp [scan_all] at h
  | succ n ih =>
    unfold scan_all at h
    cases hc : chain_find κ key (bin_chain t i) with
    | some pos =>
      rw [hc] at h
      simp only [Option.some.injEq] at h
      subst h
      exact chain_find_some κ key _ pos hc
    | none =>
      rw [hc] at h
      exact ih (i + 1) h

theorem scan_all_isSome_iff [DecidableEq K] (κ : α → K) (key : K) (t : List (List α))
    (bins : Int) (hb : (t.length : Int) = bins) :
    (scan_all κ key t 0 bins.toNat).isSome = true ↔ ∃ e ∈ t.flatten, κ e = key := by
  rw [← Option.ne_none_iff_isSome, Ne, scan_all_eq_none]
  constructor
  · intro h
    by_contra hc
    apply h
    intro j _ _ e he hk
    exact hc ⟨e, (mem_flatten_iff t e).2 ⟨j, he⟩, hk⟩
  · rintro ⟨e, he, hk⟩ h
    obtain ⟨j, hj⟩ := (mem_flatten_iff t e).1 he
    have hr := bin_chain_in_range t j (List.ne_nil_of_mem hj)
    exact h j hr.1 (by omega) e hj hk

theorem erase_node_spec (t : List (List α)) (mod_count : Int) (it : Iterator) (x : α)
    (t1 : List (List α)) (it1 : Iterator)
    (h : Iterator.erase_node t mod_count it = .ok (x, t1, it1)) :
    it.expected_mod_count = mod_count ∧ it.can_erase = true ∧
    it1 = { it with can_erase := false, expected_mod_count := mod_count + 1 } ∧
    ∃ p, it.current.2 = some p ∧ node_value t p = some x ∧
      t1 = set_bin_chain t p.bin (chain_skip (bin_chain t p.bin) p.pos) ∧
      (x :: t1.flatten).Perm t.flatten := by
  unfold Iterator.erase_node at h
  by_cases h1 : it.expected_mod_count = mod_count
  · cases h2 : it.can_erase with
    | false => simp [h1, h2] at h
    | true =>
      cases h3 : it.current.2 with
      | none => simp [h1, h2, h3] at h
      | some p =>
        cases h4 : node_value t p with
        | none => simp [h1, h2, h3, h4] at h
        | some y =>
          simp only [h1, h2, h3, h4, ne_eq, not_true_eq_false, if_false, Bool.not_true,
            Bool.false_eq_true, Except.ok.injEq, Prod.mk.injEq] at h
          obtain ⟨rfl, rfl, rfl⟩ := h
          refine ⟨h1, rfl, rfl, p, rfl, h4, rfl, ?_⟩
          have hne : bin_chain t p.bin ≠ [] := by
            intro hc
            unfold node_value at h4
            rw [hc] at h4
            simp at h4
          obtain ⟨r0, r1⟩ := bin_chain_in_range t p.bin hne
          exact set_bin_chain_perm_gen t p.bin _ [y] [] r0 r1
            (by simpa [chain_skip] using eraseIdx_perm_of_get? _ _ _ h4)
  · simp [h1] at h

end scan

namespace HashSet

variable {T : Type}

theorem contains_iff [DecidableEq T] (s : HashSet T) (hl : (s.set.length : Int) = s.bins)
    (e : T) : s.contains e = true ↔ e ∈ s.set.flatten := by
  unfold contains find_element
  rw [scan_all_isSome_iff id e s.set s.bins hl]
  simp

theorem contains_eq_false_iff [DecidableEq T] (s : HashSet T)
    (hl : (s.set.length : Int) = s.bins) (e : T) :
    s.contains e = false ↔ e ∉ s.set.flatten := by
  rw [← contains_iff s hl e]
  simp

theorem valid.set_index_nonneg {s : HashSet T} (hv : s.valid) (e : T) :
    0 ≤ s.hash_compress e := hash_index_nonneg _ _ _ hv.hash_ok

theorem valid.set_index_lt {s : HashSet T} (hv : s.valid) (e : T) :
    s.hash_compress e < s.set.length := hv.ok.index_lt e

theorem set_ensure_load_threshold_spec (s : HashSet T) (new_used : Int)
    (ok : table_ok id s.hash s.bins s.set) (hh : s.hash.no_int_min) :
    table_ok id (s.ensure_load_threshold new_used).hash
      (s.ensure_load_threshold new_used).bins (s.ensure_load_threshold new_used).set ∧
    (s.ensure_load_threshold new_used).set.flatten.Perm s.set.flatten ∧
    (s.ensure_load_threshold new_used).hash = s.hash ∧
    (s.ensure_load_threshold new_used).thash = s.thash ∧
    (s.ensure_load_threshold new_used).used = s.used ∧
    (s.ensure_load_threshold new_used).mod_count = s.mod_count ∧
    (s.ensure_load_threshold new_used).load_threshold = s.load_threshold ∧
    (s.ensure_load_threshold new_used).bins =
      (if ((Int.tdiv new_used s.bins : Int) : ℚ) > s.load_threshold then s.bins * 2
       else s.bins) := by
  by_cases h : ((Int.tdiv new_used s.bins : Int) : ℚ) > s.load_threshold
  · have e : s.ensure_load_threshold new_used =
        { s with
          bins := s.bins * 2
          set := rehash_all (fun e => hash_index s.hash (s.bins * 2) e) s.set s.bins
            (List.replicate (s.bins * 2).toNat []) } := by
      unfold ensure_load_threshold
      rw [if_pos h]
    obtain ⟨h1, h2⟩ := rehash_all_ok id s.hash s.bins s.set ok hh
    rw [e, if_pos h]
    exact ⟨h1, h2, rfl, rfl, rfl, rfl, rfl, rfl⟩
  · have e : s.ensure_load_threshold new_used = s := by
      unfold ensure_load_threshold
      rw [if_neg h]
    rw [e, if_neg h]
    exact ⟨ok, List.Perm.refl _, rfl, rfl, rfl, rfl, rfl, rfl⟩

theorem insert_present [DecidableEq T] (s : HashSet T) (e : T) (h : s.contains e = true) :
    s.insert e = (0, s) := by
  unfold insert
  rw [if_pos h]

theorem insert_spec [DecidableEq T] (s : HashSet T) (hv : s.valid) (e : T) :
    (s.insert e).2.valid ∧
    (s.insert e).2.hash = s.hash ∧
    (s.insert e).2.thash = s.thash ∧
    (s.insert e).2.load_threshold = s.load_threshold ∧
    (s.insert e).1 = (if s.contains e then 0 else 1) ∧
    (s.insert e).2.mod_count = s.mod_count + (s.insert e).1 ∧
    (s.insert e).2.used = s.used + (s.insert e).1 ∧
    (s.insert e).2.bins =
      (if s.contains e then s.bins
       else if ((Int.tdiv (s.used + 1) s.bins : Int) : ℚ) > s.load_threshold then s.bins * 2
       else s.bins) ∧
    (∀ x, x ∈ (s.insert e).2.set.flatten ↔ x = e ∨ x ∈ s.set.flatten) := by
  cases h : s.contains e with
  | true =>
    rw [insert_present s e h]
    have hm := (contains_iff s hv.ok.length_eq e).1 h
    refine ⟨hv, rfl, rfl, rfl, rfl, by simp, by simp, rfl, fun x => ?_⟩
    constructor
    · exact fun hx => Or.inr hx
    · rintro (rfl | hx)
      · exact hm
      · exact hx
  | false =>
    have hm := (contains_eq_false_iff s hv.ok.length_eq e).1 h
    obtain ⟨r1, r2, r3, r4, r5, r6, r7, r8⟩ :=
      set_ensure_load_threshold_spec s (s.used + 1) hv.ok hv.hash_ok
    have e1 : s.insert e = (1,
        { s.ensure_load_threshold (s.used + 1) with
          mod_count := (s.ensure_load_threshold (s.used + 1)).mod_count + 1
          used := (s.ensure_load_threshold (s.used + 1)).used + 1
          set := append_node (s.ensure_load_threshold (s.used + 1)).set
            (hash_index (s.ensure_load_threshold (s.used + 1)).hash
              (s.ensure_load_threshold (s.used + 1)).bins e) e }) := by
      unfold insert
      rw [h]
      rfl
    rw [e1]
    generalize s.ensure_load_threshold (s.used + 1) = s2 at r1 r2 r3 r4 r5 r6 r7 r8
    have hh2 : s2.hash.no_int_min := by rw [r3]; exact hv.hash_ok
    have h0 : 0 ≤ hash_index s2.hash s2.bins e := hash_index_nonneg _ _ _ hh2
    have h1 : hash_index s2.hash s2.bins e < s2.set.length := r1.index_lt e
    have hperm := append_node_perm s2.set (hash_index s2.hash s2.bins e) e h0 h1
    have hm2 : e ∉ s2.set.flatten := fun hx => hm (r2.subset hx)
    refine ⟨⟨?_, hh2, ?_, ?_⟩, r3, r4, r7, rfl, ?_, ?_, r8, ?_⟩
    · refine r1.set_chain (hash_index s2.hash s2.bins e) _ ?_ ?_
      · intro x hx
        rcases List.mem_append.1 hx with h2 | h2
        · exact r1.placed _ x h2
        · simp only [List.mem_singleton] at h2
          subst h2; rfl
      · have : ((append_node s2.set (hash_index s2.hash s2.bins e) e).flatten.map id).Perm
            (e :: s2.set.flatten.map id) := hperm.map id
        refine this.nodup_iff.2 (List.nodup_cons.2 ⟨?_, r1.nodup⟩)
        simpa using hm2
    · intro ht
      show s2.hash = s2.thash
      rw [r3, r4]
      exact hv.bound (by rw [← r4]; exact ht)
    · have e1 := hperm.length_eq
      have e2 := r2.length_eq
      simp only [List.length_cons] at e1
      show s2.used + 1 = _
      rw [r5, hv.counted, e1, e2]
      push_cast; rfl
    · show s2.mod_count + 1 = _
      rw [r6]
    · show s2.used + 1 = _
      rw [r5]
    · intro y
      constructor
      · intro hy
        rcases List.mem_cons.1 (hperm.subset hy) with h2 | h2
        · exact Or.inl h2
        · exact Or.inr (r2.subset h2)
      · rintro (rfl | h2)
        · exact hperm.symm.subset (List.mem_cons_self _ _)
        · exact hperm.symm.subset (List.mem_cons_of_mem _ (r2.symm.subset h2))

end HashSet

namespace HashSet

variable {T : Type}

theorem erase_spec [DecidableEq T] (s : HashSet T) (hv : s.valid) (e : T) :
    ∃ s1 : HashSet T, s.erase e = (.ok (if s.contains e then 1 else 0), s1) ∧ s1.valid ∧
      s1.hash = s.hash ∧ s1.thash = s.thash ∧ s1.load_threshold = s.load_threshold ∧
      s1.bins = s.bins ∧
      (s.contains e = false → s1 = s) ∧
      s1.used = s.used - (if s.contains e then 1 else 0) ∧
      s1.mod_count = s.mod_count + (if s.contains e then 1 else 0) ∧
      (∀ x, x ∈ s1.set.flatten ↔ x ∈ s.set.flatten ∧ x ≠ e) := by
  cases hc : s.contains e with
  | false =>
    have hm := (contains_eq_false_iff s hv.ok.length_eq e).1 hc
    have hf : s.find_element e = none := by
      unfold contains at hc
      cases h : s.find_element e with
      | none => rfl
      | some p => rw [h] at hc; simp at hc
    refine ⟨s, ?_, hv, rfl, rfl, rfl, rfl, fun _ => rfl, by simp, by simp, fun x => ?_⟩
    · unfold erase
      rw [hf]
      rfl
    · constructor
      · intro hx
        exact ⟨hx, fun h => hm (h ▸ hx)⟩
      · exact fun h => h.1
  | true =>
    have hm := (contains_iff s hv.ok.length_eq e).1 hc
    obtain ⟨p, hp⟩ : ∃ p, s.find_element e = some p := by
      unfold contains at hc
      exact Option.isSome_iff_exists.1 hc
    have hch : e ∈ bin_chain s.set (s.hash_compress e) := hv.ok.mem_chain e hm
    cases hr : chain_remove id e (bin_chain s.set (s.hash_compress e)) with
    | none =>
      rw [chain_remove_eq_none] at hr
      exact absurd rfl (hr e hch)
    | some r =>
      obtain ⟨d, c⟩ := r
      obtain ⟨h2, _, h4⟩ := chain_remove_some _ _ _ _ _ hr
      simp only [id] at h2
      subst h2
      have h0 := hv.set_index_nonneg d
      have hlt := hv.set_index_lt d
      have hperm : (d :: (set_bin_chain s.set (s.hash_compress d) c).flatten).Perm
          s.set.flatten :=
        set_bin_chain_perm_gen s.set (s.hash_compress d) c [d] [] h0 hlt
          (by simpa using h4.symm)
      refine ⟨{ s with
        used := s.used - 1
        mod_count := s.mod_count + 1
        set := set_bin_chain s.set (s.hash_compress d) c }, ?_, ⟨?_, hv.hash_ok, hv.bound, ?_⟩,
        rfl, rfl, rfl, rfl, ?_, rfl, rfl, ?_⟩
      · unfold erase
        simp only [hp, hr]
        rfl
      · refine hv.ok.set_chain _ c ?_ ?_
        · intro x hx
          exact hv.ok.placed _ x (h4.symm.subset (List.mem_cons_of_mem _ hx))
        · have := (hperm.map id).nodup_iff.2 hv.ok.nodup
          exact (List.nodup_cons.1 this).2
      · have := hperm.length_eq
        simp only [List.length_cons] at this
        show s.used - 1 = ((set_bin_chain s.set (s.hash_compress d) c).flatten.length : Int)
        rw [hv.counted]
        omega
      · intro h; simp at h
      · intro y
        have := mem_remove_iff id s.set.flatten _ d hperm hv.ok.nodup y
        simpa using this

theorem set_clear_spec (s : HashSet T) (hv : s.valid) :
    s.clear.valid ∧ s.clear.set.flatten = [] ∧ s.clear.used = 0 ∧ s.clear.bins = s.bins ∧
    s.clear.mod_count = s.mod_count + 1 ∧ s.clear.hash = s.hash ∧ s.clear.thash = s.thash ∧
    s.clear.load_threshold = s.load_threshold := by
  obtain ⟨h1, h2⟩ := clear_all_spec s.set s.bins hv.ok.length_eq
  refine ⟨⟨⟨hv.ok.bins_pos, ?_, ?_, ?_⟩, hv.hash_ok, hv.bound, ?_⟩, h2, rfl, rfl, rfl, rfl, rfl, rfl⟩
  · show ((clear_all s.set s.bins).length : Int) = s.bins
    rw [h1]; exact hv.ok.length_eq
  · intro i e he
    have : e ∈ (clear_all s.set s.bins).flatten := (mem_flatten_iff _ e).2 ⟨i, he⟩
    rw [h2] at this
    simp at this
  · show ((clear_all s.set s.bins).flatten.map id).Nodup
    rw [h2]; simp
  · show (0 : Int) = ((clear_all s.set s.bins).flatten.length : Int)
    rw [h2]; rfl

theorem set_Iterator_erase_spec (s : HashSet T) (hv : s.valid) (it : Iterator) (x : T)
    (s1 : HashSet T) (it1 : Iterator) (h : s.Iterator_erase it = (.ok x, s1, it1)) :
    s1.valid ∧ (x :: s1.set.flatten).Perm s.set.flatten ∧ s1.used = s.used - 1 ∧
    s1.mod_count = s.mod_count + 1 ∧ s1.bins = s.bins ∧ s1.hash = s.hash ∧
    s1.thash = s.thash ∧ s1.load_threshold = s.load_threshold ∧
    it.expected_mod_count = s.mod_count ∧ it.can_erase = true ∧
    it1 = { it with can_erase := false, expected_mod_count := s.mod_count + 1 } ∧
    ∃ p, it.current.2 = some p ∧ node_value s.set p = some x := by
  unfold Iterator_erase at h
  cases hr : Iterator.erase_node s.set s.mod_count it with
  | error e => rw [hr] at h; simp at h
  | ok r =>
    obtain ⟨y, t1, it2⟩ := r
    rw [hr] at h
    simp only [Prod.mk.injEq, Except.ok.injEq] at h
    obtain ⟨rfl, rfl, rfl⟩ := h
    obtain ⟨e1, e2, e3, p, e4, e5, e6, e7⟩ := erase_node_spec _ _ _ _ _ _ hr
    subst e6
    refine ⟨⟨?_, hv.hash_ok, hv.bound, ?_⟩, e7, rfl, rfl, rfl, rfl, rfl, rfl, e1, e2, e3,
      p, e4, e5⟩
    · exact hv.ok.set_sublist p.bin _ (List.eraseIdx_sublist _ _)
    · have := e7.length_eq
      simp only [List.length_cons] at this
      show s.used - 1 = ((set_bin_chain s.set p.bin
        (chain_skip (bin_chain s.set p.bin) p.pos)).flatten.length : Int)
      rw [hv.counted]
      omega

theorem foldl_insert_spec [DecidableEq T] (i : List T) (s : HashSet T) (hv : s.valid) :
    (i.foldl (fun s j => (s.insert j).2) s).valid ∧
    (i.foldl (fun s j => (s.insert j).2) s).hash = s.hash ∧
    (i.foldl (fun s j => (s.insert j).2) s).thash = s.thash ∧
    (i.foldl (fun s j => (s.insert j).2) s).load_threshold = s.load_threshold ∧
    (∀ x, x ∈ (i.foldl (fun s j => (s.insert j).2) s).set.flatten ↔
      x ∈ i ∨ x ∈ s.set.flatten) := by
  induction i generalizing s with
  | nil => exact ⟨hv, rfl, rfl, rfl, by simp⟩
  | cons j i ih =>
    obtain ⟨h1, h2, h3, h4, _, _, _, _, h9⟩ := insert_spec s hv j
    obtain ⟨g1, g2, g3, g4, g5⟩ := ih (s.insert j).2 h1
    simp only [List.foldl_cons]
    refine ⟨g1, g2.trans h2, g3.trans h3, g4.trans h4, fun x => ?_⟩
    rw [g5 x, h9 x, List.mem_cons]
    tauto

theorem from_iterable_spec [DecidableEq T] (thash : hashfunc T) (i : List T) (threshold : ℚ)
    (ht : thash.same .undefinedhash = false) (hh : thash.no_int_min) :
    ∃ newSet : HashSet T, from_iterable thash i threshold .undefinedhash = .ok newSet ∧
      newSet.valid ∧ newSet.hash = thash ∧ newSet.thash = thash ∧
      newSet.load_threshold = threshold ∧ ∀ x, x ∈ newSet.set.flatten ↔ x ∈ i := by
  have hv0 : (HashSet.mk thash thash (List.replicate 1 []) threshold 1 0 0 : HashSet T).valid := by
    refine ⟨⟨le_refl _, rfl, ?_, by simp⟩, hh, fun _ => rfl, rfl⟩
    intro j e he
    rw [bin_chain_replicate_nil] at he
    simp at he
  obtain ⟨g1, g2, g3, g4, g5⟩ := foldl_insert_spec i _ hv0
  refine ⟨_, ?_, g1, g2, g3, g4, fun x => ?_⟩
  · have hu : (hashfunc.undefinedhash : hashfunc T).same .undefinedhash = true := rfl
    unfold from_iterable
    simp only [ht, hu, Bool.not_false, if_true, Bool.false_eq_true, if_false,
      Bool.not_true, Bool.and_false, Bool.false_and, Bool.and_true, Bool.true_and]
  · rw [g5 x]
    simp

theorem retain_all_undefined [DecidableEq T] (s : HashSet T) (i : List T)
    (ht : s.thash.same .undefinedhash = true) :
    s.retain_all i = (.error .TemplateFunctionError, s) := by
  have h1 : from_iterable s.thash i 1 .undefinedhash = .error .TemplateFunctionError := by
    unfold from_iterable
    simp only [ht, Bool.not_true, Bool.false_eq_true, if_false]
    rfl
  unfold retain_all
  rw [h1]

theorem retain_all_spec [DecidableEq T] (s : HashSet T) (hv : s.valid) (i : List T)
    (ht : s.thash.same .undefinedhash = false) :
    ∃ s1 : HashSet T, s.retain_all i = (.ok (s.used - s1.used), s1) ∧ s1.valid ∧
      s1.hash = s.hash ∧ s1.thash = s.thash ∧ s1.load_threshold = s.load_threshold ∧
      s1.bins = s.bins ∧ s1.mod_count = s.mod_count ∧
      s1.set = s.set.map (List.filter (fun e => decide (e ∈ i))) ∧
      (∀ x, x ∈ s1.set.flatten ↔ x ∈ s.set.flatten ∧ x ∈ i) := by
  have hh : s.thash.no_int_min := by rw [← hv.bound ht]; exact hv.hash_ok
  obtain ⟨newSet, n1, n2, _, _, _, n6⟩ := from_iterable_spec s.thash i 1 ht hh
  have hkeep : (fun e => newSet.contains e) = (fun e => decide (e ∈ i)) := by
    funext e
    by_cases he : e ∈ i
    · rw [(contains_iff newSet n2.ok.length_eq e).2 ((n6 e).2 he)]
      simp [he]
    · rw [(contains_eq_false_iff newSet n2.ok.length_eq e).2 (fun h => he ((n6 e).1 h))]
      simp [he]
  obtain ⟨r1, r2, r3⟩ := retain_bins_spec (fun e => decide (e ∈ i)) s.set s.bins hv.ok.length_eq
  have r4 := retain_bins_sublist (fun e => decide (e ∈ i)) s.set s.bins hv.ok.length_eq
  have r5 := retain_bins_mem (fun e => decide (e ∈ i)) s.set s.bins hv.ok.length_eq
  have hsub : (retain_bins (fun e => decide (e ∈ i)) s.set s.bins).2.flatten.Sublist
      s.set.flatten := by
    rw [r4, ← List.filter_flatten]
    exact List.filter_sublist _
  refine ⟨{ s with
      set := (retain_bins (fun e => decide (e ∈ i)) s.set s.bins).2
      used := s.used - (retain_bins (fun e => decide (e ∈ i)) s.set s.bins).1 }, ?_,
    ⟨⟨hv.ok.bins_pos, ?_, ?_, ?_⟩, hv.hash_ok, hv.bound, ?_⟩, rfl, rfl, rfl, rfl, rfl, r4, ?_⟩
  · unfold retain_all
    rw [n1]
    simp only [hkeep]
    congr 2
    simp
  · show (((retain_bins (fun e => decide (e ∈ i)) s.set s.bins).2.length : Nat) : Int) = s.bins
    rw [r1]; exact hv.ok.length_eq
  · intro j e he
    change e ∈ bin_chain (retain_bins (fun e => decide (e ∈ i)) s.set s.bins).2 j at he
    rw [r2 j] at he
    exact hv.ok.placed j e (List.mem_filter.1 he).1
  · exact (hsub.map id).nodup hv.ok.nodup
  · show s.used - (retain_bins (fun e => decide (e ∈ i)) s.set s.bins).1 =
      ((retain_bins (fun e => decide (e ∈ i)) s.set s.bins).2.flatten.length : Int)
    rw [hv.counted]
    omega
  · intro x
    have := r5 x
    simpa using this

end HashSet

namespace HashMap

variable {K V : Type}

theorem map_clear_spec (m : HashMap K V) (hv : m.valid) :
    m.clear.valid ∧ m.clear.map.flatten = [] ∧ m.clear.used = 0 ∧ m.clear.bins = m.bins ∧
    m.clear.mod_count = m.mod_count + 1 ∧ m.clear.hash = m.hash ∧ m.clear.thash = m.thash ∧
    m.clear.load_threshold = m.load_threshold := by
  obtain ⟨h1, h2⟩ := clear_all_spec m.map m.bins hv.ok.length_eq
  refine ⟨⟨⟨hv.ok.bins_pos, ?_, ?_, ?_⟩, hv.hash_ok, ?_⟩, h2, rfl, rfl, rfl, rfl, rfl, rfl⟩
  · show ((clear_all m.map m.bins).length : Int) = m.bins
    rw [h1]; exact hv.ok.length_eq
  · intro i e he
    have : e ∈ (clear_all m.map m.bins).flatten := (mem_flatten_iff _ e).2 ⟨i, he⟩
    rw [h2] at this
    simp at this
  · show ((clear_all m.map m.bins).flatten.map Prod.fst).Nodup
    rw [h2]; simp
  · show (0 : Int) = ((clear_all m.map m.bins).flatten.length : Int)
    rw [h2]; rfl

theorem map_Iterator_erase_spec (m : HashMap K V) (hv : m.valid) (it : Iterator) (x : K × V)
    (m1 : HashMap K V) (it1 : Iterator) (h : m.Iterator_erase it = (.ok x, m1, it1)) :
    m1.valid ∧ (x :: m1.map.flatten).Perm m.map.flatten ∧ m1.used = m.used - 1 ∧
    m1.mod_count = m.mod_count + 1 ∧ m1.bins = m.bins ∧ m1.hash = m.hash ∧
    m1.thash = m.thash ∧ m1.load_threshold = m.load_threshold ∧
    it.expected_mod_count = m.mod_count ∧ it.can_erase = true ∧
    it1 = { it with can_erase := false, expected_mod_count := m.mod_count + 1 } ∧
    ∃ p, it.current.2 = some p ∧ node_value m.map p = some x := by
  unfold Iterator_erase at h
  cases hr : Iterator.erase_node m.map m.mod_count it with
  | error e => rw [hr] at h; simp at h
  | ok r =>
    obtain ⟨y, t1, it2⟩ := r
    rw [hr] at h
    simp only [Prod.mk.injEq, Except.ok.injEq] at h
    obtain ⟨rfl, rfl, rfl⟩ := h
    obtain ⟨e1, e2, e3, p, e4, e5, e6, e7⟩ := erase_node_spec _ _ _ _ _ _ hr
    subst e6
    refine ⟨⟨?_, hv.hash_ok, ?_⟩, e7, rfl, rfl, rfl, rfl, rfl, rfl, e1, e2, e3, p, e4, e5⟩
    · exact hv.ok.set_sublist p.bin _ (List.eraseIdx_sublist _ _)
    · have := e7.length_eq
      simp only [List.length_cons] at this
      show m.used - 1 = ((set_bin_chain m.map p.bin
        (chain_skip (bin_chain m.map p.bin) p.pos)).flatten.length : Int)
      rw [hv.counted]
      omega

end HashMap

namespace HashMap

variable {K V : Type}

theorem map_mk_default_spec (thash chash : hashfunc K) (threshold : ℚ) (m0 : HashMap K V)
    (h : mk_default thash threshold chash = .ok m0) :
    m0.map = [[]] ∧ m0.bins = 1 ∧ m0.used = 0 ∧ m0.mod_count = 0 ∧
    m0.load_threshold = threshold ∧ m0.thash = thash ∧
    m0.hash = (if !(thash.same .undefinedhash) then thash else chash) := by
  unfold mk_default at h
  by_cases c1 : (if !(thash.same .undefinedhash) then thash else chash).same .undefinedhash = true
  · simp only [c1, if_true] at h
    exact absurd h (by simp)
  · by_cases c2 : (!(thash.same .undefinedhash) && !(chash.same .undefinedhash) &&
        !(thash.same chash)) = true
    · simp only [c1, c2, if_true, if_false] at h
      exact absurd h (by simp)
    · simp only [c1, c2, if_false, Bool.false_eq_true, Except.ok.injEq] at h
      subst h
      exact ⟨rfl, rfl, rfl, rfl, rfl, rfl, rfl⟩

theorem map_valid_of_empty (m0 : HashMap K V) (h1 : m0.map = [[]]) (h2 : m0.bins = 1)
    (h3 : m0.used = 0) (hh : m0.hash.no_int_min) : m0.valid := by
  refine ⟨⟨by rw [h2], by rw [h1, h2]; rfl, ?_, by rw [h1]; simp⟩, hh, by rw [h1, h3]; rfl⟩
  intro i e he
  rw [h1] at he
  have : e ∈ ([[]] : List (List (K × V))).flatten := (mem_flatten_iff _ e).2 ⟨i, he⟩
  simp at this

theorem map_mk_default_valid (thash chash : hashfunc K) (threshold : ℚ) (m0 : HashMap K V)
    (h : mk_default thash threshold chash = .ok m0) (hh : m0.hash.no_int_min) :
    m0.valid ∧ m0.map.flatten = [] := by
  obtain ⟨h1, h2, h3, _⟩ := map_mk_default_spec thash chash threshold m0 h
  exact ⟨map_valid_of_empty m0 h1 h2 h3 hh, by rw [h1]; rfl⟩

theorem put_lookup_self [DecidableEq K] (m : HashMap K V) (hv : m.valid) (key : K) (value : V) :
    (m.put key value).2.lookup key = some value := by
  obtain ⟨h1, _, _, _, _, _, _, _, h9⟩ := put_spec m hv key value
  rw [lookup_eq_some_iff _ h1, h9]
  exact Or.inl rfl

theorem put_lookup_other [DecidableEq K] (m : HashMap K V) (hv : m.valid) (key : K) (value : V)
    (k : K) (hk : k ≠ key) : (m.put key value).2.lookup k = m.lookup k := by
  obtain ⟨h1, _, _, _, _, _, _, _, h9⟩ := put_spec m hv key value
  apply lookup_congr m _ hv h1
  intro v
  rw [h9]
  constructor
  · rintro (h | ⟨h, _⟩)
    · exact absurd (congrArg Prod.fst h) hk
    · exact h
  · exact fun h => Or.inr ⟨h, hk⟩

theorem erase_lookup_self [DecidableEq K] (m : HashMap K V) (hv : m.valid) (key : K) :
    (m.erase key).2.lookup key = none := by
  cases h : m.lookup key with
  | none => rw [erase_absent m key h]; exact h
  | some v =>
    obtain ⟨m1, e1, e2, _, _, _, _, _, _, _, e9⟩ := erase_present m hv key v h
    rw [e1, lookup_eq_none_iff _ e2]
    intro e he
    exact ((e9 e).1 he).2

theorem erase_lookup_other [DecidableEq K] (m : HashMap K V) (hv : m.valid) (key : K)
    (k : K) (hk : k ≠ key) : (m.erase key).2.lookup k = m.lookup k := by
  cases h : m.lookup key with
  | none => rw [erase_absent m key h]
  | some v =>
    obtain ⟨m1, e1, e2, _, _, _, _, _, _, _, e9⟩ := erase_present m hv key v h
    rw [e1]
    apply lookup_congr m _ hv e2
    intro w
    rw [e9]
    constructor
    · exact fun h => h.1
    · exact fun h => ⟨h, hk⟩

theorem map_erase_valid [DecidableEq K] (m : HashMap K V) (hv : m.valid) (key : K) :
    (m.erase key).2.valid := by
  cases h : m.lookup key with
  | none => rw [erase_absent m key h]; exact hv
  | some v =>
    obtain ⟨m1, e1, e2, _⟩ := erase_present m hv key v h
    rw [e1]; exact e2

theorem erase_isOk [DecidableEq K] (m : HashMap K V) (hv : m.valid) (key : K) :
    (m.erase key).1.isOk = (m.lookup key).isSome := by
  cases h : m.lookup key with
  | none => rw [erase_absent m key h]; rfl
  | some v =>
    obtain ⟨m1, e1, _⟩ := erase_present m hv key v h
    rw [e1]; rfl

theorem call_valid [DecidableEq K] (m : HashMap K V) (hv : m.valid) (c : Call K V) :
    (m.call c).2.valid := by
  cases c with
  | put key value => exact (put_spec m hv key value).1
  | erase key => exact map_erase_valid m hv key

theorem last_on_cons [DecidableEq K] (k : K) (c : Call K V) (cs : List (Call K V)) :
    last_on k (c :: cs) =
      match last_on k cs with
      | some d => some d
      | none => if c.key = k then some c else none := by
  unfold last_on
  by_cases hc : c.key = k
  · rw [List.filter_cons_of_pos (by simpa using hc)]
    cases hf : cs.filter (fun c => decide (c.key = k)) with
    | nil => simp [hc]
    | cons d ds =>
      rw [List.getLast?_cons_cons]
      cases hl : (d :: ds).getLast? with
      | none => simp at hl
      | some x => rfl
  · rw [List.filter_cons_of_neg (by simpa using hc)]
    cases hl : (cs.filter (fun c => decide (c.key = k))).getLast? <;> simp [hc]

/-- The association of `k` after a sequence of calls is decided by the last successful call
on `k`, and is the initial one when there is none. -/
theorem calls_lookup [DecidableEq K] (k : K) (cs : List (Call K V)) :
    ∀ m : HashMap K V, m.valid →
      (m.calls cs).2.valid ∧
      (m.calls cs).2.lookup k =
        match last_on k (m.calls cs).1 with
        | some (.put _ v) => some v
        | some (.erase _) => none
        | none => m.lookup k := by
  induction cs with
  | nil =>
    intro m hv
    exact ⟨hv, rfl⟩
  | cons c cs ih =>
    intro m hv
    have hv1 := call_valid m hv c
    obtain ⟨g1, g2⟩ := ih (m.call c).2 hv1
    refine ⟨g1, ?_⟩
    show ((m.call c).2.calls cs).2.lookup k = _
    rw [g2]
    show _ = match last_on k (if (m.call c).1 then c :: ((m.call c).2.calls cs).1
      else ((m.call c).2.calls cs).1) with
        | some (.put _ v) => some v
        | some (.erase _) => none
        | none => m.lookup k
    cases hs : (m.call c).1 with
    | false =>
      simp only [Bool.false_eq_true, if_false]
      have : (m.call c).2 = m := by
        cases c with
        | put key value => simp [call] at hs
        | erase key =>
          simp only [call] at hs ⊢
          rw [erase_isOk m hv key] at hs
          have hn : m.lookup key = none := by
            cases h : m.lookup key with
            | none => rfl
            | some v => rw [h] at hs; simp at hs
          rw [erase_absent m key hn]
      rw [this]
    | true =>
      simp only [if_true]
      rw [last_on_cons]
      cases hl : last_on k ((m.call c).2.calls cs).1 with
      | some d => cases d <;> rfl
      | none =>
        simp only
        by_cases hc : c.key = k
        · simp only [hc, if_true]
          cases c with
          | put key value =>
            simp only [Call.key] at hc
            subst hc
            exact put_lookup_self m hv key value
          | erase key =>
            simp only [Call.key] at hc
            subst hc
            exact erase_lookup_self m hv key
        · simp only [hc, if_false]
          cases c with
          | put key value =>
            exact put_lookup_other m hv key value k (fun h => hc h.symm)
          | erase key =>
            exact erase_lookup_other m hv key k (fun h => hc h.symm)

end HashMap

theorem demo_hash_no_int_min : demo_hash.no_int_min := by
  intro k
  simp only [demo_hash, hashfunc.call, INT_MIN]
  omega

theorem demo_hash_str_no_int_min : demo_hash_str.no_int_min := by
  intro k
  simp only [demo_hash_str, hashfunc.call, INT_MIN]
  omega

namespace HashMap

variable {K V : Type}

theorem key_of_last_on [DecidableEq K] (k : K) (cs : List (Call K V)) (c : Call K V)
    (h : last_on k cs = some c) : c.key = k := by
  unfold last_on at h
  have := List.mem_of_getLast?_eq_some h
  simpa using (List.mem_filter.1 this).2

theorem lookup_none_of_empty [DecidableEq K] (m : HashMap K V) (h : m.map.flatten = [])
    (hv : m.valid) (k : K) : m.lookup k = none := by
  rw [lookup_eq_none_iff m hv, h]
  simp

/-- C1: on a map built by the default constructor, after any finite sequence of `put` and
`erase` calls (an `erase` of an absent key fails and changes nothing), `has_key k` is true
exactly when the last successful call on `k` was a `put`, and the value then found for `k` is
the value of that `put`.  Stated for hash functions that never return `INT_MIN`. -/
theorem has_key_after_calls [DecidableEq K] (thash chash : hashfunc K) (threshold : ℚ)
    (m0 : HashMap K V) (h0 : mk_default thash threshold chash = .ok m0)
    (hh : m0.hash.no_int_min) (cs : List (Call K V)) (k : K) :
    ((m0.calls cs).2.has_key k = true ↔ ∃ v, last_on k (m0.calls cs).1 = some (.put k v)) ∧
    (∀ v, last_on k (m0.calls cs).1 = some (.put k v) →
      (m0.calls cs).2.operator_index_const k = .ok v) := by
  obtain ⟨hv, hem⟩ := map_mk_default_valid thash chash threshold m0 h0 hh
  obtain ⟨_, g2⟩ := calls_lookup k cs m0 hv
  rw [lookup_none_of_empty m0 hem hv k] at g2
  rw [has_key_eq, operator_index_const_eq, g2]
  cases hl : last_on k (m0.calls cs).1 with
  | none => simp
  | some c =>
    have hk := key_of_last_on k _ c hl
    cases c with
    | put key v =>
      simp only [Call.key] at hk
      subst hk
      simp
    | erase key => simp

/-- The witness of C1: the calls `put 1 10, put 2 20, erase 1, erase 3, put 2 21` on the
empty map `demo_map`, observed at key 2. -/
theorem has_key_after_calls_witness :
    mk_default demo_hash 1 .undefinedhash = .ok demo_map ∧ demo_map.hash.no_int_min ∧
    (((demo_map.calls [.put 1 10, .put 2 20, .erase 1, .erase 3, .put 2 21]).2.has_key 2 = true ↔
      ∃ v, last_on 2 (demo_map.calls [.put 1 10, .put 2 20, .erase 1, .erase 3, .put 2 21]).1
        = some (.put 2 v)) ∧
    (∀ v, last_on 2 (demo_map.calls [.put 1 10, .put 2 20, .erase 1, .erase 3, .put 2 21]).1
        = some (.put 2 v) →
      (demo_map.calls [.put 1 10, .put 2 20, .erase 1, .erase 3,
        .put 2 21]).2.operator_index_const 2 = .ok v)) :=
  ⟨rfl, demo_hash_no_int_min,
    has_key_after_calls demo_hash .undefinedhash 1 demo_map rfl demo_hash_no_int_min
      [.put 1 10, .put 2 20, .erase 1, .erase 3, .put 2 21] 2⟩

end HashMap

theorem node_count_eq {α : Type} (t : List (List α)) (bins : Int)
    (h : (t.length : Int) = bins) : node_count t bins = (t.flatten.length : Int) := by
  unfold node_count
  rw [bin_chains_eq t bins h, List.length_flatten]

namespace HashMap

variable {K V : Type}

theorem map_Iterator_erase_valid (m : HashMap K V) (hv : m.valid) (it : Iterator) :
    (m.Iterator_erase it).2.1.valid := by
  cases h : m.Iterator_erase it with
  | mk r rest =>
    obtain ⟨m1, it1⟩ := rest
    cases r with
    | error e =>
      unfold Iterator_erase at h
      cases hr : Iterator.erase_node m.map m.mod_count it with
      | error e1 =>
        rw [hr] at h
        simp only [Prod.mk.injEq] at h
        rw [← h.2.1]; exact hv
      | ok r1 =>
        rw [hr] at h
        simp at h
    | ok x => exact (map_Iterator_erase_spec m hv it x m1 it1 h).1

theorem map_command_valid [DecidableEq K] [Inhabited V] (m : HashMap K V) (hv : m.valid)
    (c : Command K V) : (m.command c).valid := by
  cases c with
  | put key value => exact (put_spec m hv key value).1
  | operator_index key => exact (operator_index_spec m hv key).1
  | erase key => exact map_erase_valid m hv key
  | clear => exact (map_clear_spec m hv).1
  | Iterator_erase it => exact map_Iterator_erase_valid m hv it

theorem map_commands_valid [DecidableEq K] [Inhabited V] (cs : List (Command K V)) :
    ∀ m : HashMap K V, m.valid → (m.commands cs).valid := by
  induction cs with
  | nil => exact fun m hv => hv
  | cons c cs ih => exact fun m hv => ih (m.command c) (map_command_valid m hv c)

theorem valid.map_size_eq {m : HashMap K V} (hv : m.valid) :
    m.size = node_count m.map m.bins := by
  rw [node_count_eq m.map m.bins hv.ok.length_eq]
  exact hv.counted

theorem size_put_distinct [DecidableEq K] (es : List (K × V)) :
    ∀ m : HashMap K V, m.valid → (es.map Prod.fst).Nodup → (∀ e ∈ es, m.lookup e.1 = none) →
      (es.foldl (fun m e => (m.put e.1 e.2).2) m).size = m.size + es.length := by
  induction es with
  | nil => intro m _ _ _; simp
  | cons e es ih =>
    intro m hv hn ha
    obtain ⟨h1, _, _, _, _, _, _, h8, _⟩ := put_spec m hv e.1 e.2
    rw [ha e (List.mem_cons_self _ _)] at h8
    simp only [List.map_cons, List.nodup_cons] at hn
    simp only [List.foldl_cons]
    rw [ih (m.put e.1 e.2).2 h1 hn.2]
    · show (m.put e.1 e.2).2.used + _ = m.used + _
      rw [h8]
      simp only [Option.isSome_none, Bool.false_eq_true, if_false, List.length_cons]
      push_cast
      omega
    · intro d hd
      rw [put_lookup_other m hv e.1 e.2 d.1]
      · exact ha d (List.mem_cons_of_mem _ hd)
      · intro hk
        exact hn.1 (hk ▸ List.mem_map_of_mem Prod.fst hd)

end HashMap

namespace HashSet

variable {T : Type}

theorem set_mk_default_spec (thash chash : hashfunc T) (threshold : ℚ) (s0 : HashSet T)
    (h : mk_default thash threshold chash = .ok s0) :
    s0.set = [[]] ∧ s0.bins = 1 ∧ s0.used = 0 ∧ s0.mod_count = 0 ∧
    s0.load_threshold = threshold ∧ s0.thash = thash ∧
    s0.hash = (if !(thash.same .undefinedhash) then thash else chash) := by
  unfold mk_default at h
  by_cases c1 : (if !(thash.same .undefinedhash) then thash else chash).same .undefinedhash = true
  · simp only [c1, if_true] at h
    exact absurd h (by simp)
  · by_cases c2 : (!(thash.same .undefinedhash) && !(chash.same .undefinedhash) &&
        !(thash.same chash)) = true
    · simp only [c1, c2, if_true, if_false] at h
      exact absurd h (by simp)
    · simp only [c1, c2, if_false, Bool.false_eq_true, Except.ok.injEq] at h
      subst h
      exact ⟨rfl, rfl, rfl, rfl, rfl, rfl, rfl⟩

theorem set_valid_of_empty (s0 : HashSet T) (h1 : s0.set = [[]]) (h2 : s0.bins = 1)
    (h3 : s0.used = 0) (hh : s0.hash.no_int_min)
    (hb : s0.thash.same .undefinedhash = false → s0.hash = s0.thash) : s0.valid := by
  refine ⟨⟨by rw [h2], by rw [h1, h2]; rfl, ?_, by rw [h1]; simp⟩, hh, hb, by rw [h1, h3]; rfl⟩
  intro i e he
  rw [h1] at he
  have : e ∈ ([[]] : List (List T)).flatten := (mem_flatten_iff _ e).2 ⟨i, he⟩
  simp at this

theorem set_mk_default_valid (thash chash : hashfunc T) (threshold : ℚ) (s0 : HashSet T)
    (h : mk_default thash threshold chash = .ok s0) (hh : s0.hash.no_int_min) :
    s0.valid ∧ s0.set.flatten = [] := by
  obtain ⟨h1, h2, h3, _, _, h6, h7⟩ := set_mk_default_spec thash chash threshold s0 h
  refine ⟨set_valid_of_empty s0 h1 h2 h3 hh ?_, by rw [h1]; rfl⟩
  intro ht
  rw [h7, h6]
  rw [h6] at ht
  simp [ht]

theorem set_Iterator_erase_valid (s : HashSet T) (hv : s.valid) (it : Iterator) :
    (s.Iterator_erase it).2.1.valid := by
  cases h : s.Iterator_erase it with
  | mk r rest =>
    obtain ⟨s1, it1⟩ := rest
    cases r with
    | error e =>
      unfold Iterator_erase at h
      cases hr : Iterator.erase_node s.set s.mod_count it with
      | error e1 =>
        rw [hr] at h
        simp only [Prod.mk.injEq] at h
        rw [← h.2.1]; exact hv
      | ok r1 =>
        rw [hr] at h
        simp at h
    | ok x => exact (set_Iterator_erase_spec s hv it x s1 it1 h).1

theorem retain_all_valid [DecidableEq T] (s : HashSet T) (hv : s.valid) (i : List T) :
    (s.retain_all i).2.valid := by
  cases ht : s.thash.same .undefinedhash with
  | true => rw [retain_all_undefined s i ht]; exact hv
  | false =>
    obtain ⟨s1, e1, e2, _⟩ := retain_all_spec s hv i ht
    rw [e1]; exact e2

theorem set_erase_valid [DecidableEq T] (s : HashSet T) (hv : s.valid) (e : T) :
    (s.erase e).2.valid := by
  obtain ⟨s1, e1, e2, _⟩ := erase_spec s hv e
  rw [e1]; exact e2

theorem set_command_valid [DecidableEq T] (s : HashSet T) (hv : s.valid) (c : Command T) :
    (s.command c).valid := by
  cases c with
  | insert e => exact (insert_spec s hv e).1
  | erase e => exact set_erase_valid s hv e
  | clear => exact (set_clear_spec s hv).1
  | retain_all i => exact retain_all_valid s hv i
  | Iterator_erase it => exact set_Iterator_erase_valid s hv it

theorem set_commands_valid [DecidableEq T] (cs : List (Command T)) :
    ∀ s : HashSet T, s.valid → (s.commands cs).valid := by
  induction cs with
  | nil => exact fun s hv => hv
  | cons c cs ih => exact fun s hv => ih (s.command c) (set_command_valid s hv c)

theorem valid.set_size_eq {s : HashSet T} (hv : s.valid) :
    s.size = node_count s.set s.bins := by
  rw [node_count_eq s.set s.bins hv.ok.length_eq]
  exact hv.counted

theorem size_insert_distinct [DecidableEq T] (xs : List T) :
    ∀ s : HashSet T, s.valid → xs.Nodup → (∀ x ∈ xs, x ∉ s.set.flatten) →
      (xs.foldl (fun s x => (s.insert x).2) s).size = s.size + xs.length := by
  induction xs with
  | nil => intro s _ _ _; simp
  | cons x xs ih =>
    intro s hv hn ha
    obtain ⟨h1, _, _, _, h5, _, h7, _, h9⟩ := insert_spec s hv x
    have hc : s.contains x = false :=
      (contains_eq_false_iff s hv.ok.length_eq x).2 (ha x (List.mem_cons_self _ _))
    rw [hc] at h5
    simp only [List.nodup_cons] at hn
    simp only [List.foldl_cons]
    rw [ih (s.insert x).2 h1 hn.2]
    · show (s.insert x).2.used + _ = s.used + _
      rw [h7, h5]
      simp only [Bool.false_eq_true, if_false, List.length_cons]
      push_cast
      omega
    · intro d hd hm
      rcases (h9 d).1 hm with h | h
      · exact hn.1 (h ▸ hd)
      · exact ha d (List.mem_cons_of_mem _ hd) h

end HashSet

/-- C2: in every state of a `HashMap` or a `HashSet` reached from the default constructor by
`put`, `operator []`, `insert`, `erase`, `clear`, `retain_all` and `Iterator::erase` (growth
of the table included), `size()` is the number of non-trailer nodes over all chains; after
the insertion of `n` pairwise distinct keys into the empty container `size()` is `n`.
Stated for hash functions that never return `INT_MIN`. -/
theorem size_counts_nodes {K V T : Type} [DecidableEq K] [Inhabited V] [DecidableEq T]
    (thash chash : hashfunc K) (threshold : ℚ) (m0 : HashMap K V)
    (hm : HashMap.mk_default thash threshold chash = .ok m0) (hmh : m0.hash.no_int_min)
    (thash1 chash1 : hashfunc T) (threshold1 : ℚ) (s0 : HashSet T)
    (hs : HashSet.mk_default thash1 threshold1 chash1 = .ok s0) (hsh : s0.hash.no_int_min) :
    (∀ cs, (m0.commands cs).size = node_count (m0.commands cs).map (m0.commands cs).bins) ∧
    (∀ cs, (s0.commands cs).size = node_count (s0.commands cs).set (s0.commands cs).bins) ∧
    (∀ es : List (K × V), (es.map Prod.fst).Nodup →
      (es.foldl (fun m e => (m.put e.1 e.2).2) m0).size = es.length) ∧
    (∀ xs : List T, xs.Nodup →
      (xs.foldl (fun s x => (s.insert x).2) s0).size = xs.length) := by
  obtain ⟨hv, hem⟩ := HashMap.map_mk_default_valid thash chash threshold m0 hm hmh
  obtain ⟨hw, hes⟩ := HashSet.set_mk_default_valid thash1 chash1 threshold1 s0 hs hsh
  refine ⟨fun cs => (HashMap.map_commands_valid cs m0 hv).map_size_eq,
    fun cs => (HashSet.set_commands_valid cs s0 hw).set_size_eq, fun es hn => ?_, fun xs hn => ?_⟩
  · rw [HashMap.size_put_distinct es m0 hv hn
      (fun e _ => HashMap.lookup_none_of_empty m0 hem hv e.1)]
    show m0.used + _ = _
    rw [hv.counted, hem]
    simp
  · rw [HashSet.size_insert_distinct xs s0 hw hn (fun x _ => by rw [hes]; simp)]
    show s0.used + _ = _
    rw [hw.counted, hes]
    simp

/-- The witness of C2: the default-constructed `demo_map` and `demo_set`. -/
theorem size_counts_nodes_witness :
    HashMap.mk_default demo_hash 1 .undefinedhash = .ok demo_map ∧
    demo_map.hash.no_int_min ∧
    HashSet.mk_default demo_hash 1 .undefinedhash = .ok demo_set ∧
    demo_set.hash.no_int_min ∧
    ((∀ cs, (demo_map.commands cs).size =
        node_count (demo_map.commands cs).map (demo_map.commands cs).bins) ∧
    (∀ cs, (demo_set.commands cs).size =
        node_count (demo_set.commands cs).set (demo_set.commands cs).bins) ∧
    (∀ es : List (Nat × Nat), (es.map Prod.fst).Nodup →
      (es.foldl (fun m e => (m.put e.1 e.2).2) demo_map).size = es.length) ∧
    (∀ xs : List Nat, xs.Nodup →
      (xs.foldl (fun s x => (s.insert x).2) demo_set).size = xs.length)) :=
  ⟨rfl, demo_hash_no_int_min, rfl, demo_hash_no_int_min,
    size_counts_nodes demo_hash .undefinedhash 1 demo_map rfl demo_hash_no_int_min
      demo_hash .undefinedhash 1 demo_set rfl demo_hash_no_int_min⟩

theorem demo_map_valid : demo_map.valid :=
  HashMap.map_valid_of_empty demo_map rfl rfl rfl demo_hash_no_int_min

theorem demo_set_valid : demo_set.valid :=
  HashSet.set_valid_of_empty demo_set rfl rfl rfl demo_hash_no_int_min (fun _ => rfl)

/-- C3 (violated by the code): with load threshold 1, five `put`s of distinct keys into the
default-constructed map leave 5 entries in 4 bins, three `insert`s into the
default-constructed set leave 3 elements in 2 bins, and three insertions through
`operator []` leave 3 entries in 2 bins: `used / bins` exceeds the threshold after an
insert, because `ensure_load_threshold` divides as `int` and doubles at most once. -/
theorem load_threshold_exceeded :
    (([1, 2, 3, 4, 5].foldl (fun m k => (m.put k 0).2) demo_map).used = 5 ∧
     ([1, 2, 3, 4, 5].foldl (fun m k => (m.put k 0).2) demo_map).bins = 4 ∧
     ([1, 2, 3, 4, 5].foldl (fun m k => (m.put k 0).2) demo_map).load_threshold = 1 ∧
     ((([1, 2, 3, 4, 5].foldl (fun m k => (m.put k 0).2) demo_map).used : ℚ) /
       (([1, 2, 3, 4, 5].foldl (fun m k => (m.put k 0).2) demo_map).bins : ℚ) >
       ([1, 2, 3, 4, 5].foldl (fun m k => (m.put k 0).2) demo_map).load_threshold)) ∧
    (([1, 2, 3].foldl (fun s k => (s.insert k).2) demo_set).used = 3 ∧
     ([1, 2, 3].foldl (fun s k => (s.insert k).2) demo_set).bins = 2 ∧
     ([1, 2, 3].foldl (fun s k => (s.insert k).2) demo_set).load_threshold = 1 ∧
     ((([1, 2, 3].foldl (fun s k => (s.insert k).2) demo_set).used : ℚ) /
       (([1, 2, 3].foldl (fun s k => (s.insert k).2) demo_set).bins : ℚ) >
       ([1, 2, 3].foldl (fun s k => (s.insert k).2) demo_set).load_threshold)) ∧
    (([1, 2, 3].foldl (fun m k => (m.operator_index k).2) demo_map).used = 3 ∧
     ([1, 2, 3].foldl (fun m k => (m.operator_index k).2) demo_map).bins = 2 ∧
     ([1, 2, 3].foldl (fun m k => (m.operator_index k).2) demo_map).load_threshold = 1 ∧
     ((([1, 2, 3].foldl (fun m k => (m.operator_index k).2) demo_map).used : ℚ) /
       (([1, 2, 3].foldl (fun m k => (m.operator_index k).2) demo_map).bins : ℚ) >
       ([1, 2, 3].foldl (fun m k => (m.operator_index k).2) demo_map).load_threshold)) := by
  have a1 : ([1, 2, 3, 4, 5].foldl (fun m k => (m.put k 0).2) demo_map).used = 5 := by decide
  have a2 : ([1, 2, 3, 4, 5].foldl (fun m k => (m.put k 0).2) demo_map).bins = 4 := by decide
  have a3 : ([1, 2, 3, 4, 5].foldl (fun m k => (m.put k 0).2) demo_map).load_threshold = 1 := by
    decide
  have b1 : ([1, 2, 3].foldl (fun s k => (s.insert k).2) demo_set).used = 3 := by decide
  have b2 : ([1, 2, 3].foldl (fun s k => (s.insert k).2) demo_set).bins = 2 := by decide
  have b3 : ([1, 2, 3].foldl (fun s k => (s.insert k).2) demo_set).load_threshold = 1 := by
    decide
  have c1 : ([1, 2, 3].foldl (fun m k => (m.operator_index k).2) demo_map).used = 3 := by decide
  have c2 : ([1, 2, 3].foldl (fun m k => (m.operator_index k).2) demo_map).bins = 2 := by decide
  have c3 : ([1, 2, 3].foldl (fun m k => (m.operator_index k).2) demo_map).load_threshold = 1 := by
    decide
  refine ⟨⟨a1, a2, a3, ?_⟩, ⟨b1, b2, b3, ?_⟩, ⟨c1, c2, c3, ?_⟩⟩
  · rw [a1, a2, a3]; norm_num
  · rw [b1, b2, b3]; norm_num
  · rw [c1, c2, c3]; norm_num

namespace HashMap

variable {K V : Type}

theorem put_index_other [DecidableEq K] (m : HashMap K V) (hv : m.valid) (key : K) (value : V)
    (k : K) (hk : k ≠ key) :
    (m.put key value).2.operator_index_const k = m.operator_index_const k ∧
    (m.put key value).2.has_key k = m.has_key k := by
  rw [operator_index_const_eq, operator_index_const_eq, has_key_eq, has_key_eq,
    put_lookup_other m hv key value k hk]
  exact ⟨rfl, rfl⟩

/-- C4: `put(key, value)` on a present key returns the previous value and leaves `size()`
unchanged; on an absent key it returns `value` and `size()` grows by 1; afterwards the
lookup of `key` yields `value` and every other key keeps its association. -/
theorem put_contract [DecidableEq K] (m : HashMap K V) (hv : m.valid) (key : K) (value : V) :
    (m.has_key key = true → ∃ old, m.operator_index_const key = .ok old ∧
      (m.put key value).1 = old ∧ (m.put key value).2.size = m.size) ∧
    (m.has_key key = false →
      (m.put key value).1 = value ∧ (m.put key value).2.size = m.size + 1) ∧
    (m.put key value).2.operator_index_const key = .ok value ∧
    (∀ k, k ≠ key →
      (m.put key value).2.operator_index_const k = m.operator_index_const k ∧
      (m.put key value).2.has_key k = m.has_key k) := by
  obtain ⟨_, _, _, _, _, _, h7, h8, _⟩ := put_spec m hv key value
  refine ⟨?_, ?_, ?_, fun k hk => put_index_other m hv key value k hk⟩
  · intro hp
    rw [has_key_eq] at hp
    obtain ⟨old, ho⟩ := Option.isSome_iff_exists.1 hp
    refine ⟨old, ?_, ?_, ?_⟩
    · rw [operator_index_const_eq, ho]
    · rw [h7, ho]; rfl
    · show (m.put key value).2.used = m.used
      rw [h8, ho]; rfl
  · intro hp
    rw [has_key_eq] at hp
    have ho : m.lookup key = none := by
      cases h : m.lookup key with
      | none => rfl
      | some v => rw [h] at hp; simp at hp
    refine ⟨by rw [h7, ho]; rfl, ?_⟩
    show (m.put key value).2.used = m.used + 1
    rw [h8, ho]; rfl
  · rw [operator_index_const_eq, put_lookup_self m hv key value]

/-- The witness of C4: `put(1, 11)` on the map holding `1 -> 10`. -/
theorem put_contract_witness :
    (demo_map.put 1 10).2.valid ∧
    (((demo_map.put 1 10).2.has_key 1 = true →
      ∃ old, (demo_map.put 1 10).2.operator_index_const 1 = .ok old ∧
        ((demo_map.put 1 10).2.put 1 11).1 = old ∧
        ((demo_map.put 1 10).2.put 1 11).2.size = (demo_map.put 1 10).2.size) ∧
    ((demo_map.put 1 10).2.has_key 1 = false →
      ((demo_map.put 1 10).2.put 1 11).1 = 11 ∧
      ((demo_map.put 1 10).2.put 1 11).2.size = (demo_map.put 1 10).2.size + 1) ∧
    ((demo_map.put 1 10).2.put 1 11).2.operator_index_const 1 = .ok 11 ∧
    (∀ k, k ≠ 1 →
      ((demo_map.put 1 10).2.put 1 11).2.operator_index_const k =
        (demo_map.put 1 10).2.operator_index_const k ∧
      ((demo_map.put 1 10).2.put 1 11).2.has_key k = (demo_map.put 1 10).2.has_key k)) :=
  ⟨(put_spec demo_map demo_map_valid 1 10).1,
    put_contract (demo_map.put 1 10).2 (put_spec demo_map demo_map_valid 1 10).1 1 11⟩

/-- C7: `erase(key)` throws `KeyError` exactly when `key` is absent and then leaves the map as
it was; on a present key it returns the value stored for `key`, decrements `size()`, bumps
`mod_count`, makes `has_key(key)` false and leaves every other association unchanged. -/
theorem erase_contract [DecidableEq K] (m : HashMap K V) (hv : m.valid) (key : K) :
    ((m.erase key).1 = .error .KeyError ↔ m.has_key key = false) ∧
    (m.has_key key = false → (m.erase key).2 = m) ∧
    (m.has_key key = true → ∃ v, m.operator_index_const key = .ok v ∧
      (m.erase key).1 = .ok v ∧
      (m.erase key).2.size = m.size - 1 ∧
      (m.erase key).2.mod_count = m.mod_count + 1 ∧
      (m.erase key).2.has_key key = false ∧
      (∀ k, k ≠ key →
        (m.erase key).2.operator_index_const k = m.operator_index_const k ∧
        (m.erase key).2.has_key k = m.has_key k)) := by
  rw [has_key_eq]
  cases h : m.lookup key with
  | none =>
    rw [erase_absent m key h]
    simp
  | some v =>
    obtain ⟨m1, e1, e2, _, _, _, _, e7, e8, _, _⟩ := erase_present m hv key v h
    have hs := erase_lookup_self m hv key
    have ho := erase_lookup_other m hv key
    rw [e1] at hs ho ⊢
    refine ⟨by simp, by simp, fun _ => ⟨v, ?_, rfl, e7, e8, ?_, fun k hk => ?_⟩⟩
    · rw [operator_index_const_eq, h]
    · rw [has_key_eq, hs]; rfl
    · rw [operator_index_const_eq, operator_index_const_eq, has_key_eq, has_key_eq, ho k hk]
      exact ⟨rfl, rfl⟩

/-- The witness of C7: `erase(1)` on the map holding `1 -> 10`. -/
theorem erase_contract_witness :
    (demo_map.put 1 10).2.valid ∧
    ((((demo_map.put 1 10).2.erase 1).1 = .error .KeyError ↔
      (demo_map.put 1 10).2.has_key 1 = false) ∧
    ((demo_map.put 1 10).2.has_key 1 = false →
      ((demo_map.put 1 10).2.erase 1).2 = (demo_map.put 1 10).2) ∧
    ((demo_map.put 1 10).2.has_key 1 = true →
      ∃ v, (demo_map.put 1 10).2.operator_index_const 1 = .ok v ∧
      ((demo_map.put 1 10).2.erase 1).1 = .ok v ∧
      ((demo_map.put 1 10).2.erase 1).2.size = (demo_map.put 1 10).2.size - 1 ∧
      ((demo_map.put 1 10).2.erase 1).2.mod_count = (demo_map.put 1 10).2.mod_count + 1 ∧
      ((demo_map.put 1 10).2.erase 1).2.has_key 1 = false ∧
      (∀ k, k ≠ 1 →
        ((demo_map.put 1 10).2.erase 1).2.operator_index_const k =
          (demo_map.put 1 10).2.operator_index_const k ∧
        ((demo_map.put 1 10).2.erase 1).2.has_key k = (demo_map.put 1 10).2.has_key k))) :=
  ⟨(put_spec demo_map demo_map_valid 1 10).1,
    erase_contract (demo_map.put 1 10).2 (put_spec demo_map demo_map_valid 1 10).1 1⟩

end HashMap

namespace HashSet

variable {T : Type}

theorem contains_congr [DecidableEq T] (s s1 : HashSet T) (hv : s.valid) (hv1 : s1.valid)
    (x : T) (h : x ∈ s1.set.flatten ↔ x ∈ s.set.flatten) : s1.contains x = s.contains x := by
  rw [Bool.eq_iff_iff, contains_iff s hv.ok.length_eq x, contains_iff s1 hv1.ok.length_eq x]
  exact h

/-- C5: `insert(e)` returns 1 and increases `size()` by 1 when `e` was not contained, and
returns 0 leaving the whole state (size, chains, `mod_count`) unchanged when it was;
afterwards `contains(e)` holds and `contains(x)` is unchanged for every other `x`. -/
theorem insert_contract [DecidableEq T] (s : HashSet T) (hv : s.valid) (e : T) :
    (s.contains e = false → (s.insert e).1 = 1 ∧ (s.insert e).2.size = s.size + 1) ∧
    (s.contains e = true → (s.insert e).1 = 0 ∧ (s.insert e).2 = s) ∧
    (s.insert e).2.contains e = true ∧
    (∀ x, x ≠ e → (s.insert e).2.contains x = s.contains x) := by
  obtain ⟨h1, _, _, _, h5, _, h7, _, h9⟩ := insert_spec s hv e
  refine ⟨?_, ?_, ?_, ?_⟩
  · intro hc
    rw [hc] at h5
    simp only [Bool.false_eq_true, if_false] at h5
    refine ⟨h5, ?_⟩
    show (s.insert e).2.used = s.used + 1
    rw [h7, h5]
  · intro hc
    rw [insert_present s e hc]
    exact ⟨rfl, rfl⟩
  · rw [contains_iff _ h1.ok.length_eq, h9]
    exact Or.inl rfl
  · intro x hx
    apply contains_congr s _ hv h1
    rw [h9]
    constructor
    · rintro (h | h)
      · exact absurd h hx
      · exact h
    · exact fun h => Or.inr h

/-- The witness of C5: `insert(2)` on the set holding 1. -/
theorem insert_contract_witness :
    (demo_set.insert 1).2.valid ∧
    (((demo_set.insert 1).2.contains 2 = false →
      ((demo_set.insert 1).2.insert 2).1 = 1 ∧
      ((demo_set.insert 1).2.insert 2).2.size = (demo_set.insert 1).2.size + 1) ∧
    ((demo_set.insert 1).2.contains 2 = true →
      ((demo_set.insert 1).2.insert 2).1 = 0 ∧
      ((demo_set.insert 1).2.insert 2).2 = (demo_set.insert 1).2) ∧
    ((demo_set.insert 1).2.insert 2).2.contains 2 = true ∧
    (∀ x, x ≠ 2 →
      ((demo_set.insert 1).2.insert 2).2.contains x = (demo_set.insert 1).2.contains x)) :=
  ⟨(insert_spec demo_set demo_set_valid 1).1,
    insert_contract (demo_set.insert 1).2 (insert_spec demo_set demo_set_valid 1).1 2⟩

end HashSet

/-- C6: inserting an absent element or key and erasing it at once restores `contains` /
`has_key` of it to false and `size()` to its prior value, and leaves the membership of every
element and the association of every key as before. -/
theorem insert_erase_round_trip {K V T : Type} [DecidableEq K] [DecidableEq T]
    (s : HashSet T) (hs : s.valid) (x : T) (hx : s.contains x = false)
    (m : HashMap K V) (hm : m.valid) (key : K) (value : V) (hk : m.has_key key = false) :
    (((s.insert x).2.erase x).1 = .ok 1 ∧
     ((s.insert x).2.erase x).2.contains x = false ∧
     ((s.insert x).2.erase x).2.size = s.size ∧
     (∀ y, ((s.insert x).2.erase x).2.contains y = s.contains y)) ∧
    (((m.put key value).2.erase key).1 = .ok value ∧
     ((m.put key value).2.erase key).2.has_key key = false ∧
     ((m.put key value).2.erase key).2.size = m.size ∧
     (∀ k, ((m.put key value).2.erase key).2.operator_index_const k = m.operator_index_const k ∧
       ((m.put key value).2.erase key).2.has_key k = m.has_key k)) := by
  constructor
  · obtain ⟨h1, _, _, _, h5, _, h7, _, h9⟩ := HashSet.insert_spec s hs x
    rw [hx] at h5
    simp only [Bool.false_eq_true, if_false] at h5
    have hc1 : (s.insert x).2.contains x = true := by
      rw [HashSet.contains_iff _ h1.ok.length_eq, h9]; exact Or.inl rfl
    obtain ⟨s2, e1, e2, _, _, _, _, _, e8, _, e10⟩ := HashSet.erase_spec (s.insert x).2 h1 x
    rw [hc1] at e1 e8
    simp only [if_true] at e1 e8
    have hxs : x ∉ s.set.flatten := (HashSet.contains_eq_false_iff s hs.ok.length_eq x).1 hx
    have hmem : ∀ y, y ∈ s2.set.flatten ↔ y ∈ s.set.flatten := by
      intro y
      rw [e10, h9]
      constructor
      · rintro ⟨h | h, hne⟩
        · exact absurd h hne
        · exact h
      · exact fun h => ⟨Or.inr h, fun hy => hxs (hy ▸ h)⟩
    rw [e1]
    refine ⟨rfl, ?_, ?_, fun y => HashSet.contains_congr s s2 hs e2 y (hmem y)⟩
    · rw [HashSet.contains_congr s s2 hs e2 x (hmem x)]; exact hx
    · show s2.used = s.used
      rw [e8, h7, h5]; omega
  · rw [HashMap.has_key_eq] at hk
    have hn : m.lookup key = none := by
      cases h : m.lookup key with
      | none => rfl
      | some v => rw [h] at hk; simp at hk
    obtain ⟨h1, _, _, _, _, _, _, h8, _⟩ := HashMap.put_spec m hm key value
    rw [hn] at h8
    simp only [Option.isSome_none, Bool.false_eq_true, if_false] at h8
    have hl := HashMap.put_lookup_self m hm key value
    obtain ⟨m2, e1, e2, _, _, _, _, e7, _, _, _⟩ :=
      HashMap.erase_present (m.put key value).2 h1 key value hl
    have hs1 := HashMap.erase_lookup_self (m.put key value).2 h1 key
    have ho1 := HashMap.erase_lookup_other (m.put key value).2 h1 key
    rw [e1] at hs1 ho1 ⊢
    have hlook : ∀ k, m2.lookup k = m.lookup k := by
      intro k
      by_cases hkk : k = key
      · subst hkk; rw [hs1, hn]
      · rw [ho1 k hkk, HashMap.put_lookup_other m hm key value k hkk]
    refine ⟨rfl, ?_, ?_, fun k => ?_⟩
    · rw [HashMap.has_key_eq, hs1]; rfl
    · show m2.used = m.used
      rw [e7, h8]; omega
    · rw [HashMap.operator_index_const_eq, HashMap.operator_index_const_eq, HashMap.has_key_eq,
        HashMap.has_key_eq, hlook k]
      exact ⟨rfl, rfl⟩

/-- The witness of C6: element 7 on `demo_set` and key 7 on `demo_map`. -/
theorem insert_erase_round_trip_witness :
    demo_set.valid ∧ demo_set.contains 7 = false ∧ demo_map.valid ∧
    demo_map.has_key 7 = false ∧
    ((((demo_set.insert 7).2.erase 7).1 = .ok 1 ∧
     ((demo_set.insert 7).2.erase 7).2.contains 7 = false ∧
     ((demo_set.insert 7).2.erase 7).2.size = demo_set.size ∧
     (∀ y, ((demo_set.insert 7).2.erase 7).2.contains y = demo_set.contains y)) ∧
    (((demo_map.put 7 70).2.erase 7).1 = .ok 70 ∧
     ((demo_map.put 7 70).2.erase 7).2.has_key 7 = false ∧
     ((demo_map.put 7 70).2.erase 7).2.size = demo_map.size ∧
     (∀ k, ((demo_map.put 7 70).2.erase 7).2.operator_index_const k =
         demo_map.operator_index_const k ∧
       ((demo_map.put 7 70).2.erase 7).2.has_key k = demo_map.has_key k))) :=
  ⟨demo_set_valid, by decide, demo_map_valid, by decide,
    insert_erase_round_trip demo_set demo_set_valid 7 (by decide) demo_map demo_map_valid 7 70
      (by decide)⟩

/-- C8: starting from the empty map with load threshold 1 and 1 bin, after
`put("a",1)`, `put("b",2)`, `put("c",3)` there are 4 bins (1 doubled twice), `size()` is 3
and `map["b"]` is 2; `erase("b")` then returns 2 and `has_key("b")` is false; a second
`erase("b")` throws `KeyError`. -/
theorem scenario_abc (thash chash : hashfunc String) (m0 : HashMap String Int)
    (h0 : HashMap.mk_default thash 1 chash = .ok m0) (hh : m0.hash.no_int_min) :
    m0.bins = 1 ∧ m0.load_threshold = 1 ∧ m0.size = 0 ∧
    (abc_map m0).bins = 4 ∧ (abc_map m0).size = 3 ∧
    (abc_map m0).operator_index_const "b" = .ok 2 ∧
    ((abc_map m0).operator_index "b").2 = abc_map m0 ∧
    node_value (abc_map m0).map ((abc_map m0).operator_index "b").1 = some ("b", 2) ∧
    ((abc_map m0).erase "b").1 = .ok 2 ∧
    ((abc_map m0).erase "b").2.has_key "b" = false ∧
    (((abc_map m0).erase "b").2.erase "b").1 = .error .KeyError := by
  obtain ⟨hv, hem⟩ := HashMap.map_mk_default_valid thash chash 1 m0 h0 hh
  obtain ⟨_, b0, u0, _, t0, _, _⟩ := HashMap.map_mk_default_spec thash chash 1 m0 h0
  have l0 : ∀ k, m0.lookup k = none := HashMap.lookup_none_of_empty m0 hem hv
  -- first put
  obtain ⟨v1, _, _, t1, _, b1, _, u1, _⟩ := HashMap.put_spec m0 hv "a" 1
  rw [l0, b0, u0, t0] at b1
  rw [l0, u0] at u1
  rw [t0] at t1
  have q1 : ((Int.tdiv (0 + 1 + 1) 1 : Int) : ℚ) > 1 := by decide
  simp only [Option.isSome_none, Bool.false_eq_true, if_false, q1, if_true] at b1 u1
  have l1b : (m0.put "a" 1).2.lookup "b" = none := by
    rw [HashMap.put_lookup_other m0 hv "a" 1 "b" (by decide)]; exact l0 _
  have l1c : (m0.put "a" 1).2.lookup "c" = none := by
    rw [HashMap.put_lookup_other m0 hv "a" 1 "c" (by decide)]; exact l0 _
  -- second put
  obtain ⟨v2, _, _, t2, _, b2, _, u2, _⟩ := HashMap.put_spec (m0.put "a" 1).2 v1 "b" 2
  rw [l1b, b1, u1, t1] at b2
  rw [l1b, u1] at u2
  rw [t1] at t2
  have q2 : ¬ (((Int.tdiv (0 + 1 + 1 + 1) (1 * 2) : Int) : ℚ) > 1) := by decide
  simp only [Option.isSome_none, Bool.false_eq_true, if_false, q2] at b2 u2
  have l2b : ((m0.put "a" 1).2.put "b" 2).2.lookup "b" = some 2 :=
    HashMap.put_lookup_self _ v1 "b" 2
  have l2c : ((m0.put "a" 1).2.put "b" 2).2.lookup "c" = none := by
    rw [HashMap.put_lookup_other _ v1 "b" 2 "c" (by decide)]; exact l1c
  -- third put
  obtain ⟨v3, _, _, _, _, b3, _, u3, _⟩ :=
    HashMap.put_spec ((m0.put "a" 1).2.put "b" 2).2 v2 "c" 3
  rw [l2c, b2, u2, t2] at b3
  rw [l2c, u2] at u3
  have q3 : ((Int.tdiv (0 + 1 + 1 + 1 + 1) (1 * 2) : Int) : ℚ) > 1 := by decide
  simp only [Option.isSome_none, Bool.false_eq_true, if_false, q3, if_true] at b3 u3
  have l3b : (abc_map m0).lookup "b" = some 2 := by
    unfold abc_map
    rw [HashMap.put_lookup_other _ v2 "c" 3 "b" (by decide)]; exact l2b
  have hv3 : (abc_map m0).valid := v3
  obtain ⟨_, _, _, _, _, _, _, i8, _⟩ := HashMap.operator_index_spec (abc_map m0) hv3 "b"
  have i9 : ∃ p, (abc_map m0).find_key "b" = some p := by
    cases hf : (abc_map m0).find_key "b" with
    | none =>
      have := l3b
      unfold HashMap.lookup at this
      rw [hf] at this
      simp at this
    | some p => exact ⟨p, rfl⟩
  obtain ⟨p, hp⟩ := i9
  obtain ⟨e, he1, he2, _, he4⟩ := HashMap.find_key_some (abc_map m0) "b" p hp
  have he5 : e = ("b", 2) := by
    have := l3b
    rw [HashMap.lookup_eq, he4] at this
    simp only [Option.map_some', Option.some.injEq] at this
    rw [← he2, ← this]
  obtain ⟨m4, e1, e2, _, _, _, _, _, _, _, _⟩ :=
    HashMap.erase_present (abc_map m0) hv3 "b" 2 l3b
  have l4 := HashMap.erase_lookup_self (abc_map m0) hv3 "b"
  refine ⟨b0, t0, u0, ?_, ?_, ?_, i8 (by rw [l3b]; rfl), ?_, ?_, ?_, ?_⟩
  · unfold abc_map; rw [b3]; rfl
  · show (abc_map m0).used = 3
    unfold abc_map; rw [u3]; rfl
  · rw [HashMap.operator_index_const_eq, l3b]
  · have : (abc_map m0).operator_index "b" = (p, abc_map m0) := by
      unfold HashMap.operator_index
      rw [hp]
    rw [this, he1, he5]
  · rw [e1]
  · rw [HashMap.has_key_eq, l4]; rfl
  · rw [HashMap.erase_absent _ "b" l4]

/-- The witness of C8: the map `HashMap<std::string,int>(1.0, demo_hash_str)`. -/
theorem scenario_abc_witness :
    HashMap.mk_default .undefinedhash 1 demo_hash_str = .ok demo_map_str ∧
    demo_map_str.hash.no_int_min ∧
    (demo_map_str.bins = 1 ∧ demo_map_str.load_threshold = 1 ∧ demo_map_str.size = 0 ∧
    (abc_map demo_map_str).bins = 4 ∧ (abc_map demo_map_str).size = 3 ∧
    (abc_map demo_map_str).operator_index_const "b" = .ok 2 ∧
    ((abc_map demo_map_str).operator_index "b").2 = abc_map demo_map_str ∧
    node_value (abc_map demo_map_str).map ((abc_map demo_map_str).operator_index "b").1 =
      some ("b", 2) ∧
    ((abc_map demo_map_str).erase "b").1 = .ok 2 ∧
    ((abc_map demo_map_str).erase "b").2.has_key "b" = false ∧
    (((abc_map demo_map_str).erase "b").2.erase "b").1 = .error .KeyError) :=
  ⟨rfl, demo_hash_str_no_int_min,
    scenario_abc .undefinedhash demo_hash_str demo_map_str rfl demo_hash_str_no_int_min⟩

section traversal
variable {α : Type}

theorem iterate_begin (t : List (List α)) (bins mod_count : Int)
    (hb : (t.length : Int) = bins) (fuel : Nat) :
    iterate t bins mod_count fuel (Iterator.create t bins mod_count true) =
      if t.flatten.length < fuel then some (.ok t.flatten) else none := by
  obtain ⟨_, _, h3⟩ := create_begin_spec t bins mod_count hb
  exact iterate_spec t bins mod_count hb t.flatten _ fuel h3

theorem begin_eq_end_of_empty (t : List (List α)) (bins mod_count : Int)
    (hb : (t.length : Int) = bins) (he : t.flatten = []) :
    Iterator.equals mod_count (Iterator.create t bins mod_count true)
      (Iterator.create t bins mod_count false) = .ok true := by
  obtain ⟨_, _, h3⟩ := create_begin_spec t bins mod_count hb
  rw [he] at h3
  have hc := cursor_at_nil t _ h3
  unfold Iterator.equals
  rw [hc]
  simp [Iterator.create]

end traversal

/-- C9: on a map or a set that is not modified, the loop from `begin()` with `++` until the
iterator equals `end()` terminates after exactly `size()` dereferenced positions (it needs
`size() + 1` tests of the loop condition and no fewer), and the sequence it yields is the
concatenation of the chains of slots `0 .. bins-1` in slot order, each node once: it has
`size()` members and no key (no element) twice.  On an empty container `begin()` equals
`end()`. -/
theorem iteration_visits_all {K V T : Type} (m : HashMap K V) (hm : m.valid)
    (s : HashSet T) (hs : s.valid) :
    ((∀ fuel : Nat, m.traverse fuel =
        if m.size < (fuel : Int) then some (.ok (bin_chains m.map m.bins).flatten) else none) ∧
     ((bin_chains m.map m.bins).flatten.length : Int) = m.size ∧
     ((bin_chains m.map m.bins).flatten.map Prod.fst).Nodup ∧
     (m.size = 0 → Iterator.equals m.mod_count m.begin m.end_ = .ok true)) ∧
    ((∀ fuel : Nat, s.traverse fuel =
        if s.size < (fuel : Int) then some (.ok (bin_chains s.set s.bins).flatten) else none) ∧
     ((bin_chains s.set s.bins).flatten.length : Int) = s.size ∧
     (bin_chains s.set s.bins).flatten.Nodup ∧
     (s.size = 0 → Iterator.equals s.mod_count s.begin s.end_ = .ok true)) := by
  constructor
  · rw [bin_chains_eq m.map m.bins hm.ok.length_eq]
    have hc : m.size = (m.map.flatten.length : Int) := hm.counted
    refine ⟨fun fuel => ?_, hc.symm, hm.ok.nodup, fun h0 => ?_⟩
    · unfold HashMap.traverse HashMap.begin
      rw [iterate_begin m.map m.bins m.mod_count hm.ok.length_eq fuel, hc]
      by_cases hf : m.map.flatten.length < fuel
      · rw [if_pos hf, if_pos (by exact_mod_cast hf)]
      · rw [if_neg hf, if_neg (by exact_mod_cast hf)]
    · refine begin_eq_end_of_empty m.map m.bins m.mod_count hm.ok.length_eq ?_
      rw [hc] at h0
      exact List.length_eq_zero.1 (by exact_mod_cast h0)
  · rw [bin_chains_eq s.set s.bins hs.ok.length_eq]
    have hc : s.size = (s.set.flatten.length : Int) := hs.counted
    refine ⟨fun fuel => ?_, hc.symm, by simpa using hs.ok.nodup, fun h0 => ?_⟩
    · unfold HashSet.traverse HashSet.begin
      rw [iterate_begin s.set s.bins s.mod_count hs.ok.length_eq fuel, hc]
      by_cases hf : s.set.flatten.length < fuel
      · rw [if_pos hf, if_pos (by exact_mod_cast hf)]
      · rw [if_neg hf, if_neg (by exact_mod_cast hf)]
    · refine begin_eq_end_of_empty s.set s.bins s.mod_count hs.ok.length_eq ?_
      rw [hc] at h0
      exact List.length_eq_zero.1 (by exact_mod_cast h0)

/-- The witness of C9: the map holding `1 -> 10, 2 -> 20, 3 -> 30` and the set holding
`1, 2, 3`. -/
theorem iteration_visits_all_witness :
    (demo_map.commands [.put 1 10, .put 2 20, .put 3 30]).valid ∧
    (demo_set.commands [.insert 1, .insert 2, .insert 3]).valid ∧
    (((∀ fuel : Nat, (demo_map.commands [.put 1 10, .put 2 20, .put 3 30]).traverse fuel =
        if (demo_map.commands [.put 1 10, .put 2 20, .put 3 30]).size < (fuel : Int) then
          some (.ok (bin_chains (demo_map.commands [.put 1 10, .put 2 20, .put 3 30]).map
            (demo_map.commands [.put 1 10, .put 2 20, .put 3 30]).bins).flatten)
        else none) ∧
     ((bin_chains (demo_map.commands [.put 1 10, .put 2 20, .put 3 30]).map
        (demo_map.commands [.put 1 10, .put 2 20, .put 3 30]).bins).flatten.length : Int) =
        (demo_map.commands [.put 1 10, .put 2 20, .put 3 30]).size ∧
     ((bin_chains (demo_map.commands [.put 1 10, .put 2 20, .put 3 30]).map
        (demo_map.commands [.put 1 10, .put 2 20, .put 3 30]).bins).flatten.map Prod.fst).Nodup ∧
     ((demo_map.commands [.put 1 10, .put 2 20, .put 3 30]).size = 0 →
        Iterator.equals (demo_map.commands [.put 1 10, .put 2 20, .put 3 30]).mod_count
          (demo_map.commands [.put 1 10, .put 2 20, .put 3 30]).begin
          (demo_map.commands [.put 1 10, .put 2 20, .put 3 30]).end_ = .ok true)) ∧
    ((∀ fuel : Nat, (demo_set.commands [.insert 1, .insert 2, .insert 3]).traverse fuel =
        if (demo_set.commands [.insert 1, .insert 2, .insert 3]).size < (fuel : Int) then
          some (.ok (bin_chains (demo_set.commands [.insert 1, .insert 2, .insert 3]).set
            (demo_set.commands [.insert 1, .insert 2, .insert 3]).bins).flatten)
        else none) ∧
     ((bin_chains (demo_set.commands [.insert 1, .insert 2, .insert 3]).set
        (demo_set.commands [.insert 1, .insert 2, .insert 3]).bins).flatten.length : Int) =
        (demo_set.commands [.insert 1, .insert 2, .insert 3]).size ∧
     (bin_chains (demo_set.commands [.insert 1, .insert 2, .insert 3]).set
        (demo_set.commands [.insert 1, .insert 2, .insert 3]).bins).flatten.Nodup ∧
     ((demo_set.commands [.insert 1, .insert 2, .insert 3]).size = 0 →
        Iterator.equals (demo_set.commands [.insert 1, .insert 2, .insert 3]).mod_count
          (demo_set.commands [.insert 1, .insert 2, .insert 3]).begin
          (demo_set.commands [.insert 1, .insert 2, .insert 3]).end_ = .ok true))) :=
  ⟨HashMap.map_commands_valid _ demo_map demo_map_valid,
    HashSet.set_commands_valid _ demo_set demo_set_valid,
    iteration_visits_all (demo_map.commands [.put 1 10, .put 2 20, .put 3 30])
      (HashMap.map_commands_valid _ demo_map demo_map_valid)
      (demo_set.commands [.insert 1, .insert 2, .insert 3])
      (HashSet.set_commands_valid _ demo_set demo_set_valid)⟩

namespace HashSet

variable {T : Type}

/-- On a set whose hash function is its template argument, `retain_all(c)` keeps exactly the
elements that are also in `c`, returns the number of elements removed and updates `size()`
by it; the bin count and `mod_count` are as before. -/
theorem retain_all_contract [DecidableEq T] (s : HashSet T) (hv : s.valid) (i : List T)
    (ht : s.thash.same .undefinedhash = false) :
    (s.retain_all i).1 = .ok (s.size - (s.retain_all i).2.size) ∧
    (s.retain_all i).2.valid ∧
    (∀ x, (s.retain_all i).2.contains x = true ↔ s.contains x = true ∧ x ∈ i) ∧
    ((s.retain_all i).2.size : Int) = ((s.retain_all i).2.set.flatten.length : Int) ∧
    (s.retain_all i).2.bins = s.bins ∧ (s.retain_all i).2.mod_count = s.mod_count := by
  obtain ⟨s1, e1, e2, _, _, _, e6, e7, _, e9⟩ := retain_all_spec s hv i ht
  rw [e1]
  refine ⟨rfl, e2, fun x => ?_, e2.counted, e6, e7⟩
  rw [contains_iff s1 e2.ok.length_eq, contains_iff s hv.ok.length_eq, e9]

end HashSet

/-- C10 (violated by the code): on the set `{1, 2, 3}` built as
`HashSet<int> s(1.0, demo_hash)`, whose hash function is passed to the constructor,
`retain_all` of a collection yielding `2, 3, 4` throws `TemplateFunctionError` and removes
nothing: the local `HashSet<T,thash> newSet(i)` is constructed without a hash function. -/
theorem retain_all_throws :
    HashSet.mk_default .undefinedhash 1 demo_hash = .ok demo_set_chash ∧
    (demo_set_chash.commands [.insert 1, .insert 2, .insert 3]).size = 3 ∧
    ((demo_set_chash.commands [.insert 1, .insert 2, .insert 3]).retain_all [2, 3, 4]).1 =
      .error .TemplateFunctionError ∧
    ((demo_set_chash.commands [.insert 1, .insert 2, .insert 3]).retain_all [2, 3, 4]).2 =
      demo_set_chash.commands [.insert 1, .insert 2, .insert 3] ∧
    ((demo_set_chash.commands [.insert 1, .insert 2, .insert 3]).retain_all [2, 3,
      4]).2.contains 1 = true := by
  refine ⟨rfl, by decide, ?_, ?_, ?_⟩
  · rw [HashSet.retain_all_undefined _ _ (by rfl)]
  · rw [HashSet.retain_all_undefined _ _ (by rfl)]
  · rw [HashSet.retain_all_undefined _ _ (by rfl)]
    decide

/-- The scenario of C10 on a set whose hash function is its template argument: on
`{1, 2, 3}`, `retain_all` of a collection yielding `2, 3, 4` returns 1 and leaves exactly
2 and 3. -/
theorem retain_all_scenario :
    ((demo_set.commands [.insert 1, .insert 2, .insert 3]).retain_all [2, 3, 4]).1 = .ok 1 ∧
    ((demo_set.commands [.insert 1, .insert 2, .insert 3]).retain_all [2, 3, 4]).2.size = 2 ∧
    ∀ x, ((demo_set.commands [.insert 1, .insert 2, .insert 3]).retain_all [2, 3,
      4]).2.contains x = true ↔ x = 2 ∨ x = 3 := by
  have hv := HashSet.set_commands_valid [.insert 1, .insert 2, .insert 3] demo_set demo_set_valid
  obtain ⟨h1, h2, h3, _⟩ := HashSet.retain_all_contract
    (demo_set.commands [.insert 1, .insert 2, .insert 3]) hv [2, 3, 4] (by rfl)
  have hs : ((demo_set.commands [.insert 1, .insert 2, .insert 3]).retain_all [2, 3, 4]).2.size
      = 2 := by decide
  refine ⟨?_, hs, fun x => ?_⟩
  · rw [h1, hs]; rfl
  · rw [h3, HashSet.contains_iff _ hv.ok.length_eq]
    have : (demo_set.commands [.insert 1, .insert 2, .insert 3]).set.flatten = [2, 1, 3] := by
      decide
    rw [this]
    simp only [List.mem_cons, List.mem_singleton, List.not_mem_nil, or_false]
    omega

section fail_fast
variable {α : Type}

theorem stale_operations (t : List (List α)) (bins mod_count : Int) (it : Iterator)
    (h : it.expected_mod_count ≠ mod_count) :
    Iterator.dereference t mod_count it = .error .ConcurrentModificationError ∧
    Iterator.arrow t mod_count it = .error .ConcurrentModificationError ∧
    Iterator.increment t bins mod_count it = .error .ConcurrentModificationError ∧
    Iterator.post_increment t bins mod_count it = .error .ConcurrentModificationError ∧
    (∀ rhs, Iterator.equals mod_count it rhs = .error .ConcurrentModificationError) ∧
    (∀ rhs, Iterator.differs mod_count it rhs = .error .ConcurrentModificationError) ∧
    Iterator.erase_node t mod_count it = .error .ConcurrentModificationError := by
  refine ⟨?_, ?_, ?_, ?_, fun rhs => ?_, fun rhs => ?_, ?_⟩
  · unfold Iterator.dereference; rw [if_pos h]
  · unfold Iterator.arrow; rw [if_pos h]
  · unfold Iterator.increment; rw [if_pos h]
  · unfold Iterator.post_increment; rw [if_pos h]
  · unfold Iterator.equals; rw [if_pos h]
  · unfold Iterator.differs; rw [if_pos h]
  · unfold Iterator.erase_node; rw [if_pos h]

theorem erase_node_of_dereference (t : List (List α)) (mod_count : Int) (it : Iterator) (x : α)
    (h : Iterator.dereference t mod_count it = .ok x) :
    ∃ p, it.current.2 = some p ∧ it.expected_mod_count = mod_count ∧ it.can_erase = true ∧
      node_value t p = some x ∧
      Iterator.erase_node t mod_count it =
        .ok (x, set_bin_chain t p.bin (chain_skip (bin_chain t p.bin) p.pos),
          { it with can_erase := false, expected_mod_count := mod_count + 1 }) := by
  unfold Iterator.dereference at h
  by_cases h1 : it.expected_mod_count = mod_count
  · cases h2 : it.can_erase with
    | false => simp [h1, h2] at h
    | true =>
      cases h3 : it.current.2 with
      | none => simp [h1, h2, h3] at h
      | some p =>
        cases h4 : node_value t p with
        | none => simp [h1, h2, h3, h4] at h
        | some y =>
          simp only [h1, h2, h3, h4, ne_eq, not_true_eq_false, if_false, Bool.not_true,
            Bool.false_eq_true, Except.ok.injEq] at h
          subst h
          refine ⟨p, rfl, h1, rfl, h4, ?_⟩
          unfold Iterator.erase_node
          simp only [h1, h2, h3, h4, ne_eq, not_true_eq_false, if_false, Bool.not_true,
            Bool.false_eq_true]
  · simp [h1] at h

theorem erase_node_erased (t : List (List α)) (mod_count : Int) (it : Iterator)
    (h1 : it.expected_mod_count = mod_count) (h2 : it.can_erase = false) :
    Iterator.erase_node t mod_count it = .error .CannotEraseError := by
  unfold Iterator.erase_node
  simp [h1, h2]

theorem erase_node_at_end (t : List (List α)) (mod_count : Int) (it : Iterator)
    (h1 : it.expected_mod_count = mod_count) (h2 : it.current.2 = none) :
    Iterator.erase_node t mod_count it = .error .CannotEraseError := by
  unfold Iterator.erase_node
  cases h3 : it.can_erase <;> simp [h1, h2, h3]

end fail_fast

namespace HashMap

variable {K V : Type}

theorem ensure_load_threshold_mod_count (m : HashMap K V) (new_used : Int) :
    (m.ensure_load_threshold new_used).mod_count = m.mod_count ∧
    (m.ensure_load_threshold new_used).hash = m.hash ∧
    (m.ensure_load_threshold new_used).thash = m.thash ∧
    (m.ensure_load_threshold new_used).load_threshold = m.load_threshold ∧
    (m.ensure_load_threshold new_used).used = m.used := by
  unfold ensure_load_threshold
  split <;> exact ⟨rfl, rfl, rfl, rfl, rfl⟩

theorem put_fields [DecidableEq K] (m : HashMap K V) (key : K) (value : V) :
    (m.put key value).2.mod_count = m.mod_count + 1 ∧
    (m.put key value).2.hash = m.hash ∧
    (m.put key value).2.thash = m.thash ∧
    (m.put key value).2.load_threshold = m.load_threshold := by
  cases h : m.find_key key with
  | some p =>
    obtain ⟨e, he, _⟩ := find_key_some m key p h
    rw [put_present m key value p e h he]
    exact ⟨rfl, rfl, rfl, rfl⟩
  | none =>
    rw [put_absent m key value h]
    obtain ⟨h1, h2, h3, h4, _⟩ := ensure_load_threshold_mod_count
      ({ m with mod_count := m.mod_count + 1, used := m.used + 1 } : HashMap K V)
      (m.used + 1 + 1)
    exact ⟨h1, h2, h3, h4⟩

/-- C11: after a direct `put` on the map (the key new or already present), every dereference
(`*`, `->`), advance (prefix and postfix `++`), comparison (`==`, `!=`) and `erase` called on
an iterator obtained over the map before the `put` throws `ConcurrentModificationError`, and
the failed `erase` changes nothing.  An iterator obtained over a map never expects more than
the map's `mod_count`: it is created with the current count, and refreshed to it by its own
`erase`. -/
theorem fail_fast_after_put [DecidableEq K] (m : HashMap K V) (key : K) (value : V)
    (it1 it2 : Iterator) (h1 : it1.expected_mod_count ≤ m.mod_count)
    (h2 : it2.expected_mod_count ≤ m.mod_count) :
    ∀ it, it = it1 ∨ it = it2 →
      Iterator.dereference (m.put key value).2.map (m.put key value).2.mod_count it =
        .error .ConcurrentModificationError ∧
      Iterator.arrow (m.put key value).2.map (m.put key value).2.mod_count it =
        .error .ConcurrentModificationError ∧
      Iterator.increment (m.put key value).2.map (m.put key value).2.bins
        (m.put key value).2.mod_count it = .error .ConcurrentModificationError ∧
      Iterator.post_increment (m.put key value).2.map (m.put key value).2.bins
        (m.put key value).2.mod_count it = .error .ConcurrentModificationError ∧
      (∀ rhs, Iterator.equals (m.put key value).2.mod_count it rhs =
        .error .ConcurrentModificationError) ∧
      (∀ rhs, Iterator.differs (m.put key value).2.mod_count it rhs =
        .error .ConcurrentModificationError) ∧
      (m.put key value).2.Iterator_erase it =
        (.error .ConcurrentModificationError, (m.put key value).2, it) := by
  intro it hit
  have hle : it.expected_mod_count ≤ m.mod_count := by
    rcases hit with rfl | rfl
    · exact h1
    · exact h2
  have hne : it.expected_mod_count ≠ (m.put key value).2.mod_count := by
    rw [(put_fields m key value).1]
    omega
  obtain ⟨a1, a2, a3, a4, a5, a6, a7⟩ :=
    stale_operations (m.put key value).2.map (m.put key value).2.bins _ it hne
  refine ⟨a1, a2, a3, a4, a5, a6, ?_⟩
  unfold Iterator_erase
  rw [a7]

/-- The witness of C11: `begin()` and `end()` of the map holding `1 -> 10, 2 -> 20, 3 -> 30`,
and `put(2, 21)` on a present key. -/
theorem fail_fast_after_put_witness :
    (demo_map.commands [.put 1 10, .put 2 20, .put 3 30]).begin.expected_mod_count ≤
      (demo_map.commands [.put 1 10, .put 2 20, .put 3 30]).mod_count ∧
    (demo_map.commands [.put 1 10, .put 2 20, .put 3 30]).end_.expected_mod_count ≤
      (demo_map.commands [.put 1 10, .put 2 20, .put 3 30]).mod_count ∧
    ∀ it, it = (demo_map.commands [.put 1 10, .put 2 20, .put 3 30]).begin ∨
        it = (demo_map.commands [.put 1 10, .put 2 20, .put 3 30]).end_ →
      Iterator.dereference ((demo_map.commands [.put 1 10, .put 2 20, .put 3 30]).put 2 21).2.map
        ((demo_map.commands [.put 1 10, .put 2 20, .put 3 30]).put 2 21).2.mod_count it =
        .error .ConcurrentModificationError ∧
      Iterator.arrow ((demo_map.commands [.put 1 10, .put 2 20, .put 3 30]).put 2 21).2.map
        ((demo_map.commands [.put 1 10, .put 2 20, .put 3 30]).put 2 21).2.mod_count it =
        .error .ConcurrentModificationError ∧
      Iterator.increment ((demo_map.commands [.put 1 10, .put 2 20, .put 3 30]).put 2 21).2.map
        ((demo_map.commands [.put 1 10, .put 2 20, .put 3 30]).put 2 21).2.bins
        ((demo_map.commands [.put 1 10, .put 2 20, .put 3 30]).put 2 21).2.mod_count it =
        .error .ConcurrentModificationError ∧
      Iterator.post_increment
        ((demo_map.commands [.put 1 10, .put 2 20, .put 3 30]).put 2 21).2.map
        ((demo_map.commands [.put 1 10, .put 2 20, .put 3 30]).put 2 21).2.bins
        ((demo_map.commands [.put 1 10, .put 2 20, .put 3 30]).put 2 21).2.mod_count it =
        .error .ConcurrentModificationError ∧
      (∀ rhs, Iterator.equals
        ((demo_map.commands [.put 1 10, .put 2 20, .put 3 30]).put 2 21).2.mod_count it rhs =
        .error .ConcurrentModificationError) ∧
      (∀ rhs, Iterator.differs
        ((demo_map.commands [.put 1 10, .put 2 20, .put 3 30]).put 2 21).2.mod_count it rhs =
        .error .ConcurrentModificationError) ∧
      ((demo_map.commands [.put 1 10, .put 2 20, .put 3 30]).put 2 21).2.Iterator_erase it =
        (.error .ConcurrentModificationError,
          ((demo_map.commands [.put 1 10, .put 2 20, .put 3 30]).put 2 21).2, it) :=
  ⟨le_refl _, le_refl _,
    fail_fast_after_put (demo_map.commands [.put 1 10, .put 2 20, .put 3 30]) 2 21
      (demo_map.commands [.put 1 10, .put 2 20, .put 3 30]).begin
      (demo_map.commands [.put 1 10, .put 2 20, .put 3 30]).end_ (le_refl _) (le_refl _)⟩

end HashMap

theorem HashMap.Iterator_erase_erased {K V : Type} (m : HashMap K V) (it : Iterator)
    (h1 : it.expected_mod_count = m.mod_count) (h2 : it.can_erase = false) :
    m.Iterator_erase it = (.error .CannotEraseError, m, it) := by
  unfold HashMap.Iterator_erase
  rw [erase_node_erased m.map m.mod_count it h1 h2]

theorem HashSet.set_Iterator_erase_erased {T : Type} (s : HashSet T) (it : Iterator)
    (h1 : it.expected_mod_count = s.mod_count) (h2 : it.can_erase = false) :
    s.Iterator_erase it = (.error .CannotEraseError, s, it) := by
  unfold HashSet.Iterator_erase
  rw [erase_node_erased s.set s.mod_count it h1 h2]

/-- C12: `Iterator::erase` works once per position.  On an iterator at a dereferenceable
position of a map or a set `erase()` succeeds and returns the entry at the cursor; a second
`erase()` on the iterator it leaves, with no `++` in between, throws `CannotEraseError` and
leaves container and iterator unchanged; `erase()` on an iterator at the end position whose
snapshot is current throws `CannotEraseError` as well. -/
theorem erase_once_per_position {K V T : Type} (m : HashMap K V) (it : Iterator) (x : K × V)
    (s : HashSet T) (jt : Iterator) (y : T)
    (hm : Iterator.dereference m.map m.mod_count it = .ok x)
    (hs : Iterator.dereference s.set s.mod_count jt = .ok y) :
    ((m.Iterator_erase it).1 = .ok x ∧
     (m.Iterator_erase it).2.1.Iterator_erase (m.Iterator_erase it).2.2 =
       (.error .CannotEraseError, (m.Iterator_erase it).2.1, (m.Iterator_erase it).2.2) ∧
     (∀ e : Iterator, e.current.2 = none → e.expected_mod_count = m.mod_count →
       m.Iterator_erase e = (.error .CannotEraseError, m, e)) ∧
     m.Iterator_erase m.end_ = (.error .CannotEraseError, m, m.end_)) ∧
    ((s.Iterator_erase jt).1 = .ok y ∧
     (s.Iterator_erase jt).2.1.Iterator_erase (s.Iterator_erase jt).2.2 =
       (.error .CannotEraseError, (s.Iterator_erase jt).2.1, (s.Iterator_erase jt).2.2) ∧
     (∀ e : Iterator, e.current.2 = none → e.expected_mod_count = s.mod_count →
       s.Iterator_erase e = (.error .CannotEraseError, s, e)) ∧
     s.Iterator_erase s.end_ = (.error .CannotEraseError, s, s.end_)) := by
  constructor
  · obtain ⟨p, _, _, _, _, he⟩ := erase_node_of_dereference m.map m.mod_count it x hm
    have hend : ∀ e : Iterator, e.current.2 = none → e.expected_mod_count = m.mod_count →
        m.Iterator_erase e = (.error .CannotEraseError, m, e) := by
      intro e h1 h2
      unfold HashMap.Iterator_erase
      rw [erase_node_at_end m.map m.mod_count e h2 h1]
    have e1 : m.Iterator_erase it = (.ok x,
        { m with map := set_bin_chain m.map p.bin (chain_skip (bin_chain m.map p.bin) p.pos),
                 mod_count := m.mod_count + 1, used := m.used - 1 },
        { it with can_erase := false, expected_mod_count := m.mod_count + 1 }) := by
      unfold HashMap.Iterator_erase
      rw [he]
    refine ⟨by rw [e1], ?_, hend, hend m.end_ rfl rfl⟩
    rw [e1]
    exact HashMap.Iterator_erase_erased _ _ rfl rfl
  · obtain ⟨p, _, _, _, _, he⟩ := erase_node_of_dereference s.set s.mod_count jt y hs
    have hend : ∀ e : Iterator, e.current.2 = none → e.expected_mod_count = s.mod_count →
        s.Iterator_erase e = (.error .CannotEraseError, s, e) := by
      intro e h1 h2
      unfold HashSet.Iterator_erase
      rw [erase_node_at_end s.set s.mod_count e h2 h1]
    have e1 : s.Iterator_erase jt = (.ok y,
        { s with set := set_bin_chain s.set p.bin (chain_skip (bin_chain s.set p.bin) p.pos),
                 mod_count := s.mod_count + 1, used := s.used - 1 },
        { jt with can_erase := false, expected_mod_count := s.mod_count + 1 }) := by
      unfold HashSet.Iterator_erase
      rw [he]
    refine ⟨by rw [e1], ?_, hend, hend s.end_ rfl rfl⟩
    rw [e1]
    exact HashSet.set_Iterator_erase_erased _ _ rfl rfl

/-- The witness of C12: the iterator `begin()` at the first element of the set holding
`1, 2, 3`, and `begin()` of the map holding `1 -> 10, 2 -> 20, 3 -> 30`. -/
theorem erase_once_per_position_witness :
    Iterator.dereference (demo_map.commands [.put 1 10, .put 2 20, .put 3 30]).map
      (demo_map.commands [.put 1 10, .put 2 20, .put 3 30]).mod_count
      (demo_map.commands [.put 1 10, .put 2 20, .put 3 30]).begin = .ok (1, 10) ∧
    Iterator.dereference (demo_set.commands [.insert 1, .insert 2, .insert 3]).set
      (demo_set.commands [.insert 1, .insert 2, .insert 3]).mod_count
      (demo_set.commands [.insert 1, .insert 2, .insert 3]).begin = .ok 2 ∧
    ((demo_set.commands [.insert 1, .insert 2, .insert 3]).Iterator_erase
      (demo_set.commands [.insert 1, .insert 2, .insert 3]).begin).1 = .ok 2 ∧
    ((demo_set.commands [.insert 1, .insert 2, .insert 3]).Iterator_erase
      (demo_set.commands [.insert 1, .insert 2, .insert 3]).begin).2.1.Iterator_erase
      ((demo_set.commands [.insert 1, .insert 2, .insert 3]).Iterator_erase
        (demo_set.commands [.insert 1, .insert 2, .insert 3]).begin).2.2 =
      (.error .CannotEraseError,
        ((demo_set.commands [.insert 1, .insert 2, .insert 3]).Iterator_erase
          (demo_set.commands [.insert 1, .insert 2, .insert 3]).begin).2.1,
        ((demo_set.commands [.insert 1, .insert 2, .insert 3]).Iterator_erase
          (demo_set.commands [.insert 1, .insert 2, .insert 3]).begin).2.2) :=
  ⟨rfl, rfl,
    (erase_once_per_position (demo_map.commands [.put 1 10, .put 2 20, .put 3 30])
      (demo_map.commands [.put 1 10, .put 2 20, .put 3 30]).begin (1, 10)
      (demo_set.commands [.insert 1, .insert 2, .insert 3])
      (demo_set.commands [.insert 1, .insert 2, .insert 3]).begin 2
      rfl rfl).2.1,
    (erase_once_per_position (demo_map.commands [.put 1 10, .put 2 20, .put 3 30])
      (demo_map.commands [.put 1 10, .put 2 20, .put 3 30]).begin (1, 10)
      (demo_set.commands [.insert 1, .insert 2, .insert 3])
      (demo_set.commands [.insert 1, .insert 2, .insert 3]).begin 2
      rfl rfl).2.2.1⟩

section all_chains
variable {α : Type}

theorem all_chains_iff (t : List (List α)) (bins : Int) (h : (t.length : Int) = bins)
    (p : α → Bool) :
    (bin_chains t bins).all (fun c => c.all p) = true ↔ ∀ e ∈ t.flatten, p e = true := by
  rw [bin_chains_eq t bins h]
  simp only [List.all_eq_true, List.mem_flatten]
  constructor
  · rintro hc e ⟨c, h1, h2⟩
    exact hc c h1 e h2
  · intro he c h1 e h2
    exact he e ⟨c, h1, h2⟩

theorem any_chains_iff (t : List (List α)) (bins : Int) (h : (t.length : Int) = bins)
    (p : α → Bool) :
    (bin_chains t bins).any (fun c => c.any p) = true ↔ ∃ e ∈ t.flatten, p e = true := by
  rw [bin_chains_eq t bins h]
  simp only [List.any_eq_true, List.mem_flatten]
  constructor
  · rintro ⟨c, h1, e, h2, h3⟩
    exact ⟨e, ⟨c, h1, h2⟩, h3⟩
  · rintro ⟨e, ⟨c, h1, h2⟩, h3⟩
    exact ⟨c, h1, e, h2, h3⟩

theorem mem_iff_of_subset_of_length_le (l1 l2 : List α) (h1 : l1.Nodup) (hs : l1 ⊆ l2)
    (hl : l2.length ≤ l1.length) (x : α) : x ∈ l1 ↔ x ∈ l2 :=
  ((List.subperm_of_subset h1 hs).perm_of_length_le hl).mem_iff

theorem length_eq_of_mem_iff (l1 l2 : List α) (h1 : l1.Nodup) (h2 : l2.Nodup)
    (h : ∀ x, x ∈ l1 ↔ x ∈ l2) : l1.length = l2.length :=
  ((List.perm_ext_iff_of_nodup h1 h2).2 h).length_eq

end all_chains

namespace HashSet

variable {T : Type}

theorem valid.set_nodup {s : HashSet T} (hv : s.valid) : s.set.flatten.Nodup := by
  simpa using hv.ok.nodup

theorem contains_eq_iff [DecidableEq T] (a b : HashSet T) (ha : a.valid) (hb : b.valid) :
    (∀ x, a.contains x = b.contains x) ↔ ∀ x, x ∈ a.set.flatten ↔ x ∈ b.set.flatten := by
  constructor
  · intro h x
    rw [← contains_iff a ha.ok.length_eq, ← contains_iff b hb.ok.length_eq, h x]
  · intro h x
    exact contains_congr b a hb ha x (h x)

theorem operator_eq_distinct [DecidableEq T] (a b : HashSet T) (ha : a.valid) (hb : b.valid) :
    a.operator_eq b false = true ↔ ∀ x, a.contains x = b.contains x := by
  rw [contains_eq_iff a b ha hb]
  unfold operator_eq
  simp only [Bool.false_eq_true, if_false]
  by_cases hu : a.used = b.used
  · simp only [hu, ne_eq, not_true_eq_false, if_false]
    rw [all_chains_iff a.set a.bins ha.ok.length_eq]
    have hl : b.set.flatten.length ≤ a.set.flatten.length := by
      have h1 := ha.counted
      have h2 := hb.counted
      omega
    constructor
    · intro h x
      refine mem_iff_of_subset_of_length_le _ _ ha.set_nodup (fun e he => ?_) hl x
      exact (contains_iff b hb.ok.length_eq e).1 (h e he)
    · intro h e he
      exact (contains_iff b hb.ok.length_eq e).2 ((h e).1 he)
  · simp only [ne_eq, hu, not_false_eq_true, if_true, Bool.false_eq_true, false_iff]
    intro h
    apply hu
    rw [ha.counted, hb.counted, length_eq_of_mem_iff _ _ ha.set_nodup hb.set_nodup h]

/-- C14: for two sets satisfying the representation invariant, `a == b` is true exactly when
`a` and `b` contain the same elements, whatever their bin counts and chain layouts
(`same_object` tells whether `b` is the object `a`); `==` is symmetric and `!=` is its
negation. -/
theorem set_equality [DecidableEq T] (a b : HashSet T) (ha : a.valid) (hb : b.valid)
    (same_object : Bool) (hsame : same_object = true → b = a) :
    (a.operator_eq b same_object = true ↔ ∀ x, a.contains x = b.contains x) ∧
    a.operator_eq b same_object = b.operator_eq a same_object ∧
    a.operator_ne b same_object = !(a.operator_eq b same_object) := by
  cases same_object with
  | true =>
    have := hsame rfl
    subst this
    exact ⟨by simp [operator_eq], rfl, rfl⟩
  | false =>
    refine ⟨operator_eq_distinct a b ha hb, ?_, rfl⟩
    rw [Bool.eq_iff_iff, operator_eq_distinct a b ha hb, operator_eq_distinct b a hb ha]
    exact ⟨fun h x => (h x).symm, fun h x => (h x).symm⟩

/-- The witness of C14: the sets built by inserting `1, 2, 3` and `3, 1, 2`, two distinct
objects. -/
theorem set_equality_witness :
    (demo_set.commands [.insert 1, .insert 2, .insert 3]).valid ∧
    (demo_set.commands [.insert 3, .insert 1, .insert 2]).valid ∧
    (false = true → demo_set.commands [.insert 3, .insert 1, .insert 2] =
      demo_set.commands [.insert 1, .insert 2, .insert 3]) ∧
    (((demo_set.commands [.insert 1, .insert 2, .insert 3]).operator_eq
        (demo_set.commands [.insert 3, .insert 1, .insert 2]) false = true ↔
      ∀ x, (demo_set.commands [.insert 1, .insert 2, .insert 3]).contains x =
        (demo_set.commands [.insert 3, .insert 1, .insert 2]).contains x) ∧
    (demo_set.commands [.insert 1, .insert 2, .insert 3]).operator_eq
        (demo_set.commands [.insert 3, .insert 1, .insert 2]) false =
      (demo_set.commands [.insert 3, .insert 1, .insert 2]).operator_eq
        (demo_set.commands [.insert 1, .insert 2, .insert 3]) false ∧
    (demo_set.commands [.insert 1, .insert 2, .insert 3]).operator_ne
        (demo_set.commands [.insert 3, .insert 1, .insert 2]) false =
      !((demo_set.commands [.insert 1, .insert 2, .insert 3]).operator_eq
        (demo_set.commands [.insert 3, .insert 1, .insert 2]) false)) :=
  ⟨set_commands_valid _ demo_set demo_set_valid, set_commands_valid _ demo_set demo_set_valid,
    fun h => absurd h (by decide),
    set_equality (demo_set.commands [.insert 1, .insert 2, .insert 3])
      (demo_set.commands [.insert 3, .insert 1, .insert 2])
      (set_commands_valid _ demo_set demo_set_valid)
      (set_commands_valid _ demo_set demo_set_valid) false (fun h => absurd h (by decide))⟩

theorem subset_iff [DecidableEq T] (a b : HashSet T) (ha : a.valid) (hb : b.valid) :
    (∀ x, a.contains x = true → b.contains x = true) ↔ a.set.flatten ⊆ b.set.flatten := by
  constructor
  · intro h x hx
    exact (contains_iff b hb.ok.length_eq x).1 (h x ((contains_iff a ha.ok.length_eq x).2 hx))
  · intro h x hx
    exact (contains_iff b hb.ok.length_eq x).2 (h ((contains_iff a ha.ok.length_eq x).1 hx))

theorem operator_le_distinct [DecidableEq T] (a b : HashSet T) (ha : a.valid) (hb : b.valid) :
    a.operator_le b false = true ↔ ∀ x, a.contains x = true → b.contains x = true := by
  rw [subset_iff a b ha hb]
  unfold operator_le size
  simp only [Bool.false_eq_true, if_false]
  by_cases hu : a.used > b.used
  · simp only [hu, if_true, Bool.false_eq_true, false_iff]
    intro h
    have := (List.subperm_of_subset ha.set_nodup h).length_le
    have h1 := ha.counted
    have h2 := hb.counted
    omega
  · simp only [hu, if_false]
    rw [all_chains_iff a.set a.bins ha.ok.length_eq]
    constructor
    · intro h e he
      exact (contains_iff b hb.ok.length_eq e).1 (h e he)
    · intro h e he
      exact (contains_iff b hb.ok.length_eq e).2 (h he)

theorem operator_lt_distinct [DecidableEq T] (a b : HashSet T) (ha : a.valid) (hb : b.valid) :
    a.operator_lt b false = true ↔
      (∀ x, a.contains x = true → b.contains x = true) ∧ a.size < b.size := by
  rw [subset_iff a b ha hb]
  unfold operator_lt size
  simp only [Bool.false_eq_true, if_false]
  by_cases hu : a.used ≥ b.used
  · simp only [hu, if_true, Bool.false_eq_true, false_iff]
    intro h
    omega
  · simp only [hu, if_false]
    rw [all_chains_iff a.set a.bins ha.ok.length_eq]
    constructor
    · intro h
      exact ⟨fun e he => (contains_iff b hb.ok.length_eq e).1 (h e he), by omega⟩
    · intro h e he
      exact (contains_iff b hb.ok.length_eq e).2 (h.1 he)

theorem size_lt_iff_exists [DecidableEq T] (a b : HashSet T) (ha : a.valid) (hb : b.valid)
    (hs : ∀ x, a.contains x = true → b.contains x = true) :
    a.size < b.size ↔ ∃ y, b.contains y = true ∧ a.contains y = false := by
  have hsub := (subset_iff a b ha hb).1 hs
  have hle := (List.subperm_of_subset ha.set_nodup hsub).length_le
  have h1 : a.size = (a.set.flatten.length : Int) := ha.counted
  have h2 : b.size = (b.set.flatten.length : Int) := hb.counted
  constructor
  · intro hlt
    by_contra hne
    have hsub2 : b.set.flatten ⊆ a.set.flatten := by
      intro y hy
      by_contra hya
      exact hne ⟨y, (contains_iff b hb.ok.length_eq y).2 hy,
        (contains_eq_false_iff a ha.ok.length_eq y).2 hya⟩
    have := (List.subperm_of_subset hb.set_nodup hsub2).length_le
    omega
  · rintro ⟨y, hy1, hy2⟩
    by_contra hge
    have hl : b.set.flatten.length ≤ a.set.flatten.length := by omega
    have := (mem_iff_of_subset_of_length_le _ _ ha.set_nodup hsub hl y).2
      ((contains_iff b hb.ok.length_eq y).1 hy1)
    exact (contains_eq_false_iff a ha.ok.length_eq y).1 hy2 this

/-- C16: for two sets satisfying the representation invariant, `a < b` is true exactly when
every element of `a` is contained in `b` and `b` contains an element that `a` does not,
which is to say when `a` is a subset of `b` and `size(a) < size(b)`; `a < a` is false, and
`a > b` is `b < a` (`same_object` tells whether `b` is the object `a`). -/
theorem strict_subset [DecidableEq T] (a b : HashSet T) (ha : a.valid) (hb : b.valid)
    (same_object : Bool) (hsame : same_object = true → b = a) :
    (a.operator_lt b same_object = true ↔
      (∀ x, a.contains x = true → b.contains x = true) ∧
      ∃ y, b.contains y = true ∧ a.contains y = false) ∧
    (a.operator_lt b same_object = true ↔
      (∀ x, a.contains x = true → b.contains x = true) ∧ a.size < b.size) ∧
    a.operator_lt a true = false ∧
    a.operator_gt b same_object = b.operator_lt a same_object := by
  refine ⟨?_, ?_, rfl, rfl⟩
  · cases same_object with
    | true =>
      have := hsame rfl
      subst this
      simp only [operator_lt, if_true, Bool.false_eq_true, false_iff, not_and, not_exists]
      intro _ y hy
      simp [hy]
    | false =>
      rw [operator_lt_distinct a b ha hb]
      constructor
      · rintro ⟨h1, h2⟩
        exact ⟨h1, (size_lt_iff_exists a b ha hb h1).1 h2⟩
      · rintro ⟨h1, h2⟩
        exact ⟨h1, (size_lt_iff_exists a b ha hb h1).2 h2⟩
  · cases same_object with
    | true =>
      have := hsame rfl
      subst this
      simp [operator_lt]
    | false => exact operator_lt_distinct a b ha hb

/-- The witness of C16: the sets holding `1, 2` and `1, 2, 3`, two distinct objects. -/
theorem strict_subset_witness :
    (demo_set.commands [.insert 1, .insert 2]).valid ∧
    (demo_set.commands [.insert 1, .insert 2, .insert 3]).valid ∧
    (false = true → demo_set.commands [.insert 1, .insert 2, .insert 3] =
      demo_set.commands [.insert 1, .insert 2]) ∧
    (((demo_set.commands [.insert 1, .insert 2]).operator_lt
        (demo_set.commands [.insert 1, .insert 2, .insert 3]) false = true ↔
      (∀ x, (demo_set.commands [.insert 1, .insert 2]).contains x = true →
        (demo_set.commands [.insert 1, .insert 2, .insert 3]).contains x = true) ∧
      ∃ y, (demo_set.commands [.insert 1, .insert 2, .insert 3]).contains y = true ∧
        (demo_set.commands [.insert 1, .insert 2]).contains y = false) ∧
    ((demo_set.commands [.insert 1, .insert 2]).operator_lt
        (demo_set.commands [.insert 1, .insert 2, .insert 3]) false = true ↔
      (∀ x, (demo_set.commands [.insert 1, .insert 2]).contains x = true →
        (demo_set.commands [.insert 1, .insert 2, .insert 3]).contains x = true) ∧
      (demo_set.commands [.insert 1, .insert 2]).size <
        (demo_set.commands [.insert 1, .insert 2, .insert 3]).size) ∧
    (demo_set.commands [.insert 1, .insert 2]).operator_lt
        (demo_set.commands [.insert 1, .insert 2]) true = false ∧
    (demo_set.commands [.insert 1, .insert 2]).operator_gt
        (demo_set.commands [.insert 1, .insert 2, .insert 3]) false =
      (demo_set.commands [.insert 1, .insert 2, .insert 3]).operator_lt
        (demo_set.commands [.insert 1, .insert 2]) false) :=
  ⟨set_commands_valid _ demo_set demo_set_valid, set_commands_valid _ demo_set demo_set_valid,
    fun h => absurd h (by decide),
    strict_subset (demo_set.commands [.insert 1, .insert 2])
      (demo_set.commands [.insert 1, .insert 2, .insert 3])
      (set_commands_valid _ demo_set demo_set_valid)
      (set_commands_valid _ demo_set demo_set_valid) false (fun h => absurd h (by decide))⟩

end HashSet

/-- C13 (violated by the code): the maps `{1 -> 10, 2 -> 20}` and `{1 -> 20, 2 -> 10}`, two
distinct objects of size 2, compare equal in both directions although they associate
different values with key 1: `operator ==` asks `rhs` for the key and for the value of an
entry separately (`has_key`, `has_value`), not for the entry. -/
theorem map_equality_ignores_pairing :
    (demo_map.commands [.put 1 10, .put 2 20]).size = 2 ∧
    (demo_map.commands [.put 1 20, .put 2 10]).size = 2 ∧
    (demo_map.commands [.put 1 10, .put 2 20]).operator_index_const 1 = .ok 10 ∧
    (demo_map.commands [.put 1 20, .put 2 10]).operator_index_const 1 = .ok 20 ∧
    (demo_map.commands [.put 1 10, .put 2 20]).operator_eq
      (demo_map.commands [.put 1 20, .put 2 10]) false = true ∧
    (demo_map.commands [.put 1 20, .put 2 10]).operator_eq
      (demo_map.commands [.put 1 10, .put 2 20]) false = true := by
  refine ⟨by decide, by decide, rfl, rfl, by decide, by decide⟩

/-- C15 (violated by the code): `a <= a` is false for every set `a`, the set holding 1
included, because `operator <=` answers false when `rhs` is the object itself; compared
with a distinct object holding the same element the same set is a subset, and `a >= a` is
false as well. -/
theorem subset_of_itself_false :
    (∀ {T : Type} [DecidableEq T] (a : HashSet T), a.operator_le a true = false) ∧
    (demo_set.commands [.insert 1]).contains 1 = true ∧
    (demo_set.commands [.insert 1]).operator_le (demo_set.commands [.insert 1]) true = false ∧
    (demo_set.commands [.insert 1]).operator_ge (demo_set.commands [.insert 1]) true = false ∧
    (demo_set.commands [.insert 1]).operator_le (demo_set.commands [.insert 1]) false = true := by
  refine ⟨fun a => rfl, by decide, by decide, by decide, by decide⟩

namespace HashSet

variable {T : Type}

/-- C17: `HashSet::erase(e)` never throws.  On an absent `e` it returns 0 and leaves the
state (chains, size, `mod_count`) as it was; on a present `e` it returns 1, decrements
`size()`, makes `contains(e)` false and leaves the membership of every other element
unchanged. -/
theorem set_erase_contract [DecidableEq T] (s : HashSet T) (hv : s.valid) (e : T) :
    (∃ r, (s.erase e).1 = .ok r) ∧
    (s.contains e = false → s.erase e = (.ok 0, s)) ∧
    (s.contains e = true →
      (s.erase e).1 = .ok 1 ∧ (s.erase e).2.size = s.size - 1 ∧
      (s.erase e).2.contains e = false ∧
      (∀ x, x ≠ e → (s.erase e).2.contains x = s.contains x)) := by
  obtain ⟨s1, e1, e2, _, _, _, _, e7, e8, _, e10⟩ := erase_spec s hv e
  rw [e1]
  refine ⟨⟨_, rfl⟩, ?_, ?_⟩
  · intro hc
    rw [e7 hc, hc]
    rfl
  · intro hc
    rw [hc] at e8
    refine ⟨by rw [hc]; rfl, ?_, ?_, ?_⟩
    · show s1.used = s.used - 1
      rw [e8]; rfl
    · rw [contains_eq_false_iff s1 e2.ok.length_eq, e10]
      exact fun h => h.2 rfl
    · intro x hx
      apply contains_congr s s1 hv e2
      rw [e10]
      exact ⟨fun h => h.1, fun h => ⟨h, hx⟩⟩

/-- The witness of C17: `erase(2)` on the set holding `1, 2, 3`. -/
theorem set_erase_contract_witness :
    (demo_set.commands [.insert 1, .insert 2, .insert 3]).valid ∧
    ((∃ r, ((demo_set.commands [.insert 1, .insert 2, .insert 3]).erase 2).1 = .ok r) ∧
    ((demo_set.commands [.insert 1, .insert 2, .insert 3]).contains 2 = false →
      (demo_set.commands [.insert 1, .insert 2, .insert 3]).erase 2 =
        (.ok 0, demo_set.commands [.insert 1, .insert 2, .insert 3])) ∧
    ((demo_set.commands [.insert 1, .insert 2, .insert 3]).contains 2 = true →
      ((demo_set.commands [.insert 1, .insert 2, .insert 3]).erase 2).1 = .ok 1 ∧
      ((demo_set.commands [.insert 1, .insert 2, .insert 3]).erase 2).2.size =
        (demo_set.commands [.insert 1, .insert 2, .insert 3]).size - 1 ∧
      ((demo_set.commands [.insert 1, .insert 2, .insert 3]).erase 2).2.contains 2 = false ∧
      (∀ x, x ≠ 2 →
        ((demo_set.commands [.insert 1, .insert 2, .insert 3]).erase 2).2.contains x =
          (demo_set.commands [.insert 1, .insert 2, .insert 3]).contains x))) :=
  ⟨set_commands_valid _ demo_set demo_set_valid,
    set_erase_contract (demo_set.commands [.insert 1, .insert 2, .insert 3])
      (set_commands_valid _ demo_set demo_set_valid) 2⟩

end HashSet

section appended
variable {α : Type}

theorem node_value_append_node (t : List (List α)) (i : Int) (e : α)
    (h0 : 0 ≤ i) (h1 : i < t.length) :
    node_value (append_node t i e) ⟨i, (bin_chain t i).length⟩ = some e := by
  unfold node_value
  simp only
  rw [bin_chain_append_node t i i e h0 h1, if_pos rfl, List.get?_eq_getElem?]
  simp

end appended

namespace HashMap

variable {K V : Type}

theorem lookup_none_of_has_key [DecidableEq K] (m : HashMap K V) (key : K)
    (h : m.has_key key = false) : m.lookup key = none := by
  rw [has_key_eq] at h
  cases hl : m.lookup key with
  | none => rfl
  | some v => rw [hl] at h; simp at h

/-- C18: the non-const `operator []` never throws.  On a present key it returns a reference
to the value stored for the key (the second component of the node it designates) and leaves
the map as it was; on an absent key it inserts the key with the default value `T()`: the
reference designates that new entry, `size()` grows by 1, `has_key(k)` becomes true and every
other association is unchanged. -/
theorem operator_index_contract [DecidableEq K] [Inhabited V] (m : HashMap K V) (hv : m.valid)
    (key : K) :
    (m.has_key key = true → (m.operator_index key).2 = m ∧
      ∃ v, m.operator_index_const key = .ok v ∧
        node_value m.map (m.operator_index key).1 = some (key, v)) ∧
    (m.has_key key = false →
      node_value (m.operator_index key).2.map (m.operator_index key).1 = some (key, default) ∧
      (m.operator_index key).2.size = m.size + 1 ∧
      (m.operator_index key).2.has_key key = true ∧
      (m.operator_index key).2.operator_index_const key = .ok default ∧
      (∀ k, k ≠ key →
        (m.operator_index key).2.operator_index_const k = m.operator_index_const k ∧
        (m.operator_index key).2.has_key k = m.has_key k)) := by
  constructor
  · intro hp
    unfold has_key at hp
    obtain ⟨p, hfp⟩ := Option.isSome_iff_exists.1 hp
    obtain ⟨e, he1, he2, _, he4⟩ := find_key_some m key p hfp
    have e1 : m.operator_index key = (p, m) := by
      unfold operator_index
      rw [hfp]
    rw [e1]
    refine ⟨rfl, e.2, ?_, ?_⟩
    · rw [operator_index_const_eq, lookup_eq, he4]
      rfl
    · show node_value m.map p = some (key, e.2)
      rw [he1, ← he2]
  · intro hp
    have hl := lookup_none_of_has_key m key hp
    have hf : m.find_key key = none := by
      rw [find_key_eq_none]
      rw [lookup_eq, Option.map_eq_none'] at hl
      exact hl
    obtain ⟨s1, _, _, _, _, _, s7, _, s9⟩ := operator_index_spec m hv key
    rw [hl] at s7
    have hlk : (m.operator_index key).2.lookup key = some default := by
      rw [lookup_eq_some_iff _ s1, s9]
      exact Or.inr ⟨hl, rfl⟩
    have hlo : ∀ k, k ≠ key → (m.operator_index key).2.lookup k = m.lookup k := by
      intro k hk
      apply lookup_congr m _ hv s1
      intro v
      rw [s9]
      constructor
      · rintro (h | ⟨_, h⟩)
        · exact h
        · exact absurd (congrArg Prod.fst h) hk
      · exact fun h => Or.inl h
    refine ⟨?_, ?_, ?_, ?_, fun k hk => ?_⟩
    · obtain ⟨r1, _, r3, _⟩ := map_ensure_load_threshold_spec m (m.used + 1) hv.ok hv.hash_ok
      have hh2 : (m.ensure_load_threshold (m.used + 1)).hash.no_int_min := by
        rw [r3]; exact hv.hash_ok
      have e1 : m.operator_index key =
          (⟨hash_index (m.ensure_load_threshold (m.used + 1)).hash
              (m.ensure_load_threshold (m.used + 1)).bins key,
            (bin_chain (m.ensure_load_threshold (m.used + 1)).map
              (hash_index (m.ensure_load_threshold (m.used + 1)).hash
                (m.ensure_load_threshold (m.used + 1)).bins key)).length⟩,
           { m.ensure_load_threshold (m.used + 1) with
             used := (m.ensure_load_threshold (m.used + 1)).used + 1
             mod_count := (m.ensure_load_threshold (m.used + 1)).mod_count + 1
             map := append_node (m.ensure_load_threshold (m.used + 1)).map
               (hash_index (m.ensure_load_threshold (m.used + 1)).hash
                 (m.ensure_load_threshold (m.used + 1)).bins key) (key, default) }) := by
        unfold operator_index
        rw [hf]
        rfl
      rw [e1]
      exact node_value_append_node _ _ _ (hash_index_nonneg _ _ _ hh2) (r1.index_lt key)
    · show (m.operator_index key).2.used = m.used + 1
      rw [s7]; rfl
    · rw [has_key_eq, hlk]; rfl
    · rw [operator_index_const_eq, hlk]
    · rw [operator_index_const_eq, operator_index_const_eq, has_key_eq, has_key_eq, hlo k hk]
      exact ⟨rfl, rfl⟩

/-- The witness of C18: `m[2]` on the map holding `1 -> 10`. -/
theorem operator_index_contract_witness :
    (demo_map.put 1 10).2.valid ∧
    (((demo_map.put 1 10).2.has_key 2 = true →
      ((demo_map.put 1 10).2.operator_index 2).2 = (demo_map.put 1 10).2 ∧
      ∃ v, (demo_map.put 1 10).2.operator_index_const 2 = .ok v ∧
        node_value (demo_map.put 1 10).2.map ((demo_map.put 1 10).2.operator_index 2).1 =
          some (2, v)) ∧
    ((demo_map.put 1 10).2.has_key 2 = false →
      node_value ((demo_map.put 1 10).2.operator_index 2).2.map
        ((demo_map.put 1 10).2.operator_index 2).1 = some (2, default) ∧
      ((demo_map.put 1 10).2.operator_index 2).2.size = (demo_map.put 1 10).2.size + 1 ∧
      ((demo_map.put 1 10).2.operator_index 2).2.has_key 2 = true ∧
      ((demo_map.put 1 10).2.operator_index 2).2.operator_index_const 2 = .ok default ∧
      (∀ k, k ≠ 2 →
        ((demo_map.put 1 10).2.operator_index 2).2.operator_index_const k =
          (demo_map.put 1 10).2.operator_index_const k ∧
        ((demo_map.put 1 10).2.operator_index 2).2.has_key k =
          (demo_map.put 1 10).2.has_key k))) :=
  ⟨(put_spec demo_map demo_map_valid 1 10).1,
    operator_index_contract (demo_map.put 1 10).2 (put_spec demo_map demo_map_valid 1 10).1 2⟩

theorem erase_index_other [DecidableEq K] (m : HashMap K V) (hv : m.valid) (key : K)
    (k : K) (hk : k ≠ key) :
    (m.erase key).2.operator_index_const k = m.operator_index_const k := by
  rw [operator_index_const_eq, operator_index_const_eq, erase_lookup_other m hv key k hk]

/-- C19: the const `operator []` throws `KeyError` exactly when the key is absent and
otherwise returns the value stored for the key, which is the value of the latest `put` on
the key: a `put` on the key is read back, and a `put` or an `erase` on another key does not
change the answer.  The operator is a function of the map state alone and returns no new
state. -/
theorem operator_index_const_contract [DecidableEq K] (m : HashMap K V) (hv : m.valid)
    (key : K) :
    (m.operator_index_const key = .error .KeyError ↔ m.has_key key = false) ∧
    (m.has_key key = true → ∃ v, m.operator_index_const key = .ok v ∧
      (key, v) ∈ (bin_chains m.map m.bins).flatten) ∧
    (∀ value, (m.put key value).2.operator_index_const key = .ok value) ∧
    (∀ k value, k ≠ key →
      (m.put k value).2.operator_index_const key = m.operator_index_const key) ∧
    (∀ k, k ≠ key → (m.erase k).2.operator_index_const key = m.operator_index_const key) := by
  refine ⟨?_, ?_, fun value => ?_, fun k value hk => ?_, fun k hk => ?_⟩
  · rw [operator_index_const_eq, has_key_eq]
    cases m.lookup key <;> simp
  · intro hp
    rw [has_key_eq] at hp
    obtain ⟨v, hv1⟩ := Option.isSome_iff_exists.1 hp
    refine ⟨v, by rw [operator_index_const_eq, hv1], ?_⟩
    rw [bin_chains_eq m.map m.bins hv.ok.length_eq]
    exact (lookup_eq_some_iff m hv key v).1 hv1
  · rw [operator_index_const_eq, put_lookup_self m hv key value]
  · exact (put_index_other m hv k value key (fun h => hk h.symm)).1
  · exact erase_index_other m hv k key (fun h => hk h.symm)

end HashMap

namespace HashMap

variable {K V : Type}

/-- The witness of C19: the const `m[1]` on the map holding `1 -> 10`. -/
theorem operator_index_const_contract_witness :
    (demo_map.put 1 10).2.valid ∧
    (((demo_map.put 1 10).2.operator_index_const 1 = .error .KeyError ↔
      (demo_map.put 1 10).2.has_key 1 = false) ∧
    ((demo_map.put 1 10).2.has_key 1 = true →
      ∃ v, (demo_map.put 1 10).2.operator_index_const 1 = .ok v ∧
        (1, v) ∈ (bin_chains (demo_map.put 1 10).2.map (demo_map.put 1 10).2.bins).flatten) ∧
    (∀ value, ((demo_map.put 1 10).2.put 1 value).2.operator_index_const 1 = .ok value) ∧
    (∀ k value, k ≠ 1 →
      ((demo_map.put 1 10).2.put k value).2.operator_index_const 1 =
        (demo_map.put 1 10).2.operator_index_const 1) ∧
    (∀ k, k ≠ 1 →
      ((demo_map.put 1 10).2.erase k).2.operator_index_const 1 =
        (demo_map.put 1 10).2.operator_index_const 1)) :=
  ⟨(put_spec demo_map demo_map_valid 1 10).1,
    operator_index_const_contract (demo_map.put 1 10).2
      (put_spec demo_map demo_map_valid 1 10).1 1⟩

theorem foldl_put_hash [DecidableEq K] (l : List (K × V)) (m : HashMap K V) :
    (l.foldl (fun m i => (m.put i.1 i.2).2) m).hash = m.hash := by
  induction l generalizing m with
  | nil => rfl
  | cons a l ih =>
    rw [List.foldl_cons, ih, (put_fields m a.1 a.2).2.1]

end HashMap

namespace HashSet

variable {T : Type}

theorem set_ensure_load_threshold_hash (s : HashSet T) (n : Int) :
    (s.ensure_load_threshold n).hash = s.hash := by
  unfold ensure_load_threshold
  split <;> rfl

theorem insert_hash [DecidableEq T] (s : HashSet T) (e : T) : (s.insert e).2.hash = s.hash := by
  unfold insert
  split
  · rfl
  · exact set_ensure_load_threshold_hash s _

theorem foldl_insert_hash [DecidableEq T] (l : List T) (s : HashSet T) :
    (l.foldl (fun s i => (s.insert i).2) s).hash = s.hash := by
  induction l generalizing s with
  | nil => rfl
  | cons a l ih =>
    rw [List.foldl_cons, ih, insert_hash]

end HashSet

section resolution

variable {T C : Type}

theorem hashfunc.same_self (h : hashfunc T) : h.same h = true := by
  cases h <;> simp [hashfunc.same]

/-- The shape shared by the constructors: the hash is resolved, the two checks are made,
and the container is built from the resolved hash. -/
theorem resolve_spec (thash chash : hashfunc T) (build : hashfunc T → C)
    (hashOf : C → hashfunc T) (hb : ∀ h, hashOf (build h) = h) (R : Except Error C)
    (hR : R =
      (if (if !(thash.same .undefinedhash) then thash else chash).same .undefinedhash then
        .error .TemplateFunctionError
      else if !(thash.same .undefinedhash) && !(chash.same .undefinedhash) &&
          !(thash.same chash) then .error .TemplateFunctionError
      else .ok (build (if !(thash.same .undefinedhash) then thash else chash)))) :
    (R = .error .TemplateFunctionError ↔
      (thash.supplied = false ∧ chash.supplied = false) ∨
      (thash.supplied = true ∧ chash.supplied = true ∧ thash.same chash = false)) ∧
    (¬ ((thash.supplied = false ∧ chash.supplied = false) ∨
        (thash.supplied = true ∧ chash.supplied = true ∧ thash.same chash = false)) →
      ∃ c, R = .ok c ∧ hashOf c = (if thash.supplied then thash else chash) ∧
        (hashOf c).supplied = true ∧ (chash.supplied = true → (hashOf c).same chash = true)) := by
  subst hR
  unfold hashfunc.supplied
  cases ht : thash.same .undefinedhash <;> cases hc : chash.same .undefinedhash <;>
    cases hs : thash.same chash <;>
    simp [ht, hc, hs, hb, hashfunc.same_self]

end resolution

/-- C20: the default, initializer-list and iterable constructors of `HashMap` and of
`HashSet` throw `TemplateFunctionError` exactly when neither `thash` nor `chash` is supplied
(both are `undefinedhash`) or both are supplied and differ by `==`; in every other case they
return a container whose `hash` is `thash` when `thash` is supplied and `chash` otherwise:
a supplied function, equal by `==` to `chash` when `chash` is supplied. -/
theorem hash_resolution {K V T : Type} [DecidableEq K] [DecidableEq T]
    (thash chash : hashfunc K) (il : List (K × V)) (thash1 chash1 : hashfunc T)
    (jl : List T) (the_load_threshold : ℚ) :
    (((HashMap.mk_default thash the_load_threshold chash : Except Error (HashMap K V)) =
        .error .TemplateFunctionError ↔
      (thash.supplied = false ∧ chash.supplied = false) ∨
      (thash.supplied = true ∧ chash.supplied = true ∧ thash.same chash = false)) ∧
     (¬ ((thash.supplied = false ∧ chash.supplied = false) ∨
        (thash.supplied = true ∧ chash.supplied = true ∧ thash.same chash = false)) →
      ∃ c : HashMap K V, HashMap.mk_default thash the_load_threshold chash = .ok c ∧
        c.hash = (if thash.supplied then thash else chash) ∧
        c.hash.supplied = true ∧ (chash.supplied = true → c.hash.same chash = true))) ∧
    ((HashMap.from_initializer_list thash il the_load_threshold chash =
        .error .TemplateFunctionError ↔
      (thash.supplied = false ∧ chash.supplied = false) ∨
      (thash.supplied = true ∧ chash.supplied = true ∧ thash.same chash = false)) ∧
     (¬ ((thash.supplied = false ∧ chash.supplied = false) ∨
        (thash.supplied = true ∧ chash.supplied = true ∧ thash.same chash = false)) →
      ∃ c, HashMap.from_initializer_list thash il the_load_threshold chash = .ok c ∧
        c.hash = (if thash.supplied then thash else chash) ∧
        c.hash.supplied = true ∧ (chash.supplied = true → c.hash.same chash = true))) ∧
    ((HashMap.from_iterable thash il the_load_threshold chash =
        .error .TemplateFunctionError ↔
      (thash.supplied = false ∧ chash.supplied = false) ∨
      (thash.supplied = true ∧ chash.supplied = true ∧ thash.same chash = false)) ∧
     (¬ ((thash.supplied = false ∧ chash.supplied = false) ∨
        (thash.supplied = true ∧ chash.supplied = true ∧ thash.same chash = false)) →
      ∃ c, HashMap.from_iterable thash il the_load_threshold chash = .ok c ∧
        c.hash = (if thash.supplied then thash else chash) ∧
        c.hash.supplied = true ∧ (chash.supplied = true → c.hash.same chash = true))) ∧
    ((HashSet.mk_default thash1 the_load_threshold chash1 = .error .TemplateFunctionError ↔
      (thash1.supplied = false ∧ chash1.supplied = false) ∨
      (thash1.supplied = true ∧ chash1.supplied = true ∧ thash1.same chash1 = false)) ∧
     (¬ ((thash1.supplied = false ∧ chash1.supplied = false) ∨
        (thash1.supplied = true ∧ chash1.supplied = true ∧ thash1.same chash1 = false)) →
      ∃ c, HashSet.mk_default thash1 the_load_threshold chash1 = .ok c ∧
        c.hash = (if thash1.supplied then thash1 else chash1) ∧
        c.hash.supplied = true ∧ (chash1.supplied = true → c.hash.same chash1 = true))) ∧
    ((HashSet.from_initializer_list thash1 jl the_load_threshold chash1 =
        .error .TemplateFunctionError ↔
      (thash1.supplied = false ∧ chash1.supplied = false) ∨
      (thash1.supplied = true ∧ chash1.supplied = true ∧ thash1.same chash1 = false)) ∧
     (¬ ((thash1.supplied = false ∧ chash1.supplied = false) ∨
        (thash1.supplied = true ∧ chash1.supplied = true ∧ thash1.same chash1 = false)) →
      ∃ c, HashSet.from_initializer_list thash1 jl the_load_threshold chash1 = .ok c ∧
        c.hash = (if thash1.supplied then thash1 else chash1) ∧
        c.hash.supplied = true ∧ (chash1.supplied = true → c.hash.same chash1 = true))) ∧
    ((HashSet.from_iterable thash1 jl the_load_threshold chash1 =
        .error .TemplateFunctionError ↔
      (thash1.supplied = false ∧ chash1.supplied = false) ∨
      (thash1.supplied = true ∧ chash1.supplied = true ∧ thash1.same chash1 = false)) ∧
     (¬ ((thash1.supplied = false ∧ chash1.supplied = false) ∨
        (thash1.supplied = true ∧ chash1.supplied = true ∧ thash1.same chash1 = false)) →
      ∃ c, HashSet.from_iterable thash1 jl the_load_threshold chash1 = .ok c ∧
        c.hash = (if thash1.supplied then thash1 else chash1) ∧
        c.hash.supplied = true ∧ (chash1.supplied = true → c.hash.same chash1 = true))) := by
  refine ⟨?_, ?_, ?_, ?_, ?_, ?_⟩
  · exact resolve_spec thash chash
      (fun h => (HashMap.mk thash h (List.replicate 1 []) the_load_threshold 1 0 0 : HashMap K V))
      (fun c => c.hash) (fun _ => rfl) _ (by rfl)
  · exact resolve_spec thash chash
      (fun h => il.foldl (fun (m : HashMap K V) (i : K × V) => (m.put i.1 i.2).2)
        (HashMap.mk thash h (List.replicate 1 []) the_load_threshold 1 0 0))
      (fun c => c.hash) (fun _ => HashMap.foldl_put_hash _ _) _ (by rfl)
  · exact resolve_spec thash chash
      (fun h => il.foldl (fun (m : HashMap K V) (i : K × V) => (m.put i.1 i.2).2)
        (HashMap.mk thash h (List.replicate 1 []) the_load_threshold 1 0 0))
      (fun c => c.hash) (fun _ => HashMap.foldl_put_hash _ _) _ (by rfl)
  · exact resolve_spec thash1 chash1
      (fun h => (HashSet.mk thash1 h (List.replicate 1 []) the_load_threshold 1 0 0 : HashSet T))
      (fun c => c.hash) (fun _ => rfl) _ (by rfl)
  · exact resolve_spec thash1 chash1
      (fun h => jl.foldl (fun (s : HashSet T) (i : T) => (s.insert i).2)
        (HashSet.mk thash1 h (List.replicate 1 []) the_load_threshold 1 0 0))
      (fun c => c.hash) (fun _ => HashSet.foldl_insert_hash _ _) _ (by rfl)
  · exact resolve_spec thash1 chash1
      (fun h => jl.foldl (fun (s : HashSet T) (i : T) => (s.insert i).2)
        (HashSet.mk thash1 h (List.replicate 1 []) the_load_threshold 1 0 0))
      (fun c => c.hash) (fun _ => HashSet.foldl_insert_hash _ _) _ (by rfl)

section compress

variable {K : Type}

theorem abs_int_of_ne (i : Int) (h : i ≠ INT_MIN) : abs_int i = (Int.natAbs i : Int) := by
  unfold abs_int
  rw [if_neg h]

/-- Away from `INT_MIN`, `hash_compress` is `|hash(key)| mod bins`, an index in
`[0, bins-1]`. -/
theorem hash_index_eq_mod (hash : hashfunc K) (bins : Int) (key : K) (hb : 1 ≤ bins)
    (h : hash.call key ≠ INT_MIN) :
    hash_index hash bins key = ((hash.call key).natAbs : Int) % bins ∧
    0 ≤ hash_index hash bins key ∧ hash_index hash bins key ≤ bins - 1 := by
  have e : hash_index hash bins key = ((hash.call key).natAbs : Int) % bins := by
    unfold hash_index
    simp only
    rw [abs_int_of_ne _ h, Int.tmod_eq_emod (Int.ofNat_nonneg _) (by omega)]
  rw [e]
  have h1 := Int.emod_nonneg ((hash.call key).natAbs : Int) (show bins ≠ 0 by omega)
  have h2 := Int.emod_lt_of_pos ((hash.call key).natAbs : Int) (show 0 < bins by omega)
  exact ⟨rfl, h1, by omega⟩

end compress

/-- C21 (violated by the code): in the map `HashMap<int,int,int_min_hash> m(3)` the key 0,
whose hash code is `INT_MIN`, is compressed to `-2`: `abs(INT_MIN)` is `INT_MIN` and the
truncating `%` keeps its sign, so the result is neither in `[0, bins-1]` nor
`|hash(key)| mod bins`, which is 2; the same holds in a set with 3 bins. -/
theorem hash_compress_out_of_range :
    HashMap.mk_initial_bins int_min_hash 3 1 .undefinedhash 1 = .ok three_bin_map ∧
    three_bin_map.bins = 3 ∧
    int_min_hash.call 0 = INT_MIN ∧
    abs_int (int_min_hash.call 0) = INT_MIN ∧
    three_bin_map.hash_compress 0 = -2 ∧
    ((int_min_hash.call 0).natAbs : Int) % three_bin_map.bins = 2 ∧
    (HashSet.mk int_min_hash int_min_hash [[], [], []] 1 3 0 0).hash_compress 0 = -2 := by
  refine ⟨rfl, rfl, by decide, by decide, by decide, by decide, by decide⟩

/-- C22 (violated by the code): the constructors from a bin count accept `initial_bins = 0`
and return a container with `bins = 0` and an array of no chains. -/
theorem initial_bins_zero :
    HashMap.mk_initial_bins demo_hash 0 1 .undefinedhash 1 = .ok zero_bin_map ∧
    zero_bin_map.bins = 0 ∧ zero_bin_map.map = [] ∧
    HashSet.mk_initial_bins demo_hash 0 1 .undefinedhash 1 = .ok zero_bin_set ∧
    zero_bin_set.bins = 0 ∧ zero_bin_set.set = [] := by
  exact ⟨rfl, rfl, rfl, rfl, rfl, rfl⟩

namespace HashSet

variable {T : Type}

/-- The method `retain_all` never touches `mod_count`. -/
theorem retain_all_mod_count [DecidableEq T] (s : HashSet T) (i : List T) :
    (s.retain_all i).2.mod_count = s.mod_count := by
  unfold retain_all
  split <;> rfl

end HashSet

/-- C24 (violated by the code): `retain_all` leaves `mod_count` as it was, whatever it
removes.  On the set `{1, 2, 3}`, `retain_all` of `2, 3, 4` returns 1 and removes the element
1, `mod_count` is unchanged, and the iterator that stood on 1 before the call (`begin()`
advanced once) is not detected as stale: dereferencing it afterwards yields 3. -/
theorem retain_all_keeps_mod_count :
    (∀ {T : Type} [DecidableEq T] (s : HashSet T) (i : List T),
      (s.retain_all i).2.mod_count = s.mod_count) ∧
    ((demo_set.commands [.insert 1, .insert 2, .insert 3]).retain_all [2, 3, 4]).1 = .ok 1 ∧
    (demo_set.commands [.insert 1, .insert 2, .insert 3]).contains 1 = true ∧
    ((demo_set.commands [.insert 1, .insert 2, .insert 3]).retain_all [2, 3, 4]).2.contains 1 =
      false ∧
    ((demo_set.commands [.insert 1, .insert 2, .insert 3]).retain_all [2, 3, 4]).2.size = 2 ∧
    ((demo_set.commands [.insert 1, .insert 2, .insert 3]).retain_all [2, 3, 4]).2.mod_count =
      (demo_set.commands [.insert 1, .insert 2, .insert 3]).mod_count ∧
    Iterator.increment (demo_set.commands [.insert 1, .insert 2, .insert 3]).set
      (demo_set.commands [.insert 1, .insert 2, .insert 3]).bins
      (demo_set.commands [.insert 1, .insert 2, .insert 3]).mod_count
      (demo_set.commands [.insert 1, .insert 2, .insert 3]).begin =
        .ok { current := (1, some ⟨1, 0⟩), expected_mod_count := 3, can_erase := true } ∧
    Iterator.dereference (demo_set.commands [.insert 1, .insert 2, .insert 3]).set
      (demo_set.commands [.insert 1, .insert 2, .insert 3]).mod_count
      { current := (1, some ⟨1, 0⟩), expected_mod_count := 3, can_erase := true } = .ok 1 ∧
    Iterator.dereference
      ((demo_set.commands [.insert 1, .insert 2, .insert 3]).retain_all [2, 3, 4]).2.set
      ((demo_set.commands [.insert 1, .insert 2, .insert 3]).retain_all [2, 3, 4]).2.mod_count
      { current := (1, some ⟨1, 0⟩), expected_mod_count := 3, can_erase := true } = .ok 3 := by
  refine ⟨fun s i => HashSet.retain_all_mod_count s i, rfl, by decide, by decide, by decide,
    by decide, rfl, rfl, rfl⟩

section dereference

variable {α : Type}

theorem dereference_at_node (t : List (List α)) (mod_count : Int) (it : Iterator)
    (h : it.expected_mod_count = mod_count) (p : LN_ptr) (e : α) (hp : it.current.2 = some p)
    (hc : it.can_erase = true) (hn : node_value t p = some e) :
    Iterator.dereference t mod_count it = .ok e := by
  unfold Iterator.dereference
  rw [if_neg (fun hn => hn h), hc, hp]
  simp only [Bool.not_true, Bool.false_eq_true, if_false]
  rw [hn]

theorem dereference_of_cursor_at (t : List (List α)) (mod_count : Int) (it : Iterator)
    (h : it.expected_mod_count = mod_count) (hc : it.can_erase = true) (x : α) (L : List α)
    (hL : cursor_at t it.current (x :: L)) :
    Iterator.dereference t mod_count it = .ok x := by
  obtain ⟨j, pos, hj, hpos, hcur, hx⟩ := cursor_at_cons t _ x L hL
  obtain ⟨y, L1, hy, hy1, _⟩ := advance_spec t (t.length : Int) rfl j pos hj hpos
  rw [← hx] at hy1
  cases hy1
  exact dereference_at_node t mod_count it h ⟨(j : Int), pos⟩ x (by rw [hcur]) hc hy

theorem arrow_eq_dereference (t : List (List α)) (mod_count : Int) (it : Iterator) :
    Iterator.arrow t mod_count it = Iterator.dereference t mod_count it := rfl

/-- C27: on an iterator whose snapshot is current, `operator *` and `operator ->` throw
`IteratorPositionIllegal` exactly when the cursor is the end cursor or `can_erase` is false
(the iterator has erased and not advanced since); otherwise they return the entry of the
node at the cursor.  An iterator that has entries left to visit returns the first of them. -/
theorem dereference_contract (t : List (List α)) (mod_count : Int) (it : Iterator)
    (h : it.expected_mod_count = mod_count) :
    (Iterator.dereference t mod_count it = .error .IteratorPositionIllegal ↔
      it.current.2 = none ∨ it.can_erase = false) ∧
    (Iterator.arrow t mod_count it = .error .IteratorPositionIllegal ↔
      it.current.2 = none ∨ it.can_erase = false) ∧
    (∀ p e, it.current.2 = some p → it.can_erase = true → node_value t p = some e →
      Iterator.dereference t mod_count it = .ok e ∧ Iterator.arrow t mod_count it = .ok e) ∧
    (∀ x L, cursor_at t it.current (x :: L) → it.can_erase = true →
      Iterator.dereference t mod_count it = .ok x ∧ Iterator.arrow t mod_count it = .ok x) := by
  have key : Iterator.dereference t mod_count it = .error .IteratorPositionIllegal ↔
      it.current.2 = none ∨ it.can_erase = false := by
    unfold Iterator.dereference
    rw [if_neg (fun hn => hn h)]
    cases hc : it.can_erase
    · simp
    · cases hp : it.current.2 with
      | none => simp
      | some p =>
        simp only [Bool.not_true, Bool.false_eq_true, if_false]
        cases hn : node_value t p
        · constructor
          · intro h1; cases h1
          · rintro (h1 | h1) <;> cases h1
        · constructor
          · intro h1; cases h1
          · rintro (h1 | h1) <;> cases h1
  refine ⟨key, by rw [arrow_eq_dereference]; exact key, ?_, ?_⟩
  · intro p e hp hc hn
    rw [arrow_eq_dereference]
    exact ⟨dereference_at_node t mod_count it h p e hp hc hn,
      dereference_at_node t mod_count it h p e hp hc hn⟩
  · intro x L hL hc
    rw [arrow_eq_dereference]
    exact ⟨dereference_of_cursor_at t mod_count it h hc x L hL,
      dereference_of_cursor_at t mod_count it h hc x L hL⟩

/-- The witness of C27: the iterator `begin()` of the set holding `1, 2, 3`. -/
theorem dereference_contract_witness :
    (demo_set.commands [.insert 1, .insert 2, .insert 3]).begin.expected_mod_count =
      (demo_set.commands [.insert 1, .insert 2, .insert 3]).mod_count ∧
    ((Iterator.dereference (demo_set.commands [.insert 1, .insert 2, .insert 3]).set
        (demo_set.commands [.insert 1, .insert 2, .insert 3]).mod_count
        (demo_set.commands [.insert 1, .insert 2, .insert 3]).begin =
          .error .IteratorPositionIllegal ↔
      (demo_set.commands [.insert 1, .insert 2, .insert 3]).begin.current.2 = none ∨
      (demo_set.commands [.insert 1, .insert 2, .insert 3]).begin.can_erase = false) ∧
    (Iterator.arrow (demo_set.commands [.insert 1, .insert 2, .insert 3]).set
        (demo_set.commands [.insert 1, .insert 2, .insert 3]).mod_count
        (demo_set.commands [.insert 1, .insert 2, .insert 3]).begin =
          .error .IteratorPositionIllegal ↔
      (demo_set.commands [.insert 1, .insert 2, .insert 3]).begin.current.2 = none ∨
      (demo_set.commands [.insert 1, .insert 2, .insert 3]).begin.can_erase = false) ∧
    (∀ p e, (demo_set.commands [.insert 1, .insert 2, .insert 3]).begin.current.2 = some p →
      (demo_set.commands [.insert 1, .insert 2, .insert 3]).begin.can_erase = true →
      node_value (demo_set.commands [.insert 1, .insert 2, .insert 3]).set p = some e →
      Iterator.dereference (demo_set.commands [.insert 1, .insert 2, .insert 3]).set
        (demo_set.commands [.insert 1, .insert 2, .insert 3]).mod_count
        (demo_set.commands [.insert 1, .insert 2, .insert 3]).begin = .ok e ∧
      Iterator.arrow (demo_set.commands [.insert 1, .insert 2, .insert 3]).set
        (demo_set.commands [.insert 1, .insert 2, .insert 3]).mod_count
        (demo_set.commands [.insert 1, .insert 2, .insert 3]).begin = .ok e) ∧
    (∀ x L, cursor_at (demo_set.commands [.insert 1, .insert 2, .insert 3]).set
        (demo_set.commands [.insert 1, .insert 2, .insert 3]).begin.current (x :: L) →
      (demo_set.commands [.insert 1, .insert 2, .insert 3]).begin.can_erase = true →
      Iterator.dereference (demo_set.commands [.insert 1, .insert 2, .insert 3]).set
        (demo_set.commands [.insert 1, .insert 2, .insert 3]).mod_count
        (demo_set.commands [.insert 1, .insert 2, .insert 3]).begin = .ok x ∧
      Iterator.arrow (demo_set.commands [.insert 1, .insert 2, .insert 3]).set
        (demo_set.commands [.insert 1, .insert 2, .insert 3]).mod_count
        (demo_set.commands [.insert 1, .insert 2, .insert 3]).begin = .ok x)) :=
  ⟨rfl, dereference_contract _ _ _ rfl⟩

end dereference

/-- C30 (violated by the code): the growth test divides as `int`, and `put` passes it the
size before the insert plus 2.  With load threshold 1: `put` of a first key into the empty
1-bin map doubles the table although `(0 + 1) / 1` does not exceed 1; `insert` of a third
element into a set of 2 elements in 2 bins does not grow the table although `(2 + 1) / 2`
exceeds 1, and neither does `operator []` with a third key on a map of 2 entries in 2
bins. -/
theorem growth_trigger_int_division :
    (demo_map.has_key 1 = false ∧ demo_map.used = 0 ∧ demo_map.bins = 1 ∧
     ¬ (((demo_map.used + 1 : Int) : ℚ) / (demo_map.bins : ℚ) > demo_map.load_threshold) ∧
     (demo_map.put 1 10).2.bins = 2) ∧
    ((demo_set.commands [.insert 1, .insert 2]).contains 3 = false ∧
     (demo_set.commands [.insert 1, .insert 2]).used = 2 ∧
     (demo_set.commands [.insert 1, .insert 2]).bins = 2 ∧
     (((demo_set.commands [.insert 1, .insert 2]).used + 1 : Int) : ℚ) /
       ((demo_set.commands [.insert 1, .insert 2]).bins : ℚ) >
       (demo_set.commands [.insert 1, .insert 2]).load_threshold ∧
     ((demo_set.commands [.insert 1, .insert 2]).insert 3).2.bins = 2) ∧
    ((demo_map.commands [.operator_index 1, .operator_index 2]).has_key 3 = false ∧
     (demo_map.commands [.operator_index 1, .operator_index 2]).used = 2 ∧
     (demo_map.commands [.operator_index 1, .operator_index 2]).bins = 2 ∧
     (((demo_map.commands [.operator_index 1, .operator_index 2]).used + 1 : Int) : ℚ) /
       ((demo_map.commands [.operator_index 1, .operator_index 2]).bins : ℚ) >
       (demo_map.commands [.operator_index 1, .operator_index 2]).load_threshold ∧
     ((demo_map.commands [.operator_index 1, .operator_index 2]).operator_index 3).2.bins =
       2) := by
  have a1 : demo_map.used = 0 := rfl
  have a2 : demo_map.bins = 1 := rfl
  have a3 : demo_map.load_threshold = 1 := rfl
  have b1 : (demo_set.commands [.insert 1, .insert 2]).used = 2 := by decide
  have b2 : (demo_set.commands [.insert 1, .insert 2]).bins = 2 := by decide
  have b3 : (demo_set.commands [.insert 1, .insert 2]).load_threshold = 1 := by decide
  have c1 : (demo_map.commands [.operator_index 1, .operator_index 2]).used = 2 := by decide
  have c2 : (demo_map.commands [.operator_index 1, .operator_index 2]).bins = 2 := by decide
  have c3 : (demo_map.commands [.operator_index 1, .operator_index 2]).load_threshold = 1 := by
    decide
  refine ⟨⟨by decide, a1, a2, ?_, by decide⟩, ⟨by decide, b1, b2, ?_, by decide⟩,
    ⟨by decide, c1, c2, ?_, by decide⟩⟩
  · rw [a1, a2, a3]; norm_num
  · rw [b1, b2, b3]; norm_num
  · rw [c1, c2, c3]; norm_num

/-- C23: when `ensure_load_threshold` triggers (the `int` quotient `new_used / bins` exceeds
`load_threshold`), `bins` becomes twice its previous value, the new array has that many
slots, the entries are the same as a multiset, `size()` is unchanged and every entry sits in
the chain `hash_compress` assigns to its key for the new `bins`; when it does not trigger,
the container is unchanged.  This holds for `HashMap` and for `HashSet`. -/
theorem growth_policy {K V T : Type} (m : HashMap K V) (s : HashSet T) (new_used : Int)
    (hm : table_ok Prod.fst m.hash m.bins m.map) (hmh : m.hash.no_int_min)
    (hs : table_ok id s.hash s.bins s.set) (hsh : s.hash.no_int_min) :
    ((((Int.tdiv new_used m.bins : Int) : ℚ) > m.load_threshold →
        (m.ensure_load_threshold new_used).bins = m.bins * 2 ∧
        ((m.ensure_load_threshold new_used).map.length : Int) = m.bins * 2 ∧
        (m.ensure_load_threshold new_used).map.flatten.Perm m.map.flatten ∧
        (m.ensure_load_threshold new_used).size = m.size ∧
        (∀ i : Int, ∀ e ∈ bin_chain (m.ensure_load_threshold new_used).map i,
          (m.ensure_load_threshold new_used).hash_compress e.1 = i)) ∧
     (¬ (((Int.tdiv new_used m.bins : Int) : ℚ) > m.load_threshold) →
        m.ensure_load_threshold new_used = m)) ∧
    ((((Int.tdiv new_used s.bins : Int) : ℚ) > s.load_threshold →
        (s.ensure_load_threshold new_used).bins = s.bins * 2 ∧
        ((s.ensure_load_threshold new_used).set.length : Int) = s.bins * 2 ∧
        (s.ensure_load_threshold new_used).set.flatten.Perm s.set.flatten ∧
        (s.ensure_load_threshold new_used).size = s.size ∧
        (∀ i : Int, ∀ e ∈ bin_chain (s.ensure_load_threshold new_used).set i,
          (s.ensure_load_threshold new_used).hash_compress e = i)) ∧
     (¬ (((Int.tdiv new_used s.bins : Int) : ℚ) > s.load_threshold) →
        s.ensure_load_threshold new_used = s)) := by
  refine ⟨⟨fun h => ?_, fun h => ?_⟩, ⟨fun h => ?_, fun h => ?_⟩⟩
  · obtain ⟨r1, r2, _, _, r5, _, _, r8⟩ :=
      HashMap.map_ensure_load_threshold_spec m new_used hm hmh
    rw [if_pos h] at r8
    refine ⟨r8, ?_, r2, r5, fun i e he => r1.placed i e he⟩
    rw [r1.length_eq, r8]
  · unfold HashMap.ensure_load_threshold
    rw [if_neg h]
  · obtain ⟨r1, r2, _, _, r5, _, _, r8⟩ :=
      HashSet.set_ensure_load_threshold_spec s new_used hs hsh
    rw [if_pos h] at r8
    refine ⟨r8, ?_, r2, r5, fun i e he => r1.placed i e he⟩
    rw [r1.length_eq, r8]
  · unfold HashSet.ensure_load_threshold
    rw [if_neg h]

/-- The witness of C23: the 1-bin map holding the key 1 and the 1-bin set holding 1, asked
to make room for a second entry. -/
theorem growth_policy_witness :
    table_ok Prod.fst (demo_map.operator_index 1).2.hash (demo_map.operator_index 1).2.bins (demo_map.operator_index 1).2.map ∧ (demo_map.operator_index 1).2.hash.no_int_min ∧
    table_ok id (demo_set.insert 1).2.hash (demo_set.insert 1).2.bins (demo_set.insert 1).2.set ∧ (demo_set.insert 1).2.hash.no_int_min ∧
    (((Int.tdiv 2 (demo_map.operator_index 1).2.bins : Int) : ℚ) > (demo_map.operator_index 1).2.load_threshold) ∧
    (((Int.tdiv 2 (demo_set.insert 1).2.bins : Int) : ℚ) > (demo_set.insert 1).2.load_threshold) ∧
    (((((Int.tdiv 2 (demo_map.operator_index 1).2.bins : Int) : ℚ) > (demo_map.operator_index 1).2.load_threshold →
        ((demo_map.operator_index 1).2.ensure_load_threshold 2).bins = (demo_map.operator_index 1).2.bins * 2 ∧
        ((((demo_map.operator_index 1).2.ensure_load_threshold 2).map.length : Nat) : Int) = (demo_map.operator_index 1).2.bins * 2 ∧
        ((demo_map.operator_index 1).2.ensure_load_threshold 2).map.flatten.Perm (demo_map.operator_index 1).2.map.flatten ∧
        ((demo_map.operator_index 1).2.ensure_load_threshold 2).size = (demo_map.operator_index 1).2.size ∧
        (∀ i : Int, ∀ e ∈ bin_chain ((demo_map.operator_index 1).2.ensure_load_threshold 2).map i,
          ((demo_map.operator_index 1).2.ensure_load_threshold 2).hash_compress e.1 = i)) ∧
     (¬ (((Int.tdiv 2 (demo_map.operator_index 1).2.bins : Int) : ℚ) > (demo_map.operator_index 1).2.load_threshold) →
        (demo_map.operator_index 1).2.ensure_load_threshold 2 = (demo_map.operator_index 1).2)) ∧
    ((((Int.tdiv 2 (demo_set.insert 1).2.bins : Int) : ℚ) > (demo_set.insert 1).2.load_threshold →
        ((demo_set.insert 1).2.ensure_load_threshold 2).bins = (demo_set.insert 1).2.bins * 2 ∧
        ((((demo_set.insert 1).2.ensure_load_threshold 2).set.length : Nat) : Int) = (demo_set.insert 1).2.bins * 2 ∧
        ((demo_set.insert 1).2.ensure_load_threshold 2).set.flatten.Perm (demo_set.insert 1).2.set.flatten ∧
        ((demo_set.insert 1).2.ensure_load_threshold 2).size = (demo_set.insert 1).2.size ∧
        (∀ i : Int, ∀ e ∈ bin_chain ((demo_set.insert 1).2.ensure_load_threshold 2).set i,
          ((demo_set.insert 1).2.ensure_load_threshold 2).hash_compress e = i)) ∧
     (¬ (((Int.tdiv 2 (demo_set.insert 1).2.bins : Int) : ℚ) > (demo_set.insert 1).2.load_threshold) →
        (demo_set.insert 1).2.ensure_load_threshold 2 = (demo_set.insert 1).2))) :=
  ⟨(HashMap.operator_index_spec demo_map demo_map_valid 1).1.ok,
    (HashMap.operator_index_spec demo_map demo_map_valid 1).1.hash_ok,
    (HashSet.insert_spec demo_set demo_set_valid 1).1.ok,
    (HashSet.insert_spec demo_set demo_set_valid 1).1.hash_ok,
    by decide, by decide,
    growth_policy (demo_map.operator_index 1).2 (demo_set.insert 1).2 2
      (HashMap.operator_index_spec demo_map demo_map_valid 1).1.ok
      (HashMap.operator_index_spec demo_map demo_map_valid 1).1.hash_ok
      (HashSet.insert_spec demo_set demo_set_valid 1).1.ok
      (HashSet.insert_spec demo_set demo_set_valid 1).1.hash_ok⟩

section bins_monotone

theorem foldl_bins_le {σ β : Type} (bins : σ → Int) (f : σ → β → σ)
    (hf : ∀ a b, 0 ≤ bins a → bins a ≤ bins (f a b)) (l : List β) (a : σ) (h : 0 ≤ bins a) :
    bins a ≤ bins (l.foldl f a) := by
  induction l generalizing a with
  | nil => exact le_refl _
  | cons b l ih =>
    rw [List.foldl_cons]
    have h1 := hf a b h
    exact le_trans h1 (ih (f a b) (le_trans h h1))

end bins_monotone

namespace HashMap

variable {K V : Type}

theorem map_ensure_bins_le (m : HashMap K V) (n : Int) (h : 0 ≤ m.bins) :
    m.bins ≤ (m.ensure_load_threshold n).bins := by
  unfold ensure_load_threshold
  split
  · show m.bins ≤ m.bins * 2
    omega
  · exact le_refl _

theorem put_bins_le [DecidableEq K] (m : HashMap K V) (key : K) (value : V) (h : 0 ≤ m.bins) :
    m.bins ≤ (m.put key value).2.bins := by
  cases hf : m.find_key key with
  | some p =>
    obtain ⟨e, he, _⟩ := find_key_some m key p hf
    rw [put_present m key value p e hf he]
  | none =>
    rw [put_absent m key value hf]
    exact map_ensure_bins_le
      ({ m with mod_count := m.mod_count + 1, used := m.used + 1 } : HashMap K V) _ h

theorem operator_index_bins_le [DecidableEq K] [Inhabited V] (m : HashMap K V) (key : K)
    (h : 0 ≤ m.bins) : m.bins ≤ (m.operator_index key).2.bins := by
  unfold operator_index
  split
  · exact le_refl _
  · exact map_ensure_bins_le m _ h

theorem map_erase_bins [DecidableEq K] (m : HashMap K V) (key : K) :
    (m.erase key).2.bins = m.bins := by
  unfold erase
  split
  · rfl
  · dsimp only
    split <;> rfl

theorem map_Iterator_erase_bins (m : HashMap K V) (it : Iterator) :
    (m.Iterator_erase it).2.1.bins = m.bins := by
  unfold Iterator_erase
  split <;> rfl

theorem put_entries_bins_le [DecidableEq K] (m rhs : HashMap K V) (h : 0 ≤ m.bins) :
    m.bins ≤ (m.put_entries rhs).bins := by
  unfold put_entries
  exact foldl_bins_le (fun m : HashMap K V => m.bins) _
    (fun a c ha => foldl_bins_le (fun m : HashMap K V => m.bins) _
      (fun a e ha => put_bins_le a e.1 e.2 ha) c a ha) _ m h

theorem operator_assign_bins_le [DecidableEq K] (m rhs : HashMap K V) (same_object : Bool)
    (h : 0 ≤ m.bins) : m.bins ≤ (m.operator_assign rhs same_object).bins := by
  unfold operator_assign
  split
  · exact le_refl _
  · exact put_entries_bins_le m.clear rhs h

theorem put_all_bins_le [DecidableEq K] (m : HashMap K V) (i : List (K × V)) (h : 0 ≤ m.bins) :
    m.bins ≤ (m.put_all i).2.bins := by
  unfold put_all
  exact foldl_bins_le (fun acc : Int × HashMap K V => acc.2.bins)
    (fun (acc : Int × HashMap K V) (j : K × V) => (acc.1 + 1, (acc.2.put j.1 j.2).2))
    (fun a j ha => put_bins_le a.2 j.1 j.2 ha) i (0, m) h

theorem map_command_bins_le [DecidableEq K] [Inhabited V] (m : HashMap K V) (c : Command K V)
    (h : 0 ≤ m.bins) : m.bins ≤ (m.command c).bins := by
  cases c with
  | put key value => exact put_bins_le m key value h
  | operator_index key => exact operator_index_bins_le m key h
  | erase key => exact le_of_eq (map_erase_bins m key).symm
  | clear => exact le_refl _
  | Iterator_erase it => exact le_of_eq (map_Iterator_erase_bins m it).symm

theorem map_commands_bins_le [DecidableEq K] [Inhabited V] (m : HashMap K V)
    (cs : List (Command K V)) (h : 0 ≤ m.bins) : m.bins ≤ (m.commands cs).bins := by
  unfold commands
  exact foldl_bins_le (fun m : HashMap K V => m.bins) _
    (fun a c ha => map_command_bins_le a c ha) cs m h

end HashMap

namespace HashSet

variable {T : Type}

theorem set_ensure_bins_le (s : HashSet T) (n : Int) (h : 0 ≤ s.bins) :
    s.bins ≤ (s.ensure_load_threshold n).bins := by
  unfold ensure_load_threshold
  split
  · show s.bins ≤ s.bins * 2
    omega
  · exact le_refl _

theorem insert_bins_le [DecidableEq T] (s : HashSet T) (e : T) (h : 0 ≤ s.bins) :
    s.bins ≤ (s.insert e).2.bins := by
  unfold insert
  split
  · exact le_refl _
  · exact set_ensure_bins_le s _ h

theorem set_erase_bins [DecidableEq T] (s : HashSet T) (e : T) :
    (s.erase e).2.bins = s.bins := by
  unfold erase
  split
  · rfl
  · dsimp only
    split <;> rfl

theorem retain_all_bins [DecidableEq T] (s : HashSet T) (i : List T) :
    (s.retain_all i).2.bins = s.bins := by
  unfold retain_all
  split <;> rfl

theorem set_Iterator_erase_bins (s : HashSet T) (it : Iterator) :
    (s.Iterator_erase it).2.1.bins = s.bins := by
  unfold Iterator_erase
  split <;> rfl

theorem insert_elements_bins_le [DecidableEq T] (s rhs : HashSet T) (h : 0 ≤ s.bins) :
    s.bins ≤ (s.insert_elements rhs).bins := by
  unfold insert_elements
  exact foldl_bins_le (fun s : HashSet T => s.bins) _
    (fun a c ha => foldl_bins_le (fun s : HashSet T => s.bins) _
      (fun a e ha => insert_bins_le a e ha) c a ha) _ s h

theorem set_operator_assign_bins_le [DecidableEq T] (s rhs : HashSet T) (same_object : Bool)
    (h : 0 ≤ s.bins) : s.bins ≤ (s.operator_assign rhs same_object).bins := by
  unfold operator_assign
  split
  · exact le_refl _
  · exact insert_elements_bins_le s.clear rhs h

theorem insert_all_bins_le [DecidableEq T] (s : HashSet T) (i : List T) (h : 0 ≤ s.bins) :
    s.bins ≤ (s.insert_all i).2.bins := by
  unfold insert_all
  exact foldl_bins_le (fun acc : Int × HashSet T => acc.2.bins)
    (fun (acc : Int × HashSet T) (j : T) => (acc.1 + (acc.2.insert j).1, (acc.2.insert j).2))
    (fun a j ha => insert_bins_le a.2 j ha) i (0, s) h

theorem erase_all_bins [DecidableEq T] (s : HashSet T) (i : List T) :
    (s.erase_all i).2.bins = s.bins := by
  unfold erase_all
  suffices h : ∀ (acc : Except Error Int × HashSet T),
      (i.foldl
        (fun acc j =>
          match acc.1 with
          | .error e => (.error e, acc.2)
          | .ok count =>
            match (acc.2.erase j).1 with
            | .error e => (.error e, (acc.2.erase j).2)
            | .ok n => (.ok (count + n), (acc.2.erase j).2)) acc).2.bins = acc.2.bins from
    h (.ok 0, s)
  induction i with
  | nil => intro acc; rfl
  | cons j i ih =>
    intro acc
    rw [List.foldl_cons, ih]
    split
    · rfl
    · split
      · exact set_erase_bins acc.2 j
      · exact set_erase_bins acc.2 j

theorem set_command_bins_le [DecidableEq T] (s : HashSet T) (c : Command T) (h : 0 ≤ s.bins) :
    s.bins ≤ (s.command c).bins := by
  cases c with
  | insert e => exact insert_bins_le s e h
  | erase e => exact le_of_eq (set_erase_bins s e).symm
  | clear => exact le_refl _
  | retain_all i => exact le_of_eq (retain_all_bins s i).symm
  | Iterator_erase it => exact le_of_eq (set_Iterator_erase_bins s it).symm

theorem set_commands_bins_le [DecidableEq T] (s : HashSet T) (cs : List (Command T))
    (h : 0 ≤ s.bins) : s.bins ≤ (s.commands cs).bins := by
  unfold commands
  exact foldl_bins_le (fun s : HashSet T => s.bins) _
    (fun a c ha => set_command_bins_le a c ha) cs s h

end HashSet

/-- C29: no operation decreases `bins`.  On a map with `bins >= 0`: `put`, `operator []`,
`operator =`, `put_all` and every sequence of operations leave `bins` at least as large, and
`erase`, `clear` and `Iterator::erase` leave it as it was.  On a set with `bins >= 0`:
`insert`, `operator =`, `insert_all` and every sequence of operations leave `bins` at least
as large, and `erase`, `erase_all`, `retain_all`, `clear` and `Iterator::erase` leave it as it
was. -/
theorem never_shrinks {K V T : Type} [DecidableEq K] [Inhabited V] [DecidableEq T]
    (m : HashMap K V) (s : HashSet T) (hm : 0 ≤ m.bins) (hs : 0 ≤ s.bins) :
    ((∀ key value, m.bins ≤ (m.put key value).2.bins) ∧
     (∀ key, m.bins ≤ (m.operator_index key).2.bins) ∧
     (∀ key, (m.erase key).2.bins = m.bins) ∧
     m.clear.bins = m.bins ∧
     (∀ it, (m.Iterator_erase it).2.1.bins = m.bins) ∧
     (∀ rhs same_object, m.bins ≤ (m.operator_assign rhs same_object).bins) ∧
     (∀ i, m.bins ≤ (m.put_all i).2.bins) ∧
     (∀ cs, m.bins ≤ (m.commands cs).bins)) ∧
    ((∀ e, s.bins ≤ (s.insert e).2.bins) ∧
     (∀ e, (s.erase e).2.bins = s.bins) ∧
     (∀ i, (s.erase_all i).2.bins = s.bins) ∧
     (∀ i, (s.retain_all i).2.bins = s.bins) ∧
     s.clear.bins = s.bins ∧
     (∀ it, (s.Iterator_erase it).2.1.bins = s.bins) ∧
     (∀ rhs same_object, s.bins ≤ (s.operator_assign rhs same_object).bins) ∧
     (∀ i, s.bins ≤ (s.insert_all i).2.bins) ∧
     (∀ cs, s.bins ≤ (s.commands cs).bins)) :=
  ⟨⟨fun key value => HashMap.put_bins_le m key value hm,
    fun key => HashMap.operator_index_bins_le m key hm,
    fun key => HashMap.map_erase_bins m key,
    rfl,
    fun it => HashMap.map_Iterator_erase_bins m it,
    fun rhs same_object => HashMap.operator_assign_bins_le m rhs same_object hm,
    fun i => HashMap.put_all_bins_le m i hm,
    fun cs => HashMap.map_commands_bins_le m cs hm⟩,
   ⟨fun e => HashSet.insert_bins_le s e hs,
    fun e => HashSet.set_erase_bins s e,
    fun i => HashSet.erase_all_bins s i,
    fun i => HashSet.retain_all_bins s i,
    rfl,
    fun it => HashSet.set_Iterator_erase_bins s it,
    fun rhs same_object => HashSet.set_operator_assign_bins_le s rhs same_object hs,
    fun i => HashSet.insert_all_bins_le s i hs,
    fun cs => HashSet.set_commands_bins_le s cs hs⟩⟩

/-- The witness of C29: the map holding `1 -> 10, 2 -> 20` and the set holding `1, 2`. -/
theorem never_shrinks_witness :
    0 ≤ (demo_map.commands [.put 1 10, .put 2 20]).bins ∧
    0 ≤ (demo_set.commands [.insert 1, .insert 2]).bins ∧
    (((∀ key value, (demo_map.commands [.put 1 10, .put 2 20]).bins ≤
        ((demo_map.commands [.put 1 10, .put 2 20]).put key value).2.bins) ∧
     (∀ key, (demo_map.commands [.put 1 10, .put 2 20]).bins ≤
        ((demo_map.commands [.put 1 10, .put 2 20]).operator_index key).2.bins) ∧
     (∀ key, ((demo_map.commands [.put 1 10, .put 2 20]).erase key).2.bins =
        (demo_map.commands [.put 1 10, .put 2 20]).bins) ∧
     (demo_map.commands [.put 1 10, .put 2 20]).clear.bins =
        (demo_map.commands [.put 1 10, .put 2 20]).bins ∧
     (∀ it, ((demo_map.commands [.put 1 10, .put 2 20]).Iterator_erase it).2.1.bins =
        (demo_map.commands [.put 1 10, .put 2 20]).bins) ∧
     (∀ rhs same_object, (demo_map.commands [.put 1 10, .put 2 20]).bins ≤
        ((demo_map.commands [.put 1 10, .put 2 20]).operator_assign rhs same_object).bins) ∧
     (∀ i, (demo_map.commands [.put 1 10, .put 2 20]).bins ≤
        ((demo_map.commands [.put 1 10, .put 2 20]).put_all i).2.bins) ∧
     (∀ cs, (demo_map.commands [.put 1 10, .put 2 20]).bins ≤
        ((demo_map.commands [.put 1 10, .put 2 20]).commands cs).bins)) ∧
    ((∀ e, (demo_set.commands [.insert 1, .insert 2]).bins ≤
        ((demo_set.commands [.insert 1, .insert 2]).insert e).2.bins) ∧
     (∀ e, ((demo_set.commands [.insert 1, .insert 2]).erase e).2.bins =
        (demo_set.commands [.insert 1, .insert 2]).bins) ∧
     (∀ i, ((demo_set.commands [.insert 1, .insert 2]).erase_all i).2.bins =
        (demo_set.commands [.insert 1, .insert 2]).bins) ∧
     (∀ i, ((demo_set.commands [.insert 1, .insert 2]).retain_all i).2.bins =
        (demo_set.commands [.insert 1, .insert 2]).bins) ∧
     (demo_set.commands [.insert 1, .insert 2]).clear.bins =
        (demo_set.commands [.insert 1, .insert 2]).bins ∧
     (∀ it, ((demo_set.commands [.insert 1, .insert 2]).Iterator_erase it).2.1.bins =
        (demo_set.commands [.insert 1, .insert 2]).bins) ∧
     (∀ rhs same_object, (demo_set.commands [.insert 1, .insert 2]).bins ≤
        ((demo_set.commands [.insert 1, .insert 2]).operator_assign rhs same_object).bins) ∧
     (∀ i, (demo_set.commands [.insert 1, .insert 2]).bins ≤
        ((demo_set.commands [.insert 1, .insert 2]).insert_all i).2.bins) ∧
     (∀ cs, (demo_set.commands [.insert 1, .insert 2]).bins ≤
        ((demo_set.commands [.insert 1, .insert 2]).commands cs).bins))) :=
  ⟨by decide, by decide,
    never_shrinks (demo_map.commands [.put 1 10, .put 2 20])
      (demo_set.commands [.insert 1, .insert 2]) (by decide) (by decide)⟩

section erase_through_iterator

variable {α : Type}

theorem increment_after_erase (t : List (List α)) (bins mod_count : Int) (it : Iterator)
    (p : LN_ptr) (h1 : it.expected_mod_count = mod_count) (h2 : it.current.2 = some p) :
    ∃ it2, Iterator.increment t bins mod_count it = .ok it2 := by
  unfold Iterator.increment
  rw [if_neg (fun hn => hn h1), h2]
  exact ⟨_, rfl⟩

end erase_through_iterator

namespace HashMap

variable {K V : Type}

theorem Iterator_erase_of_dereference (m : HashMap K V) (it : Iterator) (x : K × V)
    (hx : Iterator.dereference m.map m.mod_count it = .ok x) :
    ∃ p, it.current.2 = some p ∧
      m.Iterator_erase it =
        (.ok x,
         { m with
           map := set_bin_chain m.map p.bin (chain_skip (bin_chain m.map p.bin) p.pos)
           mod_count := m.mod_count + 1
           used := m.used - 1 },
         { it with can_erase := false, expected_mod_count := m.mod_count + 1 }) := by
  obtain ⟨p, hp, _, _, _, he⟩ := erase_node_of_dereference m.map m.mod_count it x hx
  refine ⟨p, hp, ?_⟩
  unfold Iterator_erase
  rw [he]

theorem lookup_after_remove [DecidableEq K] (m m1 : HashMap K V) (hv : m.valid)
    (hv1 : m1.valid) (x : K × V) (hp : (x :: m1.map.flatten).Perm m.map.flatten) :
    m1.has_key x.1 = false ∧
    (∀ k, k ≠ x.1 → m1.operator_index_const k = m.operator_index_const k ∧
      m1.has_key k = m.has_key k) := by
  have hn : ((x :: m1.map.flatten).map Prod.fst).Nodup :=
    (hp.map Prod.fst).nodup_iff.2 hv.ok.nodup
  rw [List.map_cons, List.nodup_cons] at hn
  constructor
  · rw [has_key_eq, (lookup_eq_none_iff m1 hv1 x.1).2]
    · rfl
    · intro e he h
      exact hn.1 (h ▸ List.mem_map_of_mem Prod.fst he)
  · intro k hk
    have hl : m1.lookup k = m.lookup k := by
      apply lookup_congr m m1 hv hv1
      intro v
      rw [← hp.mem_iff, List.mem_cons]
      constructor
      · exact fun h => Or.inr h
      · rintro (h | h)
        · exact absurd (congrArg Prod.fst h) hk
        · exact h
    rw [operator_index_const_eq, operator_index_const_eq, has_key_eq, has_key_eq, hl]
    exact ⟨rfl, rfl⟩

end HashMap

namespace HashSet

variable {T : Type}

theorem set_Iterator_erase_of_dereference (s : HashSet T) (it : Iterator) (x : T)
    (hx : Iterator.dereference s.set s.mod_count it = .ok x) :
    ∃ p, it.current.2 = some p ∧
      s.Iterator_erase it =
        (.ok x,
         { s with
           set := set_bin_chain s.set p.bin (chain_skip (bin_chain s.set p.bin) p.pos)
           mod_count := s.mod_count + 1
           used := s.used - 1 },
         { it with can_erase := false, expected_mod_count := s.mod_count + 1 }) := by
  obtain ⟨p, hp, _, _, _, he⟩ := erase_node_of_dereference s.set s.mod_count it x hx
  refine ⟨p, hp, ?_⟩
  unfold Iterator_erase
  rw [he]

theorem contains_after_remove [DecidableEq T] (s s1 : HashSet T) (hv : s.valid)
    (hv1 : s1.valid) (x : T) (hp : (x :: s1.set.flatten).Perm s.set.flatten) :
    s1.contains x = false ∧ (∀ y, y ≠ x → s1.contains y = s.contains y) := by
  have hn : (x :: s1.set.flatten).Nodup := by
    have := hv.ok.nodup
    rw [List.map_id] at this
    exact hp.nodup_iff.2 this
  rw [List.nodup_cons] at hn
  constructor
  · rw [contains_eq_false_iff s1 hv1.ok.length_eq]
    exact hn.1
  · intro y hy
    apply contains_congr s s1 hv hv1
    rw [← hp.mem_iff, List.mem_cons]
    constructor
    · exact fun h => Or.inr h
    · rintro (h | h)
      · exact absurd h hy
      · exact h

end HashSet

/-- C28: `Iterator::erase` on an iterator that can be dereferenced (to `x`) returns `x`,
removes exactly that entry (the entries before are `x` plus the entries after, `has_key` /
`contains` of it becomes false and the answers for every other key or element are
unchanged), decrements `size()`, increments `mod_count` and sets the iterator's
`expected_mod_count` to the new count: the iterator can be advanced afterwards, while every
iterator whose snapshot was taken before the erase throws `ConcurrentModificationError`.
This holds for `HashMap` and for `HashSet`. -/
theorem Iterator_erase_contract {K V T : Type} [DecidableEq K] [DecidableEq T]
    (m : HashMap K V) (hm : m.valid) (it : Iterator) (x : K × V)
    (hx : Iterator.dereference m.map m.mod_count it = .ok x)
    (s : HashSet T) (hs : s.valid) (jt : Iterator) (y : T)
    (hy : Iterator.dereference s.set s.mod_count jt = .ok y) :
    ((m.Iterator_erase it).1 = .ok x ∧
     (x :: (m.Iterator_erase it).2.1.map.flatten).Perm m.map.flatten ∧
     (m.Iterator_erase it).2.1.has_key x.1 = false ∧
     (∀ k, k ≠ x.1 →
       (m.Iterator_erase it).2.1.operator_index_const k = m.operator_index_const k ∧
       (m.Iterator_erase it).2.1.has_key k = m.has_key k) ∧
     (m.Iterator_erase it).2.1.size = m.size - 1 ∧
     (m.Iterator_erase it).2.1.mod_count = m.mod_count + 1 ∧
     (m.Iterator_erase it).2.2.expected_mod_count = (m.Iterator_erase it).2.1.mod_count ∧
     (∃ it2, Iterator.increment (m.Iterator_erase it).2.1.map (m.Iterator_erase it).2.1.bins
       (m.Iterator_erase it).2.1.mod_count (m.Iterator_erase it).2.2 = .ok it2) ∧
     (∀ other : Iterator, other.expected_mod_count ≤ m.mod_count →
       Iterator.dereference (m.Iterator_erase it).2.1.map (m.Iterator_erase it).2.1.mod_count
         other = .error .ConcurrentModificationError ∧
       Iterator.increment (m.Iterator_erase it).2.1.map (m.Iterator_erase it).2.1.bins
         (m.Iterator_erase it).2.1.mod_count other = .error .ConcurrentModificationError ∧
       (∀ rhs, Iterator.equals (m.Iterator_erase it).2.1.mod_count other rhs =
         .error .ConcurrentModificationError) ∧
       (m.Iterator_erase it).2.1.Iterator_erase other =
         (.error .ConcurrentModificationError, (m.Iterator_erase it).2.1, other))) ∧
    ((s.Iterator_erase jt).1 = .ok y ∧
     (y :: (s.Iterator_erase jt).2.1.set.flatten).Perm s.set.flatten ∧
     (s.Iterator_erase jt).2.1.contains y = false ∧
     (∀ z, z ≠ y → (s.Iterator_erase jt).2.1.contains z = s.contains z) ∧
     (s.Iterator_erase jt).2.1.size = s.size - 1 ∧
     (s.Iterator_erase jt).2.1.mod_count = s.mod_count + 1 ∧
     (s.Iterator_erase jt).2.2.expected_mod_count = (s.Iterator_erase jt).2.1.mod_count ∧
     (∃ it2, Iterator.increment (s.Iterator_erase jt).2.1.set (s.Iterator_erase jt).2.1.bins
       (s.Iterator_erase jt).2.1.mod_count (s.Iterator_erase jt).2.2 = .ok it2) ∧
     (∀ other : Iterator, other.expected_mod_count ≤ s.mod_count →
       Iterator.dereference (s.Iterator_erase jt).2.1.set (s.Iterator_erase jt).2.1.mod_count
         other = .error .ConcurrentModificationError ∧
       Iterator.increment (s.Iterator_erase jt).2.1.set (s.Iterator_erase jt).2.1.bins
         (s.Iterator_erase jt).2.1.mod_count other = .error .ConcurrentModificationError ∧
       (∀ rhs, Iterator.equals (s.Iterator_erase jt).2.1.mod_count other rhs =
         .error .ConcurrentModificationError) ∧
       (s.Iterator_erase jt).2.1.Iterator_erase other =
         (.error .ConcurrentModificationError, (s.Iterator_erase jt).2.1, other))) := by
  constructor
  · obtain ⟨p, hp, e1⟩ := HashMap.Iterator_erase_of_dereference m it x hx
    obtain ⟨v1, v2, v3, v4, _⟩ := HashMap.map_Iterator_erase_spec m hm it x _ _ e1
    obtain ⟨l1, l2⟩ := HashMap.lookup_after_remove m _ hm v1 x v2
    rw [e1]
    refine ⟨rfl, v2, l1, l2, v3, v4, rfl, ?_, ?_⟩
    · exact increment_after_erase _ _ _ _ p rfl hp
    · intro other ho
      have hne : other.expected_mod_count ≠ m.mod_count + 1 := by omega
      obtain ⟨a1, _, a3, _, a5, _, a7⟩ :=
        stale_operations
          (set_bin_chain m.map p.bin (chain_skip (bin_chain m.map p.bin) p.pos)) m.bins
          (m.mod_count + 1) other hne
      refine ⟨a1, a3, a5, ?_⟩
      unfold HashMap.Iterator_erase
      simp only
      rw [a7]
  · obtain ⟨p, hp, e1⟩ := HashSet.set_Iterator_erase_of_dereference s jt y hy
    obtain ⟨v1, v2, v3, v4, _⟩ := HashSet.set_Iterator_erase_spec s hs jt y _ _ e1
    obtain ⟨l1, l2⟩ := HashSet.contains_after_remove s _ hs v1 y v2
    rw [e1]
    refine ⟨rfl, v2, l1, l2, v3, v4, rfl, ?_, ?_⟩
    · exact increment_after_erase _ _ _ _ p rfl hp
    · intro other ho
      have hne : other.expected_mod_count ≠ s.mod_count + 1 := by omega
      obtain ⟨a1, _, a3, _, a5, _, a7⟩ :=
        stale_operations
          (set_bin_chain s.set p.bin (chain_skip (bin_chain s.set p.bin) p.pos)) s.bins
          (s.mod_count + 1) other hne
      refine ⟨a1, a3, a5, ?_⟩
      unfold HashSet.Iterator_erase
      simp only
      rw [a7]

/-- The witness of C28: `begin()` of the map holding `1 -> 10` and `begin()` of the set
holding 2. -/
theorem Iterator_erase_contract_witness :
    (demo_map.put 1 10).2.valid ∧
    Iterator.dereference (demo_map.put 1 10).2.map (demo_map.put 1 10).2.mod_count (demo_map.put 1
      10).2.begin = .ok (1, 10) ∧
    (demo_set.insert 2).2.valid ∧
    Iterator.dereference (demo_set.insert 2).2.set (demo_set.insert 2).2.mod_count (demo_set.insert
      2).2.begin = .ok 2 ∧
    ((((demo_map.put 1 10).2.Iterator_erase (demo_map.put 1 10).2.begin).1 = .ok (1, 10) ∧
     ((1, 10) :: ((demo_map.put 1 10).2.Iterator_erase (demo_map.put 1
       10).2.begin).2.1.map.flatten).Perm (demo_map.put 1 10).2.map.flatten ∧
     ((demo_map.put 1 10).2.Iterator_erase (demo_map.put 1 10).2.begin).2.1.has_key 1 = false ∧
     (∀ k, k ≠ 1 →
       ((demo_map.put 1 10).2.Iterator_erase (demo_map.put 1 10).2.begin).2.1.operator_index_const
         k = (demo_map.put 1 10).2.operator_index_const k ∧
       ((demo_map.put 1 10).2.Iterator_erase (demo_map.put 1 10).2.begin).2.1.has_key k =
         (demo_map.put 1 10).2.has_key k) ∧
     ((demo_map.put 1 10).2.Iterator_erase (demo_map.put 1 10).2.begin).2.1.size = (demo_map.put 1
       10).2.size - 1 ∧
     ((demo_map.put 1 10).2.Iterator_erase (demo_map.put 1 10).2.begin).2.1.mod_count =
       (demo_map.put 1 10).2.mod_count + 1 ∧
     ((demo_map.put 1 10).2.Iterator_erase (demo_map.put 1 10).2.begin).2.2.expected_mod_count =
       ((demo_map.put 1 10).2.Iterator_erase (demo_map.put 1 10).2.begin).2.1.mod_count ∧
     (∃ it2, Iterator.increment ((demo_map.put 1 10).2.Iterator_erase (demo_map.put 1
       10).2.begin).2.1.map ((demo_map.put 1 10).2.Iterator_erase (demo_map.put 1
         10).2.begin).2.1.bins
       ((demo_map.put 1 10).2.Iterator_erase (demo_map.put 1 10).2.begin).2.1.mod_count
         ((demo_map.put 1 10).2.Iterator_erase (demo_map.put 1 10).2.begin).2.2 = .ok it2) ∧
     (∀ other : Iterator, other.expected_mod_count ≤ (demo_map.put 1 10).2.mod_count →
       Iterator.dereference ((demo_map.put 1 10).2.Iterator_erase (demo_map.put 1
         10).2.begin).2.1.map ((demo_map.put 1 10).2.Iterator_erase (demo_map.put 1
           10).2.begin).2.1.mod_count
         other = .error .ConcurrentModificationError ∧
       Iterator.increment ((demo_map.put 1 10).2.Iterator_erase (demo_map.put 1
         10).2.begin).2.1.map ((demo_map.put 1 10).2.Iterator_erase (demo_map.put 1
           10).2.begin).2.1.bins
         ((demo_map.put 1 10).2.Iterator_erase (demo_map.put 1 10).2.begin).2.1.mod_count other =
           .error .ConcurrentModificationError ∧
       (∀ rhs, Iterator.equals ((demo_map.put 1 10).2.Iterator_erase (demo_map.put 1
         10).2.begin).2.1.mod_count other rhs =
         .error .ConcurrentModificationError) ∧
       ((demo_map.put 1 10).2.Iterator_erase (demo_map.put 1 10).2.begin).2.1.Iterator_erase other =
         (.error .ConcurrentModificationError, ((demo_map.put 1 10).2.Iterator_erase (demo_map.put
           1 10).2.begin).2.1, other))) ∧
    (((demo_set.insert 2).2.Iterator_erase (demo_set.insert 2).2.begin).1 = .ok 2 ∧
     (2 :: ((demo_set.insert 2).2.Iterator_erase (demo_set.insert 2).2.begin).2.1.set.flatten).Perm
       (demo_set.insert 2).2.set.flatten ∧
     ((demo_set.insert 2).2.Iterator_erase (demo_set.insert 2).2.begin).2.1.contains 2 = false ∧
     (∀ z, z ≠ 2 → ((demo_set.insert 2).2.Iterator_erase (demo_set.insert 2).2.begin).2.1.contains
       z = (demo_set.insert 2).2.contains z) ∧
     ((demo_set.insert 2).2.Iterator_erase (demo_set.insert 2).2.begin).2.1.size = (demo_set.insert
       2).2.size - 1 ∧
     ((demo_set.insert 2).2.Iterator_erase (demo_set.insert 2).2.begin).2.1.mod_count =
       (demo_set.insert 2).2.mod_count + 1 ∧
     ((demo_set.insert 2).2.Iterator_erase (demo_set.insert 2).2.begin).2.2.expected_mod_count =
       ((demo_set.insert 2).2.Iterator_erase (demo_set.insert 2).2.begin).2.1.mod_count ∧
     (∃ it2, Iterator.increment ((demo_set.insert 2).2.Iterator_erase (demo_set.insert
       2).2.begin).2.1.set ((demo_set.insert 2).2.Iterator_erase (demo_set.insert
         2).2.begin).2.1.bins
       ((demo_set.insert 2).2.Iterator_erase (demo_set.insert 2).2.begin).2.1.mod_count
         ((demo_set.insert 2).2.Iterator_erase (demo_set.insert 2).2.begin).2.2 = .ok it2) ∧
     (∀ other : Iterator, other.expected_mod_count ≤ (demo_set.insert 2).2.mod_count →
       Iterator.dereference ((demo_set.insert 2).2.Iterator_erase (demo_set.insert
         2).2.begin).2.1.set ((demo_set.insert 2).2.Iterator_erase (demo_set.insert
           2).2.begin).2.1.mod_count
         other = .error .ConcurrentModificationError ∧
       Iterator.increment ((demo_set.insert 2).2.Iterator_erase (demo_set.insert
         2).2.begin).2.1.set ((demo_set.insert 2).2.Iterator_erase (demo_set.insert
           2).2.begin).2.1.bins
         ((demo_set.insert 2).2.Iterator_erase (demo_set.insert 2).2.begin).2.1.mod_count other =
           .error .ConcurrentModificationError ∧
       (∀ rhs, Iterator.equals ((demo_set.insert 2).2.Iterator_erase (demo_set.insert
         2).2.begin).2.1.mod_count other rhs =
         .error .ConcurrentModificationError) ∧
       ((demo_set.insert 2).2.Iterator_erase (demo_set.insert 2).2.begin).2.1.Iterator_erase other =
         (.error .ConcurrentModificationError, ((demo_set.insert 2).2.Iterator_erase
           (demo_set.insert 2).2.begin).2.1, other)))) :=
  ⟨(HashMap.put_spec demo_map demo_map_valid 1 10).1, rfl,
    (HashSet.insert_spec demo_set demo_set_valid 2).1, rfl,
    Iterator_erase_contract (demo_map.put 1 10).2
      ((HashMap.put_spec demo_map demo_map_valid 1 10).1) (demo_map.put 1 10).2.begin (1, 10) rfl
      (demo_set.insert 2).2
      ((HashSet.insert_spec demo_set demo_set_valid 2).1) (demo_set.insert 2).2.begin 2 rfl⟩

section copy_lemmas

variable {α K : Type}

theorem copy_list_eq (l : List α) : copy_list l = l := by
  induction l with
  | nil => rfl
  | cons v l ih => rw [copy_list, ih]

theorem copy_hash_table_eq (ht : List (List α)) (bins : Int) :
    copy_hash_table ht bins = bin_chains ht bins := by
  unfold copy_hash_table bin_chains
  apply List.map_congr_left
  intro i _
  exact copy_list_eq _

theorem flatten_replicate_nil (n : Nat) : (List.replicate n ([] : List α)).flatten = [] := by
  induction n with
  | zero => rfl
  | succ n ih => rw [List.replicate_succ, List.flatten_cons, ih]; rfl

theorem table_ok_replicate (κ : α → K) (hash : hashfunc K) (bins : Int) (hb : 1 ≤ bins) :
    table_ok κ hash bins (List.replicate bins.toNat ([] : List α)) := by
  refine ⟨hb, ?_, ?_, ?_⟩
  · rw [List.length_replicate]; omega
  · intro i e he
    rw [bin_chain_replicate_nil] at he
    cases he
  · rw [flatten_replicate_nil]
    exact List.nodup_nil

theorem perm_of_mem_iff_of_keys_nodup (κ : α → K) (l1 l2 : List α) (h1 : (l1.map κ).Nodup)
    (h2 : (l2.map κ).Nodup) (h : ∀ e, e ∈ l1 ↔ e ∈ l2) : l1.Perm l2 :=
  (List.perm_ext_iff_of_nodup (List.Nodup.of_map κ h1) (List.Nodup.of_map κ h2)).2 h

end copy_lemmas

namespace HashMap

variable {K V : Type}

theorem valid.map_no_duplicates {m : HashMap K V} (hv : m.valid) : m.no_duplicates := by
  unfold HashMap.no_duplicates
  rw [bin_chains_eq m.map m.bins hv.ok.length_eq]
  exact hv.ok.nodup

theorem valid_of_fields (m c : HashMap K V) (hv : m.valid) (h1 : c.hash = m.hash)
    (h2 : c.bins = m.bins) (h3 : c.map = m.map) (h4 : c.used = m.used) : c.valid := by
  refine ⟨?_, ?_, ?_⟩
  · rw [h1, h2, h3]; exact hv.ok
  · rw [h1]; exact hv.hash_ok
  · rw [h3, h4]; exact hv.counted

theorem map_valid_of_replicate (m0 : HashMap K V) (hb : 1 ≤ m0.bins)
    (h1 : m0.map = List.replicate m0.bins.toNat []) (h3 : m0.used = 0)
    (hh : m0.hash.no_int_min) : m0.valid ∧ m0.map.flatten = [] := by
  refine ⟨⟨?_, hh, ?_⟩, ?_⟩
  · rw [h1]; exact table_ok_replicate _ _ _ hb
  · rw [h1, flatten_replicate_nil, h3]; rfl
  · rw [h1, flatten_replicate_nil]

theorem foldl_put_valid [DecidableEq K] (l : List (K × V)) (m : HashMap K V) (hv : m.valid) :
    (l.foldl (fun m e => (m.put e.1 e.2).2) m).valid ∧
    (l.foldl (fun m e => (m.put e.1 e.2).2) m).hash = m.hash ∧
    (l.foldl (fun m e => (m.put e.1 e.2).2) m).thash = m.thash ∧
    (l.foldl (fun m e => (m.put e.1 e.2).2) m).load_threshold = m.load_threshold ∧
    (l.foldl (fun m e => (m.put e.1 e.2).2) m).mod_count = m.mod_count + (l.length : Int) := by
  induction l generalizing m with
  | nil => exact ⟨hv, rfl, rfl, rfl, by simp⟩
  | cons a l ih =>
    obtain ⟨p1, p2, p3, p4, p5, _⟩ := put_spec m hv a.1 a.2
    obtain ⟨i1, i2, i3, i4, i5⟩ := ih (m.put a.1 a.2).2 p1
    rw [List.foldl_cons]
    refine ⟨i1, i2.trans p2, i3.trans p3, i4.trans p4, ?_⟩
    rw [i5, p5, List.length_cons]
    push_cast
    ring

theorem foldl_put_mem [DecidableEq K] (l : List (K × V)) (m : HashMap K V) (hv : m.valid)
    (hn : (l.map Prod.fst).Nodup) :
    ∀ e, e ∈ (l.foldl (fun m e => (m.put e.1 e.2).2) m).map.flatten ↔
      e ∈ l ∨ (e ∈ m.map.flatten ∧ e.1 ∉ l.map Prod.fst) := by
  induction l generalizing m with
  | nil => intro e; simp
  | cons a l ih =>
    rw [List.map_cons, List.nodup_cons] at hn
    obtain ⟨p1, _, _, _, _, _, _, _, p9⟩ := put_spec m hv a.1 a.2
    intro e
    rw [List.foldl_cons, ih (m.put a.1 a.2).2 p1 hn.2, p9, List.mem_cons, List.map_cons,
      List.mem_cons]
    constructor
    · rintro (h | ⟨h | ⟨h1, h2⟩, h3⟩)
      · exact Or.inl (Or.inr h)
      · exact Or.inl (Or.inl h)
      · exact Or.inr ⟨h1, fun hc => hc.elim h2 h3⟩
    · rintro ((h | h) | ⟨h1, h2⟩)
      · refine Or.inr ⟨Or.inl h, ?_⟩
        rw [h]
        exact hn.1
      · exact Or.inl h
      · exact Or.inr ⟨Or.inr ⟨h1, fun hc => h2 (Or.inl hc)⟩, fun hc => h2 (Or.inr hc)⟩

theorem put_entries_eq [DecidableEq K] (m rhs : HashMap K V)
    (hl : (rhs.map.length : Int) = rhs.bins) :
    m.put_entries rhs = rhs.map.flatten.foldl (fun m e => (m.put e.1 e.2).2) m := by
  unfold put_entries
  rw [bin_chains_eq rhs.map rhs.bins hl, ← List.foldl_flatten]

theorem put_entries_spec [DecidableEq K] (m rhs : HashMap K V) (hv : m.valid)
    (hr : rhs.valid) :
    (m.put_entries rhs).valid ∧ (m.put_entries rhs).hash = m.hash ∧
    (m.put_entries rhs).thash = m.thash ∧
    (m.put_entries rhs).load_threshold = m.load_threshold ∧
    (m.put_entries rhs).mod_count = m.mod_count + rhs.used ∧
    (∀ e, e ∈ (m.put_entries rhs).map.flatten ↔
      e ∈ rhs.map.flatten ∨ (e ∈ m.map.flatten ∧ e.1 ∉ rhs.map.flatten.map Prod.fst)) := by
  rw [put_entries_eq m rhs hr.ok.length_eq]
  obtain ⟨a1, a2, a3, a4, a5⟩ := foldl_put_valid rhs.map.flatten m hv
  refine ⟨a1, a2, a3, a4, ?_, foldl_put_mem rhs.map.flatten m hv hr.ok.nodup⟩
  rw [a5, hr.counted]

theorem put_entries_of_empty [DecidableEq K] (m rhs : HashMap K V) (hv : m.valid)
    (he : m.map.flatten = []) (hr : rhs.valid) :
    (m.put_entries rhs).valid ∧ (m.put_entries rhs).hash = m.hash ∧
    (m.put_entries rhs).thash = m.thash ∧
    (m.put_entries rhs).load_threshold = m.load_threshold ∧
    (m.put_entries rhs).map.flatten.Perm rhs.map.flatten ∧
    (m.put_entries rhs).used = rhs.used := by
  obtain ⟨a1, a2, a3, a4, _, a6⟩ := put_entries_spec m rhs hv hr
  have hp : (m.put_entries rhs).map.flatten.Perm rhs.map.flatten := by
    apply perm_of_mem_iff_of_keys_nodup Prod.fst _ _ a1.ok.nodup hr.ok.nodup
    intro e
    rw [a6, he]
    simp
  refine ⟨a1, a2, a3, a4, hp, ?_⟩
  rw [a1.counted, hr.counted, hp.length_eq]

theorem lookup_of_perm [DecidableEq K] (m c : HashMap K V) (hv : m.valid) (hc : c.valid)
    (hp : c.map.flatten.Perm m.map.flatten) (k : K) :
    c.operator_index_const k = m.operator_index_const k ∧ c.has_key k = m.has_key k := by
  have hl : c.lookup k = m.lookup k :=
    lookup_congr m c hv hc k (fun v => hp.mem_iff)
  rw [operator_index_const_eq, operator_index_const_eq, has_key_eq, has_key_eq, hl]
  exact ⟨rfl, rfl⟩

theorem operator_assign_spec [DecidableEq K] (m rhs : HashMap K V) (hv : m.valid)
    (hr : rhs.valid) (same_object : Bool) (hsame : same_object = true → rhs = m) :
    (m.operator_assign rhs same_object).valid ∧
    (m.operator_assign rhs same_object).hash = m.hash ∧
    (m.operator_assign rhs same_object).map.flatten.Perm rhs.map.flatten ∧
    (m.operator_assign rhs same_object).used = rhs.used := by
  unfold operator_assign
  cases same_object with
  | true =>
    rw [hsame rfl]
    exact ⟨hv, rfl, List.Perm.refl _, rfl⟩
  | false =>
    obtain ⟨c1, c2, _, _, _, c6, _⟩ := map_clear_spec m hv
    obtain ⟨a1, a2, _, _, a5, a6⟩ := put_entries_of_empty m.clear rhs c1 c2 hr
    simp only [Bool.false_eq_true, if_false]
    refine ⟨⟨a1.ok, a1.hash_ok, a1.counted⟩, a2.trans c6, a5, a6⟩

theorem map_from_copy_spec [DecidableEq K] (thash chash : hashfunc K) (to_copy : HashMap K V)
    (the_load_threshold indeterminate : ℚ) (hv : to_copy.valid)
    (hconf : (thash.supplied && chash.supplied && !(thash.same chash)) = false)
    (hth : thash.no_int_min) (hch : chash.no_int_min)
    (hp1 : thash.same to_copy.hash = true → thash = to_copy.hash)
    (hp2 : chash.same to_copy.hash = true → chash = to_copy.hash) :
    ∃ c : HashMap K V,
      from_copy thash to_copy the_load_threshold chash indeterminate = .ok c ∧ c.valid ∧
      (c.hash.same to_copy.hash = true →
        c.hash = to_copy.hash ∧ c.bins = to_copy.bins ∧ c.map = to_copy.map) ∧
      (c.hash.same to_copy.hash = false →
        c = (HashMap.mk thash c.hash (List.replicate to_copy.bins.toNat []) indeterminate
          to_copy.bins 0 0).put_entries to_copy) ∧
      c.used = to_copy.used ∧ c.map.flatten.Perm to_copy.map.flatten := by
  unfold from_copy
  simp only
  have hconf1 : (!(thash.same .undefinedhash) && !(chash.same .undefinedhash) &&
      !(thash.same chash)) = false := hconf
  rw [hconf1]
  simp only [Bool.false_eq_true, if_false]
  generalize hh :
    (if (if (!thash.same hashfunc.undefinedhash) = true then thash else chash).same
          hashfunc.undefinedhash = true then to_copy.hash
      else if (!thash.same hashfunc.undefinedhash) = true then thash else chash) = h
  have hcases : h = thash ∨ h = chash ∨ h = to_copy.hash := by
    rw [← hh]
    split_ifs <;> simp
  have hnm : h.no_int_min := by
    rcases hcases with rfl | rfl | rfl
    · exact hth
    · exact hch
    · exact hv.hash_ok
  have hptr : h.same to_copy.hash = true → h = to_copy.hash := by
    rcases hcases with rfl | rfl | rfl
    · exact hp1
    · exact hp2
    · exact fun _ => rfl
  cases hs : h.same to_copy.hash with
  | true =>
    simp only [if_true]
    have e3 : copy_hash_table to_copy.map to_copy.bins = to_copy.map := by
      rw [copy_hash_table_eq, bin_chains_eq _ _ hv.ok.length_eq]
    refine ⟨_, rfl, ?_, fun _ => ⟨hptr hs, rfl, e3⟩, fun hf => ?_, rfl, ?_⟩
    · exact valid_of_fields to_copy _ hv (hptr hs) rfl e3 rfl
    · exact absurd hs (by rw [hf]; exact Bool.false_ne_true)
    · show (copy_hash_table to_copy.map to_copy.bins).flatten.Perm _
      rw [e3]
  | false =>
    simp only [Bool.false_eq_true, if_false]
    obtain ⟨v0, e0⟩ := map_valid_of_replicate
      (HashMap.mk thash h (List.replicate to_copy.bins.toNat []) indeterminate to_copy.bins 0 0)
      hv.ok.bins_pos rfl rfl hnm
    obtain ⟨a1, a2, _, _, a5, a6⟩ := put_entries_of_empty _ to_copy v0 e0 hv
    refine ⟨_, rfl, a1, fun ht => ?_, fun _ => ?_, a6, a5⟩
    · rw [a2] at ht
      exact absurd ht (by rw [hs]; exact Bool.false_ne_true)
    · rw [a2]

end HashMap

namespace HashSet

variable {T : Type}

theorem valid.set_flatten_nodup {s : HashSet T} (hv : s.valid) : s.set.flatten.Nodup := by
  have := hv.ok.nodup
  rwa [List.map_id] at this

theorem valid.set_no_duplicates {s : HashSet T} (hv : s.valid) : s.no_duplicates := by
  unfold HashSet.no_duplicates
  rw [bin_chains_eq s.set s.bins hv.ok.length_eq]
  exact hv.set_flatten_nodup

theorem set_valid_of_fields (s c : HashSet T) (hv : s.valid) (h1 : c.hash = s.hash)
    (h2 : c.bins = s.bins) (h3 : c.set = s.set) (h4 : c.used = s.used)
    (h5 : c.thash.same .undefinedhash = false → c.hash = c.thash) : c.valid := by
  refine ⟨?_, ?_, h5, ?_⟩
  · rw [h1, h2, h3]; exact hv.ok
  · rw [h1]; exact hv.hash_ok
  · rw [h3, h4]; exact hv.counted

theorem set_valid_of_replicate (s0 : HashSet T) (hb : 1 ≤ s0.bins)
    (h1 : s0.set = List.replicate s0.bins.toNat []) (h3 : s0.used = 0)
    (hh : s0.hash.no_int_min) (h5 : s0.thash.same .undefinedhash = false → s0.hash = s0.thash) :
    s0.valid ∧ s0.set.flatten = [] := by
  refine ⟨⟨?_, hh, h5, ?_⟩, ?_⟩
  · rw [h1]; exact table_ok_replicate _ _ _ hb
  · rw [h1, flatten_replicate_nil, h3]; rfl
  · rw [h1, flatten_replicate_nil]

theorem insert_elements_eq [DecidableEq T] (s rhs : HashSet T)
    (hl : (rhs.set.length : Int) = rhs.bins) :
    s.insert_elements rhs = rhs.set.flatten.foldl (fun s e => (s.insert e).2) s := by
  unfold insert_elements
  rw [bin_chains_eq rhs.set rhs.bins hl, ← List.foldl_flatten]

theorem insert_elements_of_empty [DecidableEq T] (s rhs : HashSet T) (hv : s.valid)
    (he : s.set.flatten = []) (hr : rhs.valid) :
    (s.insert_elements rhs).valid ∧ (s.insert_elements rhs).hash = s.hash ∧
    (s.insert_elements rhs).thash = s.thash ∧
    (s.insert_elements rhs).load_threshold = s.load_threshold ∧
    (s.insert_elements rhs).set.flatten.Perm rhs.set.flatten ∧
    (s.insert_elements rhs).used = rhs.used := by
  rw [insert_elements_eq s rhs hr.ok.length_eq]
  obtain ⟨a1, a2, a3, a4, a5⟩ := foldl_insert_spec rhs.set.flatten s hv
  have hp : (rhs.set.flatten.foldl (fun s e => (s.insert e).2) s).set.flatten.Perm
      rhs.set.flatten := by
    apply (List.perm_ext_iff_of_nodup a1.set_flatten_nodup hr.set_flatten_nodup).2
    intro e
    rw [a5, he]
    simp
  refine ⟨a1, a2, a3, a4, hp, ?_⟩
  rw [a1.counted, hr.counted, hp.length_eq]

theorem contains_of_perm [DecidableEq T] (s c : HashSet T) (hv : s.valid) (hc : c.valid)
    (hp : c.set.flatten.Perm s.set.flatten) (x : T) : c.contains x = s.contains x :=
  contains_congr s c hv hc x hp.mem_iff

theorem set_operator_assign_spec [DecidableEq T] (s rhs : HashSet T) (hv : s.valid)
    (hr : rhs.valid) (same_object : Bool) (hsame : same_object = true → rhs = s) :
    (s.operator_assign rhs same_object).valid ∧
    (s.operator_assign rhs same_object).hash = s.hash ∧
    (s.operator_assign rhs same_object).set.flatten.Perm rhs.set.flatten ∧
    (s.operator_assign rhs same_object).used = rhs.used := by
  unfold operator_assign
  cases same_object with
  | true =>
    rw [hsame rfl]
    exact ⟨hv, rfl, List.Perm.refl _, rfl⟩
  | false =>
    obtain ⟨c1, c2, _, _, _, c6, _⟩ := set_clear_spec s hv
    obtain ⟨a1, a2, _, _, a5, a6⟩ := insert_elements_of_empty s.clear rhs c1 c2 hr
    simp only [Bool.false_eq_true, if_false]
    exact ⟨a1, a2.trans c6, a5, a6⟩

theorem set_from_copy_spec [DecidableEq T] (thash chash : hashfunc T) (to_copy : HashSet T)
    (the_load_threshold indeterminate : ℚ) (hv : to_copy.valid)
    (hconf : (thash.supplied && chash.supplied && !(thash.same chash)) = false)
    (hth : thash.no_int_min) (hch : chash.no_int_min)
    (hp1 : thash.same to_copy.hash = true → thash = to_copy.hash)
    (hp2 : chash.same to_copy.hash = true → chash = to_copy.hash) :
    ∃ c : HashSet T,
      from_copy thash to_copy the_load_threshold chash indeterminate = .ok c ∧ c.valid ∧
      (c.hash.same to_copy.hash = true →
        c.hash = to_copy.hash ∧ c.bins = to_copy.bins ∧ c.set = to_copy.set) ∧
      (c.hash.same to_copy.hash = false →
        c = (HashSet.mk thash c.hash (List.replicate to_copy.bins.toNat []) indeterminate
          to_copy.bins 0 0).insert_elements to_copy) ∧
      c.used = to_copy.used ∧ c.set.flatten.Perm to_copy.set.flatten := by
  unfold from_copy
  simp only
  have hconf1 : (!(thash.same .undefinedhash) && !(chash.same .undefinedhash) &&
      !(thash.same chash)) = false := hconf
  rw [hconf1]
  simp only [Bool.false_eq_true, if_false]
  generalize hh :
    (if (if (!thash.same hashfunc.undefinedhash) = true then thash else chash).same
          hashfunc.undefinedhash = true then to_copy.hash
      else if (!thash.same hashfunc.undefinedhash) = true then thash else chash) = h
  have hcases : h = thash ∨ h = chash ∨ h = to_copy.hash := by
    rw [← hh]
    split_ifs <;> simp
  have hbound : thash.same .undefinedhash = false → h = thash := by
    intro ht
    rw [← hh]
    simp [ht]
  have hnm : h.no_int_min := by
    rcases hcases with rfl | rfl | rfl
    · exact hth
    · exact hch
    · exact hv.hash_ok
  have hptr : h.same to_copy.hash = true → h = to_copy.hash := by
    rcases hcases with rfl | rfl | rfl
    · exact hp1
    · exact hp2
    · exact fun _ => rfl
  cases hs : h.same to_copy.hash with
  | true =>
    simp only [if_true]
    have e3 : copy_hash_table to_copy.set to_copy.bins = to_copy.set := by
      rw [copy_hash_table_eq, bin_chains_eq _ _ hv.ok.length_eq]
    refine ⟨_, rfl, ?_, fun _ => ⟨hptr hs, rfl, e3⟩, fun hf => ?_, rfl, ?_⟩
    · exact set_valid_of_fields to_copy _ hv (hptr hs) rfl e3 rfl hbound
    · exact absurd hs (by rw [hf]; exact Bool.false_ne_true)
    · show (copy_hash_table to_copy.set to_copy.bins).flatten.Perm _
      rw [e3]
  | false =>
    simp only [Bool.false_eq_true, if_false]
    obtain ⟨v0, e0⟩ := set_valid_of_replicate
      (HashSet.mk thash h (List.replicate to_copy.bins.toNat []) indeterminate to_copy.bins 0 0)
      hv.ok.bins_pos rfl rfl hnm hbound
    obtain ⟨a1, a2, _, _, a5, a6⟩ := insert_elements_of_empty _ to_copy v0 e0 hv
    refine ⟨_, rfl, a1, fun ht => ?_, fun _ => ?_, a6, a5⟩
    · rw [a2] at ht
      exact absurd ht (by rw [hs]; exact Bool.false_ne_true)
    · rw [a2]

end HashSet

theorem undefinedhash_no_int_min {K : Type} :
    (hashfunc.undefinedhash : hashfunc K).no_int_min := by
  intro k
  show (0 : Int) ≠ -2147483648
  decide

theorem demo_hash_succ_no_int_min : demo_hash_succ.no_int_min := by
  intro k
  show (k : Int) + 1 ≠ -2147483648
  omega

/-- C25: the copy constructors, given no conflicting pair of hash functions, return a copy.
When the copy's hash function is the source's (by `==`), the copy has the source's `bins`,
size and bucket array, chain by chain in the same order; when it differs, the copy is the
empty table of `to_copy.bins` slots into which every source entry has been `put` (element
inserted) in turn, and every entry sits in the chain the new function assigns to it.  In both
cases the copy has the source's size and answers `has_key` and the const `operator []`
(`contains` for a set) as the source does. -/
theorem copy_construction {K V T : Type} [DecidableEq K] [DecidableEq T]
    (thash chash : hashfunc K) (to_copy : HashMap K V)
    (thash1 chash1 : hashfunc T) (to_copy1 : HashSet T)
    (the_load_threshold indeterminate : ℚ)
    (hv : to_copy.valid)
    (hconf : (thash.supplied && chash.supplied && !(thash.same chash)) = false)
    (hth : thash.no_int_min) (hch : chash.no_int_min)
    (hp1 : thash.same to_copy.hash = true → thash = to_copy.hash)
    (hp2 : chash.same to_copy.hash = true → chash = to_copy.hash)
    (hv1 : to_copy1.valid)
    (hconf1 : (thash1.supplied && chash1.supplied && !(thash1.same chash1)) = false)
    (hth1 : thash1.no_int_min) (hch1 : chash1.no_int_min)
    (hq1 : thash1.same to_copy1.hash = true → thash1 = to_copy1.hash)
    (hq2 : chash1.same to_copy1.hash = true → chash1 = to_copy1.hash) :
    (∃ c : HashMap K V,
      HashMap.from_copy thash to_copy the_load_threshold chash indeterminate = .ok c ∧
      (c.hash.same to_copy.hash = true →
        c.bins = to_copy.bins ∧ c.size = to_copy.size ∧ c.map = to_copy.map) ∧
      (c.hash.same to_copy.hash = false →
        c = (HashMap.mk thash c.hash (List.replicate to_copy.bins.toNat []) indeterminate
          to_copy.bins 0 0).put_entries to_copy ∧
        ∀ i : Int, ∀ e ∈ bin_chain c.map i, c.hash_compress e.1 = i) ∧
      c.size = to_copy.size ∧
      (∀ k, c.has_key k = to_copy.has_key k ∧
        c.operator_index_const k = to_copy.operator_index_const k)) ∧
    (∃ c : HashSet T,
      HashSet.from_copy thash1 to_copy1 the_load_threshold chash1 indeterminate = .ok c ∧
      (c.hash.same to_copy1.hash = true →
        c.bins = to_copy1.bins ∧ c.size = to_copy1.size ∧ c.set = to_copy1.set) ∧
      (c.hash.same to_copy1.hash = false →
        c = (HashSet.mk thash1 c.hash (List.replicate to_copy1.bins.toNat []) indeterminate
          to_copy1.bins 0 0).insert_elements to_copy1 ∧
        ∀ i : Int, ∀ e ∈ bin_chain c.set i, c.hash_compress e = i) ∧
      c.size = to_copy1.size ∧
      (∀ x, c.contains x = to_copy1.contains x)) := by
  constructor
  · obtain ⟨c, e1, e2, e3, e4, e5, e6⟩ := HashMap.map_from_copy_spec thash chash to_copy
      the_load_threshold indeterminate hv hconf hth hch hp1 hp2
    refine ⟨c, e1, fun h => ⟨(e3 h).2.1, e5, (e3 h).2.2⟩,
      fun h => ⟨e4 h, fun i e he => e2.ok.placed i e he⟩, e5, fun k => ?_⟩
    exact ⟨(HashMap.lookup_of_perm to_copy c hv e2 e6 k).2,
      (HashMap.lookup_of_perm to_copy c hv e2 e6 k).1⟩
  · obtain ⟨c, e1, e2, e3, e4, e5, e6⟩ := HashSet.set_from_copy_spec thash1 chash1 to_copy1
      the_load_threshold indeterminate hv1 hconf1 hth1 hch1 hq1 hq2
    exact ⟨c, e1, fun h => ⟨(e3 h).2.1, e5, (e3 h).2.2⟩,
      fun h => ⟨e4 h, fun i e he => e2.ok.placed i e he⟩, e5,
      fun x => HashSet.contains_of_perm to_copy1 c hv1 e2 e6 x⟩

/-- The witness of C25: the map holding `1 -> 10` copied with the constructor hash function
`demo_hash_succ`, which is not the source's, and the set holding 1 copied with the source's
hash function. -/
theorem copy_construction_witness :
    (demo_map.put 1 10).2.valid ∧ (demo_set.insert 1).2.valid ∧
    (hashfunc.undefinedhash : hashfunc Nat).no_int_min ∧
    ((∃ c : HashMap Nat Nat,
      HashMap.from_copy .undefinedhash (demo_map.put 1 10).2 1 demo_hash_succ 1 = .ok c ∧
      (c.hash.same (demo_map.put 1 10).2.hash = true →
        c.bins = (demo_map.put 1 10).2.bins ∧ c.size = (demo_map.put 1 10).2.size ∧ c.map =
          (demo_map.put 1 10).2.map) ∧
      (c.hash.same (demo_map.put 1 10).2.hash = false →
        c = (HashMap.mk .undefinedhash c.hash (List.replicate (demo_map.put 1 10).2.bins.toNat []) 1
          (demo_map.put 1 10).2.bins 0 0).put_entries (demo_map.put 1 10).2 ∧
        ∀ i : Int, ∀ e ∈ bin_chain c.map i, c.hash_compress e.1 = i) ∧
      c.size = (demo_map.put 1 10).2.size ∧
      (∀ k, c.has_key k = (demo_map.put 1 10).2.has_key k ∧
        c.operator_index_const k = (demo_map.put 1 10).2.operator_index_const k)) ∧
    (∃ c : HashSet Nat,
      HashSet.from_copy demo_hash (demo_set.insert 1).2 1 .undefinedhash 1 = .ok c ∧
      (c.hash.same (demo_set.insert 1).2.hash = true →
        c.bins = (demo_set.insert 1).2.bins ∧ c.size = (demo_set.insert 1).2.size ∧ c.set =
          (demo_set.insert 1).2.set) ∧
      (c.hash.same (demo_set.insert 1).2.hash = false →
        c = (HashSet.mk demo_hash c.hash (List.replicate (demo_set.insert 1).2.bins.toNat []) 1
          (demo_set.insert 1).2.bins 0 0).insert_elements (demo_set.insert 1).2 ∧
        ∀ i : Int, ∀ e ∈ bin_chain c.set i, c.hash_compress e = i) ∧
      c.size = (demo_set.insert 1).2.size ∧
      (∀ x, c.contains x = (demo_set.insert 1).2.contains x))) :=
  ⟨(HashMap.put_spec demo_map demo_map_valid 1 10).1,
    (HashSet.insert_spec demo_set demo_set_valid 1).1,
    undefinedhash_no_int_min,
    copy_construction .undefinedhash demo_hash_succ (demo_map.put 1 10).2 demo_hash .undefinedhash
      (demo_set.insert 1).2 1 1
      (HashMap.put_spec demo_map demo_map_valid 1 10).1 rfl undefinedhash_no_int_min
      demo_hash_succ_no_int_min
      (fun h => absurd h (by decide)) (fun h => absurd h (by decide))
      (HashSet.insert_spec demo_set demo_set_valid 1).1 rfl demo_hash_no_int_min
      undefinedhash_no_int_min (fun _ => rfl) (fun h => absurd h (by decide))⟩

namespace HashMap

variable {K V : Type}

theorem map_ensure_load_threshold_valid (m : HashMap K V) (hv : m.valid) (n : Int) :
    (m.ensure_load_threshold n).valid := by
  obtain ⟨r1, r2, r3, _, r5, _⟩ := map_ensure_load_threshold_spec m n hv.ok hv.hash_ok
  refine ⟨r1, ?_, ?_⟩
  · rw [r3]; exact hv.hash_ok
  · rw [r5, r2.length_eq]; exact hv.counted

theorem from_copy_conflict [DecidableEq K] (thash chash : hashfunc K) (to_copy c : HashMap K V)
    (the_load_threshold indeterminate : ℚ)
    (h : from_copy thash to_copy the_load_threshold chash indeterminate = .ok c) :
    (thash.supplied && chash.supplied && !(thash.same chash)) = false := by
  cases hc : (thash.supplied && chash.supplied && !(thash.same chash)) with
  | false => rfl
  | true =>
    have hc1 : (!(thash.same .undefinedhash) && !(chash.same .undefinedhash) &&
        !(thash.same chash)) = true := hc
    unfold from_copy at h
    simp only at h
    rw [hc1] at h
    simp at h

theorem map_from_copy_valid [DecidableEq K] (thash chash : hashfunc K)
    (to_copy c : HashMap K V) (the_load_threshold indeterminate : ℚ) (hv : to_copy.valid)
    (h : from_copy thash to_copy the_load_threshold chash indeterminate = .ok c)
    (hth : thash.no_int_min) (hch : chash.no_int_min)
    (hp1 : thash.same to_copy.hash = true → thash = to_copy.hash)
    (hp2 : chash.same to_copy.hash = true → chash = to_copy.hash) : c.valid := by
  obtain ⟨c1, e1, e2, _⟩ := map_from_copy_spec thash chash to_copy the_load_threshold
    indeterminate hv (from_copy_conflict thash chash to_copy c _ _ h) hth hch hp1 hp2
  rw [h] at e1
  cases e1
  exact e2

end HashMap

namespace HashSet

variable {T : Type}

theorem set_ensure_load_threshold_valid (s : HashSet T) (hv : s.valid) (n : Int) :
    (s.ensure_load_threshold n).valid := by
  obtain ⟨r1, r2, r3, r4, r5, _⟩ := set_ensure_load_threshold_spec s n hv.ok hv.hash_ok
  refine ⟨r1, ?_, ?_, ?_⟩
  · rw [r3]; exact hv.hash_ok
  · rw [r3, r4]; exact hv.bound
  · rw [r5, r2.length_eq]; exact hv.counted

theorem set_from_copy_conflict [DecidableEq T] (thash chash : hashfunc T)
    (to_copy c : HashSet T) (the_load_threshold indeterminate : ℚ)
    (h : from_copy thash to_copy the_load_threshold chash indeterminate = .ok c) :
    (thash.supplied && chash.supplied && !(thash.same chash)) = false := by
  cases hc : (thash.supplied && chash.supplied && !(thash.same chash)) with
  | false => rfl
  | true =>
    have hc1 : (!(thash.same .undefinedhash) && !(chash.same .undefinedhash) &&
        !(thash.same chash)) = true := hc
    unfold from_copy at h
    simp only at h
    rw [hc1] at h
    simp at h

theorem set_from_copy_valid [DecidableEq T] (thash chash : hashfunc T)
    (to_copy c : HashSet T) (the_load_threshold indeterminate : ℚ) (hv : to_copy.valid)
    (h : from_copy thash to_copy the_load_threshold chash indeterminate = .ok c)
    (hth : thash.no_int_min) (hch : chash.no_int_min)
    (hp1 : thash.same to_copy.hash = true → thash = to_copy.hash)
    (hp2 : chash.same to_copy.hash = true → chash = to_copy.hash) : c.valid := by
  obtain ⟨c1, e1, e2, _⟩ := set_from_copy_spec thash chash to_copy the_load_threshold
    indeterminate hv (set_from_copy_conflict thash chash to_copy c _ _ h) hth hch hp1 hp2
  rw [h] at e1
  cases e1
  exact e2

end HashSet

/-- C26: the representation invariant `valid`, which entails that no two nodes of a map hold
the same key and no two nodes of a set hold the same value, holds for what the default
constructors build and is preserved by `put`, `operator []`, `erase`, `Iterator::erase`,
resizing (`ensure_load_threshold`), assignment, copy construction and every sequence of map
operations, and by `insert`, `erase`, `retain_all`, `Iterator::erase`, resizing, assignment,
copy construction and every sequence of set operations. -/
theorem no_duplicates_invariant {K V T : Type} [DecidableEq K] [Inhabited V] [DecidableEq T]
    (m rhs : HashMap K V) (hm : m.valid) (hr : rhs.valid)
    (s rhs1 : HashSet T) (hs : s.valid) (hr1 : rhs1.valid) :
    (m.no_duplicates ∧
     (∀ key value, (m.put key value).2.valid ∧ (m.put key value).2.no_duplicates) ∧
     (∀ key, (m.operator_index key).2.valid ∧ (m.operator_index key).2.no_duplicates) ∧
     (∀ key, (m.erase key).2.valid ∧ (m.erase key).2.no_duplicates) ∧
     (∀ it, (m.Iterator_erase it).2.1.valid ∧ (m.Iterator_erase it).2.1.no_duplicates) ∧
     (∀ n, (m.ensure_load_threshold n).valid ∧ (m.ensure_load_threshold n).no_duplicates) ∧
     (∀ same_object, (same_object = true → rhs = m) →
       (m.operator_assign rhs same_object).valid ∧
       (m.operator_assign rhs same_object).no_duplicates) ∧
     (∀ thash chash the_load_threshold indeterminate c,
       HashMap.from_copy thash m the_load_threshold chash indeterminate = .ok c →
       thash.no_int_min → chash.no_int_min →
       (thash.same m.hash = true → thash = m.hash) →
       (chash.same m.hash = true → chash = m.hash) → c.valid ∧ c.no_duplicates) ∧
     (∀ cs, (m.commands cs).valid ∧ (m.commands cs).no_duplicates)) ∧
    (s.no_duplicates ∧
     (∀ e, (s.insert e).2.valid ∧ (s.insert e).2.no_duplicates) ∧
     (∀ e, (s.erase e).2.valid ∧ (s.erase e).2.no_duplicates) ∧
     (∀ i, (s.retain_all i).2.valid ∧ (s.retain_all i).2.no_duplicates) ∧
     (∀ it, (s.Iterator_erase it).2.1.valid ∧ (s.Iterator_erase it).2.1.no_duplicates) ∧
     (∀ n, (s.ensure_load_threshold n).valid ∧ (s.ensure_load_threshold n).no_duplicates) ∧
     (∀ same_object, (same_object = true → rhs1 = s) →
       (s.operator_assign rhs1 same_object).valid ∧
       (s.operator_assign rhs1 same_object).no_duplicates) ∧
     (∀ thash chash the_load_threshold indeterminate c,
       HashSet.from_copy thash s the_load_threshold chash indeterminate = .ok c →
       thash.no_int_min → chash.no_int_min →
       (thash.same s.hash = true → thash = s.hash) →
       (chash.same s.hash = true → chash = s.hash) → c.valid ∧ c.no_duplicates) ∧
     (∀ cs, (s.commands cs).valid ∧ (s.commands cs).no_duplicates)) ∧
    ((∀ (thash chash : hashfunc K) (the_load_threshold : ℚ) (m0 : HashMap K V),
       HashMap.mk_default thash the_load_threshold chash = .ok m0 → m0.hash.no_int_min →
       m0.valid ∧ m0.no_duplicates) ∧
     (∀ (thash chash : hashfunc T) (the_load_threshold : ℚ) (s0 : HashSet T),
       HashSet.mk_default thash the_load_threshold chash = .ok s0 → s0.hash.no_int_min →
       s0.valid ∧ s0.no_duplicates)) := by
  have hM : ∀ x : HashMap K V, x.valid → x.valid ∧ x.no_duplicates :=
    fun x hx => ⟨hx, hx.map_no_duplicates⟩
  have hS : ∀ x : HashSet T, x.valid → x.valid ∧ x.no_duplicates :=
    fun x hx => ⟨hx, hx.set_no_duplicates⟩
  refine ⟨⟨hm.map_no_duplicates, ?_, ?_, ?_, ?_, ?_, ?_, ?_, ?_⟩,
    ⟨hs.set_no_duplicates, ?_, ?_, ?_, ?_, ?_, ?_, ?_, ?_⟩, ?_, ?_⟩
  · exact fun key value => hM _ (HashMap.put_spec m hm key value).1
  · exact fun key => hM _ (HashMap.operator_index_spec m hm key).1
  · exact fun key => hM _ (HashMap.map_erase_valid m hm key)
  · exact fun it => hM _ (HashMap.map_Iterator_erase_valid m hm it)
  · exact fun n => hM _ (HashMap.map_ensure_load_threshold_valid m hm n)
  · exact fun same_object hsame =>
      hM _ (HashMap.operator_assign_spec m rhs hm hr same_object hsame).1
  · exact fun thash chash lt ind c h hth hch hp1 hp2 =>
      hM _ (HashMap.map_from_copy_valid thash chash m c lt ind hm h hth hch hp1 hp2)
  · exact fun cs => hM _ (HashMap.map_commands_valid cs m hm)
  · exact fun e => hS _ (HashSet.insert_spec s hs e).1
  · exact fun e => hS _ (HashSet.set_erase_valid s hs e)
  · exact fun i => hS _ (HashSet.retain_all_valid s hs i)
  · exact fun it => hS _ (HashSet.set_Iterator_erase_valid s hs it)
  · exact fun n => hS _ (HashSet.set_ensure_load_threshold_valid s hs n)
  · exact fun same_object hsame =>
      hS _ (HashSet.set_operator_assign_spec s rhs1 hs hr1 same_object hsame).1
  · exact fun thash chash lt ind c h hth hch hp1 hp2 =>
      hS _ (HashSet.set_from_copy_valid thash chash s c lt ind hs h hth hch hp1 hp2)
  · exact fun cs => hS _ (HashSet.set_commands_valid cs s hs)
  · exact fun thash chash lt m0 h hh =>
      hM _ (HashMap.map_mk_default_valid thash chash lt m0 h hh).1
  · exact fun thash chash lt s0 h hh =>
      hS _ (HashSet.set_mk_default_valid thash chash lt s0 h hh).1

/-- The witness of C26: the map holding `1 -> 10` and the set holding 1, with the empty map
and the empty set as right-hand sides of the assignments. -/
theorem no_duplicates_invariant_witness :
    (demo_map.put 1 10).2.valid ∧ demo_map.valid ∧ (demo_set.insert 1).2.valid ∧ demo_set.valid ∧
    (((demo_map.put 1 10).2.no_duplicates ∧
     (∀ key value, ((demo_map.put 1 10).2.put key value).2.valid ∧ ((demo_map.put 1 10).2.put key
       value).2.no_duplicates) ∧
     (∀ key, ((demo_map.put 1 10).2.operator_index key).2.valid ∧ ((demo_map.put 1
       10).2.operator_index key).2.no_duplicates) ∧
     (∀ key, ((demo_map.put 1 10).2.erase key).2.valid ∧ ((demo_map.put 1 10).2.erase
       key).2.no_duplicates) ∧
     (∀ it, ((demo_map.put 1 10).2.Iterator_erase it).2.1.valid ∧ ((demo_map.put 1
       10).2.Iterator_erase it).2.1.no_duplicates) ∧
     (∀ n, ((demo_map.put 1 10).2.ensure_load_threshold n).valid ∧ ((demo_map.put 1
       10).2.ensure_load_threshold n).no_duplicates) ∧
     (∀ same_object, (same_object = true → demo_map = (demo_map.put 1 10).2) →
       ((demo_map.put 1 10).2.operator_assign demo_map same_object).valid ∧
       ((demo_map.put 1 10).2.operator_assign demo_map same_object).no_duplicates) ∧
     (∀ thash chash the_load_threshold indeterminate c,
       HashMap.from_copy thash (demo_map.put 1 10).2 the_load_threshold chash indeterminate = .ok c
         →
       thash.no_int_min → chash.no_int_min →
       (thash.same (demo_map.put 1 10).2.hash = true → thash = (demo_map.put 1 10).2.hash) →
       (chash.same (demo_map.put 1 10).2.hash = true → chash = (demo_map.put 1 10).2.hash) →
         c.valid ∧ c.no_duplicates) ∧
     (∀ cs, ((demo_map.put 1 10).2.commands cs).valid ∧ ((demo_map.put 1 10).2.commands
       cs).no_duplicates)) ∧
    ((demo_set.insert 1).2.no_duplicates ∧
     (∀ e, ((demo_set.insert 1).2.insert e).2.valid ∧ ((demo_set.insert 1).2.insert
       e).2.no_duplicates) ∧
     (∀ e, ((demo_set.insert 1).2.erase e).2.valid ∧ ((demo_set.insert 1).2.erase
       e).2.no_duplicates) ∧
     (∀ i, ((demo_set.insert 1).2.retain_all i).2.valid ∧ ((demo_set.insert 1).2.retain_all
       i).2.no_duplicates) ∧
     (∀ it, ((demo_set.insert 1).2.Iterator_erase it).2.1.valid ∧ ((demo_set.insert
       1).2.Iterator_erase it).2.1.no_duplicates) ∧
     (∀ n, ((demo_set.insert 1).2.ensure_load_threshold n).valid ∧ ((demo_set.insert
       1).2.ensure_load_threshold n).no_duplicates) ∧
     (∀ same_object, (same_object = true → demo_set = (demo_set.insert 1).2) →
       ((demo_set.insert 1).2.operator_assign demo_set same_object).valid ∧
       ((demo_set.insert 1).2.operator_assign demo_set same_object).no_duplicates) ∧
     (∀ thash chash the_load_threshold indeterminate c,
       HashSet.from_copy thash (demo_set.insert 1).2 the_load_threshold chash indeterminate = .ok c
         →
       thash.no_int_min → chash.no_int_min →
       (thash.same (demo_set.insert 1).2.hash = true → thash = (demo_set.insert 1).2.hash) →
       (chash.same (demo_set.insert 1).2.hash = true → chash = (demo_set.insert 1).2.hash) →
         c.valid ∧ c.no_duplicates) ∧
     (∀ cs, ((demo_set.insert 1).2.commands cs).valid ∧ ((demo_set.insert 1).2.commands
       cs).no_duplicates)) ∧
    ((∀ (thash chash : hashfunc Nat) (the_load_threshold : ℚ) (m0 : HashMap Nat Nat),
       HashMap.mk_default thash the_load_threshold chash = .ok m0 → m0.hash.no_int_min →
       m0.valid ∧ m0.no_duplicates) ∧
     (∀ (thash chash : hashfunc Nat) (the_load_threshold : ℚ) (s0 : HashSet Nat),
       HashSet.mk_default thash the_load_threshold chash = .ok s0 → s0.hash.no_int_min →
       s0.valid ∧ s0.no_duplicates))) :=
  ⟨(HashMap.put_spec demo_map demo_map_valid 1 10).1, demo_map_valid,
    (HashSet.insert_spec demo_set demo_set_valid 1).1, demo_set_valid,
    no_duplicates_invariant (demo_map.put 1 10).2 demo_map
      (HashMap.put_spec demo_map demo_map_valid 1 10).1 demo_map_valid
      (demo_set.insert 1).2 demo_set
      (HashSet.insert_spec demo_set demo_set_valid 1).1 demo_set_valid⟩

/-- C37 (violated by the code): `operator ==` is not symmetric.  For the distinct maps
`m1 = {1 -> 10, 2 -> 10}` and `m2 = {1 -> 10, 2 -> 20}`, `m1 == m2` is true and `m2 == m1` is
false: every key of `m1` is a key of `m2` and the value 10 occurs in `m2`, but the value 20 of
`m2` does not occur in `m1`. -/
theorem map_equality_not_symmetric :
    (demo_map.commands [.put 1 10, .put 2 10]).size = 2 ∧
    (demo_map.commands [.put 1 10, .put 2 20]).size = 2 ∧
    (demo_map.commands [.put 1 10, .put 2 10]).operator_eq
      (demo_map.commands [.put 1 10, .put 2 20]) false = true ∧
    (demo_map.commands [.put 1 10, .put 2 20]).operator_eq
      (demo_map.commands [.put 1 10, .put 2 10]) false = false ∧
    (demo_map.commands [.put 1 10, .put 2 20]).has_value 20 = true ∧
    (demo_map.commands [.put 1 10, .put 2 10]).has_value 20 = false := by
  refine ⟨by decide, by decide, by decide, by decide, by decide, by decide⟩

/-- C38 (violated by the code): on the empty 1-bin map with load threshold 1 and the absent
key 1, `put(1, 10)` leaves 2 bins with the entry in bin 1, while `m[1] = 10` leaves 1 bin
with the entry in bin 0: `put` tests `(used + 2) / bins` and `operator []` tests
`(used + 1) / bins`.  Size and `mod_count` are 1 on both paths. -/
theorem insertion_paths_differ :
    demo_map.has_key 1 = false ∧
    (demo_map.put 1 10).2.bins = 2 ∧
    (demo_map.operator_index_assign 1 10).bins = 1 ∧
    (demo_map.put 1 10).2.map = [[], [(1, 10)]] ∧
    (demo_map.operator_index_assign 1 10).map = [[(1, 10)]] ∧
    (demo_map.put 1 10).2.size = 1 ∧ (demo_map.operator_index_assign 1 10).size = 1 ∧
    (demo_map.put 1 10).2.mod_count = 1 ∧ (demo_map.operator_index_assign 1 10).mod_count = 1 := by
  refine ⟨by decide, by decide, by decide, by decide, by decide, by decide, by decide,
    by decide, by decide⟩

namespace HashMap

variable {K V : Type}

theorem put_entries_load_threshold [DecidableEq K] (m rhs : HashMap K V) :
    (m.put_entries rhs).load_threshold = m.load_threshold := by
  unfold put_entries
  generalize bin_chains rhs.map rhs.bins = cs
  induction cs generalizing m with
  | nil => rfl
  | cons c cs ih =>
    rw [List.foldl_cons, ih]
    clear ih
    induction c generalizing m with
    | nil => rfl
    | cons e c ih2 =>
      rw [List.foldl_cons, ih2, (put_fields m e.1 e.2).2.2.2]

theorem mk_initial_bins_load_threshold (thash chash : hashfunc K) (initial_bins : Int)
    (the_load_threshold indeterminate : ℚ) (m : HashMap K V)
    (h : mk_initial_bins thash initial_bins the_load_threshold chash indeterminate = .ok m) :
    m.load_threshold = indeterminate := by
  unfold mk_initial_bins at h
  simp only at h
  split_ifs at h <;> cases h <;> rfl

theorem from_copy_load_threshold [DecidableEq K] (thash chash : hashfunc K)
    (to_copy : HashMap K V) (the_load_threshold indeterminate : ℚ) (c : HashMap K V)
    (h : from_copy thash to_copy the_load_threshold chash indeterminate = .ok c) :
    c.load_threshold = indeterminate := by
  unfold from_copy at h
  simp only at h
  split_ifs at h <;> cases h <;> first | rfl | exact put_entries_load_threshold _ _

end HashMap

namespace HashSet

variable {T : Type}

theorem set_ensure_load_threshold_same (s : HashSet T) (n : Int) :
    (s.ensure_load_threshold n).load_threshold = s.load_threshold := by
  unfold ensure_load_threshold
  split <;> rfl

theorem insert_load_threshold [DecidableEq T] (s : HashSet T) (e : T) :
    (s.insert e).2.load_threshold = s.load_threshold := by
  unfold insert
  split
  · rfl
  · exact set_ensure_load_threshold_same s _

theorem insert_elements_load_threshold [DecidableEq T] (s rhs : HashSet T) :
    (s.insert_elements rhs).load_threshold = s.load_threshold := by
  unfold insert_elements
  generalize bin_chains rhs.set rhs.bins = cs
  induction cs generalizing s with
  | nil => rfl
  | cons c cs ih =>
    rw [List.foldl_cons, ih]
    clear ih
    induction c generalizing s with
    | nil => rfl
    | cons e c ih2 =>
      rw [List.foldl_cons, ih2, insert_load_threshold]

theorem set_mk_initial_bins_load_threshold (thash chash : hashfunc T) (initial_bins : Int)
    (the_load_threshold indeterminate : ℚ) (s : HashSet T)
    (h : mk_initial_bins thash initial_bins the_load_threshold chash indeterminate = .ok s) :
    s.load_threshold = indeterminate := by
  unfold mk_initial_bins at h
  simp only at h
  split_ifs at h <;> cases h <;> rfl

theorem set_from_copy_load_threshold [DecidableEq T] (thash chash : hashfunc T)
    (to_copy : HashSet T) (the_load_threshold indeterminate : ℚ) (c : HashSet T)
    (h : from_copy thash to_copy the_load_threshold chash indeterminate = .ok c) :
    c.load_threshold = indeterminate := by
  unfold from_copy at h
  simp only at h
  split_ifs at h <;> cases h <;> first | rfl | exact insert_elements_load_threshold _ _

end HashSet

/-- C39 (violated by the code): the constructors from a bin count and by copy never read
their argument `the_load_threshold`; the member `load_threshold` keeps the indeterminate
value it had.  With the argument 2 and a member holding 1, the map `HashMap(4, 2.0)`, the
copy `HashMap(m, 2.0)` of the map holding `1 -> 10`, and the corresponding sets have
`load_threshold = 1`, while the default constructor called with 2 binds 2. -/
theorem load_threshold_not_bound :
    (∀ {K V : Type} [DecidableEq K] (thash chash : hashfunc K) (initial_bins : Int)
      (to_copy : HashMap K V) (the_load_threshold indeterminate : ℚ) (m : HashMap K V),
      (HashMap.mk_initial_bins thash initial_bins the_load_threshold chash indeterminate =
          .ok m → m.load_threshold = indeterminate) ∧
      (HashMap.from_copy thash to_copy the_load_threshold chash indeterminate = .ok m →
        m.load_threshold = indeterminate)) ∧
    (∀ {T : Type} [DecidableEq T] (thash chash : hashfunc T) (initial_bins : Int)
      (to_copy : HashSet T) (the_load_threshold indeterminate : ℚ) (s : HashSet T),
      (HashSet.mk_initial_bins thash initial_bins the_load_threshold chash indeterminate =
          .ok s → s.load_threshold = indeterminate) ∧
      (HashSet.from_copy thash to_copy the_load_threshold chash indeterminate = .ok s →
        s.load_threshold = indeterminate)) ∧
    (HashMap.mk_initial_bins demo_hash 4 2 .undefinedhash 1 :
        Except Error (HashMap Nat Nat)) =
      .ok (HashMap.mk demo_hash demo_hash [[], [], [], []] 1 4 0 0) ∧
    HashMap.from_copy demo_hash (demo_map.operator_index_assign 1 10) 2 .undefinedhash 1 =
      .ok (HashMap.mk demo_hash demo_hash [[(1, 10)]] 1 1 1 0) ∧
    HashSet.mk_initial_bins demo_hash 4 2 .undefinedhash 1 =
      .ok (HashSet.mk demo_hash demo_hash [[], [], [], []] 1 4 0 0) ∧
    HashSet.from_copy demo_hash (demo_set.insert 1).2 2 .undefinedhash 1 =
      .ok (HashSet.mk demo_hash demo_hash [[1]] 1 1 1 0) ∧
    (HashMap.mk_default demo_hash 2 .undefinedhash : Except Error (HashMap Nat Nat)) =
      .ok (HashMap.mk demo_hash demo_hash [[]] 2 1 0 0) := by
  refine ⟨fun thash chash initial_bins to_copy lt ind m =>
      ⟨HashMap.mk_initial_bins_load_threshold thash chash initial_bins lt ind m,
       HashMap.from_copy_load_threshold thash chash to_copy lt ind m⟩,
    fun thash chash initial_bins to_copy lt ind s =>
      ⟨HashSet.set_mk_initial_bins_load_threshold thash chash initial_bins lt ind s,
       HashSet.set_from_copy_load_threshold thash chash to_copy lt ind s⟩,
    rfl, rfl, rfl, rfl, rfl⟩

section state_machine

variable {α : Type}

theorem increment_at_end (t : List (List α)) (bins mod_count : Int) (it : Iterator)
    (h : it.expected_mod_count = mod_count) (he : it.current.2 = none) :
    Iterator.increment t bins mod_count it = .ok it := by
  unfold Iterator.increment
  rw [if_neg (fun hn => hn h), he]

theorem increment_iterate_at_end (t : List (List α)) (bins mod_count : Int) (it : Iterator)
    (h : it.expected_mod_count = mod_count) (he : it.current.2 = none) (n : Nat) :
    Nat.iterate (fun (r : Except Error Iterator) => r.bind (Iterator.increment t bins mod_count))
      n (Except.ok it) = Except.ok it := by
  induction n with
  | zero => rfl
  | succ n ih =>
    rw [Function.iterate_succ_apply', ih]
    exact increment_at_end t bins mod_count it h he

/-- C32: for an iterator whose snapshot is current, with the state `(cursor, can_erase)`: a
successful `erase` starts with `can_erase = true` and leaves `can_erase = false` with the
cursor where it was; prefix and postfix `++` on an iterator that is not at end succeed and
leave `can_erase = true`; prefix and postfix `++` on an iterator at end return it unchanged,
`==` on it still answers, and any number of `++` leaves it as it is. -/
theorem iterator_state_machine (t : List (List α)) (bins mod_count : Int) (it : Iterator)
    (h : it.expected_mod_count = mod_count) :
    (∀ x t1 it1, Iterator.erase_node t mod_count it = .ok (x, t1, it1) →
      it.can_erase = true ∧ it1.can_erase = false ∧ it1.current = it.current) ∧
    (∀ p, it.current.2 = some p →
      (∃ it1, Iterator.increment t bins mod_count it = .ok it1 ∧ it1.can_erase = true) ∧
      (∃ it1, Iterator.post_increment t bins mod_count it = .ok (it, it1) ∧
        it1.can_erase = true)) ∧
    (it.current.2 = none →
      Iterator.increment t bins mod_count it = .ok it ∧
      Iterator.post_increment t bins mod_count it = .ok (it, it) ∧
      (∀ rhs, Iterator.equals mod_count it rhs = .ok (decide (none = rhs.current.2))) ∧
      (∀ n : Nat,
        Nat.iterate
          (fun (r : Except Error Iterator) => r.bind (Iterator.increment t bins mod_count))
          n (Except.ok it) = Except.ok it)) := by
  refine ⟨?_, ?_, ?_⟩
  · intro x t1 it1 he
    obtain ⟨_, h2, h3, _⟩ := erase_node_spec t mod_count it x t1 it1 he
    rw [h3]
    exact ⟨h2, rfl, rfl⟩
  · intro p hp
    constructor
    · unfold Iterator.increment
      rw [if_neg (fun hn => hn h), hp]
      exact ⟨_, rfl, rfl⟩
    · unfold Iterator.post_increment
      rw [if_neg (fun hn => hn h), hp]
      exact ⟨_, rfl, rfl⟩
  · intro he
    refine ⟨increment_at_end t bins mod_count it h he, ?_, ?_,
      increment_iterate_at_end t bins mod_count it h he⟩
    · unfold Iterator.post_increment
      rw [if_neg (fun hn => hn h), he]
    · intro rhs
      unfold Iterator.equals
      rw [if_neg (fun hn => hn h), he]

end state_machine

namespace HashMap

variable {K V : Type}

theorem chain_remove_of_find_key [DecidableEq K] (m : HashMap K V) (key : K)
    (h : (m.find_key key).isSome = true) :
    (chain_remove Prod.fst key (bin_chain m.map (m.hash_compress key))).isSome = true := by
  unfold find_key at h
  simp only [Option.isSome_map'] at h
  cases hr : chain_remove Prod.fst key (bin_chain m.map (m.hash_compress key)) with
  | some r => rfl
  | none =>
    rw [chain_remove_eq_none] at hr
    rw [(chain_find_eq_none Prod.fst key _).2 hr] at h
    exact absurd h (by simp)

theorem map_erase_defined [DecidableEq K] (m : HashMap K V) (key : K) :
    (m.erase key).1 ≠ .error .undefined := by
  unfold erase
  cases hf : m.find_key key with
  | none =>
    intro h
    cases h
  | some p =>
    have h1 := chain_remove_of_find_key m key (by rw [hf]; rfl)
    obtain ⟨r, hr⟩ := Option.isSome_iff_exists.1 h1
    simp only
    rw [hr]
    intro h
    cases h

end HashMap

namespace HashSet

variable {T : Type}

theorem chain_remove_of_find_element [DecidableEq T] (s : HashSet T) (hv : s.valid) (e : T)
    (h : (s.find_element e).isSome = true) :
    (chain_remove id e (bin_chain s.set (s.hash_compress e))).isSome = true := by
  have hc : s.contains e = true := h
  rw [contains_iff s hv.ok.length_eq] at hc
  have hm := hv.ok.mem_chain e hc
  cases hr : chain_remove id e (bin_chain s.set (s.hash_compress e)) with
  | some r => rfl
  | none =>
    rw [chain_remove_eq_none] at hr
    exact absurd rfl (hr e hm)

theorem set_erase_defined [DecidableEq T] (s : HashSet T) (hv : s.valid) (e : T) :
    (s.erase e).1 ≠ .error .undefined := by
  obtain ⟨s1, e1, _⟩ := erase_spec s hv e
  rw [e1]
  intro h
  cases h

end HashSet

/-- C34: in `erase`, when the preliminary `find_key` / `find_element` has returned a node,
the walk over the chain of bucket `hash_compress(key)` meets a node holding the key before
the trailer, and `erase` does not leave the function without a `return`.  For a map this
holds in every state, for a set in every state that satisfies the representation
invariant. -/
theorem erase_scan_finds {K V T : Type} [DecidableEq K] [DecidableEq T]
    (m : HashMap K V) (s : HashSet T) (hs : s.valid) :
    (∀ key, (m.find_key key).isSome = true →
      (chain_remove Prod.fst key (bin_chain m.map (m.hash_compress key))).isSome = true) ∧
    (∀ key, (m.erase key).1 ≠ .error .undefined) ∧
    (∀ e, (s.find_element e).isSome = true →
      (chain_remove id e (bin_chain s.set (s.hash_compress e))).isSome = true) ∧
    (∀ e, (s.erase e).1 ≠ .error .undefined) :=
  ⟨fun key h => HashMap.chain_remove_of_find_key m key h,
    fun key => HashMap.map_erase_defined m key,
    fun e h => HashSet.chain_remove_of_find_element s hs e h,
    fun e => HashSet.set_erase_defined s hs e⟩

/-- C40: for valid containers `a` and `b` that are distinct objects, `a = b` leaves in `a`
the size of `b` and the associations of `b` (`has_key` and the const `operator []` answer as
on `b`; `contains` for a set), keeps the hash function of `a`, and leaves every entry in the
chain `hash_compress` of `a` assigns to it; `b` is an argument and is not changed.
Self-assignment returns `a` as it is. -/
theorem assignment_contract {K V T : Type} [DecidableEq K] [DecidableEq T]
    (a b : HashMap K V) (ha : a.valid) (hb : b.valid)
    (a1 b1 : HashSet T) (ha1 : a1.valid) (hb1 : b1.valid) :
    ((a.operator_assign b false).size = b.size ∧
     (∀ k, (a.operator_assign b false).has_key k = b.has_key k ∧
       (a.operator_assign b false).operator_index_const k = b.operator_index_const k) ∧
     (a.operator_assign b false).hash = a.hash ∧
     (a.operator_assign b false).well_placed ∧
     (a.operator_assign b false).valid ∧
     a.operator_assign a true = a) ∧
    ((a1.operator_assign b1 false).size = b1.size ∧
     (∀ x, (a1.operator_assign b1 false).contains x = b1.contains x) ∧
     (a1.operator_assign b1 false).hash = a1.hash ∧
     (a1.operator_assign b1 false).well_placed ∧
     (a1.operator_assign b1 false).valid ∧
     a1.operator_assign a1 true = a1) := by
  constructor
  · obtain ⟨v1, v2, v3, v4⟩ :=
      HashMap.operator_assign_spec a b ha hb false (fun h => absurd h Bool.false_ne_true)
    refine ⟨v4, fun k => ?_, v2, fun i e he => v1.ok.placed i e he, v1, rfl⟩
    exact ⟨(HashMap.lookup_of_perm b _ hb v1 v3 k).2, (HashMap.lookup_of_perm b _ hb v1 v3 k).1⟩
  · obtain ⟨v1, v2, v3, v4⟩ :=
      HashSet.set_operator_assign_spec a1 b1 ha1 hb1 false
        (fun h => absurd h Bool.false_ne_true)
    exact ⟨v4, fun x => HashSet.contains_of_perm b1 _ hb1 v1 v3 x, v2,
      fun i e he => v1.ok.placed i e he, v1, rfl⟩

/-- The witness of C32: the iterator `begin()` of the set holding 1. -/
theorem iterator_state_machine_witness :
    (demo_set.insert 1).2.begin.expected_mod_count = (demo_set.insert 1).2.mod_count ∧
    ((∀ x t1 it1, Iterator.erase_node (demo_set.insert 1).2.set (demo_set.insert 1).2.mod_count
      (demo_set.insert 1).2.begin = .ok (x, t1, it1) →
      (demo_set.insert 1).2.begin.can_erase = true ∧ it1.can_erase = false ∧ it1.current =
        (demo_set.insert 1).2.begin.current) ∧
    (∀ p, (demo_set.insert 1).2.begin.current.2 = some p →
      (∃ it1, Iterator.increment (demo_set.insert 1).2.set (demo_set.insert 1).2.bins
        (demo_set.insert 1).2.mod_count (demo_set.insert 1).2.begin = .ok it1 ∧ it1.can_erase =
          true) ∧
      (∃ it1, Iterator.post_increment (demo_set.insert 1).2.set (demo_set.insert 1).2.bins
        (demo_set.insert 1).2.mod_count (demo_set.insert 1).2.begin = .ok ((demo_set.insert
          1).2.begin, it1) ∧
        it1.can_erase = true)) ∧
    ((demo_set.insert 1).2.begin.current.2 = none →
      Iterator.increment (demo_set.insert 1).2.set (demo_set.insert 1).2.bins (demo_set.insert
        1).2.mod_count (demo_set.insert 1).2.begin = .ok (demo_set.insert 1).2.begin ∧
      Iterator.post_increment (demo_set.insert 1).2.set (demo_set.insert 1).2.bins (demo_set.insert
        1).2.mod_count (demo_set.insert 1).2.begin = .ok ((demo_set.insert 1).2.begin,
          (demo_set.insert 1).2.begin) ∧
      (∀ rhs, Iterator.equals (demo_set.insert 1).2.mod_count (demo_set.insert 1).2.begin rhs = .ok
        (decide (none = rhs.current.2))) ∧
      (∀ n : Nat,
        Nat.iterate
          (fun (r : Except Error Iterator) => r.bind (Iterator.increment (demo_set.insert 1).2.set
            (demo_set.insert 1).2.bins (demo_set.insert 1).2.mod_count))
          n (Except.ok (demo_set.insert 1).2.begin) = Except.ok (demo_set.insert 1).2.begin))) :=
  ⟨rfl, iterator_state_machine (demo_set.insert 1).2.set (demo_set.insert 1).2.bins
    (demo_set.insert 1).2.mod_count (demo_set.insert 1).2.begin rfl⟩

/-- The witness of C34: the map holding `1 -> 10` and the set holding 1. -/
theorem erase_scan_finds_witness :
    (demo_set.insert 1).2.valid ∧
    ((∀ key, ((demo_map.put 1 10).2.find_key key).isSome = true →
      (chain_remove Prod.fst key (bin_chain (demo_map.put 1 10).2.map ((demo_map.put 1
        10).2.hash_compress key))).isSome = true) ∧
    (∀ key, ((demo_map.put 1 10).2.erase key).1 ≠ .error .undefined) ∧
    (∀ e, ((demo_set.insert 1).2.find_element e).isSome = true →
      (chain_remove id e (bin_chain (demo_set.insert 1).2.set ((demo_set.insert 1).2.hash_compress
        e))).isSome = true) ∧
    (∀ e, ((demo_set.insert 1).2.erase e).1 ≠ .error .undefined)) :=
  ⟨(HashSet.insert_spec demo_set demo_set_valid 1).1,
    erase_scan_finds (demo_map.put 1 10).2 (demo_set.insert 1).2 (HashSet.insert_spec demo_set
      demo_set_valid 1).1⟩

/-- The witness of C40: the map holding `1 -> 10` assigned the map holding `2 -> 20`, and the
set holding 1 assigned the set holding 2. -/
theorem assignment_contract_witness :
    (demo_map.put 1 10).2.valid ∧ (demo_map.put 2 20).2.valid ∧ (demo_set.insert 1).2.valid ∧
      (demo_set.insert 2).2.valid ∧
    ((((demo_map.put 1 10).2.operator_assign (demo_map.put 2 20).2 false).size = (demo_map.put 2
      20).2.size ∧
     (∀ k, ((demo_map.put 1 10).2.operator_assign (demo_map.put 2 20).2 false).has_key k =
       (demo_map.put 2 20).2.has_key k ∧
       ((demo_map.put 1 10).2.operator_assign (demo_map.put 2 20).2 false).operator_index_const k =
         (demo_map.put 2 20).2.operator_index_const k) ∧
     ((demo_map.put 1 10).2.operator_assign (demo_map.put 2 20).2 false).hash = (demo_map.put 1
       10).2.hash ∧
     ((demo_map.put 1 10).2.operator_assign (demo_map.put 2 20).2 false).well_placed ∧
     ((demo_map.put 1 10).2.operator_assign (demo_map.put 2 20).2 false).valid ∧
     (demo_map.put 1 10).2.operator_assign (demo_map.put 1 10).2 true = (demo_map.put 1 10).2) ∧
    (((demo_set.insert 1).2.operator_assign (demo_set.insert 2).2 false).size = (demo_set.insert
      2).2.size ∧
     (∀ x, ((demo_set.insert 1).2.operator_assign (demo_set.insert 2).2 false).contains x =
       (demo_set.insert 2).2.contains x) ∧
     ((demo_set.insert 1).2.operator_assign (demo_set.insert 2).2 false).hash = (demo_set.insert
       1).2.hash ∧
     ((demo_set.insert 1).2.operator_assign (demo_set.insert 2).2 false).well_placed ∧
     ((demo_set.insert 1).2.operator_assign (demo_set.insert 2).2 false).valid ∧
     (demo_set.insert 1).2.operator_assign (demo_set.insert 1).2 true = (demo_set.insert 1).2)) :=
  ⟨(HashMap.put_spec demo_map demo_map_valid 1 10).1,
    (HashMap.put_spec demo_map demo_map_valid 2 20).1,
    (HashSet.insert_spec demo_set demo_set_valid 1).1,
    (HashSet.insert_spec demo_set demo_set_valid 2).1,
    assignment_contract (demo_map.put 1 10).2 (demo_map.put 2 20).2
      (HashMap.put_spec demo_map demo_map_valid 1 10).1
      (HashMap.put_spec demo_map demo_map_valid 2 20).1
      (demo_set.insert 1).2 (demo_set.insert 2).2
      (HashSet.insert_spec demo_set demo_set_valid 1).1
      (HashSet.insert_spec demo_set demo_set_valid 2).1⟩

section bucket_scan

variable {α K : Type}

theorem scan_all_at [DecidableEq K] (κ : α → K) (key : K) (t : List (List α)) (idx : Int)
    (pos : Nat) (hf : chain_find κ key (bin_chain t idx) = some pos) :
    ∀ (n : Nat) (i : Int), i ≤ idx → idx < i + n →
      (∀ j : Int, i ≤ j → j < idx → chain_find κ key (bin_chain t j) = none) →
      scan_all κ key t i n = some ⟨idx, pos⟩ := by
  intro n
  induction n with
  | zero =>
    intro i h1 h2 _
    omega
  | succ n ih =>
    intro i h1 h2 h3
    unfold scan_all
    by_cases hi : i = idx
    · rw [hi, hf]
    · have hlt : i < idx := by omega
      rw [h3 i (le_refl _) hlt]
      exact ih (i + 1) (by omega) (by omega) (fun j hj1 hj2 => h3 j (by omega) hj2)

theorem scan_all_eq_spec_find [DecidableEq K] (κ : α → K) (hash : hashfunc K) (bins : Int)
    (t : List (List α)) (ok : table_ok κ hash bins t) (hh : hash.no_int_min) (key : K) :
    scan_all κ key t 0 bins.toNat = spec_find κ hash bins t key := by
  unfold spec_find
  have h0 := hash_index_nonneg hash bins key hh
  have h1 := hash_index_lt hash bins key ok.bins_pos
  cases hf : chain_find κ key (bin_chain t (hash_index hash bins key)) with
  | some pos =>
    rw [Option.map_some']
    apply scan_all_at κ key t _ pos hf _ 0 h0
    · have := ok.bins_pos
      omega
    · intro j _ hj2
      rw [chain_find_eq_none]
      intro e he hk
      have := ok.placed j e he
      rw [hk] at this
      omega
  | none =>
    rw [Option.map_none', scan_all_eq_none]
    intro j _ _ e he hk
    have hj := ok.placed j e he
    rw [hk] at hj
    rw [chain_find_eq_none] at hf
    rw [← hj] at he
    exact hf e he hk

end bucket_scan

/-- C31: `HashMap::find_key` is, in every state, the scan of the chain of bucket
`hash_compress(key)` and returns a node iff that chain holds the key.  In every set state
that satisfies the representation invariant, `HashSet::find_element`, which walks all the
buckets, returns the node that the scan of bucket `hash_compress(x)` alone returns, and
returns a node iff that chain holds `x`. -/
theorem lookup_scans_bucket {K V T : Type} [DecidableEq K] [DecidableEq T]
    (m : HashMap K V) (s : HashSet T) (hs : s.valid) :
    (∀ key, m.find_key key = spec_find Prod.fst m.hash m.bins m.map key) ∧
    (∀ key, (m.find_key key).isSome = true ↔
      ∃ e ∈ bin_chain m.map (m.hash_compress key), e.1 = key) ∧
    (∀ x, s.find_element x = spec_find id s.hash s.bins s.set x) ∧
    (∀ x, (s.find_element x).isSome = true ↔ x ∈ bin_chain s.set (s.hash_compress x)) := by
  have hspec : ∀ {α κ : Type} [DecidableEq κ] (f : α → κ) (hash : hashfunc κ) (bins : Int)
      (t : List (List α)) (key : κ),
      (spec_find f hash bins t key).isSome = true ↔
        ∃ e ∈ bin_chain t (hash_index hash bins key), f e = key := by
    intro α κ _ f hash bins t key
    unfold spec_find
    rw [Option.isSome_map']
    constructor
    · intro h
      by_contra hc
      have : chain_find f key (bin_chain t (hash_index hash bins key)) = none := by
        rw [chain_find_eq_none]
        intro e he hk
        exact hc ⟨e, he, hk⟩
      rw [this] at h
      exact absurd h (by simp)
    · rintro ⟨e, he, hk⟩
      cases hf : chain_find f key (bin_chain t (hash_index hash bins key)) with
      | some pos => rfl
      | none =>
        rw [chain_find_eq_none] at hf
        exact absurd hk (hf e he)
  have hset : ∀ x, s.find_element x = spec_find id s.hash s.bins s.set x :=
    fun x => scan_all_eq_spec_find id s.hash s.bins s.set hs.ok hs.hash_ok x
  refine ⟨fun key => rfl, fun key => hspec Prod.fst m.hash m.bins m.map key, hset, fun x => ?_⟩
  rw [hset x, hspec id s.hash s.bins s.set x]
  constructor
  · rintro ⟨e, he, hk⟩
    cases hk
    exact he
  · exact fun h => ⟨x, h, rfl⟩

namespace HashMap

variable {K V : Type}

theorem valid.map_well_placed {m : HashMap K V} (hv : m.valid) : m.well_placed :=
  fun i e he => hv.ok.placed i e he

theorem map_mk_initial_bins_valid (thash chash : hashfunc K) (initial_bins : Int)
    (the_load_threshold indeterminate : ℚ) (m : HashMap K V)
    (h : mk_initial_bins thash initial_bins the_load_threshold chash indeterminate = .ok m)
    (hb : 1 ≤ initial_bins) (hh : m.hash.no_int_min) : m.valid := by
  unfold mk_initial_bins at h
  simp only at h
  split_ifs at h <;> cases h <;> exact (map_valid_of_replicate _ hb rfl rfl hh).1

theorem map_from_initializer_list_valid [DecidableEq K] (thash chash : hashfunc K)
    (il : List (K × V)) (the_load_threshold : ℚ) (m : HashMap K V)
    (h : from_initializer_list thash il the_load_threshold chash = .ok m)
    (hh : m.hash.no_int_min) : m.valid := by
  unfold from_initializer_list at h
  simp only at h
  split_ifs at h <;> cases h <;>
    exact (foldl_put_valid il _
      (map_valid_of_replicate
        (HashMap.mk thash _ (List.replicate 1 []) the_load_threshold 1 0 0) (le_refl _) rfl rfl
        (by rw [foldl_put_hash] at hh; exact hh)).1).1

theorem map_from_iterable_valid [DecidableEq K] (thash chash : hashfunc K)
    (i : List (K × V)) (the_load_threshold : ℚ) (m : HashMap K V)
    (h : from_iterable thash i the_load_threshold chash = .ok m)
    (hh : m.hash.no_int_min) : m.valid :=
  map_from_initializer_list_valid thash chash i the_load_threshold m h hh

end HashMap

namespace HashSet

variable {T : Type}

theorem valid.set_well_placed {s : HashSet T} (hv : s.valid) : s.well_placed :=
  fun i e he => hv.ok.placed i e he

theorem set_mk_initial_bins_valid (thash chash : hashfunc T) (initial_bins : Int)
    (the_load_threshold indeterminate : ℚ) (s : HashSet T)
    (h : mk_initial_bins thash initial_bins the_load_threshold chash indeterminate = .ok s)
    (hb : 1 ≤ initial_bins) (hh : s.hash.no_int_min) : s.valid := by
  unfold mk_initial_bins at h
  simp only at h
  split_ifs at h with h1 h2 h3 h4 <;> cases h <;>
    first
    | exact (set_valid_of_replicate _ hb rfl rfl hh (fun _ => rfl)).1
    | exact (set_valid_of_replicate _ hb rfl rfl hh (fun ht => by simp [ht] at h1)).1

theorem set_from_initializer_list_valid [DecidableEq T] (thash chash : hashfunc T)
    (il : List T) (the_load_threshold : ℚ) (s : HashSet T)
    (h : from_initializer_list thash il the_load_threshold chash = .ok s)
    (hh : s.hash.no_int_min) : s.valid := by
  unfold from_initializer_list at h
  simp only at h
  split_ifs at h with h1 h2 h3 <;> cases h <;>
    first
    | exact (foldl_insert_spec il _
        (set_valid_of_replicate
          (HashSet.mk thash _ (List.replicate 1 []) the_load_threshold 1 0 0) (le_refl _) rfl
          rfl (by rw [foldl_insert_hash] at hh; exact hh) (fun _ => rfl)).1).1
    | exact (foldl_insert_spec il _
        (set_valid_of_replicate
          (HashSet.mk thash _ (List.replicate 1 []) the_load_threshold 1 0 0) (le_refl _) rfl
          rfl (by rw [foldl_insert_hash] at hh; exact hh)
          (fun ht => by simp [ht] at h1)).1).1

theorem set_from_iterable_valid [DecidableEq T] (thash chash : hashfunc T)
    (i : List T) (the_load_threshold : ℚ) (s : HashSet T)
    (h : from_iterable thash i the_load_threshold chash = .ok s)
    (hh : s.hash.no_int_min) : s.valid :=
  set_from_initializer_list_valid thash chash i the_load_threshold s h hh

end HashSet

/-- The witness of C31: the map holding `1 -> 10` and the set holding 1. -/
theorem lookup_scans_bucket_witness :
    (demo_set.insert 1).2.valid ∧
    ((∀ key, (demo_map.put 1 10).2.find_key key = spec_find Prod.fst (demo_map.put 1 10).2.hash
      (demo_map.put 1 10).2.bins (demo_map.put 1 10).2.map key) ∧
    (∀ key, ((demo_map.put 1 10).2.find_key key).isSome = true ↔
      ∃ e ∈ bin_chain (demo_map.put 1 10).2.map ((demo_map.put 1 10).2.hash_compress key), e.1 =
        key) ∧
    (∀ x, (demo_set.insert 1).2.find_element x = spec_find id (demo_set.insert 1).2.hash
      (demo_set.insert 1).2.bins (demo_set.insert 1).2.set x) ∧
    (∀ x, ((demo_set.insert 1).2.find_element x).isSome = true ↔ x ∈ bin_chain (demo_set.insert
      1).2.set ((demo_set.insert 1).2.hash_compress x))) :=
  ⟨(HashSet.insert_spec demo_set demo_set_valid 1).1,
    lookup_scans_bucket (demo_map.put 1 10).2 (demo_set.insert 1).2 (HashSet.insert_spec demo_set
      demo_set_valid 1).1⟩

/-- C33: the representation invariant `valid`, which entails that every entry of a map or a
set sits in the chain `hash_compress` assigns to its key under the current `bins` and `hash`,
holds for what the constructors build (default, from a bin count `>= 1`, from an initializer
list, from an iterable) when the hash function never returns `INT_MIN`, and is preserved by
`put`, `operator []`, `erase`, `Iterator::erase`, resizing, assignment, copy construction
and every sequence of map operations, and by `insert`, `erase`, `retain_all`,
`Iterator::erase`, resizing, assignment, copy construction and every sequence of set
operations. -/
theorem placement_invariant {K V T : Type} [DecidableEq K] [Inhabited V] [DecidableEq T]
    (m rhs : HashMap K V) (hm : m.valid) (hr : rhs.valid)
    (s rhs1 : HashSet T) (hs : s.valid) (hr1 : rhs1.valid) :
    (m.well_placed ∧
     (∀ key value, (m.put key value).2.valid ∧ (m.put key value).2.well_placed) ∧
     (∀ key, (m.operator_index key).2.valid ∧ (m.operator_index key).2.well_placed) ∧
     (∀ key, (m.erase key).2.valid ∧ (m.erase key).2.well_placed) ∧
     (∀ it, (m.Iterator_erase it).2.1.valid ∧ (m.Iterator_erase it).2.1.well_placed) ∧
     (∀ n, (m.ensure_load_threshold n).valid ∧ (m.ensure_load_threshold n).well_placed) ∧
     (∀ same_object, (same_object = true → rhs = m) →
       (m.operator_assign rhs same_object).valid ∧
       (m.operator_assign rhs same_object).well_placed) ∧
     (∀ thash chash the_load_threshold indeterminate c,
       HashMap.from_copy thash m the_load_threshold chash indeterminate = .ok c →
       thash.no_int_min → chash.no_int_min →
       (thash.same m.hash = true → thash = m.hash) →
       (chash.same m.hash = true → chash = m.hash) → c.valid ∧ c.well_placed) ∧
     (∀ cs, (m.commands cs).valid ∧ (m.commands cs).well_placed)) ∧
    (s.well_placed ∧
     (∀ e, (s.insert e).2.valid ∧ (s.insert e).2.well_placed) ∧
     (∀ e, (s.erase e).2.valid ∧ (s.erase e).2.well_placed) ∧
     (∀ i, (s.retain_all i).2.valid ∧ (s.retain_all i).2.well_placed) ∧
     (∀ it, (s.Iterator_erase it).2.1.valid ∧ (s.Iterator_erase it).2.1.well_placed) ∧
     (∀ n, (s.ensure_load_threshold n).valid ∧ (s.ensure_load_threshold n).well_placed) ∧
     (∀ same_object, (same_object = true → rhs1 = s) →
       (s.operator_assign rhs1 same_object).valid ∧
       (s.operator_assign rhs1 same_object).well_placed) ∧
     (∀ thash chash the_load_threshold indeterminate c,
       HashSet.from_copy thash s the_load_threshold chash indeterminate = .ok c →
       thash.no_int_min → chash.no_int_min →
       (thash.same s.hash = true → thash = s.hash) →
       (chash.same s.hash = true → chash = s.hash) → c.valid ∧ c.well_placed) ∧
     (∀ cs, (s.commands cs).valid ∧ (s.commands cs).well_placed)) ∧
    ((∀ (thash chash : hashfunc K) (the_load_threshold : ℚ) (m0 : HashMap K V),
       HashMap.mk_default thash the_load_threshold chash = .ok m0 → m0.hash.no_int_min →
       m0.valid ∧ m0.well_placed) ∧
     (∀ (thash chash : hashfunc K) (initial_bins : Int) (the_load_threshold indeterminate : ℚ)
       (m0 : HashMap K V),
       HashMap.mk_initial_bins thash initial_bins the_load_threshold chash indeterminate =
         .ok m0 → 1 ≤ initial_bins → m0.hash.no_int_min → m0.valid ∧ m0.well_placed) ∧
     (∀ (thash chash : hashfunc K) (il : List (K × V)) (the_load_threshold : ℚ)
       (m0 : HashMap K V),
       HashMap.from_initializer_list thash il the_load_threshold chash = .ok m0 →
       m0.hash.no_int_min → m0.valid ∧ m0.well_placed) ∧
     (∀ (thash chash : hashfunc K) (il : List (K × V)) (the_load_threshold : ℚ)
       (m0 : HashMap K V),
       HashMap.from_iterable thash il the_load_threshold chash = .ok m0 →
       m0.hash.no_int_min → m0.valid ∧ m0.well_placed)) ∧
    ((∀ (thash chash : hashfunc T) (the_load_threshold : ℚ) (s0 : HashSet T),
       HashSet.mk_default thash the_load_threshold chash = .ok s0 → s0.hash.no_int_min →
       s0.valid ∧ s0.well_placed) ∧
     (∀ (thash chash : hashfunc T) (initial_bins : Int) (the_load_threshold indeterminate : ℚ)
       (s0 : HashSet T),
       HashSet.mk_initial_bins thash initial_bins the_load_threshold chash indeterminate =
         .ok s0 → 1 ≤ initial_bins → s0.hash.no_int_min → s0.valid ∧ s0.well_placed) ∧
     (∀ (thash chash : hashfunc T) (il : List T) (the_load_threshold : ℚ) (s0 : HashSet T),
       HashSet.from_initializer_list thash il the_load_threshold chash = .ok s0 →
       s0.hash.no_int_min → s0.valid ∧ s0.well_placed) ∧
     (∀ (thash chash : hashfunc T) (il : List T) (the_load_threshold : ℚ) (s0 : HashSet T),
       HashSet.from_iterable thash il the_load_threshold chash = .ok s0 →
       s0.hash.no_int_min → s0.valid ∧ s0.well_placed)) := by
  have hM : ∀ x : HashMap K V, x.valid → x.valid ∧ x.well_placed :=
    fun x hx => ⟨hx, hx.map_well_placed⟩
  have hS : ∀ x : HashSet T, x.valid → x.valid ∧ x.well_placed :=
    fun x hx => ⟨hx, hx.set_well_placed⟩
  refine ⟨⟨hm.map_well_placed, ?_, ?_, ?_, ?_, ?_, ?_, ?_, ?_⟩,
    ⟨hs.set_well_placed, ?_, ?_, ?_, ?_, ?_, ?_, ?_, ?_⟩, ⟨?_, ?_, ?_, ?_⟩,
    ⟨?_, ?_, ?_, ?_⟩⟩
  · exact fun key value => hM _ (HashMap.put_spec m hm key value).1
  · exact fun key => hM _ (HashMap.operator_index_spec m hm key).1
  · exact fun key => hM _ (HashMap.map_erase_valid m hm key)
  · exact fun it => hM _ (HashMap.map_Iterator_erase_valid m hm it)
  · exact fun n => hM _ (HashMap.map_ensure_load_threshold_valid m hm n)
  · exact fun same_object hsame =>
      hM _ (HashMap.operator_assign_spec m rhs hm hr same_object hsame).1
  · exact fun thash chash lt ind c h hth hch hp1 hp2 =>
      hM _ (HashMap.map_from_copy_valid thash chash m c lt ind hm h hth hch hp1 hp2)
  · exact fun cs => hM _ (HashMap.map_commands_valid cs m hm)
  · exact fun e => hS _ (HashSet.insert_spec s hs e).1
  · exact fun e => hS _ (HashSet.set_erase_valid s hs e)
  · exact fun i => hS _ (HashSet.retain_all_valid s hs i)
  · exact fun it => hS _ (HashSet.set_Iterator_erase_valid s hs it)
  · exact fun n => hS _ (HashSet.set_ensure_load_threshold_valid s hs n)
  · exact fun same_object hsame =>
      hS _ (HashSet.set_operator_assign_spec s rhs1 hs hr1 same_object hsame).1
  · exact fun thash chash lt ind c h hth hch hp1 hp2 =>
      hS _ (HashSet.set_from_copy_valid thash chash s c lt ind hs h hth hch hp1 hp2)
  · exact fun cs => hS _ (HashSet.set_commands_valid cs s hs)
  · exact fun thash chash lt m0 h hh =>
      hM _ (HashMap.map_mk_default_valid thash chash lt m0 h hh).1
  · exact fun thash chash n lt ind m0 h hb hh =>
      hM _ (HashMap.map_mk_initial_bins_valid thash chash n lt ind m0 h hb hh)
  · exact fun thash chash il lt m0 h hh =>
      hM _ (HashMap.map_from_initializer_list_valid thash chash il lt m0 h hh)
  · exact fun thash chash il lt m0 h hh =>
      hM _ (HashMap.map_from_iterable_valid thash chash il lt m0 h hh)
  · exact fun thash chash lt s0 h hh =>
      hS _ (HashSet.set_mk_default_valid thash chash lt s0 h hh).1
  · exact fun thash chash n lt ind s0 h hb hh =>
      hS _ (HashSet.set_mk_initial_bins_valid thash chash n lt ind s0 h hb hh)
  · exact fun thash chash il lt s0 h hh =>
      hS _ (HashSet.set_from_initializer_list_valid thash chash il lt s0 h hh)
  · exact fun thash chash il lt s0 h hh =>
      hS _ (HashSet.set_from_iterable_valid thash chash il lt s0 h hh)

/-- The witness of C33: the map holding `1 -> 10` and the set holding 1, with the empty map
and the empty set as right-hand sides of the assignments. -/
theorem placement_invariant_witness :
    (demo_map.put 1 10).2.valid ∧ demo_map.valid ∧ (demo_set.insert 1).2.valid ∧ demo_set.valid ∧
    (((demo_map.put 1 10).2.well_placed ∧
     (∀ key value, ((demo_map.put 1 10).2.put key value).2.valid ∧ ((demo_map.put 1 10).2.put key
       value).2.well_placed) ∧
     (∀ key, ((demo_map.put 1 10).2.operator_index key).2.valid ∧ ((demo_map.put 1
       10).2.operator_index key).2.well_placed) ∧
     (∀ key, ((demo_map.put 1 10).2.erase key).2.valid ∧ ((demo_map.put 1 10).2.erase
       key).2.well_placed) ∧
     (∀ it, ((demo_map.put 1 10).2.Iterator_erase it).2.1.valid ∧ ((demo_map.put 1
       10).2.Iterator_erase it).2.1.well_placed) ∧
     (∀ n, ((demo_map.put 1 10).2.ensure_load_threshold n).valid ∧ ((demo_map.put 1
       10).2.ensure_load_threshold n).well_placed) ∧
     (∀ same_object, (same_object = true → demo_map = (demo_map.put 1 10).2) →
       ((demo_map.put 1 10).2.operator_assign demo_map same_object).valid ∧
       ((demo_map.put 1 10).2.operator_assign demo_map same_object).well_placed) ∧
     (∀ thash chash the_load_threshold indeterminate c,
       HashMap.from_copy thash (demo_map.put 1 10).2 the_load_threshold chash indeterminate = .ok c
         →
       thash.no_int_min → chash.no_int_min →
       (thash.same (demo_map.put 1 10).2.hash = true → thash = (demo_map.put 1 10).2.hash) →
       (chash.same (demo_map.put 1 10).2.hash = true → chash = (demo_map.put 1 10).2.hash) →
         c.valid ∧ c.well_placed) ∧
     (∀ cs, ((demo_map.put 1 10).2.commands cs).valid ∧ ((demo_map.put 1 10).2.commands
       cs).well_placed)) ∧
    ((demo_set.insert 1).2.well_placed ∧
     (∀ e, ((demo_set.insert 1).2.insert e).2.valid ∧ ((demo_set.insert 1).2.insert
       e).2.well_placed) ∧
     (∀ e, ((demo_set.insert 1).2.erase e).2.valid ∧ ((demo_set.insert 1).2.erase e).2.well_placed)
       ∧
     (∀ i, ((demo_set.insert 1).2.retain_all i).2.valid ∧ ((demo_set.insert 1).2.retain_all
       i).2.well_placed) ∧
     (∀ it, ((demo_set.insert 1).2.Iterator_erase it).2.1.valid ∧ ((demo_set.insert
       1).2.Iterator_erase it).2.1.well_placed) ∧
     (∀ n, ((demo_set.insert 1).2.ensure_load_threshold n).valid ∧ ((demo_set.insert
       1).2.ensure_load_threshold n).well_placed) ∧
     (∀ same_object, (same_object = true → demo_set = (demo_set.insert 1).2) →
       ((demo_set.insert 1).2.operator_assign demo_set same_object).valid ∧
       ((demo_set.insert 1).2.operator_assign demo_set same_object).well_placed) ∧
     (∀ thash chash the_load_threshold indeterminate c,
       HashSet.from_copy thash (demo_set.insert 1).2 the_load_threshold chash indeterminate = .ok c
         →
       thash.no_int_min → chash.no_int_min →
       (thash.same (demo_set.insert 1).2.hash = true → thash = (demo_set.insert 1).2.hash) →
       (chash.same (demo_set.insert 1).2.hash = true → chash = (demo_set.insert 1).2.hash) →
         c.valid ∧ c.well_placed) ∧
     (∀ cs, ((demo_set.insert 1).2.commands cs).valid ∧ ((demo_set.insert 1).2.commands
       cs).well_placed)) ∧
    ((∀ (thash chash : hashfunc Nat) (the_load_threshold : ℚ) (m0 : HashMap Nat Nat),
       HashMap.mk_default thash the_load_threshold chash = .ok m0 → m0.hash.no_int_min →
       m0.valid ∧ m0.well_placed) ∧
     (∀ (thash chash : hashfunc Nat) (initial_bins : Int) (the_load_threshold indeterminate : ℚ)
       (m0 : HashMap Nat Nat),
       HashMap.mk_initial_bins thash initial_bins the_load_threshold chash indeterminate =
         .ok m0 → 1 ≤ initial_bins → m0.hash.no_int_min → m0.valid ∧ m0.well_placed) ∧
     (∀ (thash chash : hashfunc Nat) (il : List (Nat × Nat)) (the_load_threshold : ℚ)
       (m0 : HashMap Nat Nat),
       HashMap.from_initializer_list thash il the_load_threshold chash = .ok m0 →
       m0.hash.no_int_min → m0.valid ∧ m0.well_placed) ∧
     (∀ (thash chash : hashfunc Nat) (il : List (Nat × Nat)) (the_load_threshold : ℚ)
       (m0 : HashMap Nat Nat),
       HashMap.from_iterable thash il the_load_threshold chash = .ok m0 →
       m0.hash.no_int_min → m0.valid ∧ m0.well_placed)) ∧
    ((∀ (thash chash : hashfunc Nat) (the_load_threshold : ℚ) (s0 : HashSet Nat),
       HashSet.mk_default thash the_load_threshold chash = .ok s0 → s0.hash.no_int_min →
       s0.valid ∧ s0.well_placed) ∧
     (∀ (thash chash : hashfunc Nat) (initial_bins : Int) (the_load_threshold indeterminate : ℚ)
       (s0 : HashSet Nat),
       HashSet.mk_initial_bins thash initial_bins the_load_threshold chash indeterminate =
         .ok s0 → 1 ≤ initial_bins → s0.hash.no_int_min → s0.valid ∧ s0.well_placed) ∧
     (∀ (thash chash : hashfunc Nat) (il : List Nat) (the_load_threshold : ℚ) (s0 : HashSet Nat),
       HashSet.from_initializer_list thash il the_load_threshold chash = .ok s0 →
       s0.hash.no_int_min → s0.valid ∧ s0.well_placed) ∧
     (∀ (thash chash : hashfunc Nat) (il : List Nat) (the_load_threshold : ℚ) (s0 : HashSet Nat),
       HashSet.from_iterable thash il the_load_threshold chash = .ok s0 →
       s0.hash.no_int_min → s0.valid ∧ s0.well_placed))) :=
  ⟨(HashMap.put_spec demo_map demo_map_valid 1 10).1, demo_map_valid,
    (HashSet.insert_spec demo_set demo_set_valid 1).1, demo_set_valid,
    placement_invariant (demo_map.put 1 10).2 demo_map
      (HashMap.put_spec demo_map demo_map_valid 1 10).1 demo_map_valid
      (demo_set.insert 1).2 demo_set
      (HashSet.insert_spec demo_set demo_set_valid 1).1 demo_set_valid⟩

section cursor

variable {α : Type}

theorem scan_bins_ok (t : List (List α)) (n : Nat) :
    ∀ (i : Int) (p : LN_ptr), (scan_bins t i n).2 = some p →
      (scan_bins t i n).1 = p.bin ∧ p.pos < (bin_chain t p.bin).length := by
  induction n with
  | zero =>
    intro i p h
    cases h
  | succ n ih =>
    intro i p h
    unfold scan_bins at h ⊢
    by_cases he : (bin_chain t i).isEmpty = true
    · rw [if_pos he] at h ⊢
      exact ih (i + 1) p h
    · rw [if_neg he] at h ⊢
      cases h
      refine ⟨rfl, ?_⟩
      show 0 < (bin_chain t i).length
      cases hc : bin_chain t i with
      | nil => rw [hc] at he; exact absurd rfl he
      | cons a l => simp

theorem advance_cursors_ok (t : List (List α)) (bins : Int) (cur : Cursor)
    (hc : ∀ p, cur.2 = some p → cur.1 = p.bin) :
    ∀ q, (advance_cursors t bins cur).2 = some q →
      (advance_cursors t bins cur).1 = q.bin ∧ q.pos < (bin_chain t q.bin).length := by
  intro q h
  unfold advance_cursors at h ⊢
  cases hp : cur.2 with
  | none =>
    rw [hp] at h
    exact scan_bins_ok t _ _ q h
  | some p =>
    rw [hp] at h
    simp only at h ⊢
    by_cases hlt : p.pos + 1 < (bin_chain t p.bin).length
    · rw [if_pos hlt] at h ⊢
      cases h
      exact ⟨hc p hp, hlt⟩
    · rw [if_neg hlt] at h ⊢
      exact scan_bins_ok t _ _ q h

theorem cursor_ok_create (t : List (List α)) (bins mod_count : Int) (from_begin : Bool) :
    cursor_ok t (Iterator.create t bins mod_count from_begin) := by
  intro p hp
  cases from_begin with
  | false => cases hp
  | true =>
    have := advance_cursors_ok t bins (-1, none) (fun q hq => by cases hq) p hp
    exact ⟨this.1, this.2⟩

theorem cursor_ok_advance (t : List (List α)) (bins : Int) (it : Iterator)
    (hc : cursor_ok t it) :
    cursor_ok t
      { current := advance_cursors t bins it.current,
        expected_mod_count := it.expected_mod_count, can_erase := true } := by
  intro q hq
  have := advance_cursors_ok t bins it.current (fun p hp => (hc p hp).1) q hq
  exact ⟨this.1, this.2⟩

theorem cursor_ok_step (t : List (List α)) (bins : Int) (it : Iterator) (p : LN_ptr)
    (hp : it.current.2 = some p) (hc : cursor_ok t it) :
    cursor_ok t
      { (if (it.can_erase || !(has_next t p)) = true then
          { it with current := advance_cursors t bins it.current }
         else it) with can_erase := true } := by
  by_cases hb : (it.can_erase || !(has_next t p)) = true
  · rw [if_pos hb]
    exact cursor_ok_advance t bins it hc
  · rw [if_neg hb]
    intro q hq
    have hq1 : it.current.2 = some q := hq
    rw [hp] at hq1
    cases hq1
    refine ⟨(hc p hp).1, ?_⟩
    show p.pos < (bin_chain t p.bin).length
    simp only [Bool.or_eq_true, Bool.not_eq_true', not_or, Bool.not_eq_true,
      Bool.not_eq_false] at hb
    have := hb.2
    unfold has_next at this
    exact of_decide_eq_true this

theorem cursor_ok_increment (t : List (List α)) (bins mod_count : Int) (it it1 : Iterator)
    (h : Iterator.increment t bins mod_count it = .ok it1) (hc : cursor_ok t it) :
    cursor_ok t it1 := by
  unfold Iterator.increment at h
  split_ifs at h
  cases hp : it.current.2 with
  | none =>
    rw [hp] at h
    cases h
    exact hc
  | some p =>
    rw [hp] at h
    simp only [Except.ok.injEq] at h
    rw [← h]
    exact cursor_ok_step t bins it p hp hc

theorem cursor_ok_post_increment (t : List (List α)) (bins mod_count : Int) (it : Iterator)
    (r : Iterator × Iterator)
    (h : Iterator.post_increment t bins mod_count it = .ok r) (hc : cursor_ok t it) :
    cursor_ok t r.2 := by
  unfold Iterator.post_increment at h
  split_ifs at h
  cases hp : it.current.2 with
  | none =>
    rw [hp] at h
    cases h
    exact hc
  | some p =>
    rw [hp] at h
    simp only [Except.ok.injEq] at h
    rw [← h]
    exact cursor_ok_step t bins it p hp hc

theorem cursor_ok_erase_node (t : List (List α)) (mod_count : Int) (it : Iterator) (x : α)
    (t1 : List (List α)) (it1 : Iterator)
    (h : Iterator.erase_node t mod_count it = .ok (x, t1, it1)) (hc : cursor_ok t it) :
    cursor_ok t1 it1 := by
  obtain ⟨_, _, h3, p, hp, hn, ht, _⟩ := erase_node_spec t mod_count it x t1 it1 h
  have hne : bin_chain t p.bin ≠ [] := by
    intro hcn
    unfold node_value at hn
    rw [hcn] at hn
    simp at hn
  obtain ⟨r0, r1⟩ := bin_chain_in_range t p.bin hne
  have hlt : p.pos < (bin_chain t p.bin).length := by
    unfold node_value at hn
    rw [List.get?_eq_getElem?] at hn
    exact (List.getElem?_eq_some_iff.1 hn).1
  intro q hq
  rw [h3] at hq ⊢
  have hq1 : it.current.2 = some q := hq
  rw [hp] at hq1
  cases hq1
  refine ⟨(hc p hp).1, ?_⟩
  show p.pos ≤ (bin_chain t1 p.bin).length
  rw [ht, bin_chain_set_same t p.bin _ r0 r1]
  unfold chain_skip
  rw [List.length_eraseIdx]
  split <;> omega

theorem cursor_ok_node (t : List (List α)) (it : Iterator) (hc : cursor_ok t it) (p : LN_ptr)
    (hp : it.current.2 = some p) (he : it.can_erase = true) :
    has_next t p = true ∧ (node_value t p).isSome = true := by
  have h := (hc p hp).2
  rw [he, if_pos rfl] at h
  constructor
  · unfold has_next
    exact decide_eq_true h
  · unfold node_value
    rw [List.get?_eq_getElem?, List.getElem?_eq_getElem h]
    rfl

theorem dereference_defined (t : List (List α)) (mod_count : Int) (it : Iterator)
    (hc : cursor_ok t it) : Iterator.dereference t mod_count it ≠ .error .undefined := by
  unfold Iterator.dereference
  split_ifs with h1 h2
  · intro h; cases h
  · intro h; cases h
  · cases hp : it.current.2 with
    | none => intro h; cases h
    | some p =>
      have he : it.can_erase = true := by simpa using h2
      obtain ⟨e, hn⟩ := Option.isSome_iff_exists.1 (cursor_ok_node t it hc p hp he).2
      simp only
      rw [hn]
      intro h; cases h

theorem erase_node_defined (t : List (List α)) (mod_count : Int) (it : Iterator)
    (hc : cursor_ok t it) : Iterator.erase_node t mod_count it ≠ .error .undefined := by
  unfold Iterator.erase_node
  split_ifs with h1 h2
  · intro h; cases h
  · intro h; cases h
  · cases hp : it.current.2 with
    | none => intro h; cases h
    | some p =>
      have he : it.can_erase = true := by simpa using h2
      obtain ⟨e, hn⟩ := Option.isSome_iff_exists.1 (cursor_ok_node t it hc p hp he).2
      simp only
      rw [hn]
      intro h; cases h

end cursor

namespace HashMap

variable {K V : Type}

theorem map_iterator_command_ok (st : HashMap K V × Iterator) (op : Iterator.Op)
    (hc : cursor_ok st.1.map st.2) :
    cursor_ok (iterator_command st op).1.map (iterator_command st op).2 := by
  cases op with
  | increment =>
    unfold iterator_command
    cases h : Iterator.increment st.1.map st.1.bins st.1.mod_count st.2 with
    | error e => exact hc
    | ok it1 => exact cursor_ok_increment _ _ _ _ _ h hc
  | post_increment =>
    unfold iterator_command
    cases h : Iterator.post_increment st.1.map st.1.bins st.1.mod_count st.2 with
    | error e => exact hc
    | ok r => exact cursor_ok_post_increment _ _ _ _ _ h hc
  | erase =>
    unfold iterator_command Iterator_erase
    cases h : Iterator.erase_node st.1.map st.1.mod_count st.2 with
    | error e => exact hc
    | ok r =>
      obtain ⟨x, t1, it1⟩ := r
      exact cursor_ok_erase_node _ _ _ _ _ _ h hc

theorem map_iterator_commands_ok (ops : List Iterator.Op) :
    ∀ st : HashMap K V × Iterator, cursor_ok st.1.map st.2 →
      cursor_ok (iterator_commands st ops).1.map (iterator_commands st ops).2 := by
  induction ops with
  | nil => exact fun st hc => hc
  | cons op ops ih =>
    intro st hc
    exact ih (iterator_command st op) (map_iterator_command_ok st op hc)

theorem map_Iterator_erase_defined (m : HashMap K V) (it : Iterator)
    (hc : cursor_ok m.map it) : (m.Iterator_erase it).1 ≠ .error .undefined := by
  unfold Iterator_erase
  cases h : Iterator.erase_node m.map m.mod_count it with
  | error e =>
    intro hn
    cases hn
    exact erase_node_defined _ _ _ hc h
  | ok r =>
    intro hn
    cases hn

end HashMap

namespace HashSet

variable {T : Type}

theorem set_iterator_command_ok (st : HashSet T × Iterator) (op : Iterator.Op)
    (hc : cursor_ok st.1.set st.2) :
    cursor_ok (iterator_command st op).1.set (iterator_command st op).2 := by
  cases op with
  | increment =>
    unfold iterator_command
    cases h : Iterator.increment st.1.set st.1.bins st.1.mod_count st.2 with
    | error e => exact hc
    | ok it1 => exact cursor_ok_increment _ _ _ _ _ h hc
  | post_increment =>
    unfold iterator_command
    cases h : Iterator.post_increment st.1.set st.1.bins st.1.mod_count st.2 with
    | error e => exact hc
    | ok r => exact cursor_ok_post_increment _ _ _ _ _ h hc
  | erase =>
    unfold iterator_command Iterator_erase
    cases h : Iterator.erase_node st.1.set st.1.mod_count st.2 with
    | error e => exact hc
    | ok r =>
      obtain ⟨x, t1, it1⟩ := r
      exact cursor_ok_erase_node _ _ _ _ _ _ h hc

theorem set_iterator_commands_ok (ops : List Iterator.Op) :
    ∀ st : HashSet T × Iterator, cursor_ok st.1.set st.2 →
      cursor_ok (iterator_commands st ops).1.set (iterator_commands st ops).2 := by
  induction ops with
  | nil => exact fun st hc => hc
  | cons op ops ih =>
    intro st hc
    exact ih (iterator_command st op) (set_iterator_command_ok st op hc)

theorem set_Iterator_erase_defined (s : HashSet T) (it : Iterator)
    (hc : cursor_ok s.set it) : (s.Iterator_erase it).1 ≠ .error .undefined := by
  unfold Iterator_erase
  cases h : Iterator.erase_node s.set s.mod_count it with
  | error e =>
    intro hn
    cases hn
    exact erase_node_defined _ _ _ hc h
  | ok r =>
    intro hn
    cases hn

end HashSet

/-- C35: after any sequence of `++` (prefix or postfix) and `erase()` applied to the
iterator `begin()` of a map or a set that is not modified otherwise, an iterator whose
cursor is not the end cursor and whose `can_erase` is true stands on a node that has a
successor and a payload, so `operator *` and `Iterator::erase` never read a missing node.
This holds for every container state. -/
theorem cursor_validity {K V T : Type} (m : HashMap K V) (s : HashSet T)
    (ops : List Iterator.Op) :
    ((∀ p, (HashMap.iterator_commands (m, m.begin) ops).2.current.2 = some p →
        (HashMap.iterator_commands (m, m.begin) ops).2.can_erase = true →
        has_next (HashMap.iterator_commands (m, m.begin) ops).1.map p = true ∧
        (node_value (HashMap.iterator_commands (m, m.begin) ops).1.map p).isSome = true) ∧
     Iterator.dereference (HashMap.iterator_commands (m, m.begin) ops).1.map
       (HashMap.iterator_commands (m, m.begin) ops).1.mod_count
       (HashMap.iterator_commands (m, m.begin) ops).2 ≠ .error .undefined ∧
     ((HashMap.iterator_commands (m, m.begin) ops).1.Iterator_erase
       (HashMap.iterator_commands (m, m.begin) ops).2).1 ≠ .error .undefined) ∧
    ((∀ p, (HashSet.iterator_commands (s, s.begin) ops).2.current.2 = some p →
        (HashSet.iterator_commands (s, s.begin) ops).2.can_erase = true →
        has_next (HashSet.iterator_commands (s, s.begin) ops).1.set p = true ∧
        (node_value (HashSet.iterator_commands (s, s.begin) ops).1.set p).isSome = true) ∧
     Iterator.dereference (HashSet.iterator_commands (s, s.begin) ops).1.set
       (HashSet.iterator_commands (s, s.begin) ops).1.mod_count
       (HashSet.iterator_commands (s, s.begin) ops).2 ≠ .error .undefined ∧
     ((HashSet.iterator_commands (s, s.begin) ops).1.Iterator_erase
       (HashSet.iterator_commands (s, s.begin) ops).2).1 ≠ .error .undefined) := by
  have hm := HashMap.map_iterator_commands_ok ops (m, m.begin)
    (cursor_ok_create m.map m.bins m.mod_count true)
  have hs := HashSet.set_iterator_commands_ok ops (s, s.begin)
    (cursor_ok_create s.set s.bins s.mod_count true)
  exact ⟨⟨fun p hp he => cursor_ok_node _ _ hm p hp he, dereference_defined _ _ _ hm,
      HashMap.map_Iterator_erase_defined _ _ hm⟩,
    ⟨fun p hp he => cursor_ok_node _ _ hs p hp he, dereference_defined _ _ _ hs,
      HashSet.set_Iterator_erase_defined _ _ hs⟩⟩

section erase_loop_step

variable {α : Type}

theorem drop_eraseIdx_self (c : List α) (pos : Nat) :
    (c.eraseIdx pos).drop pos = c.drop (pos + 1) := by
  induction c generalizing pos with
  | nil => simp
  | cons a c ih =>
    cases pos with
    | zero => simp
    | succ pos => simpa using ih pos

theorem differs_end (t : List (List α)) (bins mod_count : Int) (it : Iterator)
    (h : it.expected_mod_count = mod_count) :
    Iterator.differs mod_count it (Iterator.create t bins mod_count false) =
      .ok (decide (it.current.2 ≠ none)) := by
  unfold Iterator.differs
  rw [if_neg (fun hn => hn h)]
  rfl

theorem erase_step (t : List (List α)) (bins mod_count : Int) (hb : (t.length : Int) = bins)
    (it : Iterator) (h1 : it.expected_mod_count = mod_count) (h2 : it.can_erase = true)
    (x : α) (L : List α) (hL : cursor_at t it.current (x :: L)) :
    ∃ t1 it1 it2, Iterator.erase_node t mod_count it = .ok (x, t1, it1) ∧
      (t1.length : Int) = bins ∧ (x :: t1.flatten).Perm t.flatten ∧
      Iterator.increment t1 bins (mod_count + 1) it1 = .ok it2 ∧
      it2.expected_mod_count = mod_count + 1 ∧ it2.can_erase = true ∧
      cursor_at t1 it2.current L := by
  obtain ⟨j, pos, hj, hpos, hcur, hx⟩ := cursor_at_cons t _ x L hL
  have hd := dereference_of_cursor_at t mod_count it h1 h2 x L hL
  obtain ⟨p, hp, _, _, _, he⟩ := erase_node_of_dereference t mod_count it x hd
  have hpe : p = ⟨(j : Int), pos⟩ := by
    rw [hcur] at hp
    cases hp
    rfl
  subst hpe
  have hc : bin_chain t (j : Int) = t.getD j [] := bin_chain_natCast t j
  have hset : set_bin_chain t (j : Int) (chain_skip (bin_chain t (j : Int)) pos) =
      t.set j ((t.getD j []).eraseIdx pos) := by
    unfold set_bin_chain chain_skip
    rw [if_pos (Int.ofNat_nonneg j), hc]
    rfl
  simp only [hset] at he
  obtain ⟨_, _, _, _, _, _, _, hperm⟩ := erase_node_spec t mod_count it x _ _ he
  have hlen : (t.set j ((t.getD j []).eraseIdx pos)).length = t.length := List.length_set ..
  have hg : (t.set j ((t.getD j []).eraseIdx pos)).getD j [] = (t.getD j []).eraseIdx pos :=
    getD_set_same t j _ hj
  have hdrop : (t.set j ((t.getD j []).eraseIdx pos)).drop (j + 1) = t.drop (j + 1) :=
    List.drop_set_of_lt _ _ (by omega)
  have hLeq : L = (t.getD j []).drop (pos + 1) ++ (t.drop (j + 1)).flatten := by
    rw [List.drop_eq_getElem_cons hpos] at hx
    simp only [List.cons_append, List.cons.injEq] at hx
    exact hx.2
  have hc1 : bin_chain (t.set j ((t.getD j []).eraseIdx pos)) (j : Int) =
      (t.getD j []).eraseIdx pos := by
    rw [bin_chain_natCast, hg]
  have hel : ((t.getD j []).eraseIdx pos).length = (t.getD j []).length - 1 :=
    List.length_eraseIdx_of_lt hpos
  by_cases hn : pos + 1 < (t.getD j []).length
  · have hnext : has_next (t.set j ((t.getD j []).eraseIdx pos)) ⟨(j : Int), pos⟩ = true := by
      unfold has_next
      simp only [hc1, hel]
      exact decide_eq_true (by omega)
    refine ⟨_, _, Iterator.mk it.current (mod_count + 1) true, he, by rw [hlen]; exact hb,
      hperm, ?_, rfl, rfl, ?_⟩
    · unfold Iterator.increment
      simp only [ne_eq, not_true_eq_false, if_false, hcur, hnext, Bool.not_true, Bool.not_false,
        Bool.or_false, Bool.or_true, Bool.false_eq_true, if_true]
    · right
      refine ⟨j, pos, by rw [hlen]; exact hj, by rw [hg, hel]; omega, hcur, ?_⟩
      rw [hg, hdrop, drop_eraseIdx_self, hLeq]
  · have hnext : has_next (t.set j ((t.getD j []).eraseIdx pos)) ⟨(j : Int), pos⟩ =
        false := by
      unfold has_next
      simp only [hc1, hel]
      exact decide_eq_false (by omega)
    refine ⟨_, _,
      Iterator.mk (advance_cursors (t.set j ((t.getD j []).eraseIdx pos)) bins it.current)
        (mod_count + 1) true,
      he, by rw [hlen]; exact hb, hperm, ?_, rfl, rfl, ?_⟩
    · unfold Iterator.increment
      simp only [ne_eq, not_true_eq_false, if_false, hcur, hnext, Bool.not_true, Bool.not_false,
        Bool.or_false, Bool.or_true, Bool.false_eq_true, if_true]
    · show cursor_at _ (advance_cursors _ bins it.current) L
      rw [hcur]
      unfold advance_cursors
      simp only [hc1, hel]
      rw [if_neg (by omega)]
      have h3 : (bins - ((j : Int) + 1)).toNat = t.length - (j + 1) := by omega
      rw [h3]
      have hs := scan_bins_spec (t.set j ((t.getD j []).eraseIdx pos)) (t.length - (j + 1))
        (j + 1) (by rw [hlen]; omega)
      have h2 : (t.getD j []).drop (pos + 1) = [] := List.drop_eq_nil_of_le (by omega)
      rw [hLeq, h2, List.nil_append, ← hdrop]
      simpa using hs

end erase_loop_step
namespace HashMap

variable {K V : Type}

theorem Iterator_erase_of_erase_node (m : HashMap K V) (it : Iterator) (x : K × V)
    (t1 : List (List (K × V))) (it1 : Iterator)
    (h : Iterator.erase_node m.map m.mod_count it = .ok (x, t1, it1)) :
    m.Iterator_erase it =
      (.ok x, { m with map := t1, mod_count := m.mod_count + 1, used := m.used - 1 }, it1) := by
  unfold Iterator_erase
  rw [h]

theorem map_erase_loop_spec (L : List (K × V)) :
    ∀ (m : HashMap K V) (it : Iterator) (fuel : Nat),
      (m.map.length : Int) = m.bins → it.expected_mod_count = m.mod_count →
      it.can_erase = true → cursor_at m.map it.current L →
      (L.length < fuel → ∃ m1 : HashMap K V, m.erase_loop fuel it = some (.ok L, m1) ∧
        (L ++ m1.map.flatten).Perm m.map.flatten ∧ m1.used = m.used - (L.length : Int) ∧
        m1.bins = m.bins ∧ (m1.map.length : Int) = m1.bins ∧
        m1.mod_count = m.mod_count + (L.length : Int) ∧ m1.hash = m.hash) ∧
      (fuel ≤ L.length → m.erase_loop fuel it = none) := by
  induction L with
  | nil =>
    intro m it fuel hb h1 _ hL
    have hcur := cursor_at_nil m.map _ hL
    cases fuel with
    | zero => exact ⟨fun h => absurd h (by simp), fun _ => rfl⟩
    | succ f =>
      refine ⟨fun _ => ⟨m, ?_, by simp, by simp, rfl, hb, by simp, rfl⟩,
        fun h => absurd h (by simp)⟩
      have hd : Iterator.differs m.mod_count it m.end_ = .ok false := by
        unfold HashMap.end_
        rw [differs_end m.map m.bins m.mod_count it h1, hcur]
        rfl
      rw [erase_loop]
      simp only [hd]
  | cons x L ih =>
    intro m it fuel hb h1 h2 hL
    cases fuel with
    | zero => exact ⟨fun h => absurd h (by simp), fun _ => rfl⟩
    | succ f =>
      obtain ⟨j, pos, _, _, hcur, _⟩ := cursor_at_cons m.map _ x L hL
      obtain ⟨t1, it1, it2, e1, e2, e3, e4, e5, e6, e7⟩ :=
        erase_step m.map m.bins m.mod_count hb it h1 h2 x L hL
      have hd : Iterator.differs m.mod_count it m.end_ = .ok true := by
        unfold HashMap.end_
        rw [differs_end m.map m.bins m.mod_count it h1, hcur]
        rfl
      have hie := Iterator_erase_of_erase_node m it x t1 it1 e1
      obtain ⟨r1, r2⟩ := ih
        ({ m with map := t1, mod_count := m.mod_count + 1, used := m.used - 1 } : HashMap K V)
        it2 f e2 e5 e6 e7
      have hloop : m.erase_loop (f + 1) it =
          (erase_loop
            ({ m with map := t1, mod_count := m.mod_count + 1, used := m.used - 1 } :
              HashMap K V) f it2).map (fun r => (r.1.map (fun xs => x :: xs), r.2)) := by
        rw [erase_loop]
        simp only [hd, hie, e4]
      rw [hloop]
      constructor
      · intro hlt
        obtain ⟨m1, a1, a2, a3, a4, a5, a6, a7⟩ := r1 (by simpa using hlt)
        refine ⟨m1, by rw [a1]; rfl, ?_, ?_, a4, a5, ?_, a7⟩
        · exact ((List.Perm.cons x a2).trans e3)
        · rw [a3]
          simp only [List.length_cons]
          push_cast
          ring
        · rw [a6]
          simp only [List.length_cons]
          push_cast
          ring
      · intro hle
        rw [r2 (by simpa using hle)]
        rfl

end HashMap

namespace HashSet

variable {T : Type}

theorem set_Iterator_erase_of_erase_node (s : HashSet T) (it : Iterator) (x : T)
    (t1 : List (List T)) (it1 : Iterator)
    (h : Iterator.erase_node s.set s.mod_count it = .ok (x, t1, it1)) :
    s.Iterator_erase it =
      (.ok x, { s with set := t1, mod_count := s.mod_count + 1, used := s.used - 1 }, it1) := by
  unfold Iterator_erase
  rw [h]

theorem set_erase_loop_spec (L : List T) :
    ∀ (s : HashSet T) (it : Iterator) (fuel : Nat),
      (s.set.length : Int) = s.bins → it.expected_mod_count = s.mod_count →
      it.can_erase = true → cursor_at s.set it.current L →
      (L.length < fuel → ∃ s1 : HashSet T, s.erase_loop fuel it = some (.ok L, s1) ∧
        (L ++ s1.set.flatten).Perm s.set.flatten ∧ s1.used = s.used - (L.length : Int) ∧
        s1.bins = s.bins ∧ (s1.set.length : Int) = s1.bins ∧
        s1.mod_count = s.mod_count + (L.length : Int) ∧ s1.hash = s.hash) ∧
      (fuel ≤ L.length → s.erase_loop fuel it = none) := by
  induction L with
  | nil =>
    intro s it fuel hb h1 _ hL
    have hcur := cursor_at_nil s.set _ hL
    cases fuel with
    | zero => exact ⟨fun h => absurd h (by simp), fun _ => rfl⟩
    | succ f =>
      refine ⟨fun _ => ⟨s, ?_, by simp, by simp, rfl, hb, by simp, rfl⟩,
        fun h => absurd h (by simp)⟩
      have hd : Iterator.differs s.mod_count it s.end_ = .ok false := by
        unfold HashSet.end_
        rw [differs_end s.set s.bins s.mod_count it h1, hcur]
        rfl
      rw [erase_loop]
      simp only [hd]
  | cons x L ih =>
    intro s it fuel hb h1 h2 hL
    cases fuel with
    | zero => exact ⟨fun h => absurd h (by simp), fun _ => rfl⟩
    | succ f =>
      obtain ⟨j, pos, _, _, hcur, _⟩ := cursor_at_cons s.set _ x L hL
      obtain ⟨t1, it1, it2, e1, e2, e3, e4, e5, e6, e7⟩ :=
        erase_step s.set s.bins s.mod_count hb it h1 h2 x L hL
      have hd : Iterator.differs s.mod_count it s.end_ = .ok true := by
        unfold HashSet.end_
        rw [differs_end s.set s.bins s.mod_count it h1, hcur]
        rfl
      have hie := set_Iterator_erase_of_erase_node s it x t1 it1 e1
      obtain ⟨r1, r2⟩ := ih
        ({ s with set := t1, mod_count := s.mod_count + 1, used := s.used - 1 } : HashSet T)
        it2 f e2 e5 e6 e7
      have hloop : s.erase_loop (f + 1) it =
          (erase_loop
            ({ s with set := t1, mod_count := s.mod_count + 1, used := s.used - 1 } :
              HashSet T) f it2).map (fun r => (r.1.map (fun xs => x :: xs), r.2)) := by
        rw [erase_loop]
        simp only [hd, hie, e4]
      rw [hloop]
      constructor
      · intro hlt
        obtain ⟨s1, a1, a2, a3, a4, a5, a6, a7⟩ := r1 (by simpa using hlt)
        refine ⟨s1, by rw [a1]; rfl, ?_, ?_, a4, a5, ?_, a7⟩
        · exact ((List.Perm.cons x a2).trans e3)
        · rw [a3]
          simp only [List.length_cons]
          push_cast
          ring
        · rw [a6]
          simp only [List.length_cons]
          push_cast
          ring
      · intro hle
        rw [r2 (by simpa using hle)]
        rfl

end HashSet
section emptied

variable {α : Type}

theorem flatten_nil_of_perm_append (L l1 l2 : List α) (h : (L ++ l1).Perm l2)
    (hl : l2 = L) : l1 = [] := by
  have := h.length_eq
  rw [hl, List.length_append] at this
  exact List.length_eq_zero.1 (by omega)

theorem bin_chain_nil_of_flatten (t : List (List α)) (h : t.flatten = []) (i : Int) :
    bin_chain t i = [] := by
  apply List.eq_nil_iff_forall_not_mem.2
  intro e he
  have : e ∈ t.flatten := (mem_flatten_iff t e).2 ⟨i, he⟩
  rw [h] at this
  cases this

end emptied

/-- C36: on a valid map or set, the loop that starts at `begin()` and, while the iterator
differs from `end()`, calls `erase()` and then `++`, needs exactly `size() + 1` tests of its
condition (`size()` iterations): with that many tests or more it ends, returning the stored
entries in the order plain iteration visits them, each key or element once, and leaves a
container with `size() = 0`, the same `bins` and every chain empty; with fewer tests it has
not ended. -/
theorem erase_while_iterating {K V T : Type} (m : HashMap K V) (hm : m.valid)
    (s : HashSet T) (hs : s.valid) :
    ((∀ fuel : Nat, m.size < (fuel : Int) →
        m.traverse fuel = some (.ok (bin_chains m.map m.bins).flatten) ∧
        ∃ m1 : HashMap K V,
          m.erase_loop fuel m.begin = some (.ok (bin_chains m.map m.bins).flatten, m1) ∧
          m1.size = 0 ∧ m1.bins = m.bins ∧ (∀ i : Int, bin_chain m1.map i = []) ∧
          m1.mod_count = m.mod_count + m.size) ∧
     (∀ fuel : Nat, (fuel : Int) ≤ m.size → m.erase_loop fuel m.begin = none) ∧
     ((bin_chains m.map m.bins).flatten.length : Int) = m.size ∧
     ((bin_chains m.map m.bins).flatten.map Prod.fst).Nodup) ∧
    ((∀ fuel : Nat, s.size < (fuel : Int) →
        s.traverse fuel = some (.ok (bin_chains s.set s.bins).flatten) ∧
        ∃ s1 : HashSet T,
          s.erase_loop fuel s.begin = some (.ok (bin_chains s.set s.bins).flatten, s1) ∧
          s1.size = 0 ∧ s1.bins = s.bins ∧ (∀ i : Int, bin_chain s1.set i = []) ∧
          s1.mod_count = s.mod_count + s.size) ∧
     (∀ fuel : Nat, (fuel : Int) ≤ s.size → s.erase_loop fuel s.begin = none) ∧
     ((bin_chains s.set s.bins).flatten.length : Int) = s.size ∧
     (bin_chains s.set s.bins).flatten.Nodup) := by
  constructor
  · rw [bin_chains_eq m.map m.bins hm.ok.length_eq]
    have hc : m.size = (m.map.flatten.length : Int) := hm.counted
    obtain ⟨b1, b2, b3⟩ := create_begin_spec m.map m.bins m.mod_count hm.ok.length_eq
    refine ⟨fun fuel hf => ?_, fun fuel hf => ?_, hc.symm, hm.ok.nodup⟩
    · have hlt : m.map.flatten.length < fuel := by omega
      obtain ⟨m1, a1, a2, a3, a4, a5, a6, _⟩ :=
        (HashMap.map_erase_loop_spec m.map.flatten m m.begin fuel hm.ok.length_eq b1 b2 b3).1
          hlt
      have he := flatten_nil_of_perm_append _ _ _ a2 rfl
      refine ⟨?_, m1, a1, ?_, a4, bin_chain_nil_of_flatten m1.map he, ?_⟩
      · unfold HashMap.traverse HashMap.begin
        rw [iterate_begin m.map m.bins m.mod_count hm.ok.length_eq fuel, if_pos hlt]
      · show m1.used = 0
        rw [a3, hm.counted]
        omega
      · rw [a6, hc]
    · exact (HashMap.map_erase_loop_spec m.map.flatten m m.begin fuel hm.ok.length_eq b1 b2
        b3).2 (by omega)
  · rw [bin_chains_eq s.set s.bins hs.ok.length_eq]
    have hc : s.size = (s.set.flatten.length : Int) := hs.counted
    obtain ⟨b1, b2, b3⟩ := create_begin_spec s.set s.bins s.mod_count hs.ok.length_eq
    refine ⟨fun fuel hf => ?_, fun fuel hf => ?_, hc.symm, hs.set_flatten_nodup⟩
    · have hlt : s.set.flatten.length < fuel := by omega
      obtain ⟨s1, a1, a2, a3, a4, a5, a6, _⟩ :=
        (HashSet.set_erase_loop_spec s.set.flatten s s.begin fuel hs.ok.length_eq b1 b2 b3).1
          hlt
      have he := flatten_nil_of_perm_append _ _ _ a2 rfl
      refine ⟨?_, s1, a1, ?_, a4, bin_chain_nil_of_flatten s1.set he, ?_⟩
      · unfold HashSet.traverse HashSet.begin
        rw [iterate_begin s.set s.bins s.mod_count hs.ok.length_eq fuel, if_pos hlt]
      · show s1.used = 0
        rw [a3, hs.counted]
        omega
      · rw [a6, hc]
    · exact (HashSet.set_erase_loop_spec s.set.flatten s s.begin fuel hs.ok.length_eq b1 b2
        b3).2 (by omega)

/-- The witness of C36: the map holding `1 -> 10` and the set holding 1. -/
theorem erase_while_iterating_witness :
    (demo_map.put 1 10).2.valid ∧ (demo_set.insert 1).2.valid ∧
    (((∀ fuel : Nat, (demo_map.put 1 10).2.size < (fuel : Int) →
        (demo_map.put 1 10).2.traverse fuel = some (.ok (bin_chains (demo_map.put 1 10).2.map
          (demo_map.put 1 10).2.bins).flatten) ∧
        ∃ m1 : HashMap Nat Nat,
          (demo_map.put 1 10).2.erase_loop fuel (demo_map.put 1 10).2.begin = some (.ok (bin_chains
            (demo_map.put 1 10).2.map (demo_map.put 1 10).2.bins).flatten, m1) ∧
          m1.size = 0 ∧ m1.bins = (demo_map.put 1 10).2.bins ∧ (∀ i : Int, bin_chain m1.map i = [])
            ∧
          m1.mod_count = (demo_map.put 1 10).2.mod_count + (demo_map.put 1 10).2.size) ∧
     (∀ fuel : Nat, (fuel : Int) ≤ (demo_map.put 1 10).2.size → (demo_map.put 1 10).2.erase_loop
       fuel (demo_map.put 1 10).2.begin = none) ∧
     ((bin_chains (demo_map.put 1 10).2.map (demo_map.put 1 10).2.bins).flatten.length : Int) =
       (demo_map.put 1 10).2.size ∧
     ((bin_chains (demo_map.put 1 10).2.map (demo_map.put 1 10).2.bins).flatten.map
       Prod.fst).Nodup) ∧
    ((∀ fuel : Nat, (demo_set.insert 1).2.size < (fuel : Int) →
        (demo_set.insert 1).2.traverse fuel = some (.ok (bin_chains (demo_set.insert 1).2.set
          (demo_set.insert 1).2.bins).flatten) ∧
        ∃ s1 : HashSet Nat,
          (demo_set.insert 1).2.erase_loop fuel (demo_set.insert 1).2.begin = some (.ok (bin_chains
            (demo_set.insert 1).2.set (demo_set.insert 1).2.bins).flatten, s1) ∧
          s1.size = 0 ∧ s1.bins = (demo_set.insert 1).2.bins ∧ (∀ i : Int, bin_chain s1.set i = [])
            ∧
          s1.mod_count = (demo_set.insert 1).2.mod_count + (demo_set.insert 1).2.size) ∧
     (∀ fuel : Nat, (fuel : Int) ≤ (demo_set.insert 1).2.size → (demo_set.insert 1).2.erase_loop
       fuel (demo_set.insert 1).2.begin = none) ∧
     ((bin_chains (demo_set.insert 1).2.set (demo_set.insert 1).2.bins).flatten.length : Int) =
       (demo_set.insert 1).2.size ∧
     (bin_chains (demo_set.insert 1).2.set (demo_set.insert 1).2.bins).flatten.Nodup)) :=
  ⟨(HashMap.put_spec demo_map demo_map_valid 1 10).1,
    (HashSet.insert_spec demo_set demo_set_valid 1).1,
    erase_while_iterating (demo_map.put 1 10).2 (HashMap.put_spec demo_map demo_map_valid 1 10).1
      (demo_set.insert 1).2 (HashSet.insert_spec demo_set demo_set_valid 1).1⟩

/-- The loop of C36 run on the set `{1, 2, 3}`: it returns 2, 1, 3, the order of iteration,
and leaves two empty chains. -/
theorem erase_loop_scenario :
    (demo_set.commands [.insert 1, .insert 2, .insert 3]).traverse 4 = some (.ok [2, 1, 3]) ∧
    ((demo_set.commands [.insert 1, .insert 2, .insert 3]).erase_loop 4
      (demo_set.commands [.insert 1, .insert 2, .insert 3]).begin).map (fun r => r.1) =
        some (.ok [2, 1, 3]) ∧
    ((demo_set.commands [.insert 1, .insert 2, .insert 3]).erase_loop 4
      (demo_set.commands [.insert 1, .insert 2, .insert 3]).begin).map (fun r => r.2.set) =
        some [[], []] ∧
    ((demo_set.commands [.insert 1, .insert 2, .insert 3]).erase_loop 3
      (demo_set.commands [.insert 1, .insert 2, .insert 3]).begin).isNone = true := by
  refine ⟨rfl, rfl, rfl, rfl⟩

end ics
